import Mathlib

/-!
mlv_lite: the frame slot pool and the recording session.

Shallow embedding of the slot pool of `modules/mlv_lite/mlv_lite.c`
(`choose_next_capture_slot`, `shrink_slot`, `free_slot`, `add_reserved_slots`,
`add_mem_suite`, `setup_buffers`) and of the recording session (`process_frame`,
`pre_record_vsync_step`, `raw_rec_vsync_cbr`, the loops of `raw_video_rec_task`), and
theorems about them.

Conventions of the embedding.

* C `int` values and `void*` addresses are mathematical integers (`Int`).  Signed
  overflow and out-of-object pointer arithmetic are undefined in C, so the model
  describes every defined execution.  The products of the writer's throttle exceed 32 bits
  on ordinary inputs; there the model wraps as the 32-bit arithmetic of the camera does
  (`int32`).
* `x & ~511` on a two's complement `int` clears the low nine bits; it is written
  `x / 512 * 512` (`/` on `Int` rounds towards minus infinity for a positive divisor).
  Likewise `x & ~63` is `x / 64 * 64`.
* The global `slots[511]` is a function `Nat → frame_slot`.  An index from `COUNT(slots)`
  on stands for memory behind the array; `add_reserved_slots` is the one function that
  stores without a test of the index, so the statements about the initialised table
  assume that the table has room.
* `raw_video_rec_task` is preempted by the hooks: its loops are run one pass at a time
  (`writer_step`), and a hook runs to its end between two steps.  `shrink_slot` and the
  re-partition of `free_slot` run with interrupts disabled; a call of either is one step.
* `ASSERT(...)` only reports a failed condition and lets the caller go on, so it is
  not part of the state transformation.
* `cli()` / `sei()` bracket a critical section and have no effect on the data.
-/

namespace MlvLite

/-! ## Data model -/

/-- The anonymous status enum of `struct frame_slot`. -/
inductive slot_status where
  | SLOT_FREE
  | SLOT_RESERVED
  | SLOT_FULL
  | SLOT_WRITING
deriving DecidableEq, Repr

open slot_status

/-- One video frame slot: `struct frame_slot`. -/
structure frame_slot where
  ptr : Int
  size : Int
  payload_size : Int
  frame_number : Int
  status : slot_status
deriving DecidableEq, Repr

/-- The value of `COUNT(slots)` for `static struct frame_slot slots[511]`. -/
def COUNT_slots : Nat := 511

/-- The value of `COUNT(writing_queue)` for `writing_queue[COUNT(slots)+1]`. -/
def COUNT_writing_queue : Nat := COUNT_slots + 1

/-- The value of `COUNT(chunk_list)` for `static int chunk_list[32]`. -/
def COUNT_chunk_list : Nat := 32

/-- The constant `VIDF_HDR_SIZE`. -/
def VIDF_HDR_SIZE : Int := 64

/-- The global variables of the module that the slot pool code reads or writes.
`vidf_blockSize a` and `vidf_frameNumber a` are the `blockSize` and `frameNumber` fields of
the `mlv_vidf_hdr_t` stored at address `a`.  `last_processed_frame` is the local variable
of that name of `raw_video_rec_task`, and `frame_order_errors` counts the
"Frame order error" messages that task has printed. -/
structure State where
  slots : Nat → frame_slot
  slot_count : Nat
  capture_slot : Int
  force_new_buffer : Int
  writing_queue : Nat → Int
  writing_queue_tail : Int
  writing_queue_head : Int
  frame_count : Int
  buffer_full : Int
  max_frame_size : Int
  frame_size_uncompressed : Int
  chunk_list : Nat → Int
  pre_record_num_frames : Int
  vidf_blockSize : Int → Int
  raw_recording_state : Int
  edmac_active : Int
  pre_record_triggered : Int
  vidf_frameNumber : Int → Int
  last_processed_frame : Int
  frame_order_errors : Nat

/-- Assignment `slots[i] = s`. -/
def set_slot (slots : Nat → frame_slot) (i : Nat) (s : frame_slot) : Nat → frame_slot :=
  fun j => if j = i then s else slots j

/-- The test `status == SLOT_FREE || status == SLOT_RESERVED`. -/
def free_or_reserved (s : frame_slot) : Prop :=
  s.status = SLOT_FREE ∨ s.status = SLOT_RESERVED

instance (s : frame_slot) : Decidable (free_or_reserved s) := by
  unfold free_or_reserved; infer_instance

/-- The expression `(x + 511) & ~511` of `update_resolution_params` and `shrink_slot`,
applied to `x = VIDF_HDR_SIZE + payload + 4`. -/
def frame_size_padded (payload : Int) : Int :=
  (VIDF_HDR_SIZE + payload + 4 + 511) / 512 * 512

/-! ## choose_next_capture_slot -/

/-- The condition of the O(1) path of `choose_next_capture_slot`. -/
def keep_on_rolling (st : State) : Prop :=
  st.capture_slot ≥ 0 ∧
  st.capture_slot + 1 < (st.slot_count : Int) ∧
  (st.slots (st.capture_slot.toNat + 1)).ptr
    = (st.slots st.capture_slot.toNat).ptr + (st.slots st.capture_slot.toNat).size ∧
  (st.slots (st.capture_slot.toNat + 1)).status = SLOT_FREE ∧
  st.force_new_buffer = 0

instance (st : State) : Decidable (keep_on_rolling st) := by
  unfold keep_on_rolling; infer_instance

/-- The local variables of the O(n) loop of `choose_next_capture_slot`. -/
structure scan_vars where
  len : Int
  prev_ptr : Int
  prev_size : Int
  best_len : Int
  best_index : Int
deriving DecidableEq, Repr

/-- One iteration (index `i`) of the loop body of `choose_next_capture_slot`. -/
def scan_step (slots : Nat → frame_slot) (PTR_INVALID : Int) (i : Nat) (v : scan_vars) :
    scan_vars :=
  if (slots i).status = SLOT_FREE then
    if (slots i).ptr = v.prev_ptr + v.prev_size then
      let len := v.len + 1
      if len > v.best_len then
        { len := len, prev_ptr := (slots i).ptr, prev_size := (slots i).size,
          best_len := len, best_index := (i : Int) - len + 1 }
      else
        { len := len, prev_ptr := (slots i).ptr, prev_size := (slots i).size,
          best_len := v.best_len, best_index := v.best_index }
    else
      let len := 1
      if len > v.best_len then
        { len := len, prev_ptr := (slots i).ptr, prev_size := (slots i).size,
          best_len := len, best_index := (i : Int) }
      else
        { len := len, prev_ptr := (slots i).ptr, prev_size := (slots i).size,
          best_len := v.best_len, best_index := v.best_index }
  else
    { v with len := 0, prev_ptr := PTR_INVALID }

/-- The loop `for (int i = 0; i < n; i++)` of `choose_next_capture_slot`: the local
variables after the iterations `0 .. n-1`.  `PTR_INVALID` is a macro of a header that
is not part of the sources, so it is a parameter. -/
def scan_loop (slots : Nat → frame_slot) (PTR_INVALID : Int) : Nat → scan_vars
  | 0 => { len := 0, prev_ptr := PTR_INVALID, prev_size := 0, best_len := 0, best_index := -1 }
  | n + 1 => scan_step slots PTR_INVALID n (scan_loop slots PTR_INVALID n)

/-- The function `choose_next_capture_slot`: the returned index and the new state. -/
def choose_next_capture_slot (PTR_INVALID : Int) (st : State) : Int × State :=
  if keep_on_rolling st then
    (st.capture_slot + 1, st)
  else
    ((scan_loop st.slots PTR_INVALID st.slot_count).best_index,
     { st with force_new_buffer := 0 })

/-! ## shrink_slot -/

/-- The flag `linked` of `shrink_slot`, for slot `i` whose size before the call was
`old_size`. -/
def linked (slots : Nat → frame_slot) (i : Nat) (old_size : Int) : Prop :=
  i + 1 < COUNT_slots ∧
  free_or_reserved (slots (i + 1)) ∧
  (slots (i + 1)).ptr = (slots i).ptr + old_size

instance (slots : Nat → frame_slot) (i : Nat) (old_size : Int) :
    Decidable (linked slots i old_size) := by
  unfold linked; infer_instance

/-- The first statements of `shrink_slot`, up to the computation of `linked`:
slot `i` gets its new size and payload size, and its VIDF header the new block size. -/
def shrink_head (st : State) (i : Nat) (new_frame_size : Int) : State :=
  let new_size := frame_size_padded new_frame_size
  let s := st.slots i
  let s1 : frame_slot := { s with size := new_size, payload_size := new_frame_size }
  { st with
    slots := set_slot st.slots i s1
    vidf_blockSize := fun a => if a = s.ptr then new_size else st.vidf_blockSize a }

/-- The statements `slots[i+1].ptr -= dif_size; slots[i+1].size += dif_size;`. -/
def grow_next (st : State) (i : Nat) (dif_size : Int) : State :=
  let t := st.slots (i + 1)
  let t1 : frame_slot := { t with ptr := t.ptr - dif_size, size := t.size + dif_size }
  { st with slots := set_slot st.slots (i + 1) t1 }

/-- The statement `slots[i].status = v`. -/
def set_status (st : State) (i : Nat) (v : slot_status) : State :=
  let s := st.slots i
  let s1 : frame_slot := { s with status := v }
  { st with slots := set_slot st.slots i s1 }

/-- The body of `shrink_slot` with an explicit bound on the depth of the recursion.
The recursive call is made only under `linked`, hence with `i + 1 < COUNT(slots)`;
`shrink_slot` below starts with `COUNT(slots) - i`, which the recursion never exhausts. -/
def shrink_slot_rec : Nat → State → Nat → Int → State
  | depth, st, i, new_frame_size =>
    let old_size := (st.slots i).size
    let dif_size := old_size - frame_size_padded new_frame_size
    let st1 := shrink_head st i new_frame_size
    if linked st1.slots i old_size then
      let st2 := grow_next st1 i dif_size
      if (st2.slots (i + 1)).size ≥ st2.max_frame_size then
        match depth with
        | 0 => st2
        | d + 1 =>
          set_status (shrink_slot_rec d st2 (i + 1) st2.frame_size_uncompressed)
            (i + 1) SLOT_FREE
      else st2
    else st1

/-- The function `shrink_slot(slot_index, new_frame_size)`. -/
def shrink_slot (st : State) (slot_index : Nat) (new_frame_size : Int) : State :=
  shrink_slot_rec (COUNT_slots - slot_index) st slot_index new_frame_size

/-! ## free_slot -/

/-- The loop "find first slot from this chunk" of `free_slot`, started at index `i`. -/
def find_first (slots : Nat → frame_slot) : Nat → Nat
  | 0 => 0
  | i + 1 =>
    if free_or_reserved (slots i) ∧ (slots (i + 1)).ptr = (slots i).ptr + (slots i).size then
      find_first slots i
    else i + 1

/-- The loop "find last slot from this chunk" of `free_slot`, started at index `i`;
`n` bounds the number of iterations (`COUNT(slots) - i` is enough, since the loop
condition holds only for `i + 1 < COUNT(slots)`). -/
def find_last (slots : Nat → frame_slot) : Nat → Nat → Nat
  | 0, i => i
  | n + 1, i =>
    if i + 1 < COUNT_slots ∧ free_or_reserved (slots (i + 1)) ∧
        (slots (i + 1)).ptr = (slots i).ptr + (slots i).size then
      find_last slots n (i + 1)
    else i

/-- The loop `for (i = start; i <= end; i++)` of `free_slot`: `n` iterations starting
at index `i`, with the running pointer `ptr`. -/
def repartition (max_frame_size end_ptr : Int) :
    Nat → Nat → Int → (Nat → frame_slot) → (Nat → frame_slot)
  | 0, _, _, slots => slots
  | n + 1, i, ptr, slots =>
    let s := slots i
    let s1 : frame_slot :=
      if ptr + max_frame_size ≤ end_ptr then
        { s with ptr := ptr, status := SLOT_FREE, size := max_frame_size }
      else
        { s with ptr := ptr, status := SLOT_RESERVED, size := end_ptr - ptr }
    repartition max_frame_size end_ptr n (i + 1) (ptr + s1.size) (set_slot slots i s1)

/-- The function `free_slot(slot_index)`. -/
def free_slot (st : State) (slot_index : Nat) : State :=
  let st1 := set_status st slot_index SLOT_RESERVED
  if (st1.slots slot_index).size = st1.max_frame_size then
    set_status st1 slot_index SLOT_FREE
  else
    let start := find_first st1.slots slot_index
    let end_idx := find_last st1.slots (COUNT_slots - slot_index) slot_index
    let start_ptr := (st1.slots start).ptr
    let end_ptr := (st1.slots end_idx).ptr + (st1.slots end_idx).size
    { st1 with slots :=
        repartition st1.max_frame_size end_ptr (end_idx + 1 - start) start start_ptr st1.slots }


/-- A run of `l` FREE slots starting at index `s`, inside the first `n` slots,
consecutive in index and contiguous in memory. -/
def free_run (slots : Nat → frame_slot) (n s l : Nat) : Prop :=
  0 < l ∧ s + l ≤ n ∧ (∀ k, k < l → (slots (s + k)).status = SLOT_FREE) ∧
  (∀ k, k + 1 < l → (slots (s + k + 1)).ptr = (slots (s + k)).ptr + (slots (s + k)).size)

/-- Loop invariant of the scan of `choose_next_capture_slot` after `n` iterations. -/
def scan_inv (slots : Nat → frame_slot) (n : Nat) (v : scan_vars) : Prop :=
  ∃ L B : Nat, v.len = L ∧ v.best_len = B ∧ L ≤ B ∧ L ≤ n ∧
    (0 < L → free_run slots n (n - L) L ∧ v.prev_ptr = (slots (n - 1)).ptr ∧
      v.prev_size = (slots (n - 1)).size) ∧
    (∀ s l, free_run slots n s l → s + l = n → l ≤ L) ∧
    (B = 0 → v.best_index = -1) ∧
    (0 < B → ∃ R : Nat, v.best_index = R ∧ free_run slots n R B) ∧
    (∀ s l, free_run slots n s l → l ≤ B ∧ (l = B → v.best_index ≤ s))


/-! ## Concrete pools used to exercise the definitions -/

/-- A zeroed `struct frame_slot` (the content of a static array entry at program start;
`SLOT_FREE` is the enumerator with value 0). -/
def zero_slot : frame_slot :=
  { ptr := 0, size := 0, payload_size := 0, frame_number := 0, status := SLOT_FREE }

/-- The slot table whose first entries are those of `l`, all others zeroed. -/
def slots_of_list (l : List frame_slot) : Nat → frame_slot :=
  fun i => l.getD i zero_slot

/-- The module's globals at program start (statics are zeroed, `capture_slot = -1`). -/
def boot_state : State :=
  { slots := fun _ => zero_slot
    slot_count := 0
    capture_slot := -1
    force_new_buffer := 0
    writing_queue := fun _ => 0
    writing_queue_tail := 0
    writing_queue_head := 0
    frame_count := 0
    buffer_full := 0
    max_frame_size := 0
    frame_size_uncompressed := 0
    chunk_list := fun _ => 0
    pre_record_num_frames := 0
    vidf_blockSize := fun _ => 0
    raw_recording_state := 0
    edmac_active := 0
    pre_record_triggered := 0
    vidf_frameNumber := fun _ => 0
    last_processed_frame := 0
    frame_order_errors := 0 }

/-- Five slots of 1024 bytes in one memory chunk at 4096: FULL, FREE, FREE, FULL, FREE;
the last capture went to slot 4. -/
def pool_a : State :=
  { boot_state with
    slots := slots_of_list
      [ { ptr := 4096, size := 1024, payload_size := 956, frame_number := 3, status := SLOT_FULL },
        { ptr := 5120, size := 1024, payload_size := 956, frame_number := 0, status := SLOT_FREE },
        { ptr := 6144, size := 1024, payload_size := 956, frame_number := 0, status := SLOT_FREE },
        { ptr := 7168, size := 1024, payload_size := 956, frame_number := 2, status := SLOT_FULL },
        { ptr := 8192, size := 1024, payload_size := 956, frame_number := 0, status := SLOT_FREE } ]
    slot_count := 5
    capture_slot := 4
    max_frame_size := 1024
    frame_size_uncompressed := 956 }

/-- The pool `pool_a` when the last capture went to slot 3 instead. -/
def pool_b : State := { pool_a with capture_slot := 3 }

/-- A pool of three 2048-byte frames in one memory chunk at 4096, as `add_mem_suite`
carves it (three FREE slots followed by three zero-sized RESERVED slots), after the
first capture went to slot 0. -/
def pool_c : State :=
  { boot_state with
    slots := slots_of_list
      [ { ptr := 4096, size := 2048, payload_size := 1980, frame_number := 1, status := SLOT_FULL },
        { ptr := 6144, size := 2048, payload_size := 1980, frame_number := 0, status := SLOT_FREE },
        { ptr := 8192, size := 2048, payload_size := 1980, frame_number := 0, status := SLOT_FREE },
        { ptr := 10240, size := 0, payload_size := 0, frame_number := 0, status := SLOT_RESERVED },
        { ptr := 10240, size := 0, payload_size := 0, frame_number := 0, status := SLOT_RESERVED },
        { ptr := 10240, size := 0, payload_size := 0, frame_number := 0, status := SLOT_RESERVED } ]
    slot_count := 6
    capture_slot := 0
    frame_count := 2
    max_frame_size := 2048
    frame_size_uncompressed := 1980 }

/-- The normal form of a slot: a FREE slot has size exactly `max_frame_size`, a RESERVED
slot is smaller than `max_frame_size`. -/
def normal_form (max_frame_size : Int) (s : frame_slot) : Prop :=
  (s.status = SLOT_FREE → s.size = max_frame_size) ∧
  (s.status = SLOT_RESERVED → s.size < max_frame_size)

instance (m : Int) (s : frame_slot) : Decidable (normal_form m s) := by
  unfold normal_form; infer_instance

/-! ## Vocabulary of the statements about free_slot -/

/-- Slot `j + 1` starts exactly where slot `j` ends. -/
def adjacent (slots : Nat → frame_slot) (j : Nat) : Prop :=
  (slots (j + 1)).ptr = (slots j).ptr + (slots j).size

instance (slots : Nat → frame_slot) (j : Nat) : Decidable (adjacent slots j) := by
  unfold adjacent; infer_instance

/-- The indices `s .. e` are the maximal run of address-contiguous FREE/RESERVED slots of
the table around slot `i`.  The status of slot `i` itself plays no role: it is the slot
being released. -/
def run_around (slots : Nat → frame_slot) (i s e : Nat) : Prop :=
  s ≤ i ∧ i ≤ e ∧ e < COUNT_slots ∧
  (∀ j, s ≤ j → j < i → free_or_reserved (slots j) ∧ adjacent slots j) ∧
  (∀ j, i ≤ j → j < e → free_or_reserved (slots (j + 1)) ∧ adjacent slots j) ∧
  (s = 0 ∨ ¬ (free_or_reserved (slots (s - 1)) ∧ adjacent slots (s - 1))) ∧
  (COUNT_slots ≤ e + 1 ∨ ¬ (free_or_reserved (slots (e + 1)) ∧ adjacent slots e))

/-- The sum of the sizes of the `n` slots starting at index `s`. -/
def sum_sizes (slots : Nat → frame_slot) (s : Nat) : Nat → Int
  | 0 => 0
  | n + 1 => sum_sizes slots s n + (slots (s + n)).size

/-- A pool of three 2048-byte frames at 4096 in the middle of a compressed recording:
slot 0 was written and released (RESERVED, 1536 bytes), slot 1 is being written
(1536 bytes), slot 2 is FULL (512 bytes), slot 3 is FREE, slots 4 and 5 are RESERVED. -/
def pool_d : State :=
  { boot_state with
    slots := slots_of_list
      [ { ptr := 4096, size := 1536, payload_size := 1400, frame_number := 1,
          status := SLOT_RESERVED },
        { ptr := 5632, size := 1536, payload_size := 1400, frame_number := 2,
          status := SLOT_WRITING },
        { ptr := 7168, size := 512, payload_size := 100, frame_number := 3,
          status := SLOT_FULL },
        { ptr := 7680, size := 2048, payload_size := 1980, frame_number := 0,
          status := SLOT_FREE },
        { ptr := 9728, size := 512, payload_size := 0, frame_number := 0,
          status := SLOT_RESERVED },
        { ptr := 10240, size := 0, payload_size := 0, frame_number := 0,
          status := SLOT_RESERVED } ]
    slot_count := 6
    capture_slot := 2
    frame_count := 4
    max_frame_size := 2048
    frame_size_uncompressed := 1980 }

/-! ## Pool initialisation: add_reserved_slots, add_mem_suite, setup_buffers -/

/-- One chunk of a `struct memSuite`: what `GetMemoryAddressOfMemoryChunk` and
`GetSizeOfMemoryChunk` return for it.  A suite is the list of its chunks in the order
of `GetFirstChunkFromSuite` / `GetNextMemoryChunk`; a null suite is `none`. -/
structure memChunk where
  ptr : Int
  size : Int
deriving DecidableEq, Repr

/-- The function `add_reserved_slots(ptr, n)`, with the loop count `n` as a natural
number (the loop body does not run for `n <= 0`).  The function does not test `slot_count`
against `COUNT(slots)`: an entry of the table at an index from `COUNT_slots` on stands for
memory behind the array `slots`, and a store to it for a write outside the array. -/
def add_reserved_slots (st : State) (ptr : Int) : Nat → State
  | 0 => st
  | n + 1 =>
    let s := st.slots st.slot_count
    let s1 : frame_slot := { s with ptr := ptr, size := 0, status := SLOT_RESERVED }
    add_reserved_slots
      { st with slots := set_slot st.slots st.slot_count s1, slot_count := st.slot_count + 1 }
      ptr n

/-- The locals `ptr`, `size` and `group_size` of the chunk loop of `add_mem_suite`. -/
structure carve_vars where
  ptr : Int
  size : Int
  group_size : Int
deriving DecidableEq, Repr

/-- The loop `while (size >= max_frame_size && slot_count < COUNT(slots))` of
`add_mem_suite` ("fit as many frames as we can"), with a bound on the number of
iterations.  Every iteration increments `slot_count`, so `COUNT(slots) - slot_count`
iterations are enough. -/
def carve_loop : Nat → State → carve_vars → State × carve_vars
  | 0, st, v => (st, v)
  | n + 1, st, v =>
    if v.size ≥ st.max_frame_size ∧ st.slot_count < COUNT_slots then
      let s := st.slots st.slot_count
      let s1 : frame_slot :=
        { s with ptr := v.ptr, size := st.max_frame_size,
                 payload_size := st.frame_size_uncompressed, status := SLOT_FREE }
      let st1 : State :=
        { st with slots := set_slot st.slots st.slot_count s1, slot_count := st.slot_count + 1 }
      let v1 : carve_vars :=
        { ptr := v.ptr + st.max_frame_size, size := v.size - st.max_frame_size,
          group_size := v.group_size + st.max_frame_size }
      if v1.group_size + st.max_frame_size > 0xFFFE * 512 then
        carve_loop n
          (add_reserved_slots st1 v1.ptr (Int.tdiv v1.group_size st.max_frame_size).toNat)
          { ptr := v1.ptr + 64, size := v1.size - 64, group_size := 0 }
      else
        carve_loop n st1 v1
    else (st, v)

/-- The body of the loop over the chunks of a suite in `add_mem_suite`: the chunk size is
noted in `chunk_list`, the start is aligned to 64 bytes, frames are carved and the
RESERVED slots of the last group are appended. -/
def add_chunk (st : State) (chunk_index : Nat) (chunk : memChunk) : State × Nat :=
  let noted : State × Nat :=
    if chunk_index < COUNT_chunk_list ∧ chunk.size > 64 then
      ({ st with chunk_list :=
          fun k => if k = chunk_index then chunk.size - 64 else st.chunk_list k },
       chunk_index + 1)
    else (st, chunk_index)
  let ptr_raw := chunk.ptr
  let ptr := (chunk.ptr + 63) / 64 * 64
  let size := chunk.size - (ptr - ptr_raw)
  let carved :=
    carve_loop (COUNT_slots - noted.1.slot_count) noted.1
      { ptr := ptr, size := size, group_size := 0 }
  (add_reserved_slots carved.1 carved.2.ptr
    (Int.tdiv carved.2.group_size carved.1.max_frame_size).toNat, noted.2)

/-- The function `add_mem_suite(mem_suite, chunk_index)`: the new state and the returned
chunk index. -/
def add_mem_suite (st : State) (mem_suite : Option (List memChunk)) (chunk_index : Nat) :
    State × Nat :=
  match mem_suite with
  | none => (st, chunk_index)
  | some chunks =>
    chunks.foldl (fun (acc : State × Nat) c => add_chunk acc.1 acc.2 c) (st, chunk_index)

/-- What the allocators and settings that `setup_buffers` consults return:
`fio_malloc(buf_size)`, `UNCACHEABLE(raw_info.buffer)`, `shoot_malloc_suite(0)`,
`use_srm_memory`, `srm_malloc_suite(0)`, `pre_record` and `fps_get_current_x1000()`. -/
structure setup_inputs where
  fullsize_buffer_0 : Int
  fullsize_buffer_1 : Int
  shoot_malloc_suite : Option (List memChunk)
  use_srm_memory : Int
  srm_malloc_suite : Option (List memChunk)
  pre_record : Int
  fps_x1000 : Int

/-- The table `presets` of `setup_buffers`. -/
def presets (k : Int) : Int :=
  if k = 0 then 1 else if k = 1 then 2 else if k = 2 then 5 else 10

/-- The function `setup_buffers`: the returned value and the new state. -/
def setup_buffers (st : State) (inp : setup_inputs) : Int × State :=
  if inp.fullsize_buffer_0 = 0 ∨ inp.fullsize_buffer_1 = 0 then (0, st)
  else
    let st1 : State := { st with chunk_list := fun _ => 0 }
    let shoot_mem_suite := inp.shoot_malloc_suite
    let srm_mem_suite := if inp.use_srm_memory ≠ 0 then inp.srm_malloc_suite else none
    if shoot_mem_suite.isNone ∧ srm_mem_suite.isNone then (0, st1)
    else
      let r1 := add_mem_suite st1 shoot_mem_suite 0
      let r2 := add_mem_suite r1.1 srm_mem_suite r1.2
      let st2 := r2.1
      if st2.slot_count < 3 then (0, st2)
      else if inp.pre_record ≠ 0 then
        let requested_seconds := presets ((inp.pre_record - 1) % 4)
        let requested_frames := Int.tdiv (requested_seconds * inp.fps_x1000) 1000
        let max_frames := (st2.slot_count : Int) - Int.tdiv (16 * 1024 * 1024) st2.max_frame_size
        (1, { st2 with pre_record_num_frames := min requested_frames max_frames })
      else (1, st2)

/-- The number of usable slots among the first `n`: FREE slots of size `max_frame_size`. -/
def usable_slots (st : State) : Nat → Nat
  | 0 => 0
  | n + 1 =>
    usable_slots st n +
      (if (st.slots n).status = SLOT_FREE ∧ (st.slots n).size = st.max_frame_size then 1 else 0)

/-- The state in which `raw_video_rec_task` calls `setup_buffers` for frames of 1980
bytes (slots of 2048 bytes): `slot_count = 0`, `capture_slot = -1`. -/
def session_start_2048 : State :=
  { boot_state with max_frame_size := 2048, frame_size_uncompressed := 1980 }

/-- One memory chunk at 4096 that fits exactly two frames of 2048 bytes. -/
def two_frame_arena : setup_inputs :=
  { fullsize_buffer_0 := 1048576
    fullsize_buffer_1 := 1075838976
    shoot_malloc_suite := some [{ ptr := 4096, size := 4096 }]
    use_srm_memory := 0
    srm_malloc_suite := none
    pre_record := 0
    fps_x1000 := 25000 }

/-! ## Sequences of pool operations -/

/-- The function `process_frame` in the state `RAW_RECORDING` with the EDMAC idle
(`edmac_active == 0`): frame 0 is skipped; otherwise the capture slot is chosen, and when
there is one it gets the frame number and the status FULL and is put on the writing
queue, else `buffer_full` is set.  The VIDF header, the double buffering and the message
to the compression task are not part of the state.  `MOD(x, m)` with `m > 0` is the
remainder in `0 .. m-1`. -/
def capture_frame (PTR_INVALID : Int) (st : State) : State :=
  if st.frame_count = 0 then
    { st with frame_count := st.frame_count + 1 }
  else
    let r := choose_next_capture_slot PTR_INVALID st
    let st1 : State := { r.2 with capture_slot := r.1 }
    if st1.capture_slot ≥ 0 then
      let s := st1.slots st1.capture_slot.toNat
      let s1 : frame_slot := { s with frame_number := st1.frame_count, status := SLOT_FULL }
      { st1 with
        slots := set_slot st1.slots st1.capture_slot.toNat s1
        writing_queue := fun k =>
          if k = st1.writing_queue_tail.toNat then st1.capture_slot else st1.writing_queue k
        writing_queue_tail := (st1.writing_queue_tail + 1) % (COUNT_writing_queue : Int)
        frame_count := st1.frame_count + 1 }
    else
      { st1 with buffer_full := 1 }

/-- The operations on the pool during a recording: a capture, `shrink_slot(i, n)` after
the compression of the frame in slot `i`, and `free_slot(i)`. -/
inductive pool_op where
  | capture
  | shrink (i : Nat) (n : Int)
  | free (i : Nat)
deriving DecidableEq, Repr

/-- The effect of one operation. -/
def apply_op (PTR_INVALID : Int) (st : State) : pool_op → State
  | pool_op.capture => capture_frame PTR_INVALID st
  | pool_op.shrink i n => shrink_slot st i n
  | pool_op.free i => free_slot st i

/-- The effect of a sequence of operations. -/
def run_ops (PTR_INVALID : Int) (st : State) : List pool_op → State
  | [] => st
  | op :: ops => run_ops PTR_INVALID (apply_op PTR_INVALID st op) ops

/-- The condition under which the code makes the call: `shrink_slot` with a payload size
`n >= 0` whose padded size does not exceed the size of the slot, `free_slot` on an index
of the table. -/
def op_ok (st : State) : pool_op → Prop
  | pool_op.capture => True
  | pool_op.shrink i n => 0 ≤ n ∧ frame_size_padded n ≤ (st.slots i).size
  | pool_op.free i => i < COUNT_slots

instance (st : State) (op : pool_op) : Decidable (op_ok st op) := by
  cases op <;> unfold op_ok <;> infer_instance

/-- Every operation of the sequence is made under its condition. -/
def ops_ok (PTR_INVALID : Int) (st : State) : List pool_op → Prop
  | [] => True
  | op :: ops => op_ok st op ∧ ops_ok PTR_INVALID (apply_op PTR_INVALID st op) ops

instance (PTR_INVALID : Int) (st : State) (ops : List pool_op) :
    Decidable (ops_ok PTR_INVALID st ops) := by
  induction ops generalizing st with
  | nil => unfold ops_ok; infer_instance
  | cons op ops ih => unfold ops_ok; exact instDecidableAnd

/-- The slots of the table lie inside the address ranges `lo j .. hi j` of their memory
groups and do not overlap: neighbours of the same group are in address order, each
starting at or after the end of the one before, and neighbours of different groups
have ranges that neither meet nor touch. -/
def no_overlap (lo hi : Nat → Int) (slots : Nat → frame_slot) : Prop :=
  (∀ j, j < COUNT_slots →
    lo j ≤ (slots j).ptr ∧ 0 ≤ (slots j).size ∧ (slots j).ptr + (slots j).size ≤ hi j) ∧
  (∀ j, j + 1 < COUNT_slots →
    (lo (j + 1) = lo j ∧ hi (j + 1) = hi j ∧
      (slots j).ptr + (slots j).size ≤ (slots (j + 1)).ptr) ∨
    hi j < lo (j + 1) ∨ hi (j + 1) < lo j)

/-- The slots `a .. a + n - 1` tile the address range `lo a .. hi a` of their group
exactly: the first starts at `lo a`, each starts where the one before ends, the last
ends at `hi a`. -/
def tiles (lo hi : Nat → Int) (slots : Nat → frame_slot) (a n : Nat) : Prop :=
  (slots a).ptr = lo a ∧
  (∀ j, a ≤ j → j + 1 < a + n → adjacent slots j) ∧
  (slots (a + n - 1)).ptr + (slots (a + n - 1)).size = hi a

/-- A memory chunk at 4096 that fits exactly three frames of 2048 bytes. -/
def three_frame_arena : setup_inputs :=
  { fullsize_buffer_0 := 1048576
    fullsize_buffer_1 := 1075838976
    shoot_malloc_suite := some [{ ptr := 4096, size := 6144 }]
    use_srm_memory := 0
    srm_malloc_suite := none
    pre_record := 0
    fps_x1000 := 25000 }

/-- A recording with compression on the pool of `three_frame_arena`: after the skipped
frame 0, frames 1 to 3 are
captured and compressed (to slots of 1536, 1536 and 512 bytes), the first two are written
and released, frames 4 and 5 are captured and compressed (512 bytes each), then frame 6 is
captured into slot 0 and compressed (512 bytes).  Every capture is followed by its
`shrink_slot` before the next capture, and slots are released in frame order. -/
def compressed_recording : List pool_op :=
  [ pool_op.capture,
    pool_op.capture, pool_op.shrink 0 1400,
    pool_op.capture, pool_op.shrink 1 1400,
    pool_op.capture, pool_op.shrink 2 100,
    pool_op.free 0, pool_op.free 1,
    pool_op.capture, pool_op.shrink 3 100,
    pool_op.capture, pool_op.shrink 4 100,
    pool_op.capture, pool_op.shrink 0 100 ]

/-- The pool right after `setup_buffers` on `three_frame_arena`: three FREE slots of 2048
bytes at 4096, 6144 and 8192, followed by three RESERVED slots of size 0 at 10240. -/
def fresh_pool : State := (setup_buffers session_start_2048 three_frame_arena).2

/-- The address range of the only group of `fresh_pool` (table entries 0 to 5): its start. -/
def fresh_lo : Nat → Int := fun j => if j < 6 then 4096 else 0

/-- The address range of the only group of `fresh_pool` (table entries 0 to 5): its end. -/
def fresh_hi : Nat → Int := fun j => if j < 6 then 10240 else 0

/-! ## Vocabulary of the statements about add_mem_suite -/

/-- The first statements of the body of the carving loop of `add_mem_suite`: the entry at
`slot_count` becomes a FREE slot of `max_frame_size` bytes at `v.ptr`. -/
def carve_slot (st : State) (v : carve_vars) : State :=
  { st with
    slots := set_slot st.slots st.slot_count
      { st.slots st.slot_count with
        ptr := v.ptr, size := st.max_frame_size,
        payload_size := st.frame_size_uncompressed, status := SLOT_FREE }
    slot_count := st.slot_count + 1 }

/-- The statement after the carving loop of `add_mem_suite`:
`add_reserved_slots((void*)ptr, group_size / max_frame_size)`. -/
def finish_group (res : State × carve_vars) : State :=
  add_reserved_slots res.1 res.2.ptr (Int.tdiv res.2.group_size res.1.max_frame_size).toNat

/-- The start of a memory chunk aligned up to 64 bytes: `(ptr + 63) & ~63`. -/
def align64 (ptr : Int) : Int := (ptr + 63) / 64 * 64

/-- A memory chunk at 4100 of 6200 bytes: aligned to 4160, it has 6140 usable bytes, which
fit two frames of 2048 bytes. -/
def unaligned_chunk : memChunk := { ptr := 4100, size := 6200 }
/-! ## Vocabulary of the statements about the groups of add_mem_suite -/

/-- Invariant of the carving loop of `add_mem_suite` on the whole table, where the last `g`
entries are the group being carved: every FREE slot has size `max_frame_size`, the entry
before the group is not FREE, and every block of FREE entries before the group has at most
`0xFFFE * 512` bytes. -/
def cap_inv (st : State) (g : Nat) : Prop :=
  g ≤ st.slot_count ∧
  (∀ j, j < st.slot_count → (st.slots j).status = SLOT_FREE →
    (st.slots j).size = st.max_frame_size) ∧
  (st.slot_count = g ∨
    (g < st.slot_count ∧ (st.slots (st.slot_count - g - 1)).status ≠ SLOT_FREE)) ∧
  (∀ s l, s + l ≤ st.slot_count - g → (∀ k, k < l → (st.slots (s + k)).status = SLOT_FREE) →
    (l : Int) * st.max_frame_size ≤ 0xFFFE * 512)

/-- The layout of the entries `a .. n - 1` that `add_mem_suite` appends for one memory chunk:
each is a FREE slot of `M` bytes or a RESERVED slot of size 0; an entry starts where the one
before ends, except that a FREE slot after a RESERVED one starts 64 bytes further; `p` is
the address at which the next entry would start. -/
def layout_inv (M : Int) (slots : Nat → frame_slot) (a n : Nat) (p : Int) : Prop :=
  a ≤ n ∧
  (∀ j, a ≤ j → j < n →
    ((slots j).status = SLOT_FREE ∧ (slots j).size = M) ∨
    ((slots j).status = SLOT_RESERVED ∧ (slots j).size = 0)) ∧
  (∀ j, a ≤ j → j + 1 < n →
    (slots (j + 1)).ptr = (slots j).ptr + (slots j).size +
      (if (slots j).status = SLOT_RESERVED ∧ (slots (j + 1)).status = SLOT_FREE
        then 64 else 0)) ∧
  (a < n → p = (slots (n - 1)).ptr + (slots (n - 1)).size +
    (if (slots (n - 1)).status = SLOT_RESERVED then 64 else 0))

/-- The state in which `raw_video_rec_task` calls `setup_buffers` for slots of 16 MiB. -/
def session_start_16M : State :=
  { boot_state with max_frame_size := 16777216, frame_size_uncompressed := 16777148 }

/-- Two memory chunks of 16 MiB each, the second starting where the first ends. -/
def touching_arenas : List memChunk :=
  [ { ptr := 4096, size := 16777216 }, { ptr := 16781312, size := 16777216 } ]

/-- A memory chunk at 4096 of two frames of 16 MiB plus 64 bytes: the group limit splits it
after the first frame. -/
def split_arena : memChunk := { ptr := 4096, size := 33554496 }
/-! ## Vocabulary of the statements about slot sizes -/

/-- The operation is made on the slot table: `free_slot` gets an index below `COUNT(slots)`. -/
def op_in_table : pool_op → Prop
  | pool_op.capture => True
  | pool_op.shrink _ _ => True
  | pool_op.free i => i < COUNT_slots

instance (op : pool_op) : Decidable (op_in_table op) := by
  cases op <;> unfold op_in_table <;> infer_instance
/-! ## Vocabulary of the statements about payload sizes -/

/-- What the pool operations keep for every slot: the size and the payload size are at most
`M`, and the payload fits in the slot unless the slot is RESERVED. -/
def payload_inv (M : Int) (s : frame_slot) : Prop :=
  s.size ≤ M ∧ s.payload_size ≤ M ∧ (s.status ≠ SLOT_RESERVED → s.payload_size ≤ s.size)

instance (M : Int) (s : frame_slot) : Decidable (payload_inv M s) := by
  unfold payload_inv; infer_instance

/-- The start of `compressed_recording`, up to the release of the first two frames. -/
def early_release : List pool_op :=
  [ pool_op.capture,
    pool_op.capture, pool_op.shrink 0 1400,
    pool_op.capture, pool_op.shrink 1 1400,
    pool_op.capture, pool_op.shrink 2 100,
    pool_op.free 0, pool_op.free 1 ]
/-! ## The recording session: process_frame, pre_record_vsync_step, raw_video_rec_task -/

/-- The constant `RAW_IDLE`. -/
def RAW_IDLE : Int := 0

/-- The constant `RAW_PREPARING`. -/
def RAW_PREPARING : Int := 1

/-- The constant `RAW_RECORDING`. -/
def RAW_RECORDING : Int := 2

/-- The constant `RAW_FINISHING`. -/
def RAW_FINISHING : Int := 3

/-- The constant `RAW_PRE_RECORDING`. -/
def RAW_PRE_RECORDING : Int := 4

/-- The macro `RAW_IS_RECORDING`. -/
def RAW_IS_RECORDING (st : State) : Prop :=
  st.raw_recording_state = RAW_RECORDING ∨ st.raw_recording_state = RAW_PRE_RECORDING

instance (st : State) : Decidable (RAW_IS_RECORDING st) := by
  unfold RAW_IS_RECORDING; infer_instance

/-- Modelled from the spec: the macro `MOD(x, m)` is defined in a header that is not part of
the sources; the spec describes the indices of the queue as circular, so `MOD(x, m)` is the
remainder of `x` modulo `m` in `0 .. m-1` (for `m > 0`). -/
def MOD (x m : Int) : Int := x % m

/-- The statements `writing_queue[writing_queue_tail] = i;
writing_queue_tail = MOD(writing_queue_tail + 1, COUNT(writing_queue));`. -/
def enqueue (st : State) (i : Int) : State :=
  { st with
    writing_queue := fun k => if k = st.writing_queue_tail.toNat then i else st.writing_queue k
    writing_queue_tail := MOD (st.writing_queue_tail + 1) (COUNT_writing_queue : Int) }

/-- The loop `while (slots[i].status != SLOT_FULL || slots[i].frame_number != current_frame)
i = MOD(i+1, slot_count);` of `pre_record_vsync_step`: the index at which it stops.  The
loop does not change the state and walks the indices cyclically, so when `slot_count + 1`
tests have failed it never stops: the result is `none`. -/
def find_frame (slots : Nat → frame_slot) (slot_count : Nat) (current_frame : Int) :
    Nat → Int → Option Int
  | 0, _ => none
  | fuel + 1, i =>
    if (slots i.toNat).status ≠ SLOT_FULL ∨ (slots i.toNat).frame_number ≠ current_frame then
      find_frame slots slot_count current_frame fuel (MOD (i + 1) (slot_count : Int))
    else some i

/-- The loop `for (int current_frame = 1; current_frame < frame_count; current_frame++)` of
`pre_record_vsync_step` ("queue all captured frames for writing"): `n` iterations starting
with `current_frame` and the search index `i`. -/
def promote_frames : Nat → Int → Int → State → Option State
  | 0, _, _, st => some st
  | n + 1, current_frame, i, st =>
    match find_frame st.slots st.slot_count current_frame (st.slot_count + 1) i with
    | none => none
    | some k =>
      promote_frames n (current_frame + 1) (MOD (k + 1) (st.slot_count : Int)) (enqueue st k)

/-- The body of the loop "discard old frames" of `pre_record_vsync_step` for index `i`. -/
def discard_step (st : State) (i : Nat) : State :=
  if (st.slots i).status = SLOT_FULL then
    if (st.slots i).frame_number = 1 then free_slot st i
    else
      let s := st.slots i
      let s1 : frame_slot := { s with frame_number := s.frame_number - 1 }
      { st with
        slots := set_slot st.slots i s1
        vidf_frameNumber := fun a =>
          if a = s1.ptr then s1.frame_number - 1 else st.vidf_frameNumber a }
  else st

/-- The loop `for (int i = 0; i < slot_count; i++)` of `pre_record_vsync_step`: `n`
iterations starting at index `i`. -/
def discard_frames : Nat → Nat → State → State
  | 0, _, st => st
  | n + 1, i, st => discard_frames n (i + 1) (discard_step st i)

/-- The function `pre_record_vsync_step`; `none` when the search for a buffered frame
never ends. -/
def pre_record_vsync_step (st : State) : Option State :=
  if st.raw_recording_state = RAW_PRE_RECORDING then
    if st.pre_record_triggered ≠ 0 then
      match promote_frames (st.frame_count - 1).toNat 1 0 st with
      | none => none
      | some st1 => some { st1 with raw_recording_state := RAW_RECORDING }
    else if st.frame_count ≥ st.pre_record_num_frames then
      some (discard_frames st.slot_count 0 { st with frame_count := st.frame_count - 1 })
    else some st
  else some st

/-- The statements of `process_frame` from
`capture_slot = choose_next_capture_slot(capture_slot)` on.  The header written at the start
of the slot is a copy of `vidf_hdr`, whose `blockSize` is `max_frame_size`
(`init_mlv_chunk_headers`).  The sentinel words of `frame_add_checks`, the double buffering
and the message to `compress_task` are not part of the state. -/
def capture_step (PTR_INVALID : Int) (st1 : State) : State :=
  let r := choose_next_capture_slot PTR_INVALID st1
  let st2 : State := { r.2 with capture_slot := r.1 }
  if st2.capture_slot ≥ 0 then
    let c := st2.capture_slot.toNat
    let s := st2.slots c
    let s1 : frame_slot := { s with frame_number := st2.frame_count, status := SLOT_FULL }
    let st3 : State := { st2 with slots := set_slot st2.slots c s1 }
    let st4 : State :=
      if st3.raw_recording_state = RAW_PRE_RECORDING then st3
      else enqueue st3 st3.capture_slot
    { st4 with
      vidf_frameNumber := fun a =>
        if a = s1.ptr then s1.frame_number - 1 else st4.vidf_frameNumber a
      vidf_blockSize := fun a =>
        if a = s1.ptr then st4.max_frame_size else st4.vidf_blockSize a
      frame_count := st4.frame_count + 1 }
  else { st2 with buffer_full := 1 }

/-- The function `process_frame`; `none` when `pre_record_vsync_step` never returns. -/
def process_frame (PTR_INVALID : Int) (st : State) : Option State :=
  if st.frame_count = 0 then some { st with frame_count := st.frame_count + 1 }
  else if st.edmac_active ≠ 0 then some { st with buffer_full := 1 }
  else
    match (if st.raw_recording_state = RAW_PRE_RECORDING then pre_record_vsync_step st
           else some st) with
    | none => none
    | some st1 => some (capture_step PTR_INVALID st1)

/-- The function `raw_rec_vsync_cbr`, from the test of `raw_video_enabled` on: `enabled`
stands for `raw_video_enabled && is_movie_mode()`, `valid` for
`raw_lv_settings_still_valid()`. -/
def raw_rec_vsync_cbr (PTR_INVALID : Int) (enabled valid : Bool) (st : State) :
    Option State :=
  if enabled = false then some st
  else if ¬ RAW_IS_RECORDING st then some st
  else if valid = false then some { st with raw_recording_state := RAW_FINISHING }
  else if st.buffer_full ≠ 0 then some st
  else process_frame PTR_INVALID st

/-- `process_frame` called `n` times in a row, the EDMAC transfer of each frame being over
(`edmac_active == 0`) before the next call. -/
def process_frames (PTR_INVALID : Int) : Nat → State → Option State
  | 0, st => some st
  | n + 1, st =>
    match process_frames PTR_INVALID n st with
    | none => none
    | some st1 => process_frame PTR_INVALID st1

/-- The function `get_free_slots`, counting over the first `n` entries
(`get_free_slots() = get_free_slots st st.slot_count`). -/
def get_free_slots (st : State) : Nat → Int
  | 0 => 0
  | n + 1 => get_free_slots st n + (if (st.slots n).status = SLOT_FREE then 1 else 0)

/-- How a call of `write_frames` ends: all data written (`ok`, returns 1), a short write
before the 4 GB limit (`card_full`: the queue is emptied, returns 0), or a failure to open
or fill a new chunk (`failed`, returns 0). -/
inductive write_outcome where
  | ok
  | card_full
  | failed
deriving DecidableEq, Repr

/-- The effect of `write_frames` on the pool and the queue, and its result.  The file and
its byte counters are not part of the state. -/
def write_frames (outcome : write_outcome) (st : State) : Int × State :=
  match outcome with
  | write_outcome.ok => (1, st)
  | write_outcome.card_full => (0, { st with writing_queue_head := st.writing_queue_tail })
  | write_outcome.failed => (0, st)

/-- The loop "group items from the queue in a contiguous block" of `raw_video_rec_task`,
started at queue index `i` with the locals `last_grouped` and `group_size`: their values
when the loop ends.  With `w_tail` an index of the queue the loop ends within
`COUNT(writing_queue) + 1` iterations; `none` stands for a loop that does not end. -/
def group_loop (st : State) (first_ptr w_tail : Int) : Nat → Int → Int → Int → Option (Int × Int)
  | 0, _, _, _ => none
  | fuel + 1, i, last_grouped, group_size =>
    if i ≠ w_tail then
      let slot_index := st.writing_queue i.toNat
      if (st.slots slot_index.toNat).ptr = first_ptr + group_size then
        group_loop st first_ptr w_tail fuel (MOD (i + 1) (COUNT_writing_queue : Int)) i
          (group_size + (st.slots slot_index.toNat).size)
      else some (last_grouped, group_size)
    else some (last_grouped, group_size)

/-- The grouping of `raw_video_rec_task` on the queue of `st`: `last_grouped` and
`group_size`. -/
def group_frames (st : State) : Option (Int × Int) :=
  group_loop st (st.slots (st.writing_queue st.writing_queue_head.toNat).toNat).ptr
    st.writing_queue_tail (COUNT_writing_queue + 1) st.writing_queue_head
    st.writing_queue_head 0

/-- The value that the 32-bit `int` arithmetic of the camera gives to an expression whose
mathematical value is `x`: the two's complement wrap-around into `-2^31 .. 2^31 - 1`. -/
def int32 (x : Int) : Int := (x + 2147483648) % 4294967296 - 2147483648

/-- The local variable `frame_limit` of `raw_video_rec_task`, computed when
`measured_write_speed` is not zero:
`overflow_time = free_slots * 1000 * 10 / fps`, `avg_frame_size = group_size / num_frames`,
`frame_limit = overflow_time * 1024 / 10 * (measured_write_speed * 9 / 100) * 1024
/ avg_frame_size / 10`.  Every product is a 32-bit `int` product (`int32`): with
`overflow_time = 40` and `measured_write_speed = 11378` the last product is `2^32` and
wraps to 0.  `/` is the division of C, which truncates (`Int.tdiv`). -/
def frame_limit (st : State) (measured_write_speed fps group_size num_frames : Int) : Int :=
  let free_slots := get_free_slots st st.slot_count
  let overflow_time := Int.tdiv (int32 (int32 (free_slots * 1000) * 10)) fps
  let avg_frame_size := Int.tdiv group_size num_frames
  Int.tdiv
    (Int.tdiv
      (int32
        (int32 (Int.tdiv (int32 (overflow_time * 1024)) 10 *
          Int.tdiv (int32 (measured_write_speed * 9)) 100) * 1024))
      avg_frame_size)
    10

/-- The block "if we are about to overflow, save a smaller number of frames" of
`raw_video_rec_task`: the new value of `num_frames`. -/
def throttle (st : State) (measured_write_speed fps group_size num_frames : Int) : Int :=
  if measured_write_speed ≠ 0 then
    let frame_limit := frame_limit st measured_write_speed fps group_size num_frames
    if frame_limit ≥ 0 ∧ frame_limit < num_frames then max 1 (frame_limit - 1)
    else num_frames
  else num_frames

/-- The loop "mark these frames as writing" of `raw_video_rec_task`, from queue index `i`
up to `stop`.  The index walks the queue cyclically, so the loop ends within
`COUNT(writing_queue) + 1` iterations. -/
def mark_writing : Nat → Int → Int → State → State
  | 0, _, _, st => st
  | fuel + 1, i, stop, st =>
    if i ≠ stop then
      mark_writing fuel (MOD (i + 1) (COUNT_writing_queue : Int)) stop
        (set_status st (st.writing_queue i.toNat).toNat SLOT_WRITING)
    else st

/-- The check of the frame order made by `raw_video_rec_task` before it releases a slot,
and the increment of `last_processed_frame`. -/
def check_frame_order (st : State) (slot_index : Nat) : State :=
  let st1 : State :=
    if (st.slots slot_index).frame_number ≠ st.last_processed_frame + 1 then
      { st with frame_order_errors := st.frame_order_errors + 1 }
    else st
  { st1 with last_processed_frame := st1.last_processed_frame + 1 }

/-- The loop "mark these frames as free so they can be reused" of `raw_video_rec_task`,
from queue index `i` up to `stop`. -/
def free_written : Nat → Int → Int → State → State
  | 0, _, _, st => st
  | fuel + 1, i, stop, st =>
    if i ≠ stop then
      let slot_index := (st.writing_queue i.toNat).toNat
      free_written fuel (MOD (i + 1) (COUNT_writing_queue : Int)) stop
        (free_slot (check_frame_order st slot_index) slot_index)
    else st

/-- The statements of an iteration of the main loop of `raw_video_rec_task` from the
computation of `after_last_grouped` to the end of the loop "mark these frames as writing",
for the final value of `num_frames`. -/
def mark_group (st : State) (num_frames : Int) : State :=
  let w_head := st.writing_queue_head
  let after_last_grouped := MOD (w_head + num_frames) (COUNT_writing_queue : Int)
  let st1 : State :=
    if after_last_grouped = st.writing_queue_tail then { st with force_new_buffer := 1 }
    else st
  mark_writing (COUNT_writing_queue + 1) w_head after_last_grouped st1

/-- The statements of an iteration of the main loop of `raw_video_rec_task` from the
computation of `after_last_grouped` on, for the final value of `num_frames`: the frames are
marked, written and, when `write_frames` succeeds, released and removed from the queue.  When
`write_frames` returns 0 the loop is left and the result is the state at that point.  The
statements run here without a call of a hook in between; `writer_step` runs them one step
at a time, with the hooks in between (`writer_iteration_steps` relates the two). -/
def write_group (outcome : write_outcome) (st : State) (num_frames : Int) : State :=
  let w_head := st.writing_queue_head
  let after_last_grouped := MOD (w_head + num_frames) (COUNT_writing_queue : Int)
  let w := write_frames outcome (mark_group st num_frames)
  if w.1 = 0 then w.2
  else
    { free_written (COUNT_writing_queue + 1) w_head after_last_grouped w.2 with
      writing_queue_head := after_last_grouped }

/-- One iteration of the main recording loop of `raw_video_rec_task`, run as one step, that
is, when no hook is called before the iteration ends (`writer_step` is the task with the
hooks in between; by `writer_iteration_steps` its steps give this result when no hook is
called).
`check` is the result of `frame_check_saved(first_slot)`, `measured_write_speed` and `fps`
are the values of these variables, `outcome` tells how `write_frames` ends.  When the
iteration leaves the loop because of `buffer_full` the result is the state at that
point. -/
def writer_iteration (check measured_write_speed fps : Int) (outcome : write_outcome)
    (st : State) : Option State :=
  if st.buffer_full ≠ 0 then some st
  else
    let w_tail := st.writing_queue_tail
    let w_head := st.writing_queue_head
    if w_head = w_tail then some st
    else if check = 0 then some st
    else
      match group_frames st with
      | none => none
      | some g =>
        let group_size := g.2
        let num_frames0 := MOD (g.1 - w_head + 1) (COUNT_writing_queue : Int)
        let num_frames := throttle st measured_write_speed fps group_size num_frames0
        some (write_group outcome st num_frames)

/-- One iteration of the loop "write remaining frames" of `raw_video_rec_task`; when
`write_frames` returns 0 the loop is left and the result is the state at that point. -/
def flush_iteration (outcome : write_outcome) (st : State) : State :=
  if st.writing_queue_head ≠ st.writing_queue_tail then
    let slot_index := (st.writing_queue st.writing_queue_head.toNat).toNat
    let st1 := check_frame_order st slot_index
    let st2 := set_status st1 slot_index SLOT_WRITING
    let w := write_frames outcome st2
    if w.1 = 0 then w.2
    else
      let st3 := free_slot w.2 slot_index
      { st3 with
        writing_queue_head := MOD (st3.writing_queue_head + 1) (COUNT_writing_queue : Int) }
  else st

/-- What happens during a recording session: a vertical sync (`raw_rec_vsync_cbr`), the
start of the EDMAC copy of a frame by `compress_task` (`edmac_active = 1`), its end
(`edmac_cbr_w`), the compression of the frame in slot `i` to `n` bytes by `compress_task`
(`shrink_slot(i, n)`), the REC key (`pre_record_triggered = 1` in pre-recording), an iteration
of the main loop of `raw_video_rec_task`, the end of that loop
(`raw_recording_state = RAW_FINISHING`), and an iteration of the loop that writes the
remaining frames. -/
inductive session_op where
  | vsync (enabled valid : Bool)
  | edmac_start
  | edmac_done
  | compressed (i : Nat) (n : Int)
  | trigger
  | write (check measured_write_speed fps : Int) (outcome : write_outcome)
  | stop
  | flush (outcome : write_outcome)
deriving DecidableEq, Repr

/-- The effect of one event of a session. -/
def session_step (PTR_INVALID : Int) (st : State) : session_op → Option State
  | session_op.vsync enabled valid => raw_rec_vsync_cbr PTR_INVALID enabled valid st
  | session_op.edmac_start => some { st with edmac_active := 1 }
  | session_op.edmac_done => some { st with edmac_active := 0 }
  | session_op.compressed i n => some (shrink_slot st i n)
  | session_op.trigger =>
    some (if st.raw_recording_state = RAW_PRE_RECORDING then
            { st with pre_record_triggered := 1 }
          else st)
  | session_op.write check measured_write_speed fps outcome =>
    writer_iteration check measured_write_speed fps outcome st
  | session_op.stop => some { st with raw_recording_state := RAW_FINISHING }
  | session_op.flush outcome => some (flush_iteration outcome st)

/-- The effect of a sequence of events; `none` when one of them never returns. -/
def run_session (PTR_INVALID : Int) (st : State) : List session_op → Option State
  | [] => some st
  | op :: ops =>
    match session_step PTR_INVALID st op with
    | none => none
    | some st1 => run_session PTR_INVALID st1 ops

/-- The writer is handed only complete writes: every `write_frames` of the sequence
ends with `ok`. -/
def writes_ok : session_op → Prop
  | session_op.write _ _ _ outcome => outcome = write_outcome.ok
  | session_op.flush outcome => outcome = write_outcome.ok
  | _ => True

instance (op : session_op) : Decidable (writes_ok op) := by
  cases op <;> unfold writes_ok <;> infer_instance

/-! ## Vocabulary of the statements about the queue -/

/-- The number of entries of the writing queue between head and tail. -/
def queue_len (st : State) : Nat :=
  (MOD (st.writing_queue_tail - st.writing_queue_head) (COUNT_writing_queue : Int)).toNat

/-- The entry of the writing queue at position `k` after the head. -/
def queue_slot (st : State) (k : Nat) : Int :=
  st.writing_queue (MOD (st.writing_queue_head + k) (COUNT_writing_queue : Int)).toNat

/-- The sum of the sizes of the first `n` slots of the queue. -/
def queue_sum (st : State) : Nat → Int
  | 0 => 0
  | n + 1 => queue_sum st n + (st.slots (queue_slot st n).toNat).size

/-- The slot holds a frame: its status is FULL or WRITING. -/
def busy (s : frame_slot) : Prop :=
  s.status = SLOT_FULL ∨ s.status = SLOT_WRITING

instance (s : frame_slot) : Decidable (busy s) := by
  unfold busy; infer_instance

/-- A pool in the middle of a recording: slots 0 and 1 (2048 bytes each, contiguous) and
slot 3 hold the frames 4, 5 and 6 and are on the writing queue, at the queue indices 510,
511 and 0; slot 2 is FREE. -/
def queued_pool : State :=
  { boot_state with
    slots := slots_of_list
      [ { ptr := 4096, size := 2048, payload_size := 1980, frame_number := 4, status := SLOT_FULL },
        { ptr := 6144, size := 2048, payload_size := 1980, frame_number := 5, status := SLOT_FULL },
        { ptr := 8192, size := 2048, payload_size := 1980, frame_number := 0, status := SLOT_FREE },
        { ptr := 10240, size := 2048, payload_size := 1980, frame_number := 6,
          status := SLOT_FULL } ]
    slot_count := 4
    capture_slot := 3
    writing_queue := fun k => if k = 510 then 0 else if k = 511 then 1 else if k = 0 then 3 else 0
    writing_queue_head := 510
    writing_queue_tail := 1
    frame_count := 7
    last_processed_frame := 3
    max_frame_size := 2048
    frame_size_uncompressed := 1980
    raw_recording_state := RAW_RECORDING }

/-- A memory chunk at 4096 that fits exactly four frames of 1 MiB. -/
def four_frame_arena : setup_inputs :=
  { fullsize_buffer_0 := 1048576
    fullsize_buffer_1 := 1075838976
    shoot_malloc_suite := some [{ ptr := 4096, size := 4194304 }]
    use_srm_memory := 0
    srm_malloc_suite := none
    pre_record := 0
    fps_x1000 := 25000 }

/-- A recording without pre-roll on the pool of `four_frame_arena` (four FREE slots of
1 MiB), after `process_frame` has skipped frame 0. -/
def four_slot_session : State :=
  { (setup_buffers
      { boot_state with max_frame_size := 1048576, frame_size_uncompressed := 1048508 }
      four_frame_arena).2 with
    raw_recording_state := RAW_RECORDING
    frame_count := 1 }

/-- The setting of `four_frame_arena` with pre-recording switched on (first preset: one
second). -/
def pre_record_arena : setup_inputs := { four_frame_arena with pre_record := 1 }

/-- The state in which the vsync hook starts to run for a session with pre-recording on
the pool of `pre_record_arena`: `setup_buffers` has returned 1 and `raw_video_rec_task` has
set `raw_recording_state = RAW_PRE_RECORDING`. -/
def pre_record_session : State :=
  { (setup_buffers
      { boot_state with max_frame_size := 1048576, frame_size_uncompressed := 1048508 }
      pre_record_arena).2 with
    raw_recording_state := RAW_PRE_RECORDING }
/-! ## Vocabulary of the statements about the session -/

/-- The frames held by the pool are kept from table `T` to table `T'`: no frame number
changes, a slot that holds a frame keeps its status, and a slot that holds none still
holds none. -/
def frames_kept (T T' : Nat → frame_slot) : Prop :=
  ∀ j, (T' j).frame_number = (T j).frame_number ∧
    (busy (T j) → (T' j).status = (T j).status) ∧ (¬ busy (T j) → ¬ busy (T' j))

/-- The state `s` has the queue, the slot count, the recording state and the frame count
of `st`. -/
def same_queue (st s : State) : Prop :=
  s.writing_queue = st.writing_queue ∧ s.writing_queue_head = st.writing_queue_head ∧
  s.writing_queue_tail = st.writing_queue_tail ∧ s.slot_count = st.slot_count ∧
  s.raw_recording_state = st.raw_recording_state ∧ s.frame_count = st.frame_count

/-- Invariant of the writing queue: head and tail are indices of the queue, the slot table
is in use, the entries between head and tail are indices of the table, of pairwise
different slots that hold a frame, and the queue is empty during pre-recording. -/
def queue_inv (st : State) : Prop :=
  (0 ≤ st.writing_queue_head ∧ st.writing_queue_head < 512) ∧
  (0 ≤ st.writing_queue_tail ∧ st.writing_queue_tail < 512) ∧
  (0 < st.slot_count ∧ st.slot_count ≤ COUNT_slots) ∧
  (∀ k, k < queue_len st → 0 ≤ queue_slot st k ∧ (queue_slot st k).toNat < COUNT_slots ∧
    busy (st.slots (queue_slot st k).toNat)) ∧
  (∀ k k', k < queue_len st → k' < queue_len st → queue_slot st k = queue_slot st k' →
    k = k') ∧
  (st.raw_recording_state = RAW_PRE_RECORDING → queue_len st = 0)

/-- Invariant of the frame numbers: the slots on the queue carry the frame numbers that
follow `last_processed_frame`; while recording, the next frame number follows those of the
queue; during pre-recording nothing has been written, and the FULL slots hold every frame
number from 1 to `frame_count - 1` and none above; no frame order error has been
reported. -/
def order_inv (st : State) : Prop :=
  (∀ k, k < queue_len st →
    (st.slots (queue_slot st k).toNat).frame_number = st.last_processed_frame + 1 + k) ∧
  (st.raw_recording_state = RAW_RECORDING →
    (st.frame_count = 0 ∧ queue_len st = 0 ∧ st.last_processed_frame = 0) ∨
    st.last_processed_frame + queue_len st + 1 = st.frame_count) ∧
  (st.raw_recording_state = RAW_PRE_RECORDING →
    st.last_processed_frame = 0 ∧ 0 ≤ st.frame_count ∧
    (∀ f : Int, 1 ≤ f → f < st.frame_count →
      ∃ j, j < st.slot_count ∧ (st.slots j).status = SLOT_FULL ∧
        (st.slots j).frame_number = f) ∧
    (∀ j, j < st.slot_count → (st.slots j).status = SLOT_FULL →
      (st.slots j).frame_number < st.frame_count)) ∧
  0 ≤ st.last_processed_frame ∧
  st.frame_order_errors = 0

/-- From `st` to `st'` entries were only appended to the queue: the head and the entries
of `st` are as before, and when the tail has moved the queue is longer. -/
def queue_appended (st st' : State) : Prop :=
  st'.writing_queue_head = st.writing_queue_head ∧ queue_len st ≤ queue_len st' ∧
  (∀ k, k < queue_len st → queue_slot st' k = queue_slot st k) ∧
  (st'.writing_queue_tail ≠ st.writing_queue_tail → queue_len st < queue_len st')

/-- From `st` to `st'` the first `n` entries were removed from the queue, for some `n`: the
tail is as before and the entries left are those of `st` after the first `n`, in the same
order. -/
def queue_removed (st st' : State) : Prop :=
  st'.writing_queue_tail = st.writing_queue_tail ∧
  ∃ n, n ≤ queue_len st ∧ queue_len st' = queue_len st - n ∧
    ∀ k, k < queue_len st' → queue_slot st' k = queue_slot st (k + n)

/-- From table `T` to table `T'` no frame number changes and the same slots hold a
frame. -/
def busy_kept (T T' : Nat → frame_slot) : Prop :=
  ∀ j, (T' j).frame_number = (T j).frame_number ∧ (busy (T' j) ↔ busy (T j))

/-- The entries of the writing queue, from head to tail. -/
def queue_list (st : State) : List Int :=
  (List.range (queue_len st)).map (queue_slot st)

/-- The session of `four_slot_session` before the first vsync: `frame_count = 0`. -/
def fresh_session : State := { four_slot_session with frame_count := 0 }

/-- The frames buffered by pre-recording: the FULL slots of the table in use hold the frame
numbers from 1 to `frame_count - 1`, each of them once; the FREE slots and the buffered
frames are `F` slots together, and all of them have the standard size. -/
def buffered_inv (F : Int) (st : State) : Prop :=
  (∀ j, j < st.slot_count → (st.slots j).status = SLOT_FULL →
    1 ≤ (st.slots j).frame_number ∧ (st.slots j).frame_number < st.frame_count) ∧
  (∀ f : Int, 1 ≤ f → f < st.frame_count →
    ∃ j, j < st.slot_count ∧ (st.slots j).status = SLOT_FULL ∧
      (st.slots j).frame_number = f) ∧
  (∀ j j', j < st.slot_count → j' < st.slot_count → (st.slots j).status = SLOT_FULL →
    (st.slots j').status = SLOT_FULL →
    (st.slots j).frame_number = (st.slots j').frame_number → j = j') ∧
  get_free_slots st st.slot_count + (st.frame_count - 1) = F ∧
  (∀ j, j < st.slot_count →
    (st.slots j).status = SLOT_FREE ∨ (st.slots j).status = SLOT_FULL →
    (st.slots j).size = st.max_frame_size)

/-- Pre-recording before the trigger, after the vsync that skipped frame 0, with a budget
of `n` frames, an empty queue, no EDMAC transfer under way and `F >= n` slots for the
frames. -/
def pre_recording_inv (n : Nat) (F : Int) (st : State) : Prop :=
  st.raw_recording_state = RAW_PRE_RECORDING ∧ st.pre_record_triggered = 0 ∧
  st.edmac_active = 0 ∧ st.pre_record_num_frames = n ∧
  (0 ≤ st.writing_queue_head ∧ st.writing_queue_head < 512) ∧
  st.writing_queue_tail = st.writing_queue_head ∧
  st.slot_count ≤ COUNT_slots ∧ 1 ≤ st.frame_count ∧ st.frame_count ≤ n ∧ (n : Int) ≤ F ∧
  buffered_inv F st

/-- A memory chunk of 32 MiB at 4096, pre-recording switched on (first preset: one second)
at 3 frames per second. -/
def three_fps_arena : setup_inputs :=
  { fullsize_buffer_0 := 1048576
    fullsize_buffer_1 := 1075838976
    shoot_malloc_suite := some [{ ptr := 4096, size := 33554432 }]
    use_srm_memory := 0
    srm_malloc_suite := none
    pre_record := 1
    fps_x1000 := 3000 }

/-- The state in which the vsync hook starts to run for a session with pre-recording on
the pool of `three_fps_arena` with frames of 4 MiB: seven FREE slots, and
`pre_record_num_frames = 3`. -/
def preroll_session : State :=
  { (setup_buffers
      { boot_state with max_frame_size := 4194304, frame_size_uncompressed := 4194236 }
      three_fps_arena).2 with
    raw_recording_state := RAW_PRE_RECORDING }

/-! ## The sentinel words of a frame -/

/-- The expression `(slots[slot_index].payload_size + 3) & ~3` of `frame_add_checks`,
`frame_mark_complete` and `frame_check_saved`. -/
def edmac_size (payload_size : Int) : Int := (payload_size + 3) / 4 * 4

/-- The address `frame_end` of `frame_add_checks` and `frame_check_saved` for a slot. -/
def frame_end (s : frame_slot) : Int := s.ptr + VIDF_HDR_SIZE + edmac_size s.payload_size - 4

/-- The address `after_frame` of `frame_add_checks`, `frame_mark_complete` and
`frame_check_saved` for a slot: the sentinel word occupies the four bytes from there. -/
def after_frame (s : frame_slot) : Int := s.ptr + VIDF_HDR_SIZE + edmac_size s.payload_size

/-- A slot of 512 bytes that holds a frame of 441 bytes. -/
def odd_payload_slot : frame_slot :=
  { ptr := 4096, size := 512, payload_size := 441, frame_number := 1, status := SLOT_FULL }

/-! ## The throttle of the writer -/

/-! ## A pool with more than 255 frames -/

/-- The state in which `raw_video_rec_task` calls `setup_buffers` for frames of 130560
bytes (384 x 272 pixels at 10 bits; slots of 128 KiB). -/
def session_start_128K : State :=
  { boot_state with max_frame_size := 131072, frame_size_uncompressed := 130560 }

/-- A suite of one memory chunk of 32 MiB + 64 bytes at 4096 (`split_arena`), no SRM
memory, no pre-recording. -/
def large_chunk_arena : setup_inputs :=
  { fullsize_buffer_0 := 1048576
    fullsize_buffer_1 := 1075838976
    shoot_malloc_suite := some [split_arena]
    use_srm_memory := 0
    srm_malloc_suite := none
    pre_record := 0
    fps_x1000 := 25000 }

/-! ## A second session on the table of the first -/

/-- A suite of one memory chunk of 12288 bytes at 4096. -/
def six_frame_arena : setup_inputs :=
  { fullsize_buffer_0 := 1048576
    fullsize_buffer_1 := 1075838976
    shoot_malloc_suite := some [{ ptr := 4096, size := 12288 }]
    use_srm_memory := 0
    srm_malloc_suite := none
    pre_record := 0
    fps_x1000 := 25000 }

/-- The pool of a first session on `six_frame_arena` with slots of 2048 bytes: six FREE
slots and six RESERVED entries, `slot_count = 12`. -/
def first_session_pool : State := (setup_buffers session_start_2048 six_frame_arena).2

/-- The pool of a second session on the same memory with slots of 4096 bytes (frames of
4028 bytes): `raw_video_rec_task` resets `slot_count`, `capture_slot` and `frame_count` and
leaves the table as it is, `update_resolution_params` sets the frame sizes, and
`setup_buffers` writes the entries 0 .. 5 (`slot_count = 6`).  The entries 6 .. 11 are
those of the first session. -/
def second_session_pool : State :=
  (setup_buffers
    { first_session_pool with
      slot_count := 0, capture_slot := -1, frame_count := 0,
      max_frame_size := 4096, frame_size_uncompressed := 4028 }
    six_frame_arena).2

/-- The second session skips frame 0, then captures four frames, each compressed to 956
bytes before the next capture, and captures a fifth frame into slot 4. -/
def five_captures : List pool_op :=
  [ pool_op.capture, pool_op.capture, pool_op.shrink 0 956, pool_op.capture,
    pool_op.shrink 1 956, pool_op.capture, pool_op.shrink 2 956, pool_op.capture,
    pool_op.shrink 3 956, pool_op.capture ]

/-- The fifth frame is compressed, and the first four frames are released in order. -/
def compress_and_release : List pool_op :=
  [ pool_op.shrink 4 956, pool_op.free 0, pool_op.free 1, pool_op.free 2, pool_op.free 3 ]

/-! ## shrink_slot and free_slot with a bound on their steps -/

/-- The function `shrink_slot` run with at most `fuel` nested calls: `none` when a call
would exceed the bound, else the state and the slot indices of the calls, outermost
first. -/
def shrink_slot_fuel : Nat → State → Nat → Int → Option (State × List Nat)
  | 0, _, _, _ => none
  | fuel + 1, st, i, new_frame_size =>
    let old_size := (st.slots i).size
    let dif_size := old_size - frame_size_padded new_frame_size
    let st1 := shrink_head st i new_frame_size
    if linked st1.slots i old_size then
      let st2 := grow_next st1 i dif_size
      if (st2.slots (i + 1)).size ≥ st2.max_frame_size then
        match shrink_slot_fuel fuel st2 (i + 1) st2.frame_size_uncompressed with
        | none => none
        | some r => some (set_status r.1 (i + 1) SLOT_FREE, i :: r.2)
      else some (st2, [i])
    else some (st1, [i])

/-- The loop "find first slot from this chunk" of `free_slot`, started at index `i`, run
for at most `fuel` iterations: `none` when the loop condition still holds after them. -/
def find_first_fuel (slots : Nat → frame_slot) : Nat → Nat → Option Nat
  | _, 0 => some 0
  | 0, i + 1 =>
    if free_or_reserved (slots i) ∧ (slots (i + 1)).ptr = (slots i).ptr + (slots i).size then
      none
    else some (i + 1)
  | fuel + 1, i + 1 =>
    if free_or_reserved (slots i) ∧ (slots (i + 1)).ptr = (slots i).ptr + (slots i).size then
      find_first_fuel slots fuel i
    else some (i + 1)

/-- The loop "find last slot from this chunk" of `free_slot`, started at index `i`, run for
at most `fuel` iterations: `none` when the loop condition still holds after them. -/
def find_last_fuel (slots : Nat → frame_slot) : Nat → Nat → Option Nat
  | 0, i =>
    if i + 1 < COUNT_slots ∧ free_or_reserved (slots (i + 1)) ∧
        (slots (i + 1)).ptr = (slots i).ptr + (slots i).size then
      none
    else some i
  | fuel + 1, i =>
    if i + 1 < COUNT_slots ∧ free_or_reserved (slots (i + 1)) ∧
        (slots (i + 1)).ptr = (slots i).ptr + (slots i).size then
      find_last_fuel slots fuel (i + 1)
    else some i

/-- The loop `for (i = start; i <= end; i++)` of `free_slot`, from index `i` with the
running pointer `ptr`, run for at most `fuel` iterations: `none` when `i <= end` still
holds after them. -/
def repartition_fuel (max_frame_size end_ptr : Int) (end_idx : Nat) :
    Nat → Nat → Int → (Nat → frame_slot) → Option (Nat → frame_slot)
  | 0, i, _, slots => if i ≤ end_idx then none else some slots
  | fuel + 1, i, ptr, slots =>
    if i ≤ end_idx then
      let s := slots i
      let s1 : frame_slot :=
        if ptr + max_frame_size ≤ end_ptr then
          { s with ptr := ptr, status := SLOT_FREE, size := max_frame_size }
        else
          { s with ptr := ptr, status := SLOT_RESERVED, size := end_ptr - ptr }
      repartition_fuel max_frame_size end_ptr end_idx fuel (i + 1) (ptr + s1.size)
        (set_slot slots i s1)
    else some slots

/-- The function `free_slot(slot_index)` with each of its three loops run for at most
`fuel` iterations: `none` when one of them does not end within them. -/
def free_slot_fuel (fuel : Nat) (st : State) (slot_index : Nat) : Option State :=
  let st1 := set_status st slot_index SLOT_RESERVED
  if (st1.slots slot_index).size = st1.max_frame_size then
    some (set_status st1 slot_index SLOT_FREE)
  else
    match find_first_fuel st1.slots fuel slot_index with
    | none => none
    | some start =>
      match find_last_fuel st1.slots fuel slot_index with
      | none => none
      | some end_idx =>
        let start_ptr := (st1.slots start).ptr
        let end_ptr := (st1.slots end_idx).ptr + (st1.slots end_idx).size
        match repartition_fuel st1.max_frame_size end_ptr end_idx fuel start start_ptr
            st1.slots with
        | none => none
        | some slots => some { st1 with slots := slots }

/-! ## The files of a recording -/

/-- A call of a FIO function that changes a file, as made by `raw_video_rec_task`,
`write_frames` and `finish_chunk`.  File names are pairs `(m, k)`: `(m, 0)` is the name
that `get_next_raw_movie_file_name` built for movie `m`, `(m, k)` the name of its chunk
`k`; a `FILE*` is a number, 0 for the null pointer.  `write_headers f` stands for the
calls of `write_mlv_chunk_headers(f)`, `write_file_hdr` for the header written by
`finish_chunk` with its fields `fileNum` and `videoFrameCount`, `write_null` for the NULL
block that covers an incomplete write.  Seeks are not recorded. -/
inductive fio_call where
  | create (name : Int × Int)
  | write_headers (f : Int)
  | write_data (f : Int) (size : Int)
  | write_file_hdr (f : Int) (fileNum videoFrameCount : Int)
  | write_null (f : Int)
  | close (f : Int)
  | remove (name : Int × Int)
deriving DecidableEq, Repr

/-- The variables of the module that describe the files of a recording:
`raw_movie_filename` (0 when the pointer is null, else the number of the movie),
`chunk_filename`, the local `f` of `raw_video_rec_task`, the counters, the fields
`fileNum` and `videoFrameCount` of `file_hdr`, and the calls made so far (latest last). -/
structure file_state where
  raw_movie_filename : Int
  chunk_filename : Int × Int
  f : Int
  written_total : Int
  written_chunk : Int
  chunk_frame_count : Int
  file_size_limit : Int
  mlv_chunk : Int
  fileNum : Int
  videoFrameCount : Int
  calls : List fio_call

/-- The function `get_next_chunk_file_name(base_name, chunk)`: the name of the movie with
the extension of chunk `chunk`. -/
def get_next_chunk_file_name (base_name chunk : Int) : Int × Int := (base_name, chunk)

/-- The function `finish_chunk(f)`, called with the `f` of the state. -/
def finish_chunk (fs : file_state) : file_state :=
  { fs with
    videoFrameCount := fs.chunk_frame_count
    calls := fs.calls ++
      [fio_call.write_file_hdr fs.f fs.fileNum fs.chunk_frame_count, fio_call.close fs.f]
    chunk_frame_count := 0 }

/-- What the file system answers during one call of `write_frames`: `g1` and `hdr1` are
the results of `FIO_CreateFile` and `write_mlv_chunk_headers` in the block "about to reach
4GB limit", `r` the result of `FIO_WriteFile(f, ptr, group_size)`, `pos` that of
`FIO_SeekSkipFile(f, 0, SEEK_CUR)`, `g2`, `hdr2` and `r2` the results of `FIO_CreateFile`,
`write_mlv_chunk_headers` and `FIO_WriteFile(g, ptr, group_size)` after a short write. -/
structure fio_results where
  g1 : Int
  hdr1 : Int
  r : Int
  pos : Int
  g2 : Int
  hdr2 : Int
  r2 : Int
deriving DecidableEq, Repr

/-- The statements `chunk_filename = get_next_chunk_file_name(raw_movie_filename,
++mlv_chunk); FILE* g = FIO_CreateFile(chunk_filename);` of `write_frames`. -/
def create_chunk (fs : file_state) : file_state :=
  { fs with
    mlv_chunk := fs.mlv_chunk + 1
    chunk_filename := get_next_chunk_file_name fs.raw_movie_filename (fs.mlv_chunk + 1)
    calls := fs.calls ++
      [fio_call.create (get_next_chunk_file_name fs.raw_movie_filename (fs.mlv_chunk + 1))] }

/-- The statements `file_hdr.fileNum = mlv_chunk; written_chunk =
write_mlv_chunk_headers(g); written_total += written_chunk;` of `write_frames`. -/
def start_chunk (fs : file_state) (g hdr : Int) : file_state :=
  { fs with
    fileNum := fs.mlv_chunk
    written_chunk := hdr
    written_total := fs.written_total + hdr
    calls := fs.calls ++ [fio_call.write_headers g] }

/-- The statements `FIO_CloseFile(g); FIO_RemoveFile(chunk_filename); mlv_chunk--;` of
`write_frames`. -/
def drop_chunk (fs : file_state) (g : Int) : file_state :=
  { fs with
    mlv_chunk := fs.mlv_chunk - 1
    calls := fs.calls ++ [fio_call.close g, fio_call.remove fs.chunk_filename] }

/-- The statements `written_total += group_size; written_chunk += group_size;
chunk_frame_count += num_frames;` of `write_frames`. -/
def count_written (fs : file_state) (group_size num_frames : Int) : file_state :=
  { fs with
    written_total := fs.written_total + group_size
    written_chunk := fs.written_chunk + group_size
    chunk_frame_count := fs.chunk_frame_count + num_frames }

/-- The block "if we know there's a 4GB file size limit and we're about to exceed it" of
`write_frames`: 0 when `write_frames` returns 0 from it, else 1; and the new state. -/
def split_ahead (env : fio_results) (fs : file_state) (group_size : Int) :
    Int × file_state :=
  if fs.file_size_limit ≠ 0 ∧ fs.written_chunk + group_size > 0xFFFFFFFF then
    let fs1 := create_chunk (finish_chunk fs)
    if env.g1 = 0 then (0, fs1)
    else
      let fs2 := start_chunk fs1 env.g1 env.hdr1
      if fs2.written_chunk ≠ 0 then (1, { fs2 with f := env.g1 })
      else (0, drop_chunk fs2 env.g1)
  else (1, fs)

/-- The statements `file_size_limit = 1` of `write_frames` and the block "5D3 may write
data partially": a NULL block covers what an incomplete write left in the file. -/
def limit_reached (env : fio_results) (fs : file_state) : file_state :=
  let fs2 : file_state := { fs with file_size_limit := 1 }
  if env.pos > fs2.written_chunk + 1 then
    { fs2 with calls := fs2.calls ++ [fio_call.write_null fs2.f] }
  else fs2

/-- The statements of `write_frames` after a short write at the limit ("file size limit
reached"): the chunk is closed, a new one is created and the write is tried again.  The
returned value of `write_frames` and the new state of the files. -/
def split_retry (env : fio_results) (fs : file_state) (group_size num_frames : Int) :
    Int × file_state :=
  let fs4 := create_chunk (finish_chunk (limit_reached env fs))
  if env.g2 = 0 then (0, fs4)
  else
    let fs5 := start_chunk fs4 env.g2 env.hdr2
    let fs6 : file_state :=
      if fs5.written_chunk ≠ 0 then
        { fs5 with calls := fs5.calls ++ [fio_call.write_data env.g2 group_size] }
      else fs5
    let r2 := if fs5.written_chunk ≠ 0 then env.r2 else 0
    if r2 = group_size then
      (1, count_written { fs6 with f := env.g2 } group_size num_frames)
    else (0, drop_chunk fs6 env.g2)

/-- The function `write_frames(&f, ptr, group_size, num_frames)` with the files in
`fs`: the returned value, the files and the state of the module (of which it writes
`writing_queue_head`).  The clock and the time counters are not part of the state. -/
def write_frames_fs (env : fio_results) (fs : file_state) (st : State)
    (group_size num_frames : Int) : Int × file_state × State :=
  let a := split_ahead env fs group_size
  if a.1 = 0 then (0, a.2, st)
  else
    let fs1 : file_state :=
      { a.2 with calls := a.2.calls ++ [fio_call.write_data a.2.f group_size] }
    if env.r ≠ group_size then
      if fs1.written_chunk + group_size < 0xFFFFFFFF then
        (0, fs1, { st with writing_queue_head := st.writing_queue_tail })
      else
        let b := split_retry env fs1 group_size num_frames
        (b.1, b.2, st)
    else (1, count_written fs1 group_size num_frames, st)

/-! ## The recording task and its files -/

/-- The statements of an iteration of the main loop of `raw_video_rec_task` from the
computation of `after_last_grouped` on, with the files: `write_frames` is called with the
`group_size` of the grouping and the final `num_frames`.  The first component is 0 when the
loop is left through `abort`, else 1. -/
def write_group_fs (env : fio_results) (fs : file_state) (st : State)
    (group_size num_frames : Int) : Int × file_state × State :=
  let w_head := st.writing_queue_head
  let after_last_grouped := MOD (w_head + num_frames) (COUNT_writing_queue : Int)
  let w := write_frames_fs env fs (mark_group st num_frames) group_size num_frames
  if w.1 = 0 then (0, w.2.1, w.2.2)
  else
    (1, w.2.1,
      { free_written (COUNT_writing_queue + 1) w_head after_last_grouped w.2.2 with
        writing_queue_head := after_last_grouped })

/-- One iteration of the main recording loop of `raw_video_rec_task` with the files.  The
first component is 0 when the iteration leaves the loop (`buffer_full`, or `write_frames`
returned 0), else 1. -/
def writer_iteration_fs (check measured_write_speed fps : Int) (env : fio_results)
    (fs : file_state) (st : State) : Option (Int × file_state × State) :=
  if st.buffer_full ≠ 0 then some (0, fs, st)
  else
    let w_tail := st.writing_queue_tail
    let w_head := st.writing_queue_head
    if w_head = w_tail then some (1, fs, st)
    else if check = 0 then some (1, fs, st)
    else
      match group_frames st with
      | none => none
      | some g =>
        let group_size := g.2
        let num_frames0 := MOD (g.1 - w_head + 1) (COUNT_writing_queue : Int)
        let num_frames := throttle st measured_write_speed fps group_size num_frames0
        some (write_group_fs env fs st group_size num_frames)

/-- The statement `raw_recording_state = RAW_FINISHING` that follows the main loop of
`raw_video_rec_task`. -/
def finish_recording (st : State) : State := { st with raw_recording_state := RAW_FINISHING }

/-- One iteration of the loop "write remaining frames" of `raw_video_rec_task` with the
files.  The first component is 1 when the loop goes on to its next test, 0 when it has
ended (the queue is empty, or `write_frames` returned 0). -/
def flush_iteration_fs (env : fio_results) (fs : file_state) (st : State) :
    Int × file_state × State :=
  if st.writing_queue_head ≠ st.writing_queue_tail then
    let slot_index := (st.writing_queue st.writing_queue_head.toNat).toNat
    let st1 := check_frame_order st slot_index
    let st2 := set_status st1 slot_index SLOT_WRITING
    let w := write_frames_fs env fs st2 (st2.slots slot_index).size 1
    if w.1 = 0 then (0, w.2.1, w.2.2)
    else
      let st3 := free_slot w.2.2 slot_index
      (1, w.2.1,
        { st3 with
          writing_queue_head := MOD (st3.writing_queue_head + 1) (COUNT_writing_queue : Int) })
  else (0, fs, st)

/-- A sequence of calls of `write_frames`, each with the answers of the file system, its
`group_size` and its `num_frames`: the files and the state after the last call. -/
def run_writes (fs : file_state) (st : State) :
    List (fio_results × Int × Int) → file_state × State
  | [] => (fs, st)
  | c :: cs =>
    let w := write_frames_fs c.1 fs st c.2.1 c.2.2
    run_writes w.2.1 w.2.2 cs

/-- The sum of `num_frames` over the calls of a sequence in which `write_frames`
returned 1. -/
def frames_written (fs : file_state) (st : State) : List (fio_results × Int × Int) → Int
  | [] => 0
  | c :: cs =>
    let w := write_frames_fs c.1 fs st c.2.1 c.2.2
    (if w.1 = 0 then 0 else c.2.2) + frames_written w.2.1 w.2.2 cs

/-- The sum of the `videoFrameCount` fields of the headers that `finish_chunk` wrote. -/
def closed_frames : List fio_call → Int
  | [] => 0
  | fio_call.write_file_hdr _ _ n :: cs => n + closed_frames cs
  | _ :: cs => closed_frames cs

/-- What `raw_video_rec_task` is answered before its main loop: the results of
`raw_update_params()`, `get_next_raw_movie_file_name()` (the number of the new movie),
`FIO_CreateFile(raw_movie_filename)`, `write_mlv_chunk_headers(f)` and `setup_buffers()`. -/
structure start_results where
  raw_update_params : Int
  next_raw_movie_file_name : Int
  created : Int
  headers : Int
  setup_buffers : Int
deriving DecidableEq, Repr

/-- The statements of `raw_video_rec_task` before the main loop, as far as they concern the
files: 0 when the task jumps to `cleanup`, 1 when it reaches the main loop. -/
def rec_task_start (inp : start_results) (fs : file_state) : Int × file_state :=
  let fs1 : file_state :=
    { fs with chunk_frame_count := 0, f := 0, written_total := 0, mlv_chunk := 0 }
  if inp.raw_update_params = 0 then (0, fs1)
  else
    let fs2 : file_state :=
      { fs1 with
        raw_movie_filename := inp.next_raw_movie_file_name
        chunk_filename := (inp.next_raw_movie_file_name, 0)
        f := inp.created
        calls := fs1.calls ++ [fio_call.create (inp.next_raw_movie_file_name, 0)] }
    if fs2.f = 0 then (0, fs2)
    else
      let fs3 : file_state :=
        { fs2 with
          written_chunk := inp.headers
          written_total := inp.headers
          calls := fs2.calls ++ [fio_call.write_headers fs2.f] }
      if fs3.written_chunk = 0 then (0, fs3)
      else if inp.setup_buffers = 0 then (0, fs3)
      else (1, fs3)

/-- The statements at the label `cleanup` of `raw_video_rec_task` that concern the
files. -/
def rec_task_cleanup (fs : file_state) : file_state :=
  let fs1 := if fs.f ≠ 0 then finish_chunk fs else fs
  if fs1.written_total = 0 then
    { fs1 with
      calls := fs1.calls ++ [fio_call.remove (fs1.raw_movie_filename, 0)]
      raw_movie_filename := 0 }
  else fs1

/-- The files at the first start of the module: no movie yet. -/
def no_files : file_state :=
  { raw_movie_filename := 0, chunk_filename := (0, 0), f := 0, written_total := 0,
    written_chunk := 0, chunk_frame_count := 0, file_size_limit := 0, mlv_chunk := 0,
    fileNum := 0, videoFrameCount := 0, calls := [] }

/-- A start in which everything succeeds: movie 1 is created as file 7 with headers of 512
bytes. -/
def good_start : start_results :=
  { raw_update_params := 1, next_raw_movie_file_name := 1, created := 7, headers := 512,
    setup_buffers := 1 }

/-- A start in which `raw_update_params()` fails. -/
def failed_detection : start_results := { good_start with raw_update_params := 0 }

/-- A file system that accepts everything: new chunks are file 9 with headers of 512
bytes, and every write is complete for the group size `n`. -/
def all_written (n : Int) : fio_results :=
  { g1 := 9, hdr1 := 512, r := n, pos := 0, g2 := 9, hdr2 := 512, r2 := n }

/-- The files after a first session that recorded one frame of 2048 bytes into movie 1:
start, one call of `write_frames`, `cleanup`. -/
def after_first_movie : file_state :=
  rec_task_cleanup
    (write_frames_fs (all_written 2048) (rec_task_start good_start no_files).2 queued_pool
      2048 1).2.1

/-- The session of `four_slot_session` after three captured frames: the slots 0, 1 and 2
(1 MiB each, contiguous) are on the queue, slot 3 is FREE. -/
def three_queued : State :=
  (run_session 0 four_slot_session
    [session_op.vsync true true, session_op.vsync true true,
      session_op.vsync true true]).getD four_slot_session

/-- The files of a session in its first chunk (file 7 of movie 1) after 512 bytes of headers
and no frame. -/
def first_chunk : file_state := (rec_task_start good_start no_files).2

/-- The files and the state after one iteration of the main loop on `three_queued` with a
measured write speed of 20 MB/s at 25 fps, all writes complete. -/
def after_burst : Int × file_state × State :=
  (writer_iteration_fs 1 2000 25000 (all_written 3145728) first_chunk three_queued).getD
    (0, first_chunk, three_queued)

/-- The files and the state after a second iteration of the main loop. -/
def after_second_burst : Int × file_state × State :=
  (writer_iteration_fs 1 2000 25000 (all_written 2097152) after_burst.2.1
    after_burst.2.2).getD after_burst

/-- The files of a session whose first chunk (file 7 of movie 1) holds 100 frames and is
one byte short of 4 GiB; the limit of the file system is not known yet. -/
def full_chunk : file_state :=
  { first_chunk with
    written_total := 4294967295, written_chunk := 4294967295, chunk_frame_count := 100 }

/-- A file system on which the write comes up short and no new file can be created. -/
def no_new_chunk : fio_results :=
  { g1 := 0, hdr1 := 0, r := 1, pos := 0, g2 := 0, hdr2 := 0, r2 := 0 }

/-- A file system on which the write comes up short. -/
def short_write : fio_results := { no_new_chunk with g2 := 9, hdr2 := 512 }

/-- A file system on which the write comes up short and the new chunk (file 9, headers of
512 bytes) takes a group of 2048 bytes. -/
def retry_accepted : fio_results := { short_write with r2 := 2048 }

/-- A file system on which the write comes up short and the new chunk (file 9) rejects
its headers. -/
def headers_rejected : fio_results := { short_write with hdr2 := 0 }

/-- The files and the state after an iteration of the main loop on `three_queued` with
`full_chunk`, in which the write of the three frames comes up short and the new chunk
rejects its headers. -/
def after_failed_burst : Int × file_state × State :=
  (writer_iteration_fs 1 0 25000 headers_rejected full_chunk three_queued).getD
    (1, full_chunk, three_queued)

/-- The files and the state after an iteration of the main loop on `three_queued` with
`full_chunk`, in which the write of the three frames comes up short and the new chunk
cannot be created. -/
def after_failed_create : Int × file_state × State :=
  (writer_iteration_fs 1 0 25000 no_new_chunk full_chunk three_queued).getD
    (1, full_chunk, three_queued)

/-! ## The predicted number of frames -/

/-- The state `st` with the values `h` and `l` in the two variables that only the writer
uses: `writing_queue_head` and `last_processed_frame`. -/
def set_writer (h l : Int) (st : State) : State :=
  { st with writing_queue_head := h, last_processed_frame := l }

/-- The place in `raw_video_rec_task` at which the task stands between two steps: the test
of the main recording loop; the test of the loop "group items from the queue in a
contiguous block"; the statements behind that loop, from `num_frames = MOD(...)` on; the
test of the loop "mark these frames as writing"; the call of `write_frames`; the test of the
loop "mark these frames as free"; behind the main loop; the test of the loop "write
remaining frames"; in that loop, the call of `write_frames`, the call of `free_slot` and the
increment of `writing_queue_head`; behind that loop. -/
inductive writer_pc where
  | loop_head
  | grouping
  | throttling
  | marking
  | writing
  | freeing
  | finished
  | flushing
  | flush_writing
  | flush_freeing
  | flush_next
  | done
deriving DecidableEq, Repr

/-- The state of the session and of `raw_video_rec_task`: the variables of the module, the
place of the task, and its local variables `w_head`, `i` (of the loops that group, mark
and release the frames), `after_last_grouped`, `group_size`, `num_frames`, `slot_index` (of
the loop that writes the remaining frames), `w_tail`, `first_slot` and `last_grouped`. -/
structure task_state where
  st : State
  pc : writer_pc
  w_head : Int
  i : Int
  after_last_grouped : Int
  group_size : Int
  num_frames : Int
  slot_index : Int
  w_tail : Int
  first_slot : Int
  last_grouped : Int

/-- What a step of the task reads from outside the state: the variable `lv`, the result of
`frame_check_saved(first_slot)`, `measured_write_speed`, `fps`, and how `write_frames`
ends. -/
structure writer_env where
  lv : Int
  check : Int
  measured_write_speed : Int
  fps : Int
  outcome : write_outcome
deriving DecidableEq, Repr

/-- One step of `raw_video_rec_task` from the place `ts.pc`.

* At the test of the main loop: the loop is left when `RAW_IS_RECORDING && lv` fails or
  `buffer_full` is set; `w_tail` and `w_head` are read; the iteration ends (`continue`) when
  the queue is empty or the first frame is not complete; otherwise `last_grouped = w_head`,
  `group_size = 0` and the grouping loop starts with `i = w_head`.
* In the loop that groups the frames: one pass (when `slots[slot_index].ptr ==
  slots[first_slot].ptr + group_size`: `last_grouped = i`, `group_size +=
  slots[slot_index].size`, next `i`; otherwise `break`), or the end of the loop at
  `i == w_tail`.
* Behind that loop: `num_frames = MOD(last_grouped - w_head + 1, COUNT(writing_queue))`,
  `get_free_slots()`, the throttle of `num_frames`, `after_last_grouped = MOD(w_head +
  num_frames, COUNT(writing_queue))`, and `force_new_buffer = 1` when `after_last_grouped`
  equals `writing_queue_tail`.
* In the loop "mark these frames as writing": one pass (`slots[slot_index].status =
  SLOT_WRITING`, next `i`), or the end of the loop.
* `write_frames`: when it returns 0 the main loop is left.
* In the loop "mark these frames as free": one pass (the check of the frame order,
  `last_processed_frame++`, `free_slot(slot_index)`, next `i`), or the end of the loop
  followed by `writing_queue_head = after_last_grouped`.
* Behind the main loop: `raw_recording_state = RAW_FINISHING`.
* In the loop "write remaining frames": the test of the loop, the check of the frame order,
  `last_processed_frame++` and `slots[slot_index].status = SLOT_WRITING`; then
  `write_frames`, which ends the loop when it returns 0; then `free_slot(slot_index)`; then
  `writing_queue_head = MOD(writing_queue_head + 1, COUNT(writing_queue))`.

Every step returns; the result is an `Option` as the result of a hook is. -/
def writer_step (env : writer_env) (ts : task_state) : Option task_state :=
  let st := ts.st
  match ts.pc with
  | writer_pc.loop_head =>
    if ¬ (RAW_IS_RECORDING st ∧ env.lv ≠ 0) then some { ts with pc := writer_pc.finished }
    else if st.buffer_full ≠ 0 then some { ts with pc := writer_pc.finished }
    else
      let w_tail := st.writing_queue_tail
      let w_head := st.writing_queue_head
      if w_head = w_tail then some ts
      else
        let first_slot := st.writing_queue w_head.toNat
        if env.check = 0 then some ts
        else
          some { ts with
            pc := writer_pc.grouping
            w_tail := w_tail
            w_head := w_head
            first_slot := first_slot
            last_grouped := w_head
            group_size := 0
            i := w_head }
  | writer_pc.grouping =>
    if ts.i ≠ ts.w_tail then
      let slot_index := st.writing_queue ts.i.toNat
      if (st.slots slot_index.toNat).ptr
          = (st.slots ts.first_slot.toNat).ptr + ts.group_size then
        some { ts with
          last_grouped := ts.i
          group_size := ts.group_size + (st.slots slot_index.toNat).size
          i := MOD (ts.i + 1) (COUNT_writing_queue : Int) }
      else some { ts with pc := writer_pc.throttling }
    else some { ts with pc := writer_pc.throttling }
  | writer_pc.throttling =>
    let num_frames0 := MOD (ts.last_grouped - ts.w_head + 1) (COUNT_writing_queue : Int)
    let num_frames :=
      throttle st env.measured_write_speed env.fps ts.group_size num_frames0
    let after_last_grouped := MOD (ts.w_head + num_frames) (COUNT_writing_queue : Int)
    let st1 : State :=
      if after_last_grouped = st.writing_queue_tail then { st with force_new_buffer := 1 }
      else st
    some { ts with
      st := st1
      pc := writer_pc.marking
      i := ts.w_head
      after_last_grouped := after_last_grouped
      num_frames := num_frames }
  | writer_pc.marking =>
    if ts.i ≠ ts.after_last_grouped then
      some { ts with
        st := set_status st (st.writing_queue ts.i.toNat).toNat SLOT_WRITING
        i := MOD (ts.i + 1) (COUNT_writing_queue : Int) }
    else some { ts with pc := writer_pc.writing }
  | writer_pc.writing =>
    let w := write_frames env.outcome st
    if w.1 = 0 then some { ts with st := w.2, pc := writer_pc.finished }
    else some { ts with st := w.2, pc := writer_pc.freeing, i := ts.w_head }
  | writer_pc.freeing =>
    if ts.i ≠ ts.after_last_grouped then
      let slot_index := (st.writing_queue ts.i.toNat).toNat
      some { ts with
        st := free_slot (check_frame_order st slot_index) slot_index
        i := MOD (ts.i + 1) (COUNT_writing_queue : Int) }
    else
      some { ts with
        st := { st with writing_queue_head := ts.after_last_grouped }
        pc := writer_pc.loop_head }
  | writer_pc.finished =>
    some { ts with
      st := { st with raw_recording_state := RAW_FINISHING }
      pc := writer_pc.flushing }
  | writer_pc.flushing =>
    if st.writing_queue_head ≠ st.writing_queue_tail then
      let slot_index := st.writing_queue st.writing_queue_head.toNat
      some { ts with
        st := set_status (check_frame_order st slot_index.toNat) slot_index.toNat SLOT_WRITING
        pc := writer_pc.flush_writing
        slot_index := slot_index }
    else some { ts with pc := writer_pc.done }
  | writer_pc.flush_writing =>
    let w := write_frames env.outcome st
    if w.1 = 0 then some { ts with st := w.2, pc := writer_pc.done }
    else some { ts with st := w.2, pc := writer_pc.flush_freeing }
  | writer_pc.flush_freeing =>
    some { ts with st := free_slot st ts.slot_index.toNat, pc := writer_pc.flush_next }
  | writer_pc.flush_next =>
    some { ts with
      st := { st with
        writing_queue_head := MOD (st.writing_queue_head + 1) (COUNT_writing_queue : Int) }
      pc := writer_pc.flushing }
  | writer_pc.done => some ts

/-- What the other tasks do during a session: a vertical sync (`raw_rec_vsync_cbr`), the
start of the EDMAC copy of a frame by `compress_task` (`edmac_active = 1`), its end
(`edmac_cbr_w`), the compression of the frame in slot `i` to `n` bytes by `compress_task`
(`shrink_slot(i, n)`), the REC key during pre-recording (`pre_record_triggered = 1`), and
the request to stop (`raw_start_stop` when the state is not `RAW_IDLE`). -/
inductive hook_op where
  | vsync (enabled valid : Bool)
  | edmac_start
  | edmac_done
  | compressed (i : Nat) (n : Int)
  | trigger
  | stop_request
deriving DecidableEq, Repr

/-- The effect of a call of a hook on the variables of the module. -/
def hook_step (PTR_INVALID : Int) (st : State) : hook_op → Option State
  | hook_op.vsync enabled valid => raw_rec_vsync_cbr PTR_INVALID enabled valid st
  | hook_op.edmac_start => some { st with edmac_active := 1 }
  | hook_op.edmac_done => some { st with edmac_active := 0 }
  | hook_op.compressed i n => some (shrink_slot st i n)
  | hook_op.trigger =>
    some (if st.raw_recording_state = RAW_PRE_RECORDING then
            { st with pre_record_triggered := 1 }
          else st)
  | hook_op.stop_request =>
    some (if st.raw_recording_state ≠ RAW_IDLE then
            { st with raw_recording_state := RAW_FINISHING }
          else st)

/-- An event of a session: a call of a hook, or the next step of `raw_video_rec_task`. -/
inductive task_op where
  | hook (h : hook_op)
  | writer (env : writer_env)
deriving DecidableEq, Repr

/-- The effect of one event. -/
def task_step (PTR_INVALID : Int) (ts : task_state) : task_op → Option task_state
  | task_op.hook h =>
    match hook_step PTR_INVALID ts.st h with
    | none => none
    | some s => some { ts with st := s }
  | task_op.writer env => writer_step env ts

/-- The effect of a sequence of events; `none` when one of them never returns. -/
def run_task (PTR_INVALID : Int) (ts : task_state) : List task_op → Option task_state
  | [] => some ts
  | op :: ops =>
    match task_step PTR_INVALID ts op with
    | none => none
    | some ts1 => run_task PTR_INVALID ts1 ops

/-- The task at the test of its main loop, with the variables `st` of the module. -/
def task_start (st : State) : task_state :=
  { st := st
    pc := writer_pc.loop_head
    w_head := 0
    i := 0
    after_last_grouped := 0
    group_size := 0
    num_frames := 0
    slot_index := 0
    w_tail := 0
    first_slot := 0
    last_grouped := 0 }

/-- In every step of the task of the sequence `write_frames` writes everything. -/
def complete_writes : task_op → Prop
  | task_op.writer env => env.outcome = write_outcome.ok
  | task_op.hook _ => True

instance (op : task_op) : Decidable (complete_writes op) := by
  cases op <;> unfold complete_writes <;> infer_instance

/-! ## Vocabulary of the statements about the task -/

/-- The index of the queue at which the entries start that the writer has not released:
the index `i` in the loop that releases a written group, the index after
`writing_queue_head` between `free_slot` and the increment of `writing_queue_head` in the
loop that writes the remaining frames, and `writing_queue_head` everywhere else. -/
def position (ts : task_state) : Int :=
  match ts.pc with
  | writer_pc.freeing => ts.i
  | writer_pc.flush_next => MOD (ts.st.writing_queue_head + 1) (COUNT_writing_queue : Int)
  | _ => ts.st.writing_queue_head

/-- The number of frames that the writer has released: `last_processed_frame`, and one
less in the loop that writes the remaining frames between `last_processed_frame++` and
`free_slot`. -/
def released (ts : task_state) : Int :=
  match ts.pc with
  | writer_pc.flush_writing => ts.st.last_processed_frame - 1
  | writer_pc.flush_freeing => ts.st.last_processed_frame - 1
  | _ => ts.st.last_processed_frame

/-- The variables of the module with the queue read from `position` and the count
`released`: the frames that wait for the writer. -/
def pending (ts : task_state) : State :=
  set_writer (position ts) (released ts) ts.st

/-- What holds of the local variables of the task at each place: in the loop that groups
the frames `i`, `w_tail` and `last_grouped` are indices of the queue, `i` and
`last_grouped` not behind `w_tail`, and the entries before `w_tail` are on the queue; in
the loops over a group `i` and `after_last_grouped` are indices of the queue with the
entries between them on the queue; in the loop that writes the remaining frames
`slot_index` is the first entry of the queue. -/
def task_locals (ts : task_state) : Prop :=
  match ts.pc with
  | writer_pc.grouping =>
    ts.w_head = ts.st.writing_queue_head ∧
    ∃ t m n0 : Nat, ts.i = (ts.st.writing_queue_head + t) % 512 ∧
      ts.w_tail = (ts.st.writing_queue_head + m) % 512 ∧
      t ≤ m ∧ m ≤ queue_len (pending ts) ∧ 1 ≤ n0 ∧ n0 ≤ m ∧
      ts.last_grouped = (ts.st.writing_queue_head + n0 - 1) % 512
  | writer_pc.throttling =>
    ts.w_head = ts.st.writing_queue_head ∧
    ∃ n0 : Nat, 1 ≤ n0 ∧ n0 ≤ queue_len (pending ts) ∧
      ts.last_grouped = (ts.st.writing_queue_head + n0 - 1) % 512
  | writer_pc.marking =>
    ts.w_head = ts.st.writing_queue_head ∧
    ∃ t r : Nat, ts.i = (ts.st.writing_queue_head + t) % 512 ∧
      ts.after_last_grouped = (ts.st.writing_queue_head + t + r) % 512 ∧
      t + r ≤ queue_len (pending ts)
  | writer_pc.writing =>
    ts.w_head = ts.st.writing_queue_head ∧
    ∃ m : Nat, ts.after_last_grouped = (ts.st.writing_queue_head + m) % 512 ∧
      m ≤ queue_len (pending ts)
  | writer_pc.freeing =>
    ∃ r : Nat, ts.after_last_grouped = (ts.i + r) % 512 ∧ r ≤ queue_len (pending ts)
  | writer_pc.flush_writing =>
    0 < queue_len (pending ts) ∧ ts.slot_index = queue_slot (pending ts) 0
  | writer_pc.flush_freeing =>
    0 < queue_len (pending ts) ∧ ts.slot_index = queue_slot (pending ts) 0
  | _ => True

/-- Invariant of the task: the frames that wait for the writer have the invariant of the
queue, and the local variables of the task fit the queue. -/
def task_inv (ts : task_state) : Prop :=
  queue_inv (pending ts) ∧ task_locals ts

/-- The events `ops` run from `ts` while the task is inside the iteration of the main loop
that it has begun (marking, writing or releasing a group); the events after the end of that
iteration are not run. -/
def run_burst (PTR_INVALID : Int) : task_state → List task_op → Option task_state
  | ts, [] => some ts
  | ts, op :: ops =>
    if ts.pc = writer_pc.marking ∨ ts.pc = writer_pc.writing ∨ ts.pc = writer_pc.freeing then
      match task_step PTR_INVALID ts op with
      | none => none
      | some ts1 => run_burst PTR_INVALID ts1 ops
    else some ts

/-- What a step of the task from `ts` to `ts'` keeps, `write_frames` ending with `o`: the
invariant of the task; the queue of the frames that wait for the writer, except for entries
removed at its head; and, when `write_frames` writes everything, the invariant of the frame
numbers. -/
def step_kept (o : write_outcome) (ts ts' : task_state) : Prop :=
  task_inv ts' ∧ queue_removed (pending ts) (pending ts') ∧
  (order_inv (pending ts) → o = write_outcome.ok → order_inv (pending ts'))

/-- The task `ts` is inside, or at the end of, an iteration of the main loop that began
on a queue with head `H` and the `L0` entries `E 0`, `E 1`, ..., to write `num` frames:
`after_last_grouped` is `num` entries behind `H`; the task has released the first `d`
entries, none before the loop that releases the group and `num` at the end of the
iteration; and the entries from `E d` on are still on the queue, in this order. -/
def burst_rel (H : Int) (E : Nat → Int) (L0 num : Nat) (ts : task_state) : Prop :=
  task_inv ts ∧ ts.after_last_grouped = (H + num) % 512 ∧
  (ts.pc = writer_pc.marking ∨ ts.pc = writer_pc.writing ∨ ts.pc = writer_pc.freeing ∨
      ts.pc = writer_pc.loop_head →
    ∃ d : Nat, d ≤ num ∧ position ts = (H + d) % 512 ∧
      L0 - d ≤ queue_len (pending ts) ∧
      (∀ k, d ≤ k → k < L0 → queue_slot (pending ts) (k - d) = E k) ∧
      (ts.pc = writer_pc.marking ∨ ts.pc = writer_pc.writing → d = 0) ∧
      (ts.pc = writer_pc.loop_head → d = num))

/-! ## A session that is preempted while the writer releases a group -/

/-- The inputs of a step of the task while live view is on, the first frame of the queue
is complete, no write speed has been measured and `write_frames` writes everything. -/
def steady_env : writer_env :=
  { lv := 1, check := 1, measured_write_speed := 0, fps := 25000,
    outcome := write_outcome.ok }

/-- Events on `fresh_session`: the first vertical sync skips frame 0, four frames are
captured (slots 0 to 3); the task begins an iteration, groups the four frames (four passes
and the end of the loop), computes `num_frames = 4`, marks the frames (four passes and the
end of the loop), writes them and releases the first one, slot 0 (one pass of the loop that
releases the group). -/
def first_release : List task_op :=
  List.replicate 5 (task_op.hook (hook_op.vsync true true)) ++
    List.replicate 14 (task_op.writer steady_env)

/-- The state after `first_release`: the task stands in the loop that releases the group,
with `i = 1`. -/
def after_first_release : task_state :=
  (run_task 0 (task_start fresh_session) first_release).getD (task_start fresh_session)

/-- The events `first_release` and one more vertical sync, which captures frame 5 in the
slot that was just released. -/
def recapture : List task_op :=
  first_release ++ [task_op.hook (hook_op.vsync true true)]

/-- The state after `recapture`. -/
def after_recapture : task_state :=
  (run_task 0 (task_start fresh_session) recapture).getD (task_start fresh_session)

/-- The inputs of a step of the task as in `steady_env`, with a measured write speed of
1 MB/s. -/
def slow_card_env : writer_env := { steady_env with measured_write_speed := 100 }

/-- The steps of the task on `queued_pool` up to the end of the grouping loop: the
beginning of the iteration, two passes that group slots 0 and 1, and the pass that ends the
loop at slot 3. -/
def grouping_steps : List task_op := List.replicate 4 (task_op.writer slow_card_env)

/-- The state of the task on `queued_pool` after `grouping_steps`. -/
def grouped_start : task_state :=
  (run_task 0 (task_start queued_pool) grouping_steps).getD (task_start queued_pool)

/-- The state of the task after the step that throttles `num_frames`, from
`grouped_start`. -/
def throttled_start : task_state :=
  (writer_step slow_card_env grouped_start).getD grouped_start

/-- The events of the rest of the iteration begun in `throttled_start`: the task marks one
frame (one pass and the end of the loop), writes it and releases it (one pass); a vertical
sync captures a frame; the loop that releases the group ends. -/
def throttled_burst : List task_op :=
  List.replicate 4 (task_op.writer slow_card_env) ++
    [task_op.hook (hook_op.vsync true true), task_op.writer slow_card_env]

/-- The state after `throttled_burst`. -/
def throttled_end : task_state :=
  (run_burst 0 throttled_start throttled_burst).getD throttled_start

/-- A table of 100 FREE slots. -/
def hundred_free : State := { boot_state with slot_count := 100 }

/-! ## choose_next_capture_slot: the loop invariant -/

theorem free_run_mono {slots : Nat → frame_slot} {n s l : Nat}
    (h : free_run slots n s l) : free_run slots (n + 1) s l := by
  obtain ⟨h1, h2, h3, h4⟩ := h
  exact ⟨h1, by omega, h3, h4⟩

theorem free_run_last {slots : Nat → frame_slot} {m n s l : Nat}
    (h : free_run slots m s l) (e : s + l = n + 1) : (slots n).status = SLOT_FREE := by
  obtain ⟨h1, _, h3, _⟩ := h
  have := h3 (l - 1) (by omega)
  have e2 : s + (l - 1) = n := by omega
  rwa [e2] at this

theorem free_run_init {slots : Nat → frame_slot} {m n s l : Nat}
    (h : free_run slots m s l) (e : s + l = n + 1) (hl : 2 ≤ l) :
    free_run slots n s (l - 1) ∧ (slots n).ptr = (slots (n - 1)).ptr + (slots (n - 1)).size := by
  obtain ⟨h1, _, h3, h4⟩ := h
  refine ⟨⟨by omega, by omega, fun k hk => h3 k (by omega), fun k hk => h4 k (by omega)⟩, ?_⟩
  have := h4 (l - 2) (by omega)
  have e1 : s + (l - 2) + 1 = n := by omega
  have e2 : s + (l - 2) = n - 1 := by omega
  rwa [e1, e2] at this

theorem free_run_single {slots : Nat → frame_slot} {n : Nat}
    (h : (slots n).status = SLOT_FREE) : free_run slots (n + 1) n 1 := by
  refine ⟨by omega, by omega, fun k hk => ?_, fun k hk => by omega⟩
  have : k = 0 := by omega
  subst this; simpa using h

theorem free_run_extend {slots : Nat → frame_slot} {n L : Nat} (hL : 0 < L)
    (h : free_run slots n (n - L) L) (hf : (slots n).status = SLOT_FREE)
    (hc : (slots n).ptr = (slots (n - 1)).ptr + (slots (n - 1)).size) :
    free_run slots (n + 1) (n - L) (L + 1) := by
  obtain ⟨_, h2, h3, h4⟩ := h
  refine ⟨by omega, by omega, fun k hk => ?_, fun k hk => ?_⟩
  · rcases Nat.lt_or_ge k L with hk2 | hk2
    · exact h3 k hk2
    · have : n - L + k = n := by omega
      rw [this]; exact hf
  · rcases Nat.lt_or_ge (k + 1) L with hk2 | hk2
    · exact h4 k hk2
    · have e1 : n - L + k + 1 = n := by omega
      have e2 : n - L + k = n - 1 := by omega
      rw [e1, e2]; exact hc

theorem scan_inv_step (slots : Nat → frame_slot) (P : Int) (n : Nat) (v : scan_vars)
    (h : scan_inv slots n v) : scan_inv slots (n + 1) (scan_step slots P n v) := by
  obtain ⟨L, B, hlen, hbest, hLB, hLn, hcur, hmax, hB0, hBpos, hall⟩ := h
  unfold scan_step
  by_cases hf : (slots n).status = SLOT_FREE
  · rw [if_pos hf]
    -- runs of the longer prefix that end at n + 1 have length at most `L + 1`
    have hend : ∀ s l, free_run slots (n + 1) s l → s + l = n + 1 → l ≤ L + 1 := by
      intro s l hr e
      rcases Nat.lt_or_ge l 2 with h2 | h2
      · omega
      · have := hmax s (l - 1) (free_run_init hr e h2).1 (by omega)
        omega
    have hsplit : ∀ s l, free_run slots (n + 1) s l → free_run slots n s l ∨ s + l = n + 1 := by
      intro s l hr
      rcases Nat.lt_or_ge (s + l) (n + 1) with h2 | h2
      · left; exact ⟨hr.1, by omega, hr.2.2.1, hr.2.2.2⟩
      · right; have := hr.2.1; omega
    by_cases hc : (slots n).ptr = v.prev_ptr + v.prev_size
    · rw [if_pos hc]; dsimp only
      -- the new current run
      have hrun : free_run slots (n + 1) (n + 1 - (L + 1)) (L + 1) := by
        rcases Nat.eq_zero_or_pos L with h0 | hpos
        · subst h0; simpa using free_run_single hf
        · obtain ⟨hr, hp, hs⟩ := hcur hpos
          have e : n + 1 - (L + 1) = n - L := by omega
          rw [e]
          exact free_run_extend hpos hr hf (by rw [hc, hp, hs])
      by_cases hb : v.len + 1 > v.best_len
      · rw [if_pos hb]
        refine ⟨L + 1, L + 1, by simp [hlen], by simp [hlen], le_refl _, by omega, ?_, ?_,
          by omega, ?_, ?_⟩
        · intro _; exact ⟨hrun, by simp, by simp⟩
        · exact hend
        · intro _
          refine ⟨n + 1 - (L + 1), ?_, hrun⟩
          simp only [hlen]; omega
        · intro s l hr
          rcases hsplit s l hr with h1 | h1
          · have := (hall s l h1).1
            rw [hlen, hbest] at hb
            constructor
            · omega
            · intro e; omega
          · have := hend s l hr h1
            refine ⟨this, fun e => ?_⟩
            simp only [hlen]; omega
      · rw [if_neg hb]
        rw [hlen, hbest] at hb
        refine ⟨L + 1, B, by simp [hlen], hbest, by omega, by omega, ?_, hend, ?_, ?_, ?_⟩
        · intro _; exact ⟨hrun, by simp, by simp⟩
        · intro e; omega
        · intro hBp
          obtain ⟨R, hR, hrR⟩ := hBpos hBp
          exact ⟨R, hR, free_run_mono hrR⟩
        · intro s l hr
          rcases hsplit s l hr with h1 | h1
          · exact hall s l h1
          · have := hend s l hr h1
            refine ⟨by omega, fun e => ?_⟩
            obtain ⟨R, hR, hrR⟩ := hBpos (by omega)
            have := hrR.2.1
            simp only [hR]; omega
    · rw [if_neg hc]; dsimp only
      -- a run of length one starts here
      have hend1 : ∀ s l, free_run slots (n + 1) s l → s + l = n + 1 → l ≤ 1 := by
        intro s l hr e
        by_contra hl
        have h2 : 2 ≤ l := by omega
        obtain ⟨hr2, hcont⟩ := free_run_init hr e h2
        have hL1 := hmax s (l - 1) hr2 (by omega)
        obtain ⟨_, hp, hs⟩ := hcur (by omega)
        exact hc (by rw [hp, hs]; exact hcont)
      by_cases hb : (1 : Int) > v.best_len
      · rw [if_pos hb]
        rw [hbest] at hb
        have hB : B = 0 := by omega
        refine ⟨1, 1, by simp, by simp, le_refl _, by omega, ?_, hend1, by omega, ?_, ?_⟩
        · intro _; exact ⟨by simpa using free_run_single hf, by simp, by simp⟩
        · intro _; exact ⟨n, rfl, free_run_single hf⟩
        · intro s l hr
          rcases hsplit s l hr with h1 | h1
          · have := (hall s l h1).1
            have := h1.1
            omega
          · have := hend1 s l hr h1
            refine ⟨this, fun e => ?_⟩
            simp only; omega
      · rw [if_neg hb]
        rw [hbest] at hb
        refine ⟨1, B, by simp, hbest, by omega, by omega, ?_, hend1, ?_, ?_, ?_⟩
        · intro _; exact ⟨by simpa using free_run_single hf, by simp, by simp⟩
        · intro e; omega
        · intro hBp
          obtain ⟨R, hR, hrR⟩ := hBpos hBp
          exact ⟨R, hR, free_run_mono hrR⟩
        · intro s l hr
          rcases hsplit s l hr with h1 | h1
          · exact hall s l h1
          · have := hend1 s l hr h1
            refine ⟨by omega, fun e => ?_⟩
            obtain ⟨R, hR, hrR⟩ := hBpos (by omega)
            have := hrR.2.1
            simp only [hR]; omega
  · rw [if_neg hf]
    have hno : ∀ s l, free_run slots (n + 1) s l → free_run slots n s l := by
      intro s l hr
      rcases Nat.lt_or_ge (s + l) (n + 1) with h2 | h2
      · exact ⟨hr.1, by omega, hr.2.2.1, hr.2.2.2⟩
      · have := hr.2.1
        exact absurd (free_run_last hr (by omega)) hf
    refine ⟨0, B, by simp, hbest, by omega, by omega, ?_, ?_, hB0, ?_, ?_⟩
    · intro h0; omega
    · intro s l hr e
      exact absurd (free_run_last hr e) hf
    · intro hBp
      obtain ⟨R, hR, hrR⟩ := hBpos hBp
      exact ⟨R, hR, free_run_mono hrR⟩
    · intro s l hr
      exact hall s l (hno s l hr)

theorem scan_inv_loop (slots : Nat → frame_slot) (P : Int) (n : Nat) :
    scan_inv slots n (scan_loop slots P n) := by
  induction n with
  | zero =>
    refine ⟨0, 0, rfl, rfl, le_refl _, le_refl _, ?_, ?_, ?_, ?_, ?_⟩
    · intro h; omega
    · intro s l hr _; have := hr.1; have := hr.2.1; omega
    · intro _; rfl
    · intro h; omega
    · intro s l hr; have := hr.1; have := hr.2.1; omega
  | succ n ih => exact scan_inv_step slots P n _ ih


/-! ## choose_next_capture_slot: results -/

theorem free_run_of_free {slots : Nat → frame_slot} {n j : Nat} (hj : j < n)
    (hf : (slots j).status = SLOT_FREE) : free_run slots n j 1 := by
  refine ⟨by omega, by omega, fun k hk => ?_, fun k hk => by omega⟩
  have : k = 0 := by omega
  subst this; simpa using hf

theorem free_run_start {slots : Nat → frame_slot} {n s l : Nat} (h : free_run slots n s l) :
    s < n ∧ (slots s).status = SLOT_FREE := by
  obtain ⟨h1, h2, h3, _⟩ := h
  exact ⟨by omega, by simpa using h3 0 h1⟩

/-- What the O(n) scan of `choose_next_capture_slot` computes: `-1` when no run of FREE
slots exists, otherwise the least start among the longest runs. -/
theorem scan_loop_best (slots : Nat → frame_slot) (P : Int) (n : Nat) :
    ((∀ s l, ¬ free_run slots n s l) ∧ (scan_loop slots P n).best_index = -1) ∨
    ∃ R L : Nat, (scan_loop slots P n).best_index = R ∧ free_run slots n R L ∧
      ∀ s l, free_run slots n s l → l ≤ L ∧ (l = L → R ≤ s) := by
  obtain ⟨L, B, _, _, _, _, _, _, hB0, hBpos, hall⟩ := scan_inv_loop slots P n
  rcases Nat.eq_zero_or_pos B with h0 | hpos
  · left
    refine ⟨fun s l hr => ?_, hB0 h0⟩
    have := (hall s l hr).1
    have := hr.1
    omega
  · right
    obtain ⟨R, hR, hrR⟩ := hBpos hpos
    refine ⟨R, B, hR, hrR, fun s l hr => ⟨(hall s l hr).1, fun e => ?_⟩⟩
    have := (hall s l hr).2 e
    rw [hR] at this
    exact_mod_cast this

/-- C1. When the O(1) path of `choose_next_capture_slot` does not apply, the returned
index is the start of the longest run of FREE slots that are consecutive in index and
contiguous in memory (run length counted in slots), and among the runs of that
maximal length it is the smallest start; if the pool has no such run at all the
result is `-1`. -/
theorem choose_next_capture_slot_longest_run (PTR_INVALID : Int) (st : State)
    (hslow : ¬ keep_on_rolling st) :
    ((∀ s l, ¬ free_run st.slots st.slot_count s l) ∧
      (choose_next_capture_slot PTR_INVALID st).1 = -1) ∨
    ∃ R L : Nat, (choose_next_capture_slot PTR_INVALID st).1 = R ∧
      free_run st.slots st.slot_count R L ∧
      ∀ s l, free_run st.slots st.slot_count s l → l ≤ L ∧ (l = L → R ≤ s) := by
  unfold choose_next_capture_slot
  rw [if_neg hslow]
  exact scan_loop_best st.slots PTR_INVALID st.slot_count

/-- C1 at `pool_a` (capture slot 4 is the last slot, so the O(1) path does not apply). -/
theorem choose_next_capture_slot_longest_run_witness :
    ¬ keep_on_rolling pool_a ∧
    (((∀ s l, ¬ free_run pool_a.slots pool_a.slot_count s l) ∧
      (choose_next_capture_slot 4294967295 pool_a).1 = -1) ∨
    ∃ R L : Nat, (choose_next_capture_slot 4294967295 pool_a).1 = R ∧
      free_run pool_a.slots pool_a.slot_count R L ∧
      ∀ s l, free_run pool_a.slots pool_a.slot_count s l → l ≤ L ∧ (l = L → R ≤ s)) :=
  ⟨by decide, choose_next_capture_slot_longest_run 4294967295 pool_a (by decide)⟩

/-- C2. For every pool state `choose_next_capture_slot` returns `-1` exactly when no
slot below `slot_count` is FREE, and a result `i ≥ 0` is below `slot_count` and the
index of a FREE slot. -/
theorem choose_next_capture_slot_no_slot_iff (PTR_INVALID : Int) (st : State) :
    ((choose_next_capture_slot PTR_INVALID st).1 = -1 ↔
      ∀ j, j < st.slot_count → (st.slots j).status ≠ SLOT_FREE) ∧
    (0 ≤ (choose_next_capture_slot PTR_INVALID st).1 →
      (choose_next_capture_slot PTR_INVALID st).1 < (st.slot_count : Int) ∧
      (st.slots (choose_next_capture_slot PTR_INVALID st).1.toNat).status = SLOT_FREE) := by
  unfold choose_next_capture_slot
  by_cases hk : keep_on_rolling st
  · rw [if_pos hk]
    obtain ⟨h0, h1, _, h3, _⟩ := hk
    have e : (st.capture_slot + 1).toNat = st.capture_slot.toNat + 1 := by omega
    refine ⟨⟨fun h => by simp only at h; omega, fun h => ?_⟩, fun _ => ⟨h1, ?_⟩⟩
    · exact absurd h3 (h (st.capture_slot.toNat + 1) (by omega))
    · simp only [e]; exact h3
  · rw [if_neg hk]
    rcases scan_loop_best st.slots PTR_INVALID st.slot_count with ⟨hno, hb⟩ | ⟨R, L, hR, hrun, _⟩
    · refine ⟨⟨fun _ j hj hf => hno j 1 (free_run_of_free hj hf), fun _ => hb⟩, fun h => ?_⟩
      simp only [hb] at h; omega
    · obtain ⟨hlt, hfree⟩ := free_run_start hrun
      refine ⟨⟨fun h => ?_, fun h => absurd hfree (h R hlt)⟩, fun _ => ?_⟩
      · simp only [hR] at h; omega
      · simp only [hR]
        exact ⟨by exact_mod_cast hlt, by simpa using hfree⟩

/-- C3. If `capture_slot >= 0`, `capture_slot + 1 < slot_count`, the next slot is FREE
and starts exactly at the end of the capture slot, and `force_new_buffer` is 0, then
`choose_next_capture_slot` returns `capture_slot + 1` and leaves the whole state (every
slot and `force_new_buffer`) as it was; in every other case it returns with
`force_new_buffer = 0` and the slot table unchanged. -/
theorem choose_next_capture_slot_fast_path (PTR_INVALID : Int) (st : State) :
    (st.capture_slot ≥ 0 →
      st.capture_slot + 1 < (st.slot_count : Int) →
      (st.slots (st.capture_slot.toNat + 1)).status = SLOT_FREE →
      (st.slots (st.capture_slot.toNat + 1)).ptr
        = (st.slots st.capture_slot.toNat).ptr + (st.slots st.capture_slot.toNat).size →
      st.force_new_buffer = 0 →
      (choose_next_capture_slot PTR_INVALID st).1 = st.capture_slot + 1 ∧
      (choose_next_capture_slot PTR_INVALID st).2 = st) ∧
    (¬ keep_on_rolling st →
      (choose_next_capture_slot PTR_INVALID st).2.force_new_buffer = 0 ∧
      (choose_next_capture_slot PTR_INVALID st).2.slots = st.slots ∧
      (choose_next_capture_slot PTR_INVALID st).2.slot_count = st.slot_count) := by
  unfold choose_next_capture_slot
  refine ⟨fun h0 h1 h2 h3 h4 => ?_, fun hk => ?_⟩
  · rw [if_pos ⟨h0, h1, h3, h2, h4⟩]
    exact ⟨rfl, rfl⟩
  · rw [if_neg hk]
    exact ⟨rfl, rfl, rfl⟩

/-- C3 at `pool_b` (O(1) path: capture slot 3, slot 4 FREE and adjacent) and at `pool_a`
(fallback). -/
theorem choose_next_capture_slot_fast_path_witness :
    ((choose_next_capture_slot 4294967295 pool_b).1 = 4 ∧
      (choose_next_capture_slot 4294967295 pool_b).2 = pool_b) ∧
    ((choose_next_capture_slot 4294967295 pool_a).2.force_new_buffer = 0 ∧
      (choose_next_capture_slot 4294967295 pool_a).2.slots = pool_a.slots ∧
      (choose_next_capture_slot 4294967295 pool_a).2.slot_count = pool_a.slot_count) :=
  ⟨(choose_next_capture_slot_fast_path 4294967295 pool_b).1
      (by decide) (by decide) (by decide) (by decide) (by decide),
   (choose_next_capture_slot_fast_path 4294967295 pool_a).2 (by decide)⟩

/-! ## shrink_slot: basic facts -/

@[simp] theorem set_slot_same (slots : Nat → frame_slot) (i : Nat) (s : frame_slot) :
    set_slot slots i s i = s := by
  simp [set_slot]

theorem set_slot_other (slots : Nat → frame_slot) (i j : Nat) (s : frame_slot) (h : j ≠ i) :
    set_slot slots i s j = slots j := by
  simp [set_slot, h]

theorem frame_size_padded_dvd (n : Int) : (512 : Int) ∣ frame_size_padded n :=
  Dvd.intro_left _ rfl

theorem frame_size_padded_ge (n : Int) : 64 + n + 4 ≤ frame_size_padded n := by
  unfold frame_size_padded VIDF_HDR_SIZE
  omega

theorem frame_size_padded_least (n m : Int) (hm : (512 : Int) ∣ m) (h : 64 + n + 4 ≤ m) :
    frame_size_padded n ≤ m := by
  obtain ⟨k, rfl⟩ := hm
  unfold frame_size_padded VIDF_HDR_SIZE
  omega

theorem frame_size_padded_pos (n : Int) (hn : 0 ≤ n) : 512 ≤ frame_size_padded n := by
  unfold frame_size_padded VIDF_HDR_SIZE
  omega

/-- The flag `linked` is computed after slot `i` got its new size, but it only reads
slot `i + 1` and the start address of slot `i`, which the head of `shrink_slot` keeps. -/
theorem linked_shrink_head (st : State) (i : Nat) (n old : Int) :
    linked (shrink_head st i n).slots i old ↔ linked st.slots i old := by
  unfold linked shrink_head
  simp [set_slot]

/-- One unfolding of the body of `shrink_slot`. -/
theorem shrink_slot_rec_eq (d : Nat) (st : State) (i : Nat) (n : Int) :
    shrink_slot_rec d st i n =
      if linked st.slots i (st.slots i).size then
        if ((grow_next (shrink_head st i n) i
              ((st.slots i).size - frame_size_padded n)).slots (i + 1)).size
            ≥ st.max_frame_size then
          match d with
          | 0 => grow_next (shrink_head st i n) i ((st.slots i).size - frame_size_padded n)
          | d + 1 =>
            set_status
              (shrink_slot_rec d
                (grow_next (shrink_head st i n) i ((st.slots i).size - frame_size_padded n))
                (i + 1) st.frame_size_uncompressed)
              (i + 1) SLOT_FREE
        else grow_next (shrink_head st i n) i ((st.slots i).size - frame_size_padded n)
      else shrink_head st i n := by
  cases d <;>
  · rw [shrink_slot_rec]
    simp only [linked_shrink_head]
    rfl

theorem shrink_head_slots_other (st : State) (i : Nat) (n : Int) (j : Nat) (h : j ≠ i) :
    (shrink_head st i n).slots j = st.slots j := by
  simp [shrink_head, set_slot, h]

theorem shrink_head_slots_self (st : State) (i : Nat) (n : Int) :
    (shrink_head st i n).slots i =
      { st.slots i with size := frame_size_padded n, payload_size := n } := by
  simp [shrink_head, set_slot]

theorem grow_next_slots_other (st : State) (i : Nat) (d : Int) (j : Nat) (h : j ≠ i + 1) :
    (grow_next st i d).slots j = st.slots j := by
  simp [grow_next, set_slot, h]

theorem grow_next_slots_next (st : State) (i : Nat) (d : Int) :
    (grow_next st i d).slots (i + 1) =
      { st.slots (i + 1) with ptr := (st.slots (i + 1)).ptr - d,
                              size := (st.slots (i + 1)).size + d } := by
  simp [grow_next, set_slot]

theorem set_status_slots_other (st : State) (i : Nat) (v : slot_status) (j : Nat) (h : j ≠ i) :
    (set_status st i v).slots j = st.slots j := by
  simp [set_status, set_slot, h]

theorem set_status_slots_self (st : State) (i : Nat) (v : slot_status) :
    (set_status st i v).slots i = { st.slots i with status := v } := by
  simp [set_status, set_slot]

/-- The recursion of `shrink_slot` never touches a slot below the one it is called on. -/
theorem shrink_slot_rec_below (d : Nat) : ∀ (st : State) (i : Nat) (n : Int) (j : Nat),
    j < i → (shrink_slot_rec d st i n).slots j = st.slots j := by
  induction d with
  | zero =>
    intro st i n j hj
    rw [shrink_slot_rec_eq]
    split_ifs
    · rw [grow_next_slots_other _ _ _ _ (by omega), shrink_head_slots_other _ _ _ _ (by omega)]
    · rw [grow_next_slots_other _ _ _ _ (by omega), shrink_head_slots_other _ _ _ _ (by omega)]
    · rw [shrink_head_slots_other _ _ _ _ (by omega)]
  | succ d ih =>
    intro st i n j hj
    rw [shrink_slot_rec_eq]
    split_ifs
    · rw [set_status_slots_other _ _ _ _ (by omega), ih _ _ _ _ (by omega),
        grow_next_slots_other _ _ _ _ (by omega), shrink_head_slots_other _ _ _ _ (by omega)]
    · rw [grow_next_slots_other _ _ _ _ (by omega), shrink_head_slots_other _ _ _ _ (by omega)]
    · rw [shrink_head_slots_other _ _ _ _ (by omega)]

/-- The slot `shrink_slot` is called on ends with the new size and payload size and is
otherwise unchanged, whatever happens to the slots after it. -/
theorem shrink_slot_rec_self (d : Nat) (st : State) (i : Nat) (n : Int) :
    (shrink_slot_rec d st i n).slots i =
      { st.slots i with size := frame_size_padded n, payload_size := n } := by
  rw [shrink_slot_rec_eq]
  split_ifs
  · cases d with
    | zero =>
      simp only []
      rw [grow_next_slots_other _ _ _ _ (by omega), shrink_head_slots_self]
    | succ d =>
      simp only []
      rw [set_status_slots_other _ _ _ _ (by omega), shrink_slot_rec_below _ _ _ _ _ (by omega),
        grow_next_slots_other _ _ _ _ (by omega), shrink_head_slots_self]
  · rw [grow_next_slots_other _ _ _ _ (by omega), shrink_head_slots_self]
  · rw [shrink_head_slots_self]

/-- C8. For every slot `i` and payload size `n >= 0` such that some multiple of 512 that
is at least `64 + n + 4` is smaller than `slots[i].size` (that is, `64 + n + 4` rounded
up to a multiple of 512 is smaller than the slot), `shrink_slot(i, n)` sets
`slots[i].payload_size = n` and `slots[i].size` to the least multiple of 512 that is
`>= 64 + n + 4`; the new size is smaller than the old one and at least 512, and
`slots[i].ptr` and `slots[i].status` are unchanged. -/
theorem shrink_slot_new_size (st : State) (i : Nat) (n : Int) (hn : 0 ≤ n)
    (hlt : ∃ m : Int, (512 : Int) ∣ m ∧ 64 + n + 4 ≤ m ∧ m < (st.slots i).size) :
    ((shrink_slot st i n).slots i).payload_size = n ∧
    (512 : Int) ∣ ((shrink_slot st i n).slots i).size ∧
    64 + n + 4 ≤ ((shrink_slot st i n).slots i).size ∧
    (∀ m : Int, (512 : Int) ∣ m → 64 + n + 4 ≤ m → ((shrink_slot st i n).slots i).size ≤ m) ∧
    ((shrink_slot st i n).slots i).size < (st.slots i).size ∧
    512 ≤ ((shrink_slot st i n).slots i).size ∧
    ((shrink_slot st i n).slots i).ptr = (st.slots i).ptr ∧
    ((shrink_slot st i n).slots i).status = (st.slots i).status := by
  obtain ⟨m, hm, hge, hlt⟩ := hlt
  unfold shrink_slot
  rw [shrink_slot_rec_self]
  refine ⟨rfl, frame_size_padded_dvd n, frame_size_padded_ge n,
    fun m hm h => frame_size_padded_least n m hm h, ?_, frame_size_padded_pos n hn, rfl, rfl⟩
  exact lt_of_le_of_lt (frame_size_padded_least n m hm hge) hlt

/-- C8 at `pool_c`: slot 0 (2048 bytes) shrunk to a payload of 100 bytes. -/
theorem shrink_slot_new_size_witness :
    ((shrink_slot pool_c 0 100).slots 0).payload_size = 100 ∧
    (512 : Int) ∣ ((shrink_slot pool_c 0 100).slots 0).size ∧
    64 + 100 + 4 ≤ ((shrink_slot pool_c 0 100).slots 0).size ∧
    (∀ m : Int, (512 : Int) ∣ m → 64 + 100 + 4 ≤ m →
      ((shrink_slot pool_c 0 100).slots 0).size ≤ m) ∧
    ((shrink_slot pool_c 0 100).slots 0).size < (pool_c.slots 0).size ∧
    512 ≤ ((shrink_slot pool_c 0 100).slots 0).size ∧
    ((shrink_slot pool_c 0 100).slots 0).ptr = (pool_c.slots 0).ptr ∧
    ((shrink_slot pool_c 0 100).slots 0).status = (pool_c.slots 0).status :=
  shrink_slot_new_size pool_c 0 100 (by decide) ⟨512, by decide, by decide, by decide⟩

/-! ## shrink_slot: the remainder and the following slot -/

theorem shrink_head_max_frame_size (st : State) (i : Nat) (n : Int) :
    (shrink_head st i n).max_frame_size = st.max_frame_size := rfl

/-- When the following slot is linked, its start address moves down by the remainder,
whatever the recursion does afterwards. -/
theorem shrink_slot_rec_next_ptr (d : Nat) (st : State) (i : Nat) (n : Int)
    (hl : linked st.slots i (st.slots i).size) :
    ((shrink_slot_rec d st i n).slots (i + 1)).ptr =
      (st.slots (i + 1)).ptr - ((st.slots i).size - frame_size_padded n) := by
  rw [shrink_slot_rec_eq, if_pos hl]
  split_ifs
  · cases d with
    | zero =>
      simp only []
      rw [grow_next_slots_next, shrink_head_slots_other _ _ _ _ (by omega)]
    | succ d =>
      simp only []
      rw [set_status_slots_self, shrink_slot_rec_self, grow_next_slots_next,
        shrink_head_slots_other _ _ _ _ (by omega)]
  · rw [grow_next_slots_next, shrink_head_slots_other _ _ _ _ (by omega)]

/-- When the following slot is linked and stays below `max_frame_size`, it only grows
by the remainder. -/
theorem shrink_slot_rec_next_small (d : Nat) (st : State) (i : Nat) (n : Int)
    (hl : linked st.slots i (st.slots i).size)
    (hs : (st.slots (i + 1)).size + ((st.slots i).size - frame_size_padded n)
      < st.max_frame_size) :
    shrink_slot_rec d st i n =
      grow_next (shrink_head st i n) i ((st.slots i).size - frame_size_padded n) := by
  rw [shrink_slot_rec_eq, if_pos hl, if_neg]
  rw [grow_next_slots_next, shrink_head_slots_other _ _ _ _ (by omega)]
  simp only [ge_iff_le, not_le]
  exact hs

/-- When the following slot is not linked, only the head of `shrink_slot` is executed. -/
theorem shrink_slot_rec_not_linked (d : Nat) (st : State) (i : Nat) (n : Int)
    (hl : ¬ linked st.slots i (st.slots i).size) :
    shrink_slot_rec d st i n = shrink_head st i n := by
  rw [shrink_slot_rec_eq, if_neg hl]

/-- C6. `shrink_slot(i, n)`, for a slot `i` that has a following table entry, hands the
remainder `d = old_size - new_size` to slot `i+1` exactly when that slot is FREE or
RESERVED and starts at the old end of slot `i`: then the start of slot `i+1` moves down
by `d`, so that it starts at the new end of slot `i`, and, when slot `i+1` stays below
`max_frame_size`, its size grows by exactly `d` and its end address is unchanged.
Otherwise (slot `i+1` FULL or WRITING, or not contiguous) no slot other than slot `i`
is changed. -/
theorem shrink_slot_remainder (st : State) (i : Nat) (n : Int) (hi : i + 1 < COUNT_slots) :
    ((free_or_reserved (st.slots (i + 1)) ∧
        (st.slots (i + 1)).ptr = (st.slots i).ptr + (st.slots i).size) →
      ((shrink_slot st i n).slots (i + 1)).ptr =
        (st.slots (i + 1)).ptr - ((st.slots i).size - frame_size_padded n) ∧
      ((shrink_slot st i n).slots (i + 1)).ptr =
        ((shrink_slot st i n).slots i).ptr + ((shrink_slot st i n).slots i).size ∧
      ((st.slots (i + 1)).size + ((st.slots i).size - frame_size_padded n)
          < st.max_frame_size →
        ((shrink_slot st i n).slots (i + 1)).size =
          (st.slots (i + 1)).size + ((st.slots i).size - frame_size_padded n) ∧
        ((shrink_slot st i n).slots (i + 1)).status = (st.slots (i + 1)).status ∧
        ((shrink_slot st i n).slots (i + 1)).ptr + ((shrink_slot st i n).slots (i + 1)).size =
          (st.slots (i + 1)).ptr + (st.slots (i + 1)).size)) ∧
    (¬ (free_or_reserved (st.slots (i + 1)) ∧
        (st.slots (i + 1)).ptr = (st.slots i).ptr + (st.slots i).size) →
      ∀ j, j ≠ i → (shrink_slot st i n).slots j = st.slots j) := by
  unfold shrink_slot
  refine ⟨fun ⟨hfr, hc⟩ => ?_, fun hnl j hj => ?_⟩
  · have hl : linked st.slots i (st.slots i).size := ⟨hi, hfr, hc⟩
    have hp := shrink_slot_rec_next_ptr (COUNT_slots - i) st i n hl
    refine ⟨hp, ?_, fun hs => ?_⟩
    · rw [hp, shrink_slot_rec_self, hc]
      simp only
      ring
    · rw [shrink_slot_rec_next_small _ st i n hl hs, grow_next_slots_next,
        shrink_head_slots_other _ _ _ _ (by omega)]
      simp only
      exact ⟨trivial, trivial, by ring⟩
  · have hl : ¬ linked st.slots i (st.slots i).size := fun h => hnl ⟨h.2.1, h.2.2⟩
    rw [shrink_slot_rec_not_linked _ st i n hl, shrink_head_slots_other _ _ _ _ hj]

/-- C6 at `pool_c`: slot 1 is FREE and adjacent to slot 0, and the pool state
obtained by marking slot 1 FULL, where nothing but slot 0 changes. -/
theorem shrink_slot_remainder_witness :
    (((shrink_slot pool_c 0 100).slots 1).ptr = (pool_c.slots 1).ptr - (2048 - 512) ∧
      ((shrink_slot pool_c 0 100).slots 1).ptr =
        ((shrink_slot pool_c 0 100).slots 0).ptr + ((shrink_slot pool_c 0 100).slots 0).size) ∧
    (∀ j, j ≠ 0 → (shrink_slot (set_status pool_c 1 SLOT_FULL) 0 100).slots j
      = (set_status pool_c 1 SLOT_FULL).slots j) :=
  ⟨⟨((shrink_slot_remainder pool_c 0 100 (by decide)).1 ⟨by decide, by decide⟩).1,
    ((shrink_slot_remainder pool_c 0 100 (by decide)).1 ⟨by decide, by decide⟩).2.1⟩,
   (shrink_slot_remainder (set_status pool_c 1 SLOT_FULL) 0 100 (by decide)).2 (by decide)⟩

/-! ## shrink_slot: normal form -/

theorem grow_next_max_frame_size (st : State) (i : Nat) (d : Int) :
    (grow_next st i d).max_frame_size = st.max_frame_size := rfl

theorem grow_next_frame_size_uncompressed (st : State) (i : Nat) (d : Int) :
    (grow_next st i d).frame_size_uncompressed = st.frame_size_uncompressed := rfl

theorem shrink_head_frame_size_uncompressed (st : State) (i : Nat) (n : Int) :
    (shrink_head st i n).frame_size_uncompressed = st.frame_size_uncompressed := rfl

/-- The call `shrink_slot` does not write `max_frame_size`. -/
theorem shrink_slot_rec_max_frame_size (d : Nat) : ∀ (st : State) (i : Nat) (n : Int),
    (shrink_slot_rec d st i n).max_frame_size = st.max_frame_size := by
  induction d with
  | zero =>
    intro st i n
    rw [shrink_slot_rec_eq]
    split_ifs <;> rfl
  | succ d ih =>
    intro st i n
    rw [shrink_slot_rec_eq]
    split_ifs
    · show (shrink_slot_rec d _ _ _).max_frame_size = _
      rw [ih]; rfl
    · rfl
    · rfl

/-- The slots from `i + 2` on are those of the recursive call, when there is one. -/
theorem linked_grow_next (st : State) (i : Nat) (n : Int)
    (h2 : i + 2 < COUNT_slots) (hfr : free_or_reserved (st.slots (i + 2)))
    (hc : (st.slots (i + 2)).ptr = (st.slots (i + 1)).ptr + (st.slots (i + 1)).size) :
    linked (grow_next (shrink_head st i n) i ((st.slots i).size - frame_size_padded n)).slots
      (i + 1)
      ((grow_next (shrink_head st i n) i
        ((st.slots i).size - frame_size_padded n)).slots (i + 1)).size := by
  refine ⟨h2, ?_, ?_⟩
  · rw [grow_next_slots_other _ _ _ _ (by omega), shrink_head_slots_other _ _ _ _ (by omega)]
    exact hfr
  · rw [grow_next_slots_other _ _ _ _ (by omega), shrink_head_slots_other _ _ _ _ (by omega),
      grow_next_slots_next, shrink_head_slots_other _ _ _ _ (by omega), hc]
    simp only
    ring

/-- Every slot after the one `shrink_slot` is called on is in normal form afterwards, if it
was before, provided the new size is not larger than the old one. -/
theorem shrink_slot_rec_normal_after (N : Nat) (d : Nat) : ∀ (st : State) (i : Nat) (n : Int),
    st.max_frame_size = frame_size_padded st.frame_size_uncompressed →
    frame_size_padded n ≤ (st.slots i).size →
    COUNT_slots ≤ i + d + 1 →
    (∀ j, i < j → j < N → normal_form st.max_frame_size (st.slots j)) →
    ∀ j, i < j → j < N →
      normal_form st.max_frame_size ((shrink_slot_rec d st i n).slots j) := by
  induction d with
  | zero =>
    intro st i n _ _ hd hnf j hij hjN
    have hl : ¬ linked st.slots i (st.slots i).size := fun h => by
      have := h.1; omega
    rw [shrink_slot_rec_not_linked _ _ _ _ hl, shrink_head_slots_other _ _ _ _ (by omega)]
    exact hnf j hij hjN
  | succ d ih =>
    intro st i n hcfg hle hd hnf j hij hjN
    by_cases hl : linked st.slots i (st.slots i).size
    · by_cases hs : (st.slots (i + 1)).size + ((st.slots i).size - frame_size_padded n)
          < st.max_frame_size
      · rw [shrink_slot_rec_next_small _ _ _ _ hl hs]
        by_cases hj : j = i + 1
        · subst hj
          rw [grow_next_slots_next, shrink_head_slots_other _ _ _ _ (by omega)]
          obtain ⟨hF, _⟩ := hnf (i + 1) hij hjN
          refine ⟨fun hfree => ?_, fun _ => hs⟩
          have := hF hfree
          simp only at *
          omega
        · rw [grow_next_slots_other _ _ _ _ hj, shrink_head_slots_other _ _ _ _ (by omega)]
          exact hnf j hij hjN
      · rw [shrink_slot_rec_eq, if_pos hl, if_pos]
        swap
        · rw [grow_next_slots_next, shrink_head_slots_other _ _ _ _ (by omega)]
          simp only [ge_iff_le]
          omega
        simp only []
        by_cases hj : j = i + 1
        · subst hj
          rw [set_status_slots_self, shrink_slot_rec_self]
          refine ⟨fun _ => ?_, fun h => by simp at h⟩
          simp only [grow_next_frame_size_uncompressed, shrink_head_frame_size_uncompressed]
          exact hcfg.symm
        · rw [set_status_slots_other _ _ _ _ hj]
          have key := ih
            (grow_next (shrink_head st i n) i ((st.slots i).size - frame_size_padded n))
            (i + 1) st.frame_size_uncompressed hcfg
            (by
              rw [grow_next_slots_next, shrink_head_slots_other _ _ _ _ (by omega)]
              simp only
              rw [← hcfg]
              omega)
            (by omega)
            (fun k hk hkN => by
              rw [grow_next_slots_other _ _ _ _ (by omega),
                shrink_head_slots_other _ _ _ _ (by omega)]
              exact hnf k (by omega) hkN)
            j (by omega) hjN
          exact key
    · rw [shrink_slot_rec_not_linked _ _ _ _ hl, shrink_head_slots_other _ _ _ _ (by omega)]
      exact hnf j hij hjN

/-- A linked following slot that the remainder makes reach `max_frame_size` ends FREE
with the standard size and payload size. -/
theorem shrink_slot_rec_next_big (d : Nat) (st : State) (i : Nat) (n : Int)
    (hl : linked st.slots i (st.slots i).size)
    (hs : st.max_frame_size ≤
      (st.slots (i + 1)).size + ((st.slots i).size - frame_size_padded n)) :
    (shrink_slot_rec (d + 1) st i n).slots (i + 1) =
      { st.slots (i + 1) with
        ptr := (st.slots (i + 1)).ptr - ((st.slots i).size - frame_size_padded n)
        size := frame_size_padded st.frame_size_uncompressed
        payload_size := st.frame_size_uncompressed
        status := SLOT_FREE } := by
  rw [shrink_slot_rec_eq, if_pos hl, if_pos]
  · simp only []
    rw [set_status_slots_self, shrink_slot_rec_self, grow_next_slots_next,
      shrink_head_slots_other _ _ _ _ (by omega)]
  · rw [grow_next_slots_next, shrink_head_slots_other _ _ _ _ (by omega)]
    simp only [ge_iff_le]
    exact hs

/-- The slot after a following slot that is normalised: the surplus of the following
slot reaches it when it is linked in turn. -/
theorem shrink_slot_rec_next_next (d : Nat) (st : State) (i : Nat) (n : Int)
    (hl : linked st.slots i (st.slots i).size)
    (hs : st.max_frame_size ≤
      (st.slots (i + 1)).size + ((st.slots i).size - frame_size_padded n))
    (h2 : i + 2 < COUNT_slots) (hfr : free_or_reserved (st.slots (i + 2)))
    (hc : (st.slots (i + 2)).ptr = (st.slots (i + 1)).ptr + (st.slots (i + 1)).size) :
    ((shrink_slot_rec (d + 1) st i n).slots (i + 2)).ptr =
      (st.slots (i + 2)).ptr -
        ((st.slots (i + 1)).size + ((st.slots i).size - frame_size_padded n)
          - frame_size_padded st.frame_size_uncompressed) := by
  rw [shrink_slot_rec_eq, if_pos hl, if_pos]
  · simp only []
    rw [set_status_slots_other _ _ _ _ (by omega),
      shrink_slot_rec_next_ptr _ _ _ _ (linked_grow_next st i n h2 hfr hc),
      grow_next_slots_other _ _ _ _ (by omega), shrink_head_slots_other _ _ _ _ (by omega),
      grow_next_slots_next, shrink_head_slots_other _ _ _ _ (by omega)]
  · rw [grow_next_slots_next, shrink_head_slots_other _ _ _ _ (by omega)]
    simp only [ge_iff_le]
    exact hs

/-- `shrink_slot` preserves the normal form of the pool when the call is the one its
assertion describes: `max_frame_size` is the padded size of `frame_size_uncompressed` (as
`update_resolution_params` sets them), the new size does not exceed the old one (the
code asserts `dif_size > 0`) and slot `i` is not FREE (it holds the frame that was
compressed).  If before the call every FREE slot below `N` has size exactly
`max_frame_size` and every RESERVED slot below `N` has size `< max_frame_size`, the same
holds after the call (`N` is any bound: `slot_count` or `COUNT(slots)`).  In particular a
linked following slot that the remainder makes reach `max_frame_size` or more ends up
FREE with size exactly `max_frame_size` and payload size `frame_size_uncompressed`, and
its own surplus moves the start of the slot after it (when that one is linked in turn)
down to its new end. -/
theorem shrink_slot_normal_form (st : State) (i : Nat) (n : Int) (N : Nat)
    (hcfg : st.max_frame_size = frame_size_padded st.frame_size_uncompressed)
    (hle : frame_size_padded n ≤ (st.slots i).size)
    (hst : (st.slots i).status ≠ SLOT_FREE)
    (hnf : ∀ j, j < N → normal_form st.max_frame_size (st.slots j)) :
    (shrink_slot st i n).max_frame_size = st.max_frame_size ∧
    (∀ j, j < N → normal_form st.max_frame_size ((shrink_slot st i n).slots j)) ∧
    (i + 1 < COUNT_slots → free_or_reserved (st.slots (i + 1)) →
      (st.slots (i + 1)).ptr = (st.slots i).ptr + (st.slots i).size →
      st.max_frame_size ≤ (st.slots (i + 1)).size + ((st.slots i).size - frame_size_padded n) →
      ((shrink_slot st i n).slots (i + 1)).status = SLOT_FREE ∧
      ((shrink_slot st i n).slots (i + 1)).size = st.max_frame_size ∧
      ((shrink_slot st i n).slots (i + 1)).payload_size = st.frame_size_uncompressed ∧
      (i + 2 < COUNT_slots → free_or_reserved (st.slots (i + 2)) →
        (st.slots (i + 2)).ptr = (st.slots (i + 1)).ptr + (st.slots (i + 1)).size →
        ((shrink_slot st i n).slots (i + 2)).ptr =
          (st.slots (i + 2)).ptr -
            ((st.slots (i + 1)).size + ((st.slots i).size - frame_size_padded n)
              - st.max_frame_size) ∧
        ((shrink_slot st i n).slots (i + 2)).ptr =
          ((shrink_slot st i n).slots (i + 1)).ptr
            + ((shrink_slot st i n).slots (i + 1)).size)) := by
  unfold shrink_slot
  refine ⟨shrink_slot_rec_max_frame_size _ _ _ _, fun j hj => ?_, fun h1 hfr hc hbig => ?_⟩
  · rcases Nat.lt_trichotomy j i with h | h | h
    · rw [shrink_slot_rec_below _ _ _ _ _ h]
      exact hnf j hj
    · subst h
      rw [shrink_slot_rec_self]
      obtain ⟨_, hR⟩ := hnf j hj
      refine ⟨fun hf => absurd hf hst, fun hr => ?_⟩
      have := hR hr
      simp only
      omega
    · exact shrink_slot_rec_normal_after N _ st i n hcfg hle (by omega)
        (fun k _ hk => hnf k hk) j h hj
  · have hl : linked st.slots i (st.slots i).size := ⟨h1, hfr, hc⟩
    obtain ⟨d, hd⟩ : ∃ d, COUNT_slots - i = d + 1 := ⟨COUNT_slots - i - 1, by omega⟩
    rw [hd]
    have hnext := shrink_slot_rec_next_big d st i n hl hbig
    refine ⟨by rw [hnext], by rw [hnext]; exact hcfg.symm, by rw [hnext], ?_⟩
    intro h2 hfr2 hc2
    have hnn := shrink_slot_rec_next_next d st i n hl hbig h2 hfr2 hc2
    refine ⟨by rw [hnn, hcfg], ?_⟩
    rw [hnn, hnext, hc2]
    simp only
    ring

/-- At `pool_c`: slot 0 (FULL, 2048 bytes) shrunk to 512 bytes; slots 1 and 2 are
FREE and are normalised in turn, the remainder ends in the RESERVED slot 3. -/
theorem shrink_slot_normal_form_pool_c :
    (shrink_slot pool_c 0 100).max_frame_size = pool_c.max_frame_size ∧
    (∀ j, j < 6 → normal_form pool_c.max_frame_size ((shrink_slot pool_c 0 100).slots j)) :=
  ⟨(shrink_slot_normal_form pool_c 0 100 6 (by decide) (by decide) (by decide) (by decide)).1,
   (shrink_slot_normal_form pool_c 0 100 6 (by decide) (by decide) (by decide) (by decide)).2.1⟩

/-- C7 (evaluation of the code at the failing input): in `pool_c` (slots of 2048 bytes for
frames of 1980 bytes, in normal form) `compress_task` gets a compressed size of 2000 bytes
for the frame in slot 0, which passes its `ASSERT(compressed_size < max_frame_size)`, and
calls `shrink_slot(0, 2000)`.  The padded size is 2560, more than the 2048 bytes of the
slot, so `dif_size = -512` (`ASSERT(dif_size > 0)` fails): slot 0 gets the size 2560, the
linked FREE slot 1 is moved up to 6656 and left FREE with 1536 bytes, less than
`max_frame_size`.  The normal form is lost. -/
theorem shrink_slot_grows_into_free_slot :
    (2000 : Int) < pool_c.max_frame_size ∧
    frame_size_padded 2000 = 2560 ∧
    (pool_c.slots 0).size = 2048 ∧ (pool_c.slots 0).status = SLOT_FULL ∧
    (∀ j, j < 6 → normal_form pool_c.max_frame_size (pool_c.slots j)) ∧
    ((shrink_slot pool_c 0 2000).slots 0).size = 2560 ∧
    ((shrink_slot pool_c 0 2000).slots 1).status = SLOT_FREE ∧
    ((shrink_slot pool_c 0 2000).slots 1).ptr = 6656 ∧
    ((shrink_slot pool_c 0 2000).slots 1).size = 1536 ∧
    (shrink_slot pool_c 0 2000).max_frame_size = 2048 ∧
    ¬ normal_form (shrink_slot pool_c 0 2000).max_frame_size
      ((shrink_slot pool_c 0 2000).slots 1) :=
  ⟨by decide, by decide, by decide, by decide, by decide, by decide, by decide, by decide,
    by decide, by decide, by decide⟩

/-! ## free_slot -/

/-- C9. `free_slot` on a slot whose size equals `max_frame_size` sets the status of that
slot to FREE and changes nothing else: its `ptr`, `size`, `payload_size` and
`frame_number`, every other slot, `slot_count` and the queue (entries, head and tail)
are as before. -/
theorem free_slot_standard_size (st : State) (i : Nat)
    (h : (st.slots i).size = st.max_frame_size) :
    ((free_slot st i).slots i).status = SLOT_FREE ∧
    ((free_slot st i).slots i).ptr = (st.slots i).ptr ∧
    ((free_slot st i).slots i).size = (st.slots i).size ∧
    ((free_slot st i).slots i).payload_size = (st.slots i).payload_size ∧
    ((free_slot st i).slots i).frame_number = (st.slots i).frame_number ∧
    (∀ j, j ≠ i → (free_slot st i).slots j = st.slots j) ∧
    (free_slot st i).slot_count = st.slot_count ∧
    (free_slot st i).writing_queue = st.writing_queue ∧
    (free_slot st i).writing_queue_head = st.writing_queue_head ∧
    (free_slot st i).writing_queue_tail = st.writing_queue_tail ∧
    (free_slot st i).capture_slot = st.capture_slot ∧
    (free_slot st i).force_new_buffer = st.force_new_buffer ∧
    (free_slot st i).frame_count = st.frame_count ∧
    (free_slot st i).max_frame_size = st.max_frame_size := by
  have hsz : ((set_status st i SLOT_RESERVED).slots i).size
      = (set_status st i SLOT_RESERVED).max_frame_size := by
    rw [set_status_slots_self]; exact h
  unfold free_slot
  simp only [if_pos hsz]
  refine ⟨?_, ?_, ?_, ?_, ?_, fun j hj => ?_, rfl, rfl, rfl, rfl, rfl, rfl, rfl, rfl⟩
  · rw [set_status_slots_self]
  · rw [set_status_slots_self, set_status_slots_self]
  · rw [set_status_slots_self, set_status_slots_self]
  · rw [set_status_slots_self, set_status_slots_self]
  · rw [set_status_slots_self, set_status_slots_self]
  · rw [set_status_slots_other _ _ _ _ hj, set_status_slots_other _ _ _ _ hj]

/-- C9 at `pool_c`: slot 0 is FULL and has the standard size. -/
theorem free_slot_standard_size_witness :
    (pool_c.slots 0).size = pool_c.max_frame_size ∧
    ((free_slot pool_c 0).slots 0).status = SLOT_FREE ∧
    (∀ j, j ≠ 0 → (free_slot pool_c 0).slots j = pool_c.slots j) :=
  ⟨by decide, (free_slot_standard_size pool_c 0 (by decide)).1,
    (free_slot_standard_size pool_c 0 (by decide)).2.2.2.2.2.1⟩

/-! ### The two scans of free_slot -/

/-- The backwards scan of `free_slot` stops at the start of the run of linked slots
that ends at `i`. -/
theorem find_first_spec (slots : Nat → frame_slot) : ∀ i : Nat,
    find_first slots i ≤ i ∧
    (∀ j, find_first slots i ≤ j → j < i → free_or_reserved (slots j) ∧ adjacent slots j) ∧
    (find_first slots i = 0 ∨
      ¬ (free_or_reserved (slots (find_first slots i - 1)) ∧
          adjacent slots (find_first slots i - 1))) := by
  intro i
  induction i with
  | zero => exact ⟨le_refl _, fun j _ hj => by omega, Or.inl rfl⟩
  | succ i ih =>
    obtain ⟨h1, h2, h3⟩ := ih
    by_cases hc : free_or_reserved (slots i) ∧ (slots (i + 1)).ptr = (slots i).ptr + (slots i).size
    · have e : find_first slots (i + 1) = find_first slots i := by
        rw [find_first, if_pos hc]
      rw [e]
      refine ⟨by omega, fun j hj hji => ?_, h3⟩
      rcases Nat.lt_or_ge j i with h | h
      · exact h2 j hj h
      · have : j = i := by omega
        subst this
        exact hc
    · have e : find_first slots (i + 1) = i + 1 := by
        rw [find_first, if_neg hc]
      rw [e]
      exact ⟨le_refl _, fun j hj hji => by omega, Or.inr (by simpa using hc)⟩

/-- The forwards scan of `free_slot`, given enough iterations, stops at the end of the run
of linked slots that starts at `i`. -/
theorem find_last_spec (slots : Nat → frame_slot) : ∀ (n i : Nat), COUNT_slots ≤ i + n →
    i ≤ find_last slots n i ∧
    (i < COUNT_slots → find_last slots n i < COUNT_slots) ∧
    (∀ j, i ≤ j → j < find_last slots n i →
      free_or_reserved (slots (j + 1)) ∧ adjacent slots j) ∧
    (COUNT_slots ≤ find_last slots n i + 1 ∨
      ¬ (free_or_reserved (slots (find_last slots n i + 1)) ∧
          adjacent slots (find_last slots n i))) := by
  intro n
  induction n with
  | zero =>
    intro i hi
    exact ⟨le_refl _, fun h => by omega, fun j h1 h2 => by simp [find_last] at h2; omega,
      Or.inl (by simp [find_last]; omega)⟩
  | succ n ih =>
    intro i hi
    by_cases hc : i + 1 < COUNT_slots ∧ free_or_reserved (slots (i + 1)) ∧
        (slots (i + 1)).ptr = (slots i).ptr + (slots i).size
    · have e : find_last slots (n + 1) i = find_last slots n (i + 1) := by
        rw [find_last, if_pos hc]
      rw [e]
      obtain ⟨h1, h2, h3, h4⟩ := ih (i + 1) (by omega)
      refine ⟨by omega, fun _ => h2 hc.1, fun j hj hjl => ?_, h4⟩
      rcases Nat.lt_or_ge i j with h | h
      · exact h3 j h hjl
      · have : j = i := by omega
        subst this
        exact ⟨hc.2.1, hc.2.2⟩
    · have e : find_last slots (n + 1) i = i := by
        rw [find_last, if_neg hc]
      rw [e]
      refine ⟨le_refl _, fun h => h, fun j h1 h2 => by omega, ?_⟩
      by_cases hlt : i + 1 < COUNT_slots
      · right
        intro h
        exact hc ⟨hlt, h.1, h.2⟩
      · left; omega

/-- The maximal run around a slot is unique: it is the one the two scans of `free_slot`
find. -/
theorem run_around_unique (slots : Nat → frame_slot) (i s e : Nat)
    (h : run_around slots i s e) :
    s = find_first slots i ∧ e = find_last slots (COUNT_slots - i) i := by
  obtain ⟨hsi, hie, heC, hback, hfwd, hsmax, hemax⟩ := h
  obtain ⟨f1, f2, f3⟩ := find_first_spec slots i
  obtain ⟨l1, l2, l3, l4⟩ := find_last_spec slots (COUNT_slots - i) i (by omega)
  have l2 := l2 (by omega)
  constructor
  · rcases Nat.lt_trichotomy s (find_first slots i) with h | h | h
    · rcases f3 with f3 | f3
      · omega
      · exact absurd (hback (find_first slots i - 1) (by omega) (by omega)) f3
    · exact h
    · rcases hsmax with hs | hs
      · omega
      · exact absurd (f2 (s - 1) (by omega) (by omega)) hs
  · rcases Nat.lt_trichotomy e (find_last slots (COUNT_slots - i) i) with h | h | h
    · rcases hemax with he | he
      · omega
      · exact absurd (l3 e hie h) he
    · exact h
    · rcases l4 with l4 | l4
      · omega
      · exact absurd (hfwd (find_last slots (COUNT_slots - i) i) l1 h) l4

/-! ### The re-partition loop of free_slot -/

theorem repartition_succ (M E : Int) (n a : Nat) (p : Int) (slots : Nat → frame_slot) :
    repartition M E (n + 1) a p slots =
      repartition M E n (a + 1)
        (p + (if p + M ≤ E then
                ({ slots a with ptr := p, status := SLOT_FREE, size := M } : frame_slot)
              else { slots a with ptr := p, status := SLOT_RESERVED, size := E - p }).size)
        (set_slot slots a
          (if p + M ≤ E then
            ({ slots a with ptr := p, status := SLOT_FREE, size := M } : frame_slot)
           else { slots a with ptr := p, status := SLOT_RESERVED, size := E - p })) := rfl

/-- The loop writes only the slots it iterates over. -/
theorem repartition_outside (M E : Int) : ∀ (n a : Nat) (p : Int) (slots : Nat → frame_slot)
    (j : Nat), j < a ∨ a + n ≤ j → repartition M E n a p slots j = slots j := by
  intro n
  induction n with
  | zero => intro a p slots j _; rfl
  | succ n ih =>
    intro a p slots j hj
    rw [repartition_succ, ih _ _ _ _ (by omega), set_slot_other _ _ _ _ (by omega)]

/-- Closed form of the re-partition loop: with `E - p = q * M + r` and `0 ≤ r < M`, the
first `q` slots become FREE slots of size `M`, the next one a RESERVED slot of size `r`,
the others RESERVED slots of size 0 at the end address. -/
theorem repartition_spec (M E : Int) (hM : 0 < M) :
    ∀ (n a : Nat) (p : Int) (slots : Nat → frame_slot) (q : Nat) (r : Int),
    E - p = q * M + r → 0 ≤ r → r < M → ∀ t, t < n →
    (t < q → repartition M E n a p slots (a + t) =
      { slots (a + t) with ptr := p + t * M, status := SLOT_FREE, size := M }) ∧
    (t = q → repartition M E n a p slots (a + t) =
      { slots (a + t) with ptr := p + q * M, status := SLOT_RESERVED, size := r }) ∧
    (q < t → repartition M E n a p slots (a + t) =
      { slots (a + t) with ptr := E, status := SLOT_RESERVED, size := 0 }) := by
  intro n
  induction n with
  | zero => intro a p slots q r _ _ _ t ht; omega
  | succ n ih =>
    intro a p slots q r hE hr0 hrM t ht
    rw [repartition_succ]
    by_cases hfit : p + M ≤ E
    · -- a whole frame fits: `q ≥ 1`
      rw [if_pos hfit]
      obtain ⟨q', rfl⟩ : ∃ q', q = q' + 1 := by
        rcases Nat.eq_zero_or_pos q with h0 | hpos
        · subst h0; simp at hE; omega
        · exact ⟨q - 1, by omega⟩
      have hE' : E - (p + M) = q' * M + r := by push_cast at hE; linarith
      cases t with
      | zero =>
        rw [repartition_outside _ _ _ _ _ _ _ (by omega)]
        refine ⟨fun _ => ?_, fun h => by omega, fun h => by omega⟩
        simp
      | succ t =>
        have e : a + (t + 1) = a + 1 + t := by omega
        rw [e]
        obtain ⟨i1, i2, i3⟩ := ih (a + 1) (p + M) (set_slot slots a _) q' r hE' hr0 hrM t
          (by omega)
        have hs : ∀ s1, set_slot slots a s1 (a + 1 + t) = slots (a + 1 + t) :=
          fun s1 => set_slot_other _ _ _ _ (by omega)
        refine ⟨fun h => ?_, fun h => ?_, fun h => ?_⟩
        · rw [i1 (by omega), hs]; push_cast; congr 1; ring
        · rw [i2 (by omega), hs]; push_cast; congr 1; ring
        · rw [i3 (by omega), hs]
    · -- no whole frame fits: `q = 0`
      rw [if_neg hfit]
      have hq : q = 0 := by
        rcases Nat.eq_zero_or_pos q with h0 | hpos
        · exact h0
        · exfalso
          obtain ⟨q', rfl⟩ : ∃ q', q = q' + 1 := ⟨q - 1, by omega⟩
          have : (0 : Int) ≤ (q' : Int) * M := mul_nonneg (by positivity) (le_of_lt hM)
          push_cast at hE
          apply hfit
          linarith
      subst hq
      have hr : E - p = r := by simpa using hE
      cases t with
      | zero =>
        rw [repartition_outside _ _ _ _ _ _ _ (by omega)]
        refine ⟨fun h => by omega, fun _ => ?_, fun h => by omega⟩
        simp [hr]
      | succ t =>
        have e : a + (t + 1) = a + 1 + t := by omega
        rw [e]
        have hE' : E - (p + (E - p)) = ((0 : Nat) : Int) * M + 0 := by simp
        obtain ⟨_, i2, i3⟩ := ih (a + 1) (p + (E - p)) (set_slot slots a _) 0 0 hE'
          (le_refl _) hM t (by omega)
        have hs : ∀ s1, set_slot slots a s1 (a + 1 + t) = slots (a + 1 + t) :=
          fun s1 => set_slot_other _ _ _ _ (by omega)
        refine ⟨fun h => by omega, fun h => by omega, fun _ => ?_⟩
        rcases Nat.eq_zero_or_pos t with h0 | hpos
        · rw [i2 h0, hs]; simp
        · rw [i3 hpos, hs]

/-! ### Sums of sizes along a run -/

theorem sum_sizes_chain (slots : Nat → frame_slot) (s : Nat) : ∀ n : Nat,
    (∀ j, s ≤ j → j < s + n → adjacent slots j) →
    (slots (s + n)).ptr = (slots s).ptr + sum_sizes slots s n := by
  intro n
  induction n with
  | zero => intro _; simp [sum_sizes]
  | succ n ih =>
    intro h
    have h1 := ih (fun j hj hjn => h j hj (by omega))
    have h2 : adjacent slots (s + n) := h (s + n) (by omega) (by omega)
    unfold adjacent at h2
    rw [sum_sizes, ← add_assoc, h2, h1]
    ring

theorem sum_sizes_nonneg (slots : Nat → frame_slot) (s : Nat) : ∀ n : Nat,
    (∀ j, s ≤ j → j < s + n → 0 ≤ (slots j).size) → 0 ≤ sum_sizes slots s n := by
  intro n
  induction n with
  | zero => intro _; simp [sum_sizes]
  | succ n ih =>
    intro h
    have h1 := ih (fun j hj hjn => h j hj (by omega))
    have h2 := h (s + n) (by omega) (by omega)
    rw [sum_sizes]
    omega

theorem sum_sizes_le (slots : Nat → frame_slot) (M : Int) (s : Nat) : ∀ n : Nat,
    (∀ j, s ≤ j → j < s + n → (slots j).size ≤ M) → sum_sizes slots s n ≤ n * M := by
  intro n
  induction n with
  | zero => intro _; simp [sum_sizes]
  | succ n ih =>
    intro h
    have h1 := ih (fun j hj hjn => h j hj (by omega))
    have h2 := h (s + n) (by omega) (by omega)
    rw [sum_sizes]
    push_cast
    linarith

theorem sum_sizes_lt (slots : Nat → frame_slot) (M : Int) (s i : Nat) : ∀ n : Nat,
    (∀ j, s ≤ j → j < s + n → (slots j).size ≤ M) → s ≤ i → i < s + n →
    (slots i).size < M → sum_sizes slots s n < n * M := by
  intro n
  induction n with
  | zero => intro _ _ h _; omega
  | succ n ih =>
    intro h hsi hin hlt
    have h2 := h (s + n) (by omega) (by omega)
    rw [sum_sizes]
    push_cast
    rcases Nat.lt_or_ge i (s + n) with hi | hi
    · have h1 := ih (fun j hj hjn => h j hj (by omega)) hsi hi hlt
      linarith
    · have e : i = s + n := by omega
      subst e
      have h1 := sum_sizes_le slots M s n (fun j hj hjn => h j hj (by omega))
      linarith

theorem set_status_ptr (st : State) (i : Nat) (v : slot_status) (j : Nat) :
    ((set_status st i v).slots j).ptr = (st.slots j).ptr := by
  by_cases h : j = i
  · subst h; rw [set_status_slots_self]
  · rw [set_status_slots_other _ _ _ _ h]

theorem set_status_size (st : State) (i : Nat) (v : slot_status) (j : Nat) :
    ((set_status st i v).slots j).size = (st.slots j).size := by
  by_cases h : j = i
  · subst h; rw [set_status_slots_self]
  · rw [set_status_slots_other _ _ _ _ h]

theorem set_status_adjacent (st : State) (i : Nat) (v : slot_status) (j : Nat) :
    adjacent (set_status st i v).slots j ↔ adjacent st.slots j := by
  unfold adjacent
  rw [set_status_ptr, set_status_ptr, set_status_size]

/-- The run around slot `i` does not depend on the status of slot `i`. -/
theorem run_around_set_status (st : State) (i s e : Nat) (v : slot_status)
    (h : run_around st.slots i s e) : run_around (set_status st i v).slots i s e := by
  obtain ⟨hsi, hie, heC, hback, hfwd, hsmax, hemax⟩ := h
  refine ⟨hsi, hie, heC, fun j h1 h2 => ?_, fun j h1 h2 => ?_, ?_, ?_⟩
  · rw [set_status_slots_other _ _ _ _ (by omega), set_status_adjacent]
    exact hback j h1 h2
  · rw [set_status_slots_other _ _ _ _ (by omega), set_status_adjacent]
    exact hfwd j h1 h2
  · by_cases hs : s = 0
    · exact Or.inl hs
    · rcases hsmax with h | h
      · exact Or.inl h
      · right
        rw [set_status_slots_other _ _ _ _ (by omega), set_status_adjacent]
        exact h
  · rcases hemax with h | h
    · exact Or.inl h
    · right
      rw [set_status_slots_other _ _ _ _ (by omega), set_status_adjacent]
      exact h

/-- On a slot that does not have the standard size, `free_slot` re-partitions the run
that its two scans find. -/
theorem free_slot_slots_undersized (st : State) (i s e : Nat)
    (hne : (st.slots i).size ≠ st.max_frame_size) (hrun : run_around st.slots i s e) :
    (free_slot st i).slots =
      repartition st.max_frame_size ((st.slots e).ptr + (st.slots e).size) (e + 1 - s) s
        (st.slots s).ptr (set_status st i SLOT_RESERVED).slots := by
  obtain ⟨hs, he⟩ := run_around_unique _ i s e (run_around_set_status st i s e SLOT_RESERVED hrun)
  have hsz : ¬ ((set_status st i SLOT_RESERVED).slots i).size
      = (set_status st i SLOT_RESERVED).max_frame_size := by
    rw [set_status_size]; exact hne
  unfold free_slot
  simp only [if_neg hsz]
  rw [← hs, ← he, set_status_ptr, set_status_ptr, set_status_size]
  rfl

/-- The total size of a run is the distance between its start and its end address. -/
theorem run_around_total (slots : Nat → frame_slot) (i s e : Nat)
    (hrun : run_around slots i s e) :
    (slots e).ptr + (slots e).size - (slots s).ptr = sum_sizes slots s (e + 1 - s) := by
  obtain ⟨hsi, hie, heC, hback, hfwd, _, _⟩ := hrun
  have hadj : ∀ j, s ≤ j → j < s + (e - s) → adjacent slots j := by
    intro j h1 h2
    rcases Nat.lt_or_ge j i with h | h
    · exact (hback j h1 h).2
    · exact (hfwd j h (by omega)).2
  have hc := sum_sizes_chain slots s (e - s) hadj
  have e1 : s + (e - s) = e := by omega
  have e2 : e + 1 - s = (e - s) + 1 := by omega
  rw [e1] at hc
  rw [e2, sum_sizes, e1, hc]
  ring

/-- Closed form of `free_slot` on an undersized slot `i` whose run `s .. e` has slots of
sizes between 0 and `max_frame_size`: with `T` the total size of the run,
`q = T / max_frame_size` and `r = T % max_frame_size`, the slot at offset `t` of the run
becomes FREE of standard size at `start + t * max_frame_size` for `t < q`, RESERVED of
size `r` for `t = q`, and RESERVED of size 0 at the end address for `t > q`. -/
theorem free_slot_closed_form (st : State) (i s e : Nat)
    (hsmall : (st.slots i).size < st.max_frame_size)
    (hle : ∀ j, s ≤ j → j ≤ e → (st.slots j).size ≤ st.max_frame_size)
    (hnn : ∀ j, s ≤ j → j ≤ e → 0 ≤ (st.slots j).size)
    (hrun : run_around st.slots i s e) :
    ∃ q : Nat, ∃ r : Int,
      (q : Int) = sum_sizes st.slots s (e + 1 - s) / st.max_frame_size ∧
      r = sum_sizes st.slots s (e + 1 - s) % st.max_frame_size ∧
      s + q ≤ e ∧ 0 ≤ r ∧ r < st.max_frame_size ∧
      (st.slots e).ptr + (st.slots e).size = (st.slots s).ptr + (q * st.max_frame_size + r) ∧
      (∀ t, t ≤ e - s →
        (t < q → (free_slot st i).slots (s + t) =
          { (set_status st i SLOT_RESERVED).slots (s + t) with
            ptr := (st.slots s).ptr + t * st.max_frame_size
            status := SLOT_FREE, size := st.max_frame_size }) ∧
        (t = q → (free_slot st i).slots (s + t) =
          { (set_status st i SLOT_RESERVED).slots (s + t) with
            ptr := (st.slots s).ptr + q * st.max_frame_size
            status := SLOT_RESERVED, size := r }) ∧
        (q < t → (free_slot st i).slots (s + t) =
          { (set_status st i SLOT_RESERVED).slots (s + t) with
            ptr := (st.slots e).ptr + (st.slots e).size
            status := SLOT_RESERVED, size := 0 })) ∧
      (∀ j, j < s ∨ e < j → (free_slot st i).slots j = st.slots j) := by
  have hsi := hrun.1
  have hie := hrun.2.1
  have hM : 0 < st.max_frame_size := lt_of_le_of_lt (hnn i hsi hie) hsmall
  have hT := run_around_total st.slots i s e hrun
  have hT0 : 0 ≤ sum_sizes st.slots s (e + 1 - s) :=
    sum_sizes_nonneg st.slots s _ (fun j h1 h2 => hnn j h1 (by omega))
  have hTlt : sum_sizes st.slots s (e + 1 - s) < ((e + 1 - s : Nat) : Int) * st.max_frame_size :=
    sum_sizes_lt st.slots st.max_frame_size s i _ (fun j h1 h2 => hle j h1 (by omega)) hsi
      (by omega) hsmall
  have hq0 : 0 ≤ sum_sizes st.slots s (e + 1 - s) / st.max_frame_size :=
    Int.ediv_nonneg hT0 (le_of_lt hM)
  obtain ⟨q, hq⟩ := Int.eq_ofNat_of_zero_le hq0
  have hdm := Int.ediv_add_emod (sum_sizes st.slots s (e + 1 - s)) st.max_frame_size
  have hr0 := Int.emod_nonneg (sum_sizes st.slots s (e + 1 - s)) (ne_of_gt hM)
  have hrM := Int.emod_lt_of_pos (sum_sizes st.slots s (e + 1 - s)) hM
  rw [hq] at hdm
  have hqn : q < e + 1 - s := by
    have h1 : (q : Int) * st.max_frame_size < ((e + 1 - s : Nat) : Int) * st.max_frame_size := by
      have : (q : Int) * st.max_frame_size = st.max_frame_size * q := mul_comm _ _
      linarith
    have h2 := lt_of_mul_lt_mul_right h1 (le_of_lt hM)
    exact_mod_cast h2
  have hslots := free_slot_slots_undersized st i s e (ne_of_lt hsmall) hrun
  have hE : (st.slots e).ptr + (st.slots e).size - (st.slots s).ptr
      = q * st.max_frame_size + sum_sizes st.slots s (e + 1 - s) % st.max_frame_size := by
    rw [hT]
    have : (q : Int) * st.max_frame_size = st.max_frame_size * q := mul_comm _ _
    linarith
  refine ⟨q, _, hq.symm, rfl, by omega, hr0, hrM, by linarith, fun t ht => ?_, fun j hj => ?_⟩
  · rw [hslots]
    exact repartition_spec st.max_frame_size _ hM (e + 1 - s) s (st.slots s).ptr _ q _ hE hr0 hrM
      t (by omega)
  · rw [hslots, repartition_outside _ _ _ _ _ _ _ (by omega),
      set_status_slots_other _ _ _ _ (by omega)]

/-- C5. `free_slot` on an undersized slot `i` (size `< max_frame_size`), where `s .. e` is
the maximal run of address-contiguous FREE/RESERVED slots around slot `i`, every slot of
the run has a size between 0 and `max_frame_size`, and `T` is the sum of their sizes:
afterwards the first `T / max_frame_size` slots of the run are FREE with size
`max_frame_size`, the next slot is RESERVED with size `T % max_frame_size`, every later
slot of the run is RESERVED with size 0, the slots of the run are contiguous starting at
the original start address of the run, and the end address and the total size `T` of the
run are unchanged. -/
theorem free_slot_undersized (st : State) (i s e : Nat)
    (hsmall : (st.slots i).size < st.max_frame_size)
    (hle : ∀ j, s ≤ j → j ≤ e → (st.slots j).size ≤ st.max_frame_size)
    (hnn : ∀ j, s ≤ j → j ≤ e → 0 ≤ (st.slots j).size)
    (hrun : run_around st.slots i s e) :
    s + (sum_sizes st.slots s (e + 1 - s) / st.max_frame_size).toNat ≤ e ∧
    (∀ j, s ≤ j → j < s + (sum_sizes st.slots s (e + 1 - s) / st.max_frame_size).toNat →
      ((free_slot st i).slots j).status = SLOT_FREE ∧
      ((free_slot st i).slots j).size = st.max_frame_size) ∧
    ((free_slot st i).slots
        (s + (sum_sizes st.slots s (e + 1 - s) / st.max_frame_size).toNat)).status
      = SLOT_RESERVED ∧
    ((free_slot st i).slots
        (s + (sum_sizes st.slots s (e + 1 - s) / st.max_frame_size).toNat)).size
      = sum_sizes st.slots s (e + 1 - s) % st.max_frame_size ∧
    (∀ j, s + (sum_sizes st.slots s (e + 1 - s) / st.max_frame_size).toNat < j → j ≤ e →
      ((free_slot st i).slots j).status = SLOT_RESERVED ∧
      ((free_slot st i).slots j).size = 0) ∧
    ((free_slot st i).slots s).ptr = (st.slots s).ptr ∧
    (∀ j, s ≤ j → j < e → adjacent (free_slot st i).slots j) ∧
    ((free_slot st i).slots e).ptr + ((free_slot st i).slots e).size
      = (st.slots e).ptr + (st.slots e).size ∧
    sum_sizes (free_slot st i).slots s (e + 1 - s) = sum_sizes st.slots s (e + 1 - s) := by
  obtain ⟨q, r, hq, hr, hqe, hr0, hrM, hend, hform, _⟩ :=
    free_slot_closed_form st i s e hsmall hle hnn hrun
  have hk : (sum_sizes st.slots s (e + 1 - s) / st.max_frame_size).toNat = q := by
    rw [← hq]; simp
  rw [hk, ← hr]
  -- pointer and size of every slot of the run after the call
  have hptr : ∀ t, t ≤ e - s →
      ((free_slot st i).slots (s + t)).ptr =
        (if t ≤ q then (st.slots s).ptr + t * st.max_frame_size
         else (st.slots e).ptr + (st.slots e).size) ∧
      ((free_slot st i).slots (s + t)).size =
        (if t < q then st.max_frame_size else if t = q then r else 0) := by
    intro t ht
    obtain ⟨f1, f2, f3⟩ := hform t ht
    rcases Nat.lt_trichotomy t q with h | h | h
    · rw [f1 h, if_pos (le_of_lt h), if_pos h]
      exact ⟨rfl, rfl⟩
    · rw [f2 h, if_pos (le_of_eq h), if_neg (by omega), if_pos h, h]
      exact ⟨rfl, rfl⟩
    · rw [f3 h, if_neg (by omega), if_neg (by omega), if_neg (by omega)]
      exact ⟨rfl, rfl⟩
  have hadj : ∀ j, s ≤ j → j < e → adjacent (free_slot st i).slots j := by
    intro j h1 h2
    obtain ⟨t, rfl⟩ : ∃ t, j = s + t := ⟨j - s, by omega⟩
    obtain ⟨p1, z1⟩ := hptr t (by omega)
    obtain ⟨p2, _⟩ := hptr (t + 1) (by omega)
    unfold adjacent
    rw [show s + t + 1 = s + (t + 1) from by omega, p1, p2, z1]
    rcases Nat.lt_trichotomy t q with h | h | h
    · rw [if_pos (by omega), if_pos (by omega), if_pos h]; push_cast; ring
    · rw [if_neg (by omega), if_pos (by omega), if_neg (by omega), if_pos h, hend, h]
      ring
    · rw [if_neg (by omega), if_neg (by omega), if_neg (by omega), if_neg (by omega)]; ring
  have hstart : ((free_slot st i).slots s).ptr = (st.slots s).ptr := by
    have := (hptr 0 (by omega)).1
    simpa using this
  have hendaddr : ((free_slot st i).slots e).ptr + ((free_slot st i).slots e).size
      = (st.slots e).ptr + (st.slots e).size := by
    obtain ⟨p1, z1⟩ := hptr (e - s) (le_refl _)
    rw [show s + (e - s) = e from by omega] at p1 z1
    rw [p1, z1]
    rcases Nat.lt_or_ge q (e - s) with h | h
    · rw [if_neg (by omega), if_neg (by omega), if_neg (by omega)]; ring
    · have : e - s = q := by omega
      rw [if_pos (by omega), if_neg (by omega), if_pos this, hend, this]; ring
  refine ⟨hqe, fun j h1 h2 => ?_, ?_, ?_, fun j h1 h2 => ?_, hstart, hadj, hendaddr, ?_⟩
  · obtain ⟨t, rfl⟩ : ∃ t, j = s + t := ⟨j - s, by omega⟩
    rw [(hform t (by omega)).1 (by omega)]
    exact ⟨rfl, rfl⟩
  · rw [(hform q (by omega)).2.1 rfl]
  · rw [(hform q (by omega)).2.1 rfl]
  · obtain ⟨t, rfl⟩ : ∃ t, j = s + t := ⟨j - s, by omega⟩
    rw [(hform t (by omega)).2.2 (by omega)]
    exact ⟨rfl, rfl⟩
  · have hc := sum_sizes_chain (free_slot st i).slots s (e - s)
      (fun j h1 h2 => hadj j h1 (by omega))
    have hc0 := run_around_total st.slots i s e hrun
    have e1 : s + (e - s) = e := by omega
    have e2 : e + 1 - s = (e - s) + 1 := by omega
    rw [e1] at hc
    rw [← hc0, e2, sum_sizes, e1]
    linarith

/-- C5 at `pool_d`: releasing slot 1 (1536 bytes) merges it with the RESERVED slot 0 in
front of it (the run is `0 .. 1`, 3072 bytes in total, since slot 2 is FULL): slot 0
becomes a FREE slot of 2048 bytes and slot 1 a RESERVED slot of 1024 bytes. -/
theorem free_slot_undersized_witness :
    (pool_d.slots 1).size < pool_d.max_frame_size ∧
    run_around pool_d.slots 1 0 1 ∧
    ((free_slot pool_d 1).slots
        (0 + (sum_sizes pool_d.slots 0 (1 + 1 - 0) / pool_d.max_frame_size).toNat)).status
      = SLOT_RESERVED ∧
    ((free_slot pool_d 1).slots
        (0 + (sum_sizes pool_d.slots 0 (1 + 1 - 0) / pool_d.max_frame_size).toNat)).size
      = sum_sizes pool_d.slots 0 (1 + 1 - 0) % pool_d.max_frame_size ∧
    sum_sizes (free_slot pool_d 1).slots 0 (1 + 1 - 0) = sum_sizes pool_d.slots 0 (1 + 1 - 0) :=
  have hrun : run_around pool_d.slots 1 0 1 :=
    ⟨by decide, by decide, by decide,
      fun j _ h2 => by interval_cases j; decide,
      fun j h1 h2 => by omega,
      Or.inl rfl, Or.inr (by decide)⟩
  have h := free_slot_undersized pool_d 1 0 1 (by decide)
    (fun j _ h2 => by interval_cases j <;> decide)
    (fun j _ h2 => by interval_cases j <;> decide) hrun
  ⟨by decide, hrun, h.2.2.1, h.2.2.2.1, h.2.2.2.2.2.2.2.2⟩

/-! ## Pool initialisation -/

/-- C10 (evaluation at the failing input).  For a single memory chunk that fits exactly
two frames, `add_mem_suite` creates two FREE slots and two RESERVED slots of size 0, so
`slot_count` is 4 and `setup_buffers` returns 1 although only two slots are usable. -/
theorem setup_buffers_two_frame_arena :
    (setup_buffers session_start_2048 two_frame_arena).1 = 1 ∧
    (setup_buffers session_start_2048 two_frame_arena).2.slot_count = 4 ∧
    usable_slots (setup_buffers session_start_2048 two_frame_arena).2
      (setup_buffers session_start_2048 two_frame_arena).2.slot_count = 2 := by
  decide

/-! ## Sequences of operations: the slots never overlap -/

/-- The predicate `no_overlap` reads only the start addresses and the sizes. -/
theorem no_overlap_congr (lo hi : Nat → Int) (slots slots' : Nat → frame_slot)
    (h : ∀ j, (slots' j).ptr = (slots j).ptr ∧ (slots' j).size = (slots j).size)
    (hno : no_overlap lo hi slots) : no_overlap lo hi slots' := by
  obtain ⟨h1, h2⟩ := hno
  refine ⟨fun j hj => ?_, fun j hj => ?_⟩
  · rw [(h j).1, (h j).2]; exact h1 j hj
  · rw [(h j).1, (h j).2, (h (j + 1)).1]; exact h2 j hj

/-- Neighbours that are adjacent in memory belong to the same group. -/
theorem no_overlap_same_group (lo hi : Nat → Int) (slots : Nat → frame_slot) (j : Nat)
    (hno : no_overlap lo hi slots) (hj : j + 1 < COUNT_slots)
    (hadj : (slots (j + 1)).ptr = (slots j).ptr + (slots j).size) :
    lo (j + 1) = lo j ∧ hi (j + 1) = hi j := by
  obtain ⟨h1, h2⟩ := hno
  have a := h1 j (by omega)
  have b := h1 (j + 1) hj
  rcases h2 j hj with h | h | h
  · exact ⟨h.1, h.2.1⟩
  · omega
  · omega

/-- Writing one slot of the table keeps `no_overlap` when the new slot lies inside its
group, ends at or before the start of the next slot of the group and starts at or after
the end of the previous one. -/
theorem no_overlap_set (lo hi : Nat → Int) (slots : Nat → frame_slot) (k : Nat)
    (s : frame_slot) (hno : no_overlap lo hi slots)
    (h1 : lo k ≤ s.ptr) (h2 : 0 ≤ s.size) (h3 : s.ptr + s.size ≤ hi k)
    (h4 : k + 1 < COUNT_slots → lo (k + 1) = lo k → hi (k + 1) = hi k →
      s.ptr + s.size ≤ (slots (k + 1)).ptr)
    (h5 : ∀ k', k' + 1 = k → lo k = lo k' → hi k = hi k' →
      (slots k').ptr + (slots k').size ≤ s.ptr) :
    no_overlap lo hi (set_slot slots k s) := by
  obtain ⟨g1, g2⟩ := hno
  refine ⟨fun j hj => ?_, fun j hj => ?_⟩
  · by_cases hjk : j = k
    · subst hjk; rw [set_slot_same]; exact ⟨h1, h2, h3⟩
    · rw [set_slot_other _ _ _ _ hjk]; exact g1 j hj
  · by_cases hjk : j = k
    · subst hjk
      rw [set_slot_same, set_slot_other _ _ _ _ (by omega)]
      rcases g2 j hj with h | h | h
      · exact Or.inl ⟨h.1, h.2.1, h4 hj h.1 h.2.1⟩
      · exact Or.inr (Or.inl h)
      · exact Or.inr (Or.inr h)
    · by_cases hjk1 : j + 1 = k
      · subst hjk1
        rw [set_slot_same, set_slot_other _ _ _ _ (by omega)]
        rcases g2 j hj with h | h | h
        · exact Or.inl ⟨h.1, h.2.1, h5 j rfl h.1 h.2.1⟩
        · exact Or.inr (Or.inl h)
        · exact Or.inr (Or.inr h)
      · rw [set_slot_other _ _ _ _ hjk, set_slot_other _ _ _ _ hjk1]
        exact g2 j hj

theorem shrink_slot_rec_frame_size_uncompressed (d : Nat) :
    ∀ (st : State) (i : Nat) (n : Int),
    (shrink_slot_rec d st i n).frame_size_uncompressed = st.frame_size_uncompressed := by
  induction d with
  | zero =>
    intro st i n
    rw [shrink_slot_rec_eq]
    split_ifs <;> rfl
  | succ d ih =>
    intro st i n
    rw [shrink_slot_rec_eq]
    split_ifs
    · show (shrink_slot_rec d _ _ _).frame_size_uncompressed = _
      rw [ih]; rfl
    · rfl
    · rfl

/-- Neighbours of the same group are in address order. -/
theorem no_overlap_ordered (lo hi : Nat → Int) (slots : Nat → frame_slot) (j : Nat)
    (hno : no_overlap lo hi slots) (hj : j + 1 < COUNT_slots)
    (hlo : lo (j + 1) = lo j) (hhi : hi (j + 1) = hi j) :
    (slots j).ptr + (slots j).size ≤ (slots (j + 1)).ptr := by
  obtain ⟨h1, h2⟩ := hno
  have a := h1 j (by omega)
  have b := h1 (j + 1) hj
  rcases h2 j hj with h | h | h
  · exact h.2.2
  · omega
  · omega

/-- Writing an entry outside the table does not matter. -/
theorem no_overlap_set_outside (lo hi : Nat → Int) (slots : Nat → frame_slot) (k : Nat)
    (s : frame_slot) (hk : COUNT_slots ≤ k) (hno : no_overlap lo hi slots) :
    no_overlap lo hi (set_slot slots k s) := by
  obtain ⟨g1, g2⟩ := hno
  refine ⟨fun j hj => ?_, fun j hj => ?_⟩
  · rw [set_slot_other _ _ _ _ (by omega)]; exact g1 j hj
  · rw [set_slot_other _ _ _ _ (by omega), set_slot_other _ _ _ _ (by omega)]; exact g2 j hj

theorem shrink_head_slots_eq (st : State) (i : Nat) (n : Int) :
    (shrink_head st i n).slots =
      set_slot st.slots i
        { st.slots i with size := frame_size_padded n, payload_size := n } := rfl

theorem grow_next_slots_eq (st : State) (i : Nat) (d : Int) :
    (grow_next st i d).slots =
      set_slot st.slots (i + 1)
        { st.slots (i + 1) with ptr := (st.slots (i + 1)).ptr - d,
                                size := (st.slots (i + 1)).size + d } := rfl

/-- The head of `shrink_slot` keeps `no_overlap`: slot `i` shrinks in place. -/
theorem shrink_head_no_overlap (lo hi : Nat → Int) (st : State) (i : Nat) (n : Int)
    (h0 : 0 ≤ frame_size_padded n) (hle : frame_size_padded n ≤ (st.slots i).size)
    (hno : no_overlap lo hi st.slots) : no_overlap lo hi (shrink_head st i n).slots := by
  rw [shrink_head_slots_eq]
  by_cases hi' : i < COUNT_slots
  · have a := hno.1 i hi'
    refine no_overlap_set lo hi st.slots i _ hno a.1 h0 (by simp only; omega) ?_ ?_
    · intro h1 hlo hhi
      have := no_overlap_ordered lo hi st.slots i hno h1 hlo hhi
      simp only; omega
    · intro k hk hlo hhi
      subst hk
      exact no_overlap_ordered lo hi st.slots k hno hi' hlo hhi
  · exact no_overlap_set_outside lo hi st.slots i _ (by omega) hno

/-- Moving the start of slot `i + 1` down to the end of slot `i` keeps `no_overlap`. -/
theorem grow_next_no_overlap (lo hi : Nat → Int) (st : State) (i : Nat) (d : Int)
    (h1 : i + 1 < COUNT_slots) (hlo : lo (i + 1) = lo i) (hhi : hi (i + 1) = hi i)
    (hd : 0 ≤ d)
    (hfit : (st.slots i).ptr + (st.slots i).size ≤ (st.slots (i + 1)).ptr - d)
    (hno : no_overlap lo hi st.slots) : no_overlap lo hi (grow_next st i d).slots := by
  rw [grow_next_slots_eq]
  have a := hno.1 i (by omega)
  have b := hno.1 (i + 1) h1
  refine no_overlap_set lo hi st.slots (i + 1) _ hno (by simp only; omega) (by simp only; omega)
    (by simp only; omega) ?_ ?_
  · intro h2 hlo2 hhi2
    have := no_overlap_ordered lo hi st.slots (i + 1) hno h2 hlo2 hhi2
    simp only; omega
  · intro k hk _ _
    have : k = i := by omega
    subst this
    exact hfit

/-- `shrink_slot` keeps `no_overlap` when the new size is between 0 and the old size. -/
theorem shrink_slot_rec_no_overlap (lo hi : Nat → Int) (d : Nat) :
    ∀ (st : State) (i : Nat) (n : Int),
    st.max_frame_size = frame_size_padded st.frame_size_uncompressed →
    0 ≤ frame_size_padded n → frame_size_padded n ≤ (st.slots i).size →
    0 ≤ st.max_frame_size →
    no_overlap lo hi st.slots → no_overlap lo hi (shrink_slot_rec d st i n).slots := by
  induction d with
  | zero =>
    intro st i n hcfg h0 hle hM hno
    have hhead := shrink_head_no_overlap lo hi st i n h0 hle hno
    rw [shrink_slot_rec_eq]
    by_cases hl : linked st.slots i (st.slots i).size
    · obtain ⟨hlo, hhi⟩ := no_overlap_same_group lo hi st.slots i hno hl.1 hl.2.2
      have hgrow := grow_next_no_overlap lo hi (shrink_head st i n) i
        ((st.slots i).size - frame_size_padded n) hl.1 hlo hhi (by omega)
        (by
          rw [shrink_head_slots_self, shrink_head_slots_other _ _ _ _ (by omega), hl.2.2]
          simp only; omega)
        hhead
      rw [if_pos hl]
      split_ifs <;> exact hgrow
    · rw [if_neg hl]; exact hhead
  | succ d ih =>
    intro st i n hcfg h0 hle hM hno
    have hhead := shrink_head_no_overlap lo hi st i n h0 hle hno
    rw [shrink_slot_rec_eq]
    by_cases hl : linked st.slots i (st.slots i).size
    · obtain ⟨hlo, hhi⟩ := no_overlap_same_group lo hi st.slots i hno hl.1 hl.2.2
      have hgrow := grow_next_no_overlap lo hi (shrink_head st i n) i
        ((st.slots i).size - frame_size_padded n) hl.1 hlo hhi (by omega)
        (by
          rw [shrink_head_slots_self, shrink_head_slots_other _ _ _ _ (by omega), hl.2.2]
          simp only; omega)
        hhead
      rw [if_pos hl]
      split_ifs with hbig
      · simp only []
        have hrec := ih
          (grow_next (shrink_head st i n) i ((st.slots i).size - frame_size_padded n))
          (i + 1) st.frame_size_uncompressed hcfg (by rw [← hcfg]; exact hM)
          (by rw [← hcfg]; exact hbig) hM hgrow
        exact no_overlap_congr lo hi _ _
          (fun j => ⟨set_status_ptr _ _ _ _, set_status_size _ _ _ _⟩) hrec
      · exact hgrow
    · rw [if_neg hl]; exact hhead

/-- The re-partition loop of `free_slot` lays its slots out one after the other from `p`
without passing the end address `E`. -/
theorem repartition_bounds (M E : Int) (hM : 0 ≤ M) :
    ∀ (n a : Nat) (p : Int) (slots : Nat → frame_slot), p ≤ E →
    (∀ t, t < n →
      p ≤ (repartition M E n a p slots (a + t)).ptr ∧
      0 ≤ (repartition M E n a p slots (a + t)).size ∧
      (repartition M E n a p slots (a + t)).ptr + (repartition M E n a p slots (a + t)).size
        ≤ E) ∧
    (∀ t, t + 1 < n →
      (repartition M E n a p slots (a + t + 1)).ptr =
        (repartition M E n a p slots (a + t)).ptr
          + (repartition M E n a p slots (a + t)).size) ∧
    (0 < n → (repartition M E n a p slots a).ptr = p) := by
  intro n
  induction n with
  | zero =>
    intro a p slots _
    exact ⟨fun t ht => by omega, fun t ht => by omega, fun h => by omega⟩
  | succ n ih =>
    intro a p slots hp
    rw [repartition_succ]
    -- the slot written by this iteration
    obtain ⟨s1, hs1, hptr, hsz0, hszE⟩ : ∃ s1 : frame_slot,
        s1 = (if p + M ≤ E then
                ({ slots a with ptr := p, status := SLOT_FREE, size := M } : frame_slot)
              else { slots a with ptr := p, status := SLOT_RESERVED, size := E - p }) ∧
        s1.ptr = p ∧ 0 ≤ s1.size ∧ p + s1.size ≤ E := by
      refine ⟨_, rfl, ?_, ?_, ?_⟩
      · split_ifs <;> rfl
      · split_ifs
        · exact hM
        · simp only; omega
      · split_ifs with h
        · exact h
        · simp only; omega
    rw [← hs1]
    obtain ⟨i1, i2, i3⟩ := ih (a + 1) (p + s1.size) (set_slot slots a s1) hszE
    have hfirst : repartition M E n (a + 1) (p + s1.size) (set_slot slots a s1) a = s1 := by
      rw [repartition_outside _ _ _ _ _ _ _ (by omega), set_slot_same]
    refine ⟨fun t ht => ?_, fun t ht => ?_, fun _ => by rw [hfirst, hptr]⟩
    · cases t with
      | zero =>
        simp only [Nat.add_zero]
        rw [hfirst, hptr]
        exact ⟨le_refl _, hsz0, hszE⟩
      | succ t =>
        have e : a + (t + 1) = a + 1 + t := by omega
        rw [e]
        obtain ⟨b1, b2, b3⟩ := i1 t (by omega)
        exact ⟨by omega, b2, b3⟩
    · cases t with
      | zero =>
        simp only [Nat.add_zero]
        rw [hfirst, hptr, i3 (by omega)]
      | succ t =>
        have e1 : a + (t + 1) + 1 = a + 1 + t + 1 := by omega
        have e2 : a + (t + 1) = a + 1 + t := by omega
        rw [e1, e2]
        exact i2 t (by omega)

/-- The slots of a chain of adjacent slots belong to one group. -/
theorem chain_same_group (lo hi : Nat → Int) (slots : Nat → frame_slot) (s e : Nat)
    (hno : no_overlap lo hi slots) (he : e < COUNT_slots)
    (hadj : ∀ j, s ≤ j → j < e → adjacent slots j) :
    ∀ k, s + k ≤ e → lo (s + k) = lo s ∧ hi (s + k) = hi s ∧ (slots s).ptr ≤ (slots (s + k)).ptr := by
  intro k
  induction k with
  | zero => intro _; exact ⟨rfl, rfl, le_refl _⟩
  | succ k ih =>
    intro hk
    obtain ⟨a1, a2, a3⟩ := ih (by omega)
    have hj := hadj (s + k) (by omega) (by omega)
    have := no_overlap_same_group lo hi slots (s + k) hno (by omega) hj
    have hsz := (hno.1 (s + k) (by omega)).2.1
    unfold adjacent at hj
    rw [show s + (k + 1) = s + k + 1 from by omega]
    exact ⟨by rw [this.1, a1], by rw [this.2, a2], by omega⟩

/-- `free_slot` keeps `no_overlap`. -/
theorem free_slot_no_overlap (lo hi : Nat → Int) (st : State) (i : Nat)
    (hi' : i < COUNT_slots) (hM : 0 ≤ st.max_frame_size)
    (hno : no_overlap lo hi st.slots) : no_overlap lo hi (free_slot st i).slots := by
  have hno1 : no_overlap lo hi (set_status st i SLOT_RESERVED).slots :=
    no_overlap_congr lo hi _ _ (fun j => ⟨set_status_ptr _ _ _ _, set_status_size _ _ _ _⟩) hno
  unfold free_slot
  by_cases hsz : ((set_status st i SLOT_RESERVED).slots i).size
      = (set_status st i SLOT_RESERVED).max_frame_size
  · simp only [if_pos hsz]
    exact no_overlap_congr lo hi _ _
      (fun j => ⟨set_status_ptr _ _ _ _, set_status_size _ _ _ _⟩) hno1
  · simp only [if_neg hsz]
    generalize hS : (set_status st i SLOT_RESERVED).slots = S at hno1 ⊢
    have hMS : (set_status st i SLOT_RESERVED).max_frame_size = st.max_frame_size := rfl
    rw [hMS]
    obtain ⟨f1, f2, _⟩ := find_first_spec S i
    obtain ⟨l1, l2, l3, _⟩ := find_last_spec S (COUNT_slots - i) i (by omega)
    have l2 := l2 hi'
    generalize find_first S i = s at f1 f2 ⊢
    generalize find_last S (COUNT_slots - i) i = e at l1 l2 l3 ⊢
    have hadj : ∀ j, s ≤ j → j < e → adjacent S j := by
      intro j h1 h2
      rcases Nat.lt_or_ge j i with h | h
      · exact (f2 j h1 h).2
      · exact (l3 j h h2).2
    have hgrp := chain_same_group lo hi S s e hno1 l2 hadj
    have hgrp' : ∀ j, s ≤ j → j ≤ e → lo j = lo s ∧ hi j = hi s ∧ (S s).ptr ≤ (S j).ptr := by
      intro j h1 h2
      have := hgrp (j - s) (by omega)
      rwa [show s + (j - s) = j from by omega] at this
    have hpE : (S s).ptr ≤ (S e).ptr + (S e).size := by
      have := (hgrp' e (by omega) (le_refl _)).2.2
      have := (hno1.1 e l2).2.1
      omega
    obtain ⟨b1, b2, b3⟩ := repartition_bounds st.max_frame_size ((S e).ptr + (S e).size) hM
      (e + 1 - s) s (S s).ptr S hpE
    have hout := repartition_outside st.max_frame_size ((S e).ptr + (S e).size)
      (e + 1 - s) s (S s).ptr S
    generalize repartition st.max_frame_size ((S e).ptr + (S e).size) (e + 1 - s) s (S s).ptr S
      = R at b1 b2 b3 hout
    have hin : ∀ j, s ≤ j → j ≤ e →
        (S s).ptr ≤ (R j).ptr ∧ 0 ≤ (R j).size ∧ (R j).ptr + (R j).size ≤ (S e).ptr + (S e).size := by
      intro j h1 h2
      have := b1 (j - s) (by omega)
      rwa [show s + (j - s) = j from by omega] at this
    refine ⟨fun j hj => ?_, fun j hj => ?_⟩
    · by_cases hjr : s ≤ j ∧ j ≤ e
      · obtain ⟨c1, c2, c3⟩ := hin j hjr.1 hjr.2
        obtain ⟨g1, g2, _⟩ := hgrp' j hjr.1 hjr.2
        obtain ⟨g3, g4, _⟩ := hgrp' e (by omega) (le_refl _)
        have hs := hno1.1 s (by omega)
        have he := hno1.1 e l2
        exact ⟨by omega, c2, by omega⟩
      · rw [hout j (by omega)]
        exact hno1.1 j hj
    · by_cases hjr : s ≤ j ∧ j + 1 ≤ e
      · -- both slots inside the run
        left
        obtain ⟨g1, g2, _⟩ := hgrp' j hjr.1 (by omega)
        obtain ⟨g3, g4, _⟩ := hgrp' (j + 1) (by omega) hjr.2
        have := b2 (j - s) (by omega)
        rw [show s + (j - s) + 1 = j + 1 from by omega, show s + (j - s) = j from by omega] at this
        exact ⟨by rw [g3, g1], by rw [g4, g2], by omega⟩
      · by_cases hjs : j + 1 = s
        · -- the slot before the run and the first slot of the run
          have hp : (R (j + 1)).ptr = (S (j + 1)).ptr := by
            have := b3 (by omega)
            rw [← hjs] at this
            exact this
          rw [hout j (by omega), hp]
          exact hno1.2 j hj
        · by_cases hje : j = e
          · -- the last slot of the run and the slot after it
            rw [hout (j + 1) (by omega)]
            obtain ⟨c1, c2, c3⟩ := hin j (by omega) (by omega)
            rcases hno1.2 j hj with h | h | h
            · left
              refine ⟨h.1, h.2.1, ?_⟩
              have := h.2.2
              rw [hje] at this ⊢
              rw [hje] at c3
              omega
            · exact Or.inr (Or.inl h)
            · exact Or.inr (Or.inr h)
          · rw [hout j (by omega), hout (j + 1) (by omega)]
            exact hno1.2 j hj

/-! ### Every operation keeps the configuration and `no_overlap` -/

theorem choose_next_capture_slot_slots (P : Int) (st : State) :
    (choose_next_capture_slot P st).2.slots = st.slots := by
  unfold choose_next_capture_slot
  split_ifs <;> rfl

/-- A capture changes at most the frame number and the status of one slot. -/
theorem capture_frame_slots (P : Int) (st : State) :
    (capture_frame P st).slots = st.slots ∨
    ∃ (k : Nat) (fn : Int), (capture_frame P st).slots =
      set_slot st.slots k { st.slots k with frame_number := fn, status := SLOT_FULL } := by
  have hs := choose_next_capture_slot_slots P st
  by_cases h0 : st.frame_count = 0
  · left
    simp only [capture_frame, if_pos h0]
  · by_cases h1 : (choose_next_capture_slot P st).1 ≥ 0
    · right
      refine ⟨(choose_next_capture_slot P st).1.toNat,
        (choose_next_capture_slot P st).2.frame_count, ?_⟩
      simp only [capture_frame, if_neg h0, if_pos h1, hs]
    · left
      simp only [capture_frame, if_neg h0, if_neg h1, hs]

theorem capture_frame_ptr_size (P : Int) (st : State) (j : Nat) :
    ((capture_frame P st).slots j).ptr = (st.slots j).ptr ∧
    ((capture_frame P st).slots j).size = (st.slots j).size := by
  rcases capture_frame_slots P st with h | ⟨k, fn, h⟩
  · rw [h]; exact ⟨rfl, rfl⟩
  · rw [h]
    by_cases hj : j = k
    · subst hj; rw [set_slot_same]; exact ⟨rfl, rfl⟩
    · rw [set_slot_other _ _ _ _ hj]; exact ⟨rfl, rfl⟩

theorem capture_frame_config (P : Int) (st : State) :
    (capture_frame P st).max_frame_size = st.max_frame_size ∧
    (capture_frame P st).frame_size_uncompressed = st.frame_size_uncompressed := by
  have hs : (choose_next_capture_slot P st).2.max_frame_size = st.max_frame_size ∧
      (choose_next_capture_slot P st).2.frame_size_uncompressed
        = st.frame_size_uncompressed := by
    unfold choose_next_capture_slot
    split_ifs <;> exact ⟨rfl, rfl⟩
  by_cases h0 : st.frame_count = 0
  · simp only [capture_frame, if_pos h0, and_self]
  · by_cases h1 : (choose_next_capture_slot P st).1 ≥ 0
    · simp only [capture_frame, if_neg h0, if_pos h1, hs, and_self]
    · simp only [capture_frame, if_neg h0, if_neg h1, hs, and_self]

theorem free_slot_config (st : State) (i : Nat) :
    (free_slot st i).max_frame_size = st.max_frame_size ∧
    (free_slot st i).frame_size_uncompressed = st.frame_size_uncompressed := by
  unfold free_slot
  simp only []
  split_ifs <;> exact ⟨rfl, rfl⟩

theorem apply_op_config (P : Int) (st : State) (op : pool_op) :
    (apply_op P st op).max_frame_size = st.max_frame_size ∧
    (apply_op P st op).frame_size_uncompressed = st.frame_size_uncompressed := by
  cases op with
  | capture => exact capture_frame_config P st
  | shrink i n =>
    exact ⟨shrink_slot_rec_max_frame_size _ _ _ _, shrink_slot_rec_frame_size_uncompressed _ _ _ _⟩
  | free i => exact free_slot_config st i

theorem apply_op_no_overlap (P : Int) (lo hi : Nat → Int) (st : State) (op : pool_op)
    (hcfg : st.max_frame_size = frame_size_padded st.frame_size_uncompressed)
    (hU : 0 ≤ st.frame_size_uncompressed) (hok : op_ok st op)
    (hno : no_overlap lo hi st.slots) : no_overlap lo hi (apply_op P st op).slots := by
  have hM : 0 ≤ st.max_frame_size := by
    have := frame_size_padded_pos _ hU
    omega
  cases op with
  | capture =>
    exact no_overlap_congr lo hi _ _ (fun j => capture_frame_ptr_size P st j) hno
  | shrink i n =>
    obtain ⟨hn, hle⟩ := hok
    have := frame_size_padded_pos n hn
    exact shrink_slot_rec_no_overlap lo hi _ st i n hcfg (by omega) hle hM hno
  | free i => exact free_slot_no_overlap lo hi st i hok hM hno

/-- A sequence of operations keeps `no_overlap`. -/
theorem run_ops_no_overlap (P : Int) (lo hi : Nat → Int) : ∀ (ops : List pool_op) (st : State),
    st.max_frame_size = frame_size_padded st.frame_size_uncompressed →
    0 ≤ st.frame_size_uncompressed → ops_ok P st ops →
    no_overlap lo hi st.slots → no_overlap lo hi (run_ops P st ops).slots := by
  intro ops
  induction ops with
  | nil => intro st _ _ _ h; exact h
  | cons op ops ih =>
    intro st hcfg hU hok hno
    obtain ⟨c1, c2⟩ := apply_op_config P st op
    exact ih (apply_op P st op) (by rw [c1, c2]; exact hcfg) (by rw [c2]; exact hU) hok.2
      (apply_op_no_overlap P lo hi st op hcfg hU hok.1 hno)

/-- Slots in address order: the sum of their sizes fits between the start of the first
and the end of the last. -/
theorem sum_sizes_ordered (slots : Nat → frame_slot) (a : Nat) : ∀ n : Nat,
    (∀ j, a ≤ j → j + 1 < a + (n + 1) →
      (slots j).ptr + (slots j).size ≤ (slots (j + 1)).ptr) →
    (slots a).ptr + sum_sizes slots a (n + 1) ≤ (slots (a + n)).ptr + (slots (a + n)).size := by
  intro n
  induction n with
  | zero => intro _; simp [sum_sizes]
  | succ n ih =>
    intro h
    have h1 := ih (fun j hj hjn => h j hj (by omega))
    have h2 := h (a + n) (by omega) (by omega)
    rw [sum_sizes, show a + (n + 1) = a + n + 1 from by omega]
    omega

/-- A range of slots that tiles its group has the size of the group. -/
theorem sum_sizes_tiles (lo hi : Nat → Int) (slots : Nat → frame_slot) (a n : Nat)
    (hn : 0 < n) (ht : tiles lo hi slots a n) : sum_sizes slots a n = hi a - lo a := by
  obtain ⟨t1, t2, t3⟩ := ht
  obtain ⟨m, rfl⟩ : ∃ m, n = m + 1 := ⟨n - 1, by omega⟩
  have hc := sum_sizes_chain slots a m (fun j h1 h2 => t2 j h1 (by omega))
  rw [show a + (m + 1) - 1 = a + m from by omega] at t3
  rw [sum_sizes]
  omega

/-- C4 (amended).  Start from a pool whose slots lie in their groups without overlap, with
`max_frame_size` the padded size of `frame_size_uncompressed >= 0`, and apply any sequence
of captures, `shrink_slot` calls (payload `n >= 0`, padded size not above the size of the
slot) and `free_slot` calls (on table indices).  Then the slots still lie in their groups
without overlap; and for every range `a .. a + n - 1` of slots of one group that tiled the
group exactly at the start, the sum of the sizes is at most the sum at the start (which is
the size of the group), and the slots are still in address order, each starting at or
after the end of the one before. -/
theorem pool_ops_no_overlap (PTR_INVALID : Int) (lo hi : Nat → Int) (st : State)
    (ops : List pool_op)
    (hcfg : st.max_frame_size = frame_size_padded st.frame_size_uncompressed)
    (hU : 0 ≤ st.frame_size_uncompressed)
    (hinit : no_overlap lo hi st.slots) (hops : ops_ok PTR_INVALID st ops) :
    no_overlap lo hi (run_ops PTR_INVALID st ops).slots ∧
    ∀ a n, 0 < n → a + n ≤ COUNT_slots →
      (∀ j, a ≤ j → j < a + n → lo j = lo a ∧ hi j = hi a) →
      tiles lo hi st.slots a n →
      sum_sizes (run_ops PTR_INVALID st ops).slots a n ≤ sum_sizes st.slots a n ∧
      sum_sizes st.slots a n = hi a - lo a ∧
      (∀ j, a ≤ j → j + 1 < a + n →
        ((run_ops PTR_INVALID st ops).slots j).ptr + ((run_ops PTR_INVALID st ops).slots j).size
          ≤ ((run_ops PTR_INVALID st ops).slots (j + 1)).ptr) := by
  have hno := run_ops_no_overlap PTR_INVALID lo hi ops st hcfg hU hops hinit
  refine ⟨hno, fun a n hn han hgrp ht => ?_⟩
  have hord : ∀ j, a ≤ j → j + 1 < a + n →
      ((run_ops PTR_INVALID st ops).slots j).ptr + ((run_ops PTR_INVALID st ops).slots j).size
        ≤ ((run_ops PTR_INVALID st ops).slots (j + 1)).ptr := by
    intro j h1 h2
    obtain ⟨g1, g2⟩ := hgrp j h1 (by omega)
    obtain ⟨g3, g4⟩ := hgrp (j + 1) (by omega) h2
    exact no_overlap_ordered lo hi _ j hno (by omega) (by rw [g3, g1]) (by rw [g4, g2])
  have hsum0 := sum_sizes_tiles lo hi st.slots a n hn ht
  refine ⟨?_, hsum0, hord⟩
  obtain ⟨m, rfl⟩ : ∃ m, n = m + 1 := ⟨n - 1, by omega⟩
  have h1 := sum_sizes_ordered (run_ops PTR_INVALID st ops).slots a m hord
  have h2 := (hno.1 a (by omega)).1
  have h3 := (hno.1 (a + m) (by omega)).2.2
  obtain ⟨g1, g2⟩ := hgrp (a + m) (by omega) (by omega)
  rw [hsum0]
  omega

/-! ### The recording `compressed_recording` on `fresh_pool` -/

/-- C4 (counterexample).  On the freshly initialised pool `fresh_pool`, whose six slots
are contiguous and have sizes that sum to 6144 (the size of the memory chunk), the
operations of `compressed_recording` are all made under their conditions, yet afterwards
the sizes of the six slots sum to 5632 and slot 2 no longer starts at the end of slot 1:
when frame 6 in slot 0 is shrunk, the RESERVED slot 1 grows past `max_frame_size`, is
normalised to a FREE slot of 2048 bytes, and its surplus of 512 bytes is dropped because
slot 2 is FULL. -/
theorem compressed_recording_breaks_tiling :
    ops_ok 4294967295 fresh_pool compressed_recording ∧
    (∀ j, j < 5 → adjacent fresh_pool.slots j) ∧
    sum_sizes fresh_pool.slots 0 6 = 6144 ∧
    sum_sizes (run_ops 4294967295 fresh_pool compressed_recording).slots 0 6 = 5632 ∧
    ¬ adjacent (run_ops 4294967295 fresh_pool compressed_recording).slots 1 := by
  decide

/-- The table entries after the six slots of `fresh_pool` are zeroed. -/
theorem fresh_pool_slots_rest (j : Nat) : fresh_pool.slots (j + 6) = zero_slot := rfl

theorem fresh_pool_no_overlap : no_overlap fresh_lo fresh_hi fresh_pool.slots := by
  refine ⟨fun j _ => ?_, fun j _ => ?_⟩
  · rcases Nat.lt_or_ge j 6 with h | h
    · interval_cases j <;> decide
    · obtain ⟨k, rfl⟩ : ∃ k, j = k + 6 := ⟨j - 6, by omega⟩
      rw [fresh_pool_slots_rest]
      have e1 : fresh_lo (k + 6) = 0 := by simp [fresh_lo]
      have e2 : fresh_hi (k + 6) = 0 := by simp [fresh_hi]
      rw [e1, e2]
      decide
  · rcases Nat.lt_or_ge j 5 with h | h
    · interval_cases j <;> decide
    · rcases Nat.lt_or_ge j 6 with h6 | h6
      · have : j = 5 := by omega
        subst this
        decide
      · obtain ⟨k, rfl⟩ : ∃ k, j = k + 6 := ⟨j - 6, by omega⟩
        left
        rw [fresh_pool_slots_rest, show k + 6 + 1 = (k + 1) + 6 from by omega,
          fresh_pool_slots_rest]
        have e1 : fresh_lo (k + 6) = 0 := by simp [fresh_lo]
        have e2 : fresh_hi (k + 6) = 0 := by simp [fresh_hi]
        have e3 : fresh_lo (k + 1 + 6) = 0 := by simp [fresh_lo]
        have e4 : fresh_hi (k + 1 + 6) = 0 := by simp [fresh_hi]
        rw [e1, e2, e3, e4]
        decide

/-- C4 (amended) at `fresh_pool` and `compressed_recording`. -/
theorem pool_ops_no_overlap_witness :
    no_overlap fresh_lo fresh_hi (run_ops 4294967295 fresh_pool compressed_recording).slots ∧
    sum_sizes (run_ops 4294967295 fresh_pool compressed_recording).slots 0 6
      ≤ sum_sizes fresh_pool.slots 0 6 :=
  have h := pool_ops_no_overlap 4294967295 fresh_lo fresh_hi fresh_pool compressed_recording
    (by decide) (by decide) fresh_pool_no_overlap (by decide)
  ⟨h.1, (h.2 0 6 (by decide) (by decide)
    (fun j _ hj => by
      have : j < 6 := by omega
      interval_cases j <;> exact ⟨rfl, rfl⟩)
    ⟨by decide, fun j _ hj => by
      have : j < 5 := by omega
      interval_cases j <;> decide, by decide⟩).1⟩

/-! ## add_reserved_slots and the carving loop of add_mem_suite -/

theorem add_reserved_slots_succ (st : State) (ptr : Int) (n : Nat) :
    add_reserved_slots st ptr (n + 1) =
      add_reserved_slots
        { st with
          slots := set_slot st.slots st.slot_count
            { st.slots st.slot_count with ptr := ptr, size := 0, status := SLOT_RESERVED }
          slot_count := st.slot_count + 1 }
        ptr n := rfl

/-- What `add_reserved_slots(ptr, n)` does: `n` entries are appended to the table, each
RESERVED with size 0 at `ptr`; nothing else changes. -/
theorem add_reserved_slots_spec (ptr : Int) : ∀ (n : Nat) (st : State),
    (add_reserved_slots st ptr n).slot_count = st.slot_count + n ∧
    (∀ k, k < n → (add_reserved_slots st ptr n).slots (st.slot_count + k) =
      { st.slots (st.slot_count + k) with ptr := ptr, size := 0, status := SLOT_RESERVED }) ∧
    (∀ j, j < st.slot_count ∨ st.slot_count + n ≤ j →
      (add_reserved_slots st ptr n).slots j = st.slots j) ∧
    (add_reserved_slots st ptr n).max_frame_size = st.max_frame_size ∧
    (add_reserved_slots st ptr n).frame_size_uncompressed = st.frame_size_uncompressed := by
  intro n
  induction n with
  | zero =>
    intro st
    exact ⟨rfl, fun k hk => by omega, fun j _ => rfl, rfl, rfl⟩
  | succ n ih =>
    intro st
    rw [add_reserved_slots_succ]
    obtain ⟨h1, h2, h3, h4, h5⟩ := ih
      { st with
        slots := set_slot st.slots st.slot_count
          { st.slots st.slot_count with ptr := ptr, size := 0, status := SLOT_RESERVED }
        slot_count := st.slot_count + 1 }
    simp only [] at h1 h2 h3 h4 h5
    refine ⟨by rw [h1]; omega, fun k hk => ?_, fun j hj => ?_, h4, h5⟩
    · cases k with
      | zero =>
        simp only [Nat.add_zero]
        rw [h3 _ (by omega), set_slot_same]
      | succ k =>
        rw [show st.slot_count + (k + 1) = st.slot_count + 1 + k from by omega,
          h2 k (by omega), set_slot_other _ _ _ _ (by omega)]
    · rw [h3 j (by omega), set_slot_other _ _ _ _ (by omega)]

/-! ## add_mem_suite on a chunk below the group limit -/

theorem carve_loop_succ (n : Nat) (st : State) (v : carve_vars) :
    carve_loop (n + 1) st v =
      if v.size ≥ st.max_frame_size ∧ st.slot_count < COUNT_slots then
        if v.group_size + st.max_frame_size + st.max_frame_size > 0xFFFE * 512 then
          carve_loop n
            (add_reserved_slots (carve_slot st v) (v.ptr + st.max_frame_size)
              (Int.tdiv (v.group_size + st.max_frame_size) st.max_frame_size).toNat)
            { ptr := v.ptr + st.max_frame_size + 64, size := v.size - st.max_frame_size - 64,
              group_size := 0 }
        else
          carve_loop n (carve_slot st v)
            { ptr := v.ptr + st.max_frame_size, size := v.size - st.max_frame_size,
              group_size := v.group_size + st.max_frame_size }
      else (st, v) := rfl

/-- The carving loop stops at once when no frame fits. -/
theorem carve_loop_exit (n : Nat) (st : State) (v : carve_vars)
    (h : v.size < st.max_frame_size) : carve_loop n st v = (st, v) := by
  cases n with
  | zero => rfl
  | succ n =>
    rw [carve_loop_succ, if_neg]
    intro hc
    have := hc.1
    omega

theorem add_chunk_eq (st : State) (chunk_index : Nat) (chunk : memChunk) :
    (add_chunk st chunk_index chunk).1 =
      finish_group
        (carve_loop
          (COUNT_slots -
            (if chunk_index < COUNT_chunk_list ∧ chunk.size > 64 then
              ({ st with chunk_list :=
                  fun k => if k = chunk_index then chunk.size - 64 else st.chunk_list k },
                chunk_index + 1)
             else (st, chunk_index)).1.slot_count)
          (if chunk_index < COUNT_chunk_list ∧ chunk.size > 64 then
              ({ st with chunk_list :=
                  fun k => if k = chunk_index then chunk.size - 64 else st.chunk_list k },
                chunk_index + 1)
           else (st, chunk_index)).1
          { ptr := align64 chunk.ptr, size := chunk.size - (align64 chunk.ptr - chunk.ptr),
            group_size := 0 }) := rfl

/-- The carving loop and the statement after it, for a chunk whose remaining size together
with the current group stays below the group limit: `r` FREE slots are appended, followed by
the RESERVED slots of the group. -/
theorem carve_fit : ∀ (r fuel : Nat) (st : State) (v : carve_vars) (g : Nat),
    0 < st.max_frame_size → v.group_size = g * st.max_frame_size →
    v.size < r * st.max_frame_size + st.max_frame_size →
    (r = 0 ∨ r * st.max_frame_size ≤ v.size) →
    v.group_size + v.size ≤ 0xFFFE * 512 →
    st.slot_count + r ≤ COUNT_slots → r ≤ fuel →
    (finish_group (carve_loop fuel st v)).slot_count = st.slot_count + r + (g + r) ∧
    (∀ k, k < r → (finish_group (carve_loop fuel st v)).slots (st.slot_count + k) =
      { st.slots (st.slot_count + k) with
        ptr := v.ptr + k * st.max_frame_size, size := st.max_frame_size,
        payload_size := st.frame_size_uncompressed, status := SLOT_FREE }) ∧
    (∀ k, k < g + r → (finish_group (carve_loop fuel st v)).slots (st.slot_count + r + k) =
      { st.slots (st.slot_count + r + k) with
        ptr := v.ptr + r * st.max_frame_size, size := 0, status := SLOT_RESERVED }) ∧
    (∀ j, j < st.slot_count ∨ st.slot_count + r + (g + r) ≤ j →
      (finish_group (carve_loop fuel st v)).slots j = st.slots j) := by
  intro r
  induction r with
  | zero =>
    intro fuel st v g hM hg hlt _ _ _ _
    have hsz : v.size < st.max_frame_size := by simpa using hlt
    rw [carve_loop_exit fuel st v hsz]
    unfold finish_group
    simp only []
    rw [hg, Int.mul_tdiv_cancel _ (ne_of_gt hM), Int.toNat_ofNat]
    obtain ⟨h1, h2, h3, _, _⟩ := add_reserved_slots_spec v.ptr g st
    refine ⟨by rw [h1]; omega, fun k hk => by omega, fun k hk => ?_, fun j hj => ?_⟩
    · simp only [Nat.add_zero]
      rw [h2 k (by omega)]
      simp
    · rw [h3 j (by omega)]
  | succ r ih =>
    intro fuel st v g hM hg hlt hge hlim hsc hfuel
    obtain ⟨f, rfl⟩ : ∃ f, fuel = f + 1 := ⟨fuel - 1, by omega⟩
    have hrM : (0 : Int) ≤ (r : Int) * st.max_frame_size :=
      mul_nonneg (by positivity) (le_of_lt hM)
    have hge' : ((r : Int) + 1) * st.max_frame_size ≤ v.size := by
      rcases hge with h | h
      · omega
      · push_cast at h; exact h
    have e1 : ((r : Int) + 1) * st.max_frame_size = r * st.max_frame_size + st.max_frame_size := by
      ring
    push_cast at hlt
    rw [e1] at hge' hlt
    rw [carve_loop_succ, if_pos ⟨by omega, by omega⟩]
    have hcs_count : (carve_slot st v).slot_count = st.slot_count + 1 := rfl
    have hcs_M : (carve_slot st v).max_frame_size = st.max_frame_size := rfl
    have hcs_U : (carve_slot st v).frame_size_uncompressed = st.frame_size_uncompressed := rfl
    have hcs_self : (carve_slot st v).slots st.slot_count =
        { st.slots st.slot_count with
          ptr := v.ptr, size := st.max_frame_size,
          payload_size := st.frame_size_uncompressed, status := SLOT_FREE } := by
      simp [carve_slot]
    have hcs_other : ∀ j, j ≠ st.slot_count → (carve_slot st v).slots j = st.slots j := by
      intro j hj
      simp [carve_slot, set_slot, hj]
    by_cases hsplit : v.group_size + st.max_frame_size + st.max_frame_size > 0xFFFE * 512
    · -- the group is closed after this slot; nothing more fits
      rw [if_pos hsplit]
      have hr0 : r = 0 := by
        rcases Nat.eq_zero_or_pos r with h | h
        · exact h
        · exfalso
          have : st.max_frame_size ≤ (r : Int) * st.max_frame_size := by
            have h1 : (1 : Int) ≤ (r : Int) := by exact_mod_cast h
            nlinarith
          omega
      subst hr0
      obtain ⟨a1, a2, a3, a4, _⟩ := add_reserved_slots_spec (v.ptr + st.max_frame_size)
        (Int.tdiv (v.group_size + st.max_frame_size) st.max_frame_size).toNat (carve_slot st v)
      have hn : (Int.tdiv (v.group_size + st.max_frame_size) st.max_frame_size).toNat = g + 1 := by
        have : v.group_size + st.max_frame_size = ((g + 1 : Nat) : Int) * st.max_frame_size := by
          push_cast; rw [hg]; ring
        rw [this, Int.mul_tdiv_cancel _ (ne_of_gt hM), Int.toNat_ofNat]
      rw [hn] at a1 a2 a3 a4 ⊢
      rw [carve_loop_exit]
      swap
      · simp only [a4, hcs_M]; omega
      unfold finish_group
      simp only [a4, hcs_M]
      have hz : (Int.tdiv 0 st.max_frame_size).toNat = 0 := by simp
      rw [hz]
      show (add_reserved_slots (carve_slot st v) (v.ptr + st.max_frame_size) (g + 1)).slot_count = _ ∧ _
      refine ⟨by have := a1; rw [hcs_count] at this; omega,
        fun k hk => ?_, fun k hk => ?_, fun j hj => ?_⟩
      · have : k = 0 := by omega
        subst this
        show (add_reserved_slots (carve_slot st v) (v.ptr + st.max_frame_size) (g + 1)).slots _ = _
        rw [a3 _ (by rw [hcs_count]; omega), Nat.add_zero, hcs_self]
        simp
      · show (add_reserved_slots (carve_slot st v) (v.ptr + st.max_frame_size) (g + 1)).slots _ = _
        have := a2 k (by omega)
        rw [hcs_count] at this
        rw [show st.slot_count + (0 + 1) + k = st.slot_count + 1 + k from by omega, this,
          hcs_other _ (by omega)]
        simp
      · show (add_reserved_slots (carve_slot st v) (v.ptr + st.max_frame_size) (g + 1)).slots _ = _
        rw [a3 j (by rw [hcs_count]; omega), hcs_other _ (by omega)]
    · rw [if_neg hsplit]
      obtain ⟨b1, b2, b3, b4⟩ := ih f (carve_slot st v)
        { ptr := v.ptr + st.max_frame_size, size := v.size - st.max_frame_size,
          group_size := v.group_size + st.max_frame_size } (g + 1) hM
        (by simp only [hcs_M]; push_cast; rw [hg]; ring)
        (by simp only [hcs_M]; omega)
        (by
          rcases Nat.eq_zero_or_pos r with h | h
          · exact Or.inl h
          · right; simp only [hcs_M]; omega)
        (by simp only; omega) (by rw [hcs_count]; omega) (by omega)
      rw [hcs_count, hcs_M, hcs_U] at *
      refine ⟨by rw [b1]; omega, fun k hk => ?_, fun k hk => ?_, fun j hj => ?_⟩
      · cases k with
        | zero =>
          simp only [Nat.add_zero]
          rw [b4 _ (by omega), hcs_self]
          simp
        | succ k =>
          rw [show st.slot_count + (k + 1) = st.slot_count + 1 + k from by omega, b2 k (by omega),
            hcs_other _ (by omega)]
          simp only [frame_slot.mk.injEq, and_true, true_and]
          push_cast; ring
      · rw [show st.slot_count + (r + 1) + k = st.slot_count + 1 + r + k from by omega,
          b3 k (by omega), hcs_other _ (by omega)]
        simp only [frame_slot.mk.injEq, and_true, true_and]
        push_cast; ring
      · rw [b4 j (by omega), hcs_other _ (by omega)]

theorem align64_ge (p : Int) : p ≤ align64 p := by
  unfold align64; omega

theorem align64_dvd (p : Int) : (64 : Int) ∣ align64 p :=
  Dvd.intro_left _ rfl

/-- For a memory chunk at address `p` of size `s` whose usable size
`S = s - (((p + 63) & ~63) - p)` is at most `0xFFFE * 512`, with `max_frame_size` a positive
multiple of 512 and room in the slot table for `S / max_frame_size` more slots, the pass of
`add_mem_suite` over the chunk creates exactly `S / max_frame_size` FREE slots: the `k`-th
starts at `((p + 63) & ~63) + k * max_frame_size`, has size `max_frame_size` and payload
size `frame_size_uncompressed`, starts at a multiple of 64 and lies inside `[p, p + s)`.
The other entries it appends are RESERVED, and the entries below the old `slot_count` are
unchanged. -/
theorem add_chunk_frames (st : State) (chunk_index : Nat) (c : memChunk)
    (hM : 0 < st.max_frame_size) (h512 : (512 : Int) ∣ st.max_frame_size)
    (hS : c.size - (align64 c.ptr - c.ptr) ≤ 0xFFFE * 512)
    (htable : st.slot_count
      + ((c.size - (align64 c.ptr - c.ptr)) / st.max_frame_size).toNat ≤ COUNT_slots) :
    (add_chunk st chunk_index c).1.slot_count = st.slot_count
      + ((c.size - (align64 c.ptr - c.ptr)) / st.max_frame_size).toNat
      + ((c.size - (align64 c.ptr - c.ptr)) / st.max_frame_size).toNat ∧
    (∀ k, k < ((c.size - (align64 c.ptr - c.ptr)) / st.max_frame_size).toNat →
      ((add_chunk st chunk_index c).1.slots (st.slot_count + k)).status = SLOT_FREE ∧
      ((add_chunk st chunk_index c).1.slots (st.slot_count + k)).ptr
        = align64 c.ptr + k * st.max_frame_size ∧
      ((add_chunk st chunk_index c).1.slots (st.slot_count + k)).size = st.max_frame_size ∧
      ((add_chunk st chunk_index c).1.slots (st.slot_count + k)).payload_size
        = st.frame_size_uncompressed ∧
      (64 : Int) ∣ ((add_chunk st chunk_index c).1.slots (st.slot_count + k)).ptr ∧
      c.ptr ≤ ((add_chunk st chunk_index c).1.slots (st.slot_count + k)).ptr ∧
      ((add_chunk st chunk_index c).1.slots (st.slot_count + k)).ptr
        + ((add_chunk st chunk_index c).1.slots (st.slot_count + k)).size ≤ c.ptr + c.size) ∧
    (∀ k, k < ((c.size - (align64 c.ptr - c.ptr)) / st.max_frame_size).toNat →
      ((add_chunk st chunk_index c).1.slots
        (st.slot_count + ((c.size - (align64 c.ptr - c.ptr)) / st.max_frame_size).toNat
          + k)).status = SLOT_RESERVED) ∧
    (∀ j, j < st.slot_count → (add_chunk st chunk_index c).1.slots j = st.slots j) := by
  generalize hSdef : c.size - (align64 c.ptr - c.ptr) = S at hS htable ⊢
  generalize hn : (S / st.max_frame_size).toNat = n at htable ⊢
  -- the number of frames that fit
  have hfit : S < n * st.max_frame_size + st.max_frame_size ∧
      (n = 0 ∨ n * st.max_frame_size ≤ S) := by
    rcases lt_or_le S 0 with hneg | hpos
    · have h0 : S / st.max_frame_size < 0 := Int.ediv_neg' hneg hM
      have : n = 0 := by rw [← hn]; omega
      subst this
      exact ⟨by simp; omega, Or.inl rfl⟩
    · have h0 : 0 ≤ S / st.max_frame_size := Int.ediv_nonneg hpos (le_of_lt hM)
      have hn' : (n : Int) = S / st.max_frame_size := by rw [← hn]; omega
      have h1 := Int.lt_ediv_add_one_mul_self S hM
      have h2 := Int.ediv_mul_le S (ne_of_gt hM)
      rw [← hn'] at h1 h2
      exact ⟨by linarith, Or.inr h2⟩
  -- the state after the chunk size has been noted has the same pool
  obtain ⟨st1, hst1, e1, e2, e3, e4⟩ : ∃ st1 : State,
      st1 = (if chunk_index < COUNT_chunk_list ∧ c.size > 64 then
              ({ st with chunk_list :=
                  fun k => if k = chunk_index then c.size - 64 else st.chunk_list k },
                chunk_index + 1)
             else (st, chunk_index)).1 ∧
      st1.slots = st.slots ∧ st1.slot_count = st.slot_count ∧
      st1.max_frame_size = st.max_frame_size ∧
      st1.frame_size_uncompressed = st.frame_size_uncompressed := by
    refine ⟨_, rfl, ?_, ?_, ?_, ?_⟩ <;> split_ifs <;> rfl
  rw [add_chunk_eq, ← hst1, hSdef]
  obtain ⟨a1, a2, a3, a4⟩ := carve_fit n (COUNT_slots - st1.slot_count) st1
    { ptr := align64 c.ptr, size := S, group_size := 0 } 0
    (by rw [e3]; exact hM) (by simp) (by rw [e3]; exact hfit.1) (by rw [e3]; exact hfit.2)
    (by simpa using hS) (by rw [e2]; exact htable) (by rw [e2]; omega)
  rw [e1, e2, e3, e4] at *
  simp only [Nat.zero_add] at a1 a3 a4
  refine ⟨a1, fun k hk => ?_, fun k hk => ?_, fun j hj => a4 j (Or.inl hj)⟩
  · rw [a2 k hk]
    refine ⟨rfl, rfl, rfl, rfl, ?_, ?_, ?_⟩
    · simp only
      obtain ⟨m, hm⟩ := h512
      exact dvd_add (align64_dvd _) (Dvd.intro_left ((k : Int) * (m * 8)) (by rw [hm]; ring))
    · simp only
      have := align64_ge c.ptr
      have : (0 : Int) ≤ (k : Int) * st.max_frame_size := mul_nonneg (by positivity) (le_of_lt hM)
      omega
    · simp only
      have hk1 : ((k : Int) + 1) * st.max_frame_size ≤ (n : Int) * st.max_frame_size :=
        mul_le_mul_of_nonneg_right (by exact_mod_cast hk) (le_of_lt hM)
      have hnS : (n : Int) * st.max_frame_size ≤ S := by
        rcases hfit.2 with h | h
        · omega
        · exact h
      rw [← hSdef] at hnS
      linarith
  · rw [a3 k hk]
/-! ## add_mem_suite: groups of FREE slots -/

/-- Induction over the carving loop of `add_mem_suite`: `P` holds at the loop head, `Q`
after a slot has been carved and before the group limit is tested. -/
theorem carve_loop_induct (M : Int) (P Q : State → carve_vars → Prop)
    (hcarve : ∀ st v, st.max_frame_size = M → P st v → v.size ≥ M →
      st.slot_count < COUNT_slots →
      Q (carve_slot st v)
        { ptr := v.ptr + M, size := v.size - M, group_size := v.group_size + M })
    (hsplit : ∀ st v, st.max_frame_size = M → Q st v → v.group_size + M > 0xFFFE * 512 →
      P (add_reserved_slots st v.ptr (Int.tdiv v.group_size M).toNat)
        { ptr := v.ptr + 64, size := v.size - 64, group_size := 0 })
    (hkeep : ∀ st v, st.max_frame_size = M → Q st v →
      ¬ v.group_size + M > 0xFFFE * 512 → P st v) :
    ∀ (fuel : Nat) (st : State) (v : carve_vars), st.max_frame_size = M → P st v →
      P (carve_loop fuel st v).1 (carve_loop fuel st v).2 ∧
      (carve_loop fuel st v).1.max_frame_size = M := by
  intro fuel
  induction fuel with
  | zero => intro st v hM hP; exact ⟨hP, hM⟩
  | succ n ih =>
    intro st v hM hP
    rw [carve_loop_succ]
    by_cases hc : v.size ≥ st.max_frame_size ∧ st.slot_count < COUNT_slots
    · rw [if_pos hc]
      have hQ := hcarve st v hM hP (by rw [← hM]; exact hc.1) hc.2
      have hM1 : (carve_slot st v).max_frame_size = M := hM
      by_cases hs : v.group_size + st.max_frame_size + st.max_frame_size > 0xFFFE * 512
      · rw [if_pos hs]
        rw [hM] at hs ⊢
        have hP1 := hsplit _ _ hM1 hQ hs
        have hM2 := (add_reserved_slots_spec (v.ptr + M)
          (Int.tdiv (v.group_size + M) M).toNat (carve_slot st v)).2.2.2.1
        exact ih _ _ (hM2.trans hM1) hP1
      · rw [if_neg hs]
        rw [hM] at hs ⊢
        exact ih _ _ hM1 (hkeep _ _ hM1 hQ hs)
    · rw [if_neg hc]
      exact ⟨hP, hM⟩

theorem cap_inv_close (st : State) (g : Nat) (p : Int) (hM0 : 0 ≤ st.max_frame_size)
    (hg : (g : Int) * st.max_frame_size ≤ 0xFFFE * 512) (h : cap_inv st g) :
    cap_inv (add_reserved_slots st p g) 0 := by
  obtain ⟨h1, h2, h3, h4, _⟩ := add_reserved_slots_spec p g st
  obtain ⟨c1, c2, c3, c4⟩ := h
  have hnew : ∀ j, st.slot_count ≤ j → j < st.slot_count + g →
      ((add_reserved_slots st p g).slots j).status = SLOT_RESERVED := by
    intro j hj1 hj2
    have := h2 (j - st.slot_count) (by omega)
    rw [show st.slot_count + (j - st.slot_count) = j from by omega] at this
    rw [this]
  unfold cap_inv
  rw [h1, h4]
  refine ⟨by omega, ?_, ?_, ?_⟩
  · intro j hj hf
    by_cases hlt : j < st.slot_count
    · rw [h3 j (Or.inl hlt)] at hf ⊢; exact c2 j hlt hf
    · rw [hnew j (by omega) hj] at hf; exact absurd hf (by decide)
  · by_cases hg0 : g = 0
    · subst hg0
      rcases c3 with c3 | c3
      · left; omega
      · right
        refine ⟨by omega, ?_⟩
        rw [h3 _ (Or.inl (by omega))]
        have := c3.2
        simpa using this
    · right
      refine ⟨by omega, ?_⟩
      rw [hnew _ (by omega) (by omega)]
      decide
  · intro s l hsl hfree
    by_cases hl0 : l = 0
    · subst hl0; simp
    have hend : s + l ≤ st.slot_count := by
      by_contra hcon
      have := hfree (l - 1) (by omega)
      rw [hnew _ (by omega) (by omega)] at this
      exact absurd this (by decide)
    have hfree' : ∀ k, k < l → (st.slots (s + k)).status = SLOT_FREE := by
      intro k hk
      have := hfree k hk
      rwa [h3 _ (Or.inl (by omega))] at this
    by_cases hin : s + l ≤ st.slot_count - g
    · exact c4 s l hin hfree'
    · have hs : st.slot_count - g ≤ s := by
        by_contra hcon
        rcases c3 with c3 | c3
        · omega
        · have := hfree' (st.slot_count - g - 1 - s) (by omega)
          rw [show s + (st.slot_count - g - 1 - s) = st.slot_count - g - 1 from by omega] at this
          exact c3.2 this
      have hlg : (l : Int) ≤ g := by exact_mod_cast (by omega : l ≤ g)
      nlinarith

theorem cap_inv_carve (st : State) (g : Nat) (v : carve_vars) (h : cap_inv st g) :
    cap_inv (carve_slot st v) (g + 1) := by
  obtain ⟨c1, c2, c3, c4⟩ := h
  unfold cap_inv carve_slot
  simp only []
  refine ⟨by omega, ?_, ?_, ?_⟩
  · intro j hj hf
    by_cases hlt : j = st.slot_count
    · subst hlt; rw [set_slot_same]
    · rw [set_slot_other _ _ _ _ hlt] at hf ⊢; exact c2 j (by omega) hf
  · rcases c3 with c3 | c3
    · left; omega
    · right
      refine ⟨by omega, ?_⟩
      rw [show st.slot_count + 1 - (g + 1) - 1 = st.slot_count - g - 1 from by omega,
        set_slot_other _ _ _ _ (by omega)]
      exact c3.2
  · intro s l hsl hfree
    refine c4 s l (by omega) (fun k hk => ?_)
    have := hfree k hk
    rwa [set_slot_other _ _ _ _ (by omega)] at this

theorem layout_inv_append_free (M : Int) (T T' : Nat → frame_slot) (a sc : Nat) (p : Int)
    (h : layout_inv M T a sc p) (hold : ∀ j, j < sc → T' j = T j)
    (hptr : (T' sc).ptr = p) (hsize : (T' sc).size = M) (hst : (T' sc).status = SLOT_FREE) :
    layout_inv M T' a (sc + 1) (p + M) := by
  obtain ⟨l1, l2, l3, l4⟩ := h
  refine ⟨by omega, ?_, ?_, ?_⟩
  · intro j hj1 hj2
    by_cases hlt : j < sc
    · rw [hold j hlt]; exact l2 j hj1 hlt
    · have : j = sc := by omega
      subst this
      exact Or.inl ⟨hst, hsize⟩
  · intro j hj1 hj2
    by_cases hlt : j + 1 < sc
    · rw [hold j (by omega), hold (j + 1) hlt]; exact l3 j hj1 hlt
    · have : j + 1 = sc := by omega
      subst this
      have hf := l4 (by omega)
      simp only [Nat.add_sub_cancel] at hf
      rw [hold j (by omega), hptr, hst, hf]
      simp
  · intro _
    simp only [Nat.add_sub_cancel]
    rw [hptr, hsize, hst]
    simp

theorem layout_inv_append_reserved (M : Int) (T T' : Nat → frame_slot) (a sc n : Nat) (p : Int)
    (h : layout_inv M T a sc p) (hold : ∀ j, j < sc → T' j = T j)
    (hnew : ∀ j, sc ≤ j → j < sc + n →
      (T' j).ptr = p ∧ (T' j).size = 0 ∧ (T' j).status = SLOT_RESERVED)
    (hlast : 0 < n → a < sc ∧ (T (sc - 1)).status = SLOT_FREE) :
    layout_inv M T' a (sc + n) (if n = 0 then p else p + 64) := by
  obtain ⟨l1, l2, l3, l4⟩ := h
  refine ⟨by omega, ?_, ?_, ?_⟩
  · intro j hj1 hj2
    by_cases hlt : j < sc
    · rw [hold j hlt]; exact l2 j hj1 hlt
    · exact Or.inr ⟨(hnew j (by omega) hj2).2.2, (hnew j (by omega) hj2).2.1⟩
  · intro j hj1 hj2
    by_cases hlt : j + 1 < sc
    · rw [hold j (by omega), hold (j + 1) hlt]; exact l3 j hj1 hlt
    · obtain ⟨n1, n2, n3⟩ := hnew (j + 1) (by omega) hj2
      by_cases heq : j + 1 = sc
      · have hl := hlast (by omega)
        have hf := l4 (by omega)
        have hj : sc - 1 = j := by omega
        rw [hj] at hl hf
        rw [hold j (by omega), n1, n3, hf, hl.2]
        simp
      · obtain ⟨m1, m2, m3⟩ := hnew j (by omega) (by omega)
        rw [n1, n3, m1, m2, m3]
        simp
  · intro han
    by_cases hn : n = 0
    · subst hn
      simp only [Nat.add_zero, if_true]
      have e := hold (sc - 1) (by omega)
      simp only [e]
      exact l4 (by omega)
    · obtain ⟨n1, n2, n3⟩ := hnew (sc + n - 1) (by omega) (by omega)
      rw [if_neg hn, n1, n2, n3]
      simp

/-- The carving loop of `add_mem_suite` on one chunk, followed by the RESERVED slots of the
last group, keeps the table invariant and lays the new entries out in groups. -/
theorem finish_group_groups (fuel : Nat) (st : State) (v : carve_vars)
    (hM : 0 < st.max_frame_size) (hL : st.max_frame_size ≤ 0xFFFE * 512)
    (hcap : cap_inv st 0) (hv : v.group_size = 0) :
    cap_inv (finish_group (carve_loop fuel st v)) 0 ∧
    (finish_group (carve_loop fuel st v)).max_frame_size = st.max_frame_size ∧
    (∃ p, layout_inv st.max_frame_size (finish_group (carve_loop fuel st v)).slots
      st.slot_count (finish_group (carve_loop fuel st v)).slot_count p) ∧
    (∀ j, j < st.slot_count → (finish_group (carve_loop fuel st v)).slots j = st.slots j) := by
  generalize hMdef : st.max_frame_size = M at hM hL
  generalize hadef : st.slot_count = a
  have key := carve_loop_induct M
    (fun s w => ∃ g : Nat, w.group_size = g * M ∧ ((g : Int) + 1) * M ≤ 0xFFFE * 512 ∧
      cap_inv s g ∧ layout_inv M s.slots a s.slot_count w.ptr ∧
      (0 < g → a < s.slot_count ∧ (s.slots (s.slot_count - 1)).status = SLOT_FREE) ∧
      (∀ j, j < a → s.slots j = st.slots j))
    (fun s w => ∃ g : Nat, 0 < g ∧ w.group_size = g * M ∧ (g : Int) * M ≤ 0xFFFE * 512 ∧
      cap_inv s g ∧ layout_inv M s.slots a s.slot_count w.ptr ∧
      (a < s.slot_count ∧ (s.slots (s.slot_count - 1)).status = SLOT_FREE) ∧
      (∀ j, j < a → s.slots j = st.slots j))
    ?_ ?_ ?_ fuel st v hMdef ?_
  · obtain ⟨⟨g, k1, k2, k3, k4, k5, k6⟩, kM⟩ := key
    generalize carve_loop fuel st v = res at *
    unfold finish_group
    rw [kM, k1, Int.mul_tdiv_cancel _ (ne_of_gt hM), Int.toNat_ofNat]
    obtain ⟨h1, h2, h3, h4, _⟩ := add_reserved_slots_spec res.2.ptr g res.1
    refine ⟨cap_inv_close _ _ _ (by rw [kM]; omega) (by rw [kM]; nlinarith) k3,
      h4.trans kM, ⟨if g = 0 then res.2.ptr else res.2.ptr + 64, ?_⟩, ?_⟩
    · rw [h1]
      refine layout_inv_append_reserved M res.1.slots _ a res.1.slot_count g res.2.ptr k4
        (fun j hj => h3 j (Or.inl hj)) (fun j hj1 hj2 => ?_) k5
      have := h2 (j - res.1.slot_count) (by omega)
      rw [show res.1.slot_count + (j - res.1.slot_count) = j from by omega] at this
      rw [this]
      exact ⟨rfl, rfl, rfl⟩
    · intro j hj
      rw [h3 j (Or.inl (by have := k4.1; omega))]
      exact k6 j hj
  · -- a slot is carved
    rintro s w hsM ⟨g, k1, k2, k3, k4, k5, k6⟩ _ _
    refine ⟨g + 1, by omega, ?_, by push_cast; linarith, cap_inv_carve s g w k3, ?_, ?_, ?_⟩
    · simp only [k1]; push_cast; ring
    · have := layout_inv_append_free M s.slots (carve_slot s w).slots a s.slot_count w.ptr k4
        (fun j hj => set_slot_other _ _ _ _ (by omega))
        (by unfold carve_slot; simp only []; rw [set_slot_same])
        (by unfold carve_slot; simp only []; rw [set_slot_same]; exact hsM)
        (by unfold carve_slot; simp only []; rw [set_slot_same])
      exact this
    · have := k4.1
      refine ⟨by show a < s.slot_count + 1; omega, ?_⟩
      show ((carve_slot s w).slots (s.slot_count + 1 - 1)).status = SLOT_FREE
      unfold carve_slot; simp only [Nat.add_sub_cancel]; rw [set_slot_same]
    · intro j hj
      have := k4.1
      show (set_slot s.slots s.slot_count _) j = st.slots j
      rw [set_slot_other _ _ _ _ (by omega)]
      exact k6 j hj
  · -- the group is split
    rintro s w hsM ⟨g, k0, k1, k2, k3, k4, k5, k6⟩ _
    obtain ⟨h1, h2, h3, h4, _⟩ := add_reserved_slots_spec w.ptr g s
    rw [k1, Int.mul_tdiv_cancel _ (ne_of_gt hM), Int.toNat_ofNat]
    refine ⟨0, by simp, by simpa using hL,
      cap_inv_close _ _ _ (by rw [hsM]; omega) (by rw [hsM]; exact k2) k3, ?_, ?_, ?_⟩
    · rw [h1]
      have := layout_inv_append_reserved M s.slots (add_reserved_slots s w.ptr g).slots a
        s.slot_count g w.ptr k4
        (fun j hj => h3 j (Or.inl hj)) (fun j hj1 hj2 => ?_) (fun _ => k5)
      · rwa [if_neg (by omega)] at this
      · have := h2 (j - s.slot_count) (by omega)
        rw [show s.slot_count + (j - s.slot_count) = j from by omega] at this
        rw [this]
        exact ⟨rfl, rfl, rfl⟩
    · intro hcon; omega
    · intro j hj
      rw [h3 j (Or.inl (by have := k4.1; omega))]
      exact k6 j hj
  · -- the group goes on
    rintro s w hsM ⟨g, k0, k1, k2, k3, k4, k5, k6⟩ hns
    exact ⟨g, k1, by rw [k1] at hns; linarith, k3, k4, fun _ => k5, k6⟩
  · -- at the start of the chunk
    refine ⟨0, by simpa using hv, by simpa using hL, hcap, ?_, fun h => by omega, fun j _ => rfl⟩
    rw [← hadef]
    exact ⟨le_refl _, fun j h1 h2 => by omega, fun j h1 h2 => by omega, fun h => by omega⟩

theorem add_chunk_groups (st : State) (chunk_index : Nat) (c : memChunk)
    (hM : 0 < st.max_frame_size) (hL : st.max_frame_size ≤ 0xFFFE * 512)
    (hcap : cap_inv st 0) :
    cap_inv (add_chunk st chunk_index c).1 0 ∧
    (add_chunk st chunk_index c).1.max_frame_size = st.max_frame_size ∧
    (∃ p, layout_inv st.max_frame_size (add_chunk st chunk_index c).1.slots
      st.slot_count (add_chunk st chunk_index c).1.slot_count p) ∧
    (∀ j, j < st.slot_count → (add_chunk st chunk_index c).1.slots j = st.slots j) := by
  obtain ⟨st1, hst1, e1, e2, e3⟩ : ∃ st1 : State,
      st1 = (if chunk_index < COUNT_chunk_list ∧ c.size > 64 then
              ({ st with chunk_list :=
                  fun k => if k = chunk_index then c.size - 64 else st.chunk_list k },
                chunk_index + 1)
             else (st, chunk_index)).1 ∧
      st1.slots = st.slots ∧ st1.slot_count = st.slot_count ∧
      st1.max_frame_size = st.max_frame_size := by
    refine ⟨_, rfl, ?_, ?_, ?_⟩ <;> split_ifs <;> rfl
  rw [add_chunk_eq, ← hst1]
  have hcap1 : cap_inv st1 0 := by
    unfold cap_inv at hcap ⊢
    rw [e1, e2, e3]
    exact hcap
  have := finish_group_groups (COUNT_slots - st1.slot_count) st1
    { ptr := align64 c.ptr, size := c.size - (align64 c.ptr - c.ptr), group_size := 0 }
    (by rw [e3]; exact hM) (by rw [e3]; exact hL) hcap1 rfl
  rw [e1, e2, e3] at this
  rw [e2]
  exact this

theorem add_chunks_groups : ∀ (chunks : List memChunk) (st : State) (chunk_index : Nat),
    0 < st.max_frame_size → st.max_frame_size ≤ 0xFFFE * 512 → cap_inv st 0 →
    cap_inv (add_mem_suite st (some chunks) chunk_index).1 0 ∧
    (add_mem_suite st (some chunks) chunk_index).1.max_frame_size = st.max_frame_size ∧
    st.slot_count ≤ (add_mem_suite st (some chunks) chunk_index).1.slot_count ∧
    (∀ j, j < st.slot_count →
      (add_mem_suite st (some chunks) chunk_index).1.slots j = st.slots j) := by
  intro chunks
  induction chunks with
  | nil => intro st ci _ _ hcap; exact ⟨hcap, rfl, le_refl _, fun j _ => rfl⟩
  | cons c rest ih =>
    intro st ci hM hL hcap
    obtain ⟨a1, a2, ⟨p, a3⟩, a4⟩ := add_chunk_groups st ci c hM hL hcap
    obtain ⟨b1, b2, b3, b4⟩ := ih (add_chunk st ci c).1 (add_chunk st ci c).2
      (by rw [a2]; exact hM) (by rw [a2]; exact hL) a1
    have hstep : add_mem_suite st (some (c :: rest)) ci
        = add_mem_suite (add_chunk st ci c).1 (some rest) (add_chunk st ci c).2 := rfl
    rw [hstep]
    have := a3.1
    exact ⟨b1, b2.trans a2, by omega, fun j hj => by rw [b4 j (by omega), a4 j hj]⟩

theorem add_mem_suite_append (st : State) (l1 l2 : List memChunk) (chunk_index : Nat) :
    add_mem_suite st (some (l1 ++ l2)) chunk_index
      = add_mem_suite (add_mem_suite st (some l1) chunk_index).1 (some l2)
          (add_mem_suite st (some l1) chunk_index).2 := by
  unfold add_mem_suite
  simp only [List.foldl_append]

/-- A run of FREE slots of a table with capped groups has at most `0xFFFE * 512` bytes. -/
theorem free_run_sum_le (st : State) (hcap : cap_inv st 0) (s l : Nat)
    (h : free_run st.slots st.slot_count s l) :
    sum_sizes st.slots s l ≤ 0xFFFE * 512 := by
  obtain ⟨_, c2, _, c4⟩ := hcap
  obtain ⟨_, r2, r3, _⟩ := h
  have hsum : ∀ m, m ≤ l → sum_sizes st.slots s m = (m : Int) * st.max_frame_size := by
    intro m
    induction m with
    | zero => intro _; simp [sum_sizes]
    | succ m ih =>
      intro hm
      rw [sum_sizes, ih (by omega), c2 (s + m) (by omega) (r3 m (by omega))]
      push_cast; ring
  rw [hsum l (le_refl _)]
  exact c4 s l (by omega) r3

/-- In the layout of one chunk, an entry never starts before the end of an earlier one, and
a FREE slot separated from an earlier entry by an entry that is not FREE starts at least 64
bytes after the end of the earlier one. -/
theorem layout_inv_gap (M : Int) (T : Nat → frame_slot) (a n : Nat) (p : Int) (hM : 0 < M)
    (h : layout_inv M T a n p) (i : Nat) (hi : a ≤ i) :
    ∀ d, i + d + 1 < n →
      (T i).ptr + (T i).size ≤ (T (i + d + 1)).ptr ∧
      ((T (i + d + 1)).status = SLOT_FREE →
        (∃ r, i < r ∧ r < i + d + 1 ∧ (T r).status ≠ SLOT_FREE) →
        (T i).ptr + (T i).size + 64 ≤ (T (i + d + 1)).ptr) := by
  obtain ⟨_, l2, l3, _⟩ := h
  have hsz : ∀ j, a ≤ j → j < n → 0 ≤ (T j).size := by
    intro j h1 h2
    rcases l2 j h1 h2 with h | h <;> omega
  have hgap : ∀ j, a ≤ j → j + 1 < n →
      (T j).ptr + (T j).size ≤ (T (j + 1)).ptr := by
    intro j h1 h2
    rw [l3 j h1 h2]
    split_ifs <;> omega
  intro d
  induction d with
  | zero =>
    intro hd
    refine ⟨hgap i hi hd, fun _ hr => ?_⟩
    obtain ⟨r, h1, h2, _⟩ := hr
    omega
  | succ d ih =>
    intro hd
    obtain ⟨ih1, ih2⟩ := ih (by omega)
    have g1 := hgap (i + d + 1) (by omega) hd
    have s1 := hsz (i + d + 1) (by omega) (by omega)
    refine ⟨by rw [show i + (d + 1) + 1 = i + d + 1 + 1 from by omega]; omega, fun hf hr => ?_⟩
    rw [show i + (d + 1) + 1 = i + d + 1 + 1 from by omega] at hf hr ⊢
    rcases l2 (i + d + 1) (by omega) (by omega) with hk | hk
    · obtain ⟨r, h1, h2, h3⟩ := hr
      have hrne : r ≠ i + d + 1 := by
        intro hcon; rw [hcon] at h3; exact h3 hk.1
      have := ih2 hk.1 ⟨r, h1, by omega, h3⟩
      omega
    · have e := l3 (i + d + 1) (by omega) hd
      rw [if_pos ⟨hk.1, hf⟩] at e
      omega

/-- In the layout of one chunk, the first FREE slot after the RESERVED entries that follow
a FREE slot starts 64 bytes after the end of that slot. -/
theorem layout_inv_next (M : Int) (T : Nat → frame_slot) (a n : Nat) (p : Int)
    (h : layout_inv M T a n p) (i k : Nat) (hi : a ≤ i) (hik : i + 1 < k) (hk : k < n)
    (hfi : (T i).status = SLOT_FREE) (hfk : (T k).status = SLOT_FREE)
    (hres : ∀ r, i < r → r < k → (T r).status = SLOT_RESERVED) :
    (T k).ptr = (T i).ptr + (T i).size + 64 := by
  obtain ⟨_, l2, l3, _⟩ := h
  have aux : ∀ d, i + d + 1 < k →
      (T (i + d + 1)).ptr = (T i).ptr + (T i).size ∧ (T (i + d + 1)).size = 0 := by
    intro d
    induction d with
    | zero =>
      intro hd
      have hr := hres (i + 1) (by omega) hd
      have e := l3 i hi (by omega)
      rw [if_neg (by rw [hfi]; simp)] at e
      refine ⟨by rw [e]; omega, ?_⟩
      rcases l2 (i + 1) (by omega) (by omega) with h | h
      · rw [hr] at h; exact absurd h.1 (by decide)
      · exact h.2
    | succ d ih =>
      intro hd
      obtain ⟨ih1, ih2⟩ := ih (by omega)
      have hr := hres (i + (d + 1) + 1) (by omega) hd
      have e := l3 (i + d + 1) (by omega) (by omega)
      rw [show i + d + 1 + 1 = i + (d + 1) + 1 from by omega] at e
      rw [if_neg (by rw [hr]; simp)] at e
      refine ⟨by rw [e]; omega, ?_⟩
      rcases l2 (i + (d + 1) + 1) (by omega) (by omega) with h | h
      · rw [hr] at h; exact absurd h.1 (by decide)
      · exact h.2
  obtain ⟨a1, a2⟩ := aux (k - i - 2) (by omega)
  have hr := hres (k - 1) (by omega) (by omega)
  rw [show i + (k - i - 2) + 1 = k - 1 from by omega] at a1 a2
  have e := l3 (k - 1) (by omega) (by omega)
  rw [show k - 1 + 1 = k from by omega] at e
  rw [if_pos ⟨hr, hfk⟩] at e
  omega

/-- After `add_mem_suite` on any list of memory chunks, started with an
empty table and `0 < max_frame_size <= 0xFFFE * 512`: every run of FREE slots that are
consecutive in the table and contiguous in memory has at most `0xFFFE * 512` bytes; and
among the entries of one chunk `c`, the first FREE slot after the RESERVED entries that
close a group starts 64 bytes after the end of the last FREE slot of that group, and two
FREE slots separated by an entry that is not FREE are at least 64 bytes apart, so FREE slots
of different groups of one chunk are never contiguous in memory. -/
theorem add_mem_suite_layout (st : State) (before : List memChunk) (c : memChunk)
    (after : List memChunk) (chunk_index : Nat)
    (hM : 0 < st.max_frame_size) (hL : st.max_frame_size ≤ 0xFFFE * 512)
    (h0 : st.slot_count = 0) :
    (∀ s l,
      free_run (add_mem_suite st (some (before ++ c :: after)) chunk_index).1.slots
        (add_mem_suite st (some (before ++ c :: after)) chunk_index).1.slot_count s l →
      sum_sizes (add_mem_suite st (some (before ++ c :: after)) chunk_index).1.slots s l
        ≤ 0xFFFE * 512) ∧
    (∀ i k, (add_mem_suite st (some before) chunk_index).1.slot_count ≤ i → i + 1 < k →
      k < (add_mem_suite st (some (before ++ [c])) chunk_index).1.slot_count →
      ((add_mem_suite st (some (before ++ c :: after)) chunk_index).1.slots i).status
        = SLOT_FREE →
      ((add_mem_suite st (some (before ++ c :: after)) chunk_index).1.slots k).status
        = SLOT_FREE →
      (∀ r, i < r → r < k →
        ((add_mem_suite st (some (before ++ c :: after)) chunk_index).1.slots r).status
          = SLOT_RESERVED) →
      ((add_mem_suite st (some (before ++ c :: after)) chunk_index).1.slots k).ptr
        = ((add_mem_suite st (some (before ++ c :: after)) chunk_index).1.slots i).ptr
          + ((add_mem_suite st (some (before ++ c :: after)) chunk_index).1.slots i).size
          + 64) ∧
    (∀ i k, (add_mem_suite st (some before) chunk_index).1.slot_count ≤ i → i < k →
      k < (add_mem_suite st (some (before ++ [c])) chunk_index).1.slot_count →
      ((add_mem_suite st (some (before ++ c :: after)) chunk_index).1.slots i).status
        = SLOT_FREE →
      ((add_mem_suite st (some (before ++ c :: after)) chunk_index).1.slots k).status
        = SLOT_FREE →
      (∃ r, i < r ∧ r < k ∧
        ((add_mem_suite st (some (before ++ c :: after)) chunk_index).1.slots r).status
          ≠ SLOT_FREE) →
      ((add_mem_suite st (some (before ++ c :: after)) chunk_index).1.slots i).ptr
        + ((add_mem_suite st (some (before ++ c :: after)) chunk_index).1.slots i).size
        + 64
        ≤ ((add_mem_suite st (some (before ++ c :: after)) chunk_index).1.slots k).ptr) := by
  have hcap0 : cap_inv st 0 :=
    ⟨by omega, fun j hj => by omega, Or.inl h0, fun s l hsl hf => by
      have : l = 0 := by omega
      subst this; simp⟩
  -- the table after the chunks before c
  obtain ⟨m1, m2, _, _⟩ := add_chunks_groups before st chunk_index hM hL hcap0
  generalize hmid : add_mem_suite st (some before) chunk_index = mid at m1 m2 ⊢
  -- the table after c
  obtain ⟨a1, a2, ⟨p, a3⟩, _⟩ := add_chunk_groups mid.1 mid.2 c
    (by rw [m2]; exact hM) (by rw [m2]; exact hL) m1
  have haft : add_mem_suite st (some (before ++ [c])) chunk_index = add_chunk mid.1 mid.2 c := by
    rw [add_mem_suite_append, hmid]; rfl
  rw [haft]
  generalize hadef : add_chunk mid.1 mid.2 c = aft at a1 a2 a3 ⊢
  -- the table after the chunks after c
  obtain ⟨f1, f2, f3, f4⟩ := add_chunks_groups after aft.1 aft.2
    (by rw [a2, m2]; exact hM) (by rw [a2, m2]; exact hL) a1
  have hfin : add_mem_suite st (some (before ++ c :: after)) chunk_index
      = add_mem_suite aft.1 (some after) aft.2 := by
    rw [show before ++ c :: after = (before ++ [c]) ++ after from by simp,
      add_mem_suite_append, haft, hadef]
  rw [hfin]
  generalize add_mem_suite aft.1 (some after) aft.2 = fin at f1 f2 f3 f4 ⊢
  -- the layout of the entries of c in the final table
  have hlay : layout_inv st.max_frame_size fin.1.slots mid.1.slot_count aft.1.slot_count p := by
    have := layout_inv_append_reserved mid.1.max_frame_size aft.1.slots fin.1.slots
      mid.1.slot_count aft.1.slot_count 0 p a3 f4 (fun j h1 h2 => by omega) (fun h => by omega)
    rw [m2] at this
    simpa using this
  refine ⟨fun s l h => free_run_sum_le fin.1 f1 s l h, ?_, ?_⟩
  · intro i k hi hik hk hfi hfk hres
    exact layout_inv_next _ _ _ _ p hlay i k hi hik hk hfi hfk hres
  · intro i k hi hik hk hfi hfk hr
    have := (layout_inv_gap _ _ _ _ p hM hlay i hi (k - i - 1) (by omega)).2
    rw [show i + (k - i - 1) + 1 = k from by omega] at this
    exact this hfk hr

/-- C11, counterexample: with frames of 16 MiB (below the limit `0xFFFE * 512`) and two
chunks of which the second starts where the first ends, entries 0 and 2 are FREE slots,
entry 2 starts exactly where entry 0 ends, and the two together have 32 MiB, more than
`0xFFFE * 512` bytes; entry 1, between them in the table, is RESERVED. -/
theorem touching_arenas_contiguous :
    session_start_16M.max_frame_size ≤ 0xFFFE * 512 ∧
    session_start_16M.slot_count = 0 ∧
    ((add_mem_suite session_start_16M (some touching_arenas) 0).1.slots 0).status = SLOT_FREE ∧
    ((add_mem_suite session_start_16M (some touching_arenas) 0).1.slots 1).status
      = SLOT_RESERVED ∧
    ((add_mem_suite session_start_16M (some touching_arenas) 0).1.slots 2).status = SLOT_FREE ∧
    ((add_mem_suite session_start_16M (some touching_arenas) 0).1.slots 2).ptr
      = ((add_mem_suite session_start_16M (some touching_arenas) 0).1.slots 0).ptr
        + ((add_mem_suite session_start_16M (some touching_arenas) 0).1.slots 0).size ∧
    ((add_mem_suite session_start_16M (some touching_arenas) 0).1.slots 0).size
      + ((add_mem_suite session_start_16M (some touching_arenas) 0).1.slots 2).size
      > 0xFFFE * 512 := by
  decide
/-! ## Slot sizes are multiples of 512 -/

theorem add_reserved_slots_dvd (ptr : Int) (n : Nat) (st : State)
    (h : ∀ j, j < COUNT_slots → (512 : Int) ∣ (st.slots j).size) :
    ∀ j, j < COUNT_slots → (512 : Int) ∣ ((add_reserved_slots st ptr n).slots j).size := by
  obtain ⟨_, h2, h3, _, _⟩ := add_reserved_slots_spec ptr n st
  intro j hj
  by_cases hc : j < st.slot_count ∨ st.slot_count + n ≤ j
  · rw [h3 j hc]; exact h j hj
  · have := h2 (j - st.slot_count) (by omega)
    rw [show st.slot_count + (j - st.slot_count) = j from by omega] at this
    rw [this]; exact dvd_zero _

theorem finish_group_dvd (fuel : Nat) (st : State) (v : carve_vars)
    (hM : (512 : Int) ∣ st.max_frame_size)
    (h : ∀ j, j < COUNT_slots → (512 : Int) ∣ (st.slots j).size) :
    (∀ j, j < COUNT_slots →
      (512 : Int) ∣ ((finish_group (carve_loop fuel st v)).slots j).size) ∧
    (finish_group (carve_loop fuel st v)).max_frame_size = st.max_frame_size := by
  have key := carve_loop_induct st.max_frame_size
    (fun s _ => ∀ j, j < COUNT_slots → (512 : Int) ∣ (s.slots j).size)
    (fun s _ => ∀ j, j < COUNT_slots → (512 : Int) ∣ (s.slots j).size)
    ?_ ?_ ?_ fuel st v rfl h
  · obtain ⟨k1, k2⟩ := key
    unfold finish_group
    exact ⟨add_reserved_slots_dvd _ _ _ k1,
      (add_reserved_slots_spec _ _ _).2.2.2.1.trans k2⟩
  · intro s w hs hP _ _ j hj
    show (512 : Int) ∣ ((set_slot s.slots s.slot_count _) j).size
    by_cases hjs : j = s.slot_count
    · rw [hjs, set_slot_same]; rw [hs]; exact hM
    · rw [set_slot_other _ _ _ _ hjs]; exact hP j hj
  · intro s w _ hQ _
    exact add_reserved_slots_dvd _ _ _ hQ
  · intro s w _ hQ _
    exact hQ

theorem add_chunk_dvd (st : State) (chunk_index : Nat) (c : memChunk)
    (hM : (512 : Int) ∣ st.max_frame_size)
    (h : ∀ j, j < COUNT_slots → (512 : Int) ∣ (st.slots j).size) :
    (∀ j, j < COUNT_slots → (512 : Int) ∣ ((add_chunk st chunk_index c).1.slots j).size) ∧
    (add_chunk st chunk_index c).1.max_frame_size = st.max_frame_size := by
  obtain ⟨st1, hst1, e1, e3⟩ : ∃ st1 : State,
      st1 = (if chunk_index < COUNT_chunk_list ∧ c.size > 64 then
              ({ st with chunk_list :=
                  fun k => if k = chunk_index then c.size - 64 else st.chunk_list k },
                chunk_index + 1)
             else (st, chunk_index)).1 ∧
      st1.slots = st.slots ∧ st1.max_frame_size = st.max_frame_size := by
    refine ⟨_, rfl, ?_, ?_⟩ <;> split_ifs <;> rfl
  rw [add_chunk_eq, ← hst1]
  have := finish_group_dvd (COUNT_slots - st1.slot_count) st1
    { ptr := align64 c.ptr, size := c.size - (align64 c.ptr - c.ptr), group_size := 0 }
    (by rw [e3]; exact hM) (by rw [e1]; exact h)
  rw [e3] at this
  exact this

theorem add_mem_suite_dvd (mem_suite : Option (List memChunk)) :
    ∀ (st : State) (chunk_index : Nat), (512 : Int) ∣ st.max_frame_size →
    (∀ j, j < COUNT_slots → (512 : Int) ∣ (st.slots j).size) →
    (∀ j, j < COUNT_slots →
      (512 : Int) ∣ ((add_mem_suite st mem_suite chunk_index).1.slots j).size) ∧
    (add_mem_suite st mem_suite chunk_index).1.max_frame_size = st.max_frame_size := by
  cases mem_suite with
  | none => intro st ci _ h; exact ⟨h, rfl⟩
  | some chunks =>
    induction chunks with
    | nil => intro st ci _ h; exact ⟨h, rfl⟩
    | cons c rest ih =>
      intro st ci hM h
      obtain ⟨a1, a2⟩ := add_chunk_dvd st ci c hM h
      obtain ⟨b1, b2⟩ := ih (add_chunk st ci c).1 (add_chunk st ci c).2 (by rw [a2]; exact hM) a1
      have hstep : add_mem_suite st (some (c :: rest)) ci
          = add_mem_suite (add_chunk st ci c).1 (some rest) (add_chunk st ci c).2 := rfl
      rw [hstep]
      exact ⟨b1, b2.trans a2⟩

theorem setup_buffers_dvd (st : State) (inp : setup_inputs)
    (hM : (512 : Int) ∣ st.max_frame_size)
    (h : ∀ j, j < COUNT_slots → (512 : Int) ∣ (st.slots j).size) :
    (∀ j, j < COUNT_slots → (512 : Int) ∣ ((setup_buffers st inp).2.slots j).size) ∧
    (setup_buffers st inp).2.max_frame_size = st.max_frame_size := by
  obtain ⟨a1, a2⟩ := add_mem_suite_dvd inp.shoot_malloc_suite
    { st with chunk_list := fun _ => 0 } 0 hM h
  obtain ⟨b1, b2⟩ := add_mem_suite_dvd
    (if inp.use_srm_memory ≠ 0 then inp.srm_malloc_suite else none)
    (add_mem_suite { st with chunk_list := fun _ => 0 } inp.shoot_malloc_suite 0).1
    (add_mem_suite { st with chunk_list := fun _ => 0 } inp.shoot_malloc_suite 0).2
    (by rw [a2]; exact hM) a1
  unfold setup_buffers
  simp only []
  generalize (if inp.use_srm_memory ≠ 0 then inp.srm_malloc_suite else none) = srm at b1 b2 ⊢
  split_ifs
  · exact ⟨h, rfl⟩
  · exact ⟨h, rfl⟩
  · exact ⟨b1, b2.trans a2⟩
  · exact ⟨b1, b2.trans a2⟩
  · exact ⟨b1, b2.trans a2⟩

theorem shrink_slot_rec_dvd (d : Nat) : ∀ (st : State) (i : Nat) (n : Int),
    (∀ j, j < COUNT_slots → (512 : Int) ∣ (st.slots j).size) →
    ∀ j, j < COUNT_slots → (512 : Int) ∣ ((shrink_slot_rec d st i n).slots j).size := by
  have hhead : ∀ (st : State) (i : Nat) (n : Int),
      (∀ j, j < COUNT_slots → (512 : Int) ∣ (st.slots j).size) →
      ∀ j, j < COUNT_slots → (512 : Int) ∣ ((shrink_head st i n).slots j).size := by
    intro st i n h j hj
    by_cases hji : j = i
    · subst hji; rw [shrink_head_slots_self]; exact frame_size_padded_dvd n
    · rw [shrink_head_slots_other _ _ _ _ hji]; exact h j hj
  have hgrow : ∀ (st : State) (i : Nat) (n : Int),
      (∀ j, j < COUNT_slots → (512 : Int) ∣ (st.slots j).size) →
      linked st.slots i (st.slots i).size →
      ∀ j, j < COUNT_slots → (512 : Int) ∣
        ((grow_next (shrink_head st i n) i
          ((st.slots i).size - frame_size_padded n)).slots j).size := by
    intro st i n h hl j hj
    by_cases hji : j = i + 1
    · subst hji
      rw [grow_next_slots_next]
      simp only []
      rw [shrink_head_slots_other _ _ _ _ (by omega)]
      exact dvd_add (h _ hj)
        (dvd_sub (h i (by have := hl.1; omega)) (frame_size_padded_dvd n))
    · rw [grow_next_slots_other _ _ _ _ hji]; exact hhead st i n h j hj
  induction d with
  | zero =>
    intro st i n h j hj
    rw [shrink_slot_rec_eq]
    split_ifs with h1 h2
    · exact hgrow st i n h h1 j hj
    · exact hgrow st i n h h1 j hj
    · exact hhead st i n h j hj
  | succ d ih =>
    intro st i n h j hj
    rw [shrink_slot_rec_eq]
    split_ifs with h1 h2
    · simp only []
      rw [set_status_size]
      exact ih _ _ _ (hgrow st i n h h1) j hj
    · exact hgrow st i n h h1 j hj
    · exact hhead st i n h j hj

theorem sum_sizes_dvd (slots : Nat → frame_slot) (s : Nat) : ∀ n : Nat,
    (∀ j, s ≤ j → j < s + n → (512 : Int) ∣ (slots j).size) →
    (512 : Int) ∣ sum_sizes slots s n := by
  intro n
  induction n with
  | zero => intro _; exact dvd_zero _
  | succ n ih =>
    intro h
    rw [sum_sizes]
    exact dvd_add (ih (fun j h1 h2 => h j h1 (by omega))) (h (s + n) (by omega) (by omega))

theorem repartition_dvd (M E : Int) (hM : (512 : Int) ∣ M) :
    ∀ (n a : Nat) (p : Int) (slots : Nat → frame_slot), (512 : Int) ∣ E - p →
    (∀ j, j < COUNT_slots → (512 : Int) ∣ (slots j).size) →
    ∀ j, j < COUNT_slots → (512 : Int) ∣ (repartition M E n a p slots j).size := by
  intro n
  induction n with
  | zero => intro a p slots _ h j hj; exact h j hj
  | succ n ih =>
    intro a p slots hE h j hj
    rw [repartition_succ]
    by_cases hc : p + M ≤ E
    · simp only [if_pos hc]
      refine ih _ _ _ (by
        have : E - (p + M) = (E - p) - M := by ring
        rw [this]; exact dvd_sub hE hM) (fun k hk => ?_) j hj
      by_cases hka : k = a
      · subst hka; rw [set_slot_same]; exact hM
      · rw [set_slot_other _ _ _ _ hka]; exact h k hk
    · simp only [if_neg hc]
      refine ih _ _ _ (by
        have : E - (p + (E - p)) = 0 := by ring
        rw [this]; exact dvd_zero _) (fun k hk => ?_) j hj
      by_cases hka : k = a
      · subst hka; rw [set_slot_same]; exact hE
      · rw [set_slot_other _ _ _ _ hka]; exact h k hk

theorem free_slot_dvd (st : State) (i : Nat) (hi : i < COUNT_slots)
    (hM : (512 : Int) ∣ st.max_frame_size)
    (h : ∀ j, j < COUNT_slots → (512 : Int) ∣ (st.slots j).size) :
    ∀ j, j < COUNT_slots → (512 : Int) ∣ ((free_slot st i).slots j).size := by
  have h1 : ∀ j, j < COUNT_slots →
      (512 : Int) ∣ ((set_status st i SLOT_RESERVED).slots j).size := by
    intro j hj; rw [set_status_size]; exact h j hj
  unfold free_slot
  simp only []
  split_ifs
  · intro j hj; rw [set_status_size]; exact h1 j hj
  · generalize (set_status st i SLOT_RESERVED).slots = T at h1 ⊢
    obtain ⟨f1, f2, _⟩ := find_first_spec T i
    obtain ⟨l1, l2, l3, _⟩ := find_last_spec T (COUNT_slots - i) i (by omega)
    have hlt := l2 hi
    generalize find_first T i = s at f1 f2 ⊢
    generalize find_last T (COUNT_slots - i) i = e at l1 l3 hlt ⊢
    have hadj : ∀ j, s ≤ j → j < s + (e - s) → adjacent T j := by
      intro j hj1 hj2
      rcases Nat.lt_or_ge j i with hlt | hge
      · exact (f2 j hj1 hlt).2
      · exact (l3 j hge (by omega)).2
    have hc := sum_sizes_chain T s (e - s) hadj
    rw [show s + (e - s) = e from by omega] at hc
    have hsum := sum_sizes_dvd T s (e - s) (fun j _ hj2 => h1 j (by omega))
    show ∀ j, j < COUNT_slots → (512 : Int) ∣
      (repartition (set_status st i SLOT_RESERVED).max_frame_size
        ((T e).ptr + (T e).size) (e + 1 - s) s (T s).ptr T j).size
    refine repartition_dvd _ _ hM _ _ _ _ ?_ h1
    rw [hc]
    have : (T s).ptr + sum_sizes T s (e - s) + (T e).size - (T s).ptr
        = sum_sizes T s (e - s) + (T e).size := by ring
    rw [this]
    exact dvd_add hsum (h1 e hlt)

/-- With `max_frame_size` a multiple of 512 and a slot table whose sizes are multiples
of 512 before the session (all zero at program start), every slot of the table has a size
that is a multiple of 512 after `setup_buffers` and after any sequence of captures,
`shrink_slot` calls and `free_slot` calls on indices of the table. -/
theorem slot_sizes_dvd (PTR_INVALID : Int) (st : State) (inp : setup_inputs)
    (ops : List pool_op)
    (hM : (512 : Int) ∣ st.max_frame_size)
    (hinit : ∀ j, j < COUNT_slots → (512 : Int) ∣ (st.slots j).size)
    (hops : ∀ op, op ∈ ops → op_in_table op) :
    ∀ j, j < COUNT_slots →
      (512 : Int) ∣ ((run_ops PTR_INVALID (setup_buffers st inp).2 ops).slots j).size := by
  obtain ⟨a1, a2⟩ := setup_buffers_dvd st inp hM hinit
  have hM1 : (512 : Int) ∣ (setup_buffers st inp).2.max_frame_size := by rw [a2]; exact hM
  generalize (setup_buffers st inp).2 = s at a1 hM1
  clear a2 hinit hM
  induction ops generalizing s with
  | nil => exact a1
  | cons op ops ih =>
    have hop := hops op (List.mem_cons_self _ _)
    refine ih (fun o ho => hops o (List.mem_cons_of_mem _ ho)) (apply_op PTR_INVALID s op) ?_ ?_
    · cases op with
      | capture =>
        intro j hj
        show (512 : Int) ∣ ((capture_frame PTR_INVALID s).slots j).size
        rw [(capture_frame_ptr_size PTR_INVALID s j).2]; exact a1 j hj
      | shrink i n => exact shrink_slot_rec_dvd _ s i n a1
      | free i => exact free_slot_dvd s i hop hM1 a1
    · rw [(apply_op_config PTR_INVALID s op).1]; exact hM1
/-! ## Initialisation keeps a property of the slots -/

/-- A property of a slot that survives the two ways in which `add_mem_suite` writes a table
entry holds for the whole table after `setup_buffers` if it held before. -/
theorem setup_buffers_slotwise (Pr : frame_slot → Prop) (M U : Int)
    (hres : ∀ (s : frame_slot) (p : Int), Pr s →
      Pr { s with ptr := p, size := 0, status := SLOT_RESERVED })
    (hfree : ∀ (s : frame_slot) (p : Int), Pr s →
      Pr { s with ptr := p, size := M, payload_size := U, status := SLOT_FREE })
    (st : State) (inp : setup_inputs)
    (hM : st.max_frame_size = M) (hU : st.frame_size_uncompressed = U)
    (h : ∀ j, j < COUNT_slots → Pr (st.slots j)) :
    (∀ j, j < COUNT_slots → Pr ((setup_buffers st inp).2.slots j)) ∧
    (setup_buffers st inp).2.max_frame_size = M ∧
    (setup_buffers st inp).2.frame_size_uncompressed = U := by
  -- add_reserved_slots
  have hadd : ∀ (n : Nat) (s : State) (p : Int),
      (∀ j, j < COUNT_slots → Pr (s.slots j)) →
      ∀ j, j < COUNT_slots → Pr ((add_reserved_slots s p n).slots j) := by
    intro n s p hs j hj
    obtain ⟨_, h2, h3, _, _⟩ := add_reserved_slots_spec p n s
    by_cases hc : j < s.slot_count ∨ s.slot_count + n ≤ j
    · rw [h3 j hc]; exact hs j hj
    · have := h2 (j - s.slot_count) (by omega)
      rw [show s.slot_count + (j - s.slot_count) = j from by omega] at this
      rw [this]; exact hres _ _ (hs j hj)
  -- the carving loop and the last group
  have hfin : ∀ (fuel : Nat) (s : State) (v : carve_vars),
      s.max_frame_size = M → s.frame_size_uncompressed = U →
      (∀ j, j < COUNT_slots → Pr (s.slots j)) →
      (∀ j, j < COUNT_slots → Pr ((finish_group (carve_loop fuel s v)).slots j)) ∧
      (finish_group (carve_loop fuel s v)).max_frame_size = M ∧
      (finish_group (carve_loop fuel s v)).frame_size_uncompressed = U := by
    intro fuel s v hsM hsU hs
    have key := carve_loop_induct M
      (fun s _ => (∀ j, j < COUNT_slots → Pr (s.slots j)) ∧ s.frame_size_uncompressed = U)
      (fun s _ => (∀ j, j < COUNT_slots → Pr (s.slots j)) ∧ s.frame_size_uncompressed = U)
      ?_ ?_ ?_ fuel s v hsM ⟨hs, hsU⟩
    · obtain ⟨⟨k1, k3⟩, k2⟩ := key
      unfold finish_group
      exact ⟨hadd _ _ _ k1, (add_reserved_slots_spec _ _ _).2.2.2.1.trans k2,
        (add_reserved_slots_spec _ _ _).2.2.2.2.trans k3⟩
    · rintro s w hs ⟨hP, hPU⟩ _ _
      refine ⟨fun j hj => ?_, hPU⟩
      show Pr ((set_slot s.slots s.slot_count _) j)
      by_cases hjs : j = s.slot_count
      · rw [hjs, set_slot_same, hs, hPU]; exact hfree _ _ (hP _ (by omega))
      · rw [set_slot_other _ _ _ _ hjs]; exact hP j hj
    · rintro s w _ ⟨hQ, hQU⟩ _
      exact ⟨hadd _ _ _ hQ, (add_reserved_slots_spec _ _ _).2.2.2.2.trans hQU⟩
    · intro s w _ hQ _
      exact hQ
  -- one chunk
  have hchunk : ∀ (s : State) (ci : Nat) (c : memChunk),
      s.max_frame_size = M → s.frame_size_uncompressed = U →
      (∀ j, j < COUNT_slots → Pr (s.slots j)) →
      (∀ j, j < COUNT_slots → Pr ((add_chunk s ci c).1.slots j)) ∧
      (add_chunk s ci c).1.max_frame_size = M ∧
      (add_chunk s ci c).1.frame_size_uncompressed = U := by
    intro s ci c hsM hsU hs
    obtain ⟨st1, hst1, e1, e3, e4⟩ : ∃ st1 : State,
        st1 = (if ci < COUNT_chunk_list ∧ c.size > 64 then
                ({ s with chunk_list :=
                    fun k => if k = ci then c.size - 64 else s.chunk_list k },
                  ci + 1)
               else (s, ci)).1 ∧
        st1.slots = s.slots ∧ st1.max_frame_size = s.max_frame_size ∧
        st1.frame_size_uncompressed = s.frame_size_uncompressed := by
      refine ⟨_, rfl, ?_, ?_, ?_⟩ <;> split_ifs <;> rfl
    rw [add_chunk_eq, ← hst1]
    exact hfin _ st1 _ (e3.trans hsM) (e4.trans hsU) (by rw [e1]; exact hs)
  -- one suite
  have hsuite : ∀ (suite : Option (List memChunk)) (s : State) (ci : Nat),
      s.max_frame_size = M → s.frame_size_uncompressed = U →
      (∀ j, j < COUNT_slots → Pr (s.slots j)) →
      (∀ j, j < COUNT_slots → Pr ((add_mem_suite s suite ci).1.slots j)) ∧
      (add_mem_suite s suite ci).1.max_frame_size = M ∧
      (add_mem_suite s suite ci).1.frame_size_uncompressed = U := by
    intro suite
    cases suite with
    | none => intro s ci hsM hsU hs; exact ⟨hs, hsM, hsU⟩
    | some chunks =>
      induction chunks with
      | nil => intro s ci hsM hsU hs; exact ⟨hs, hsM, hsU⟩
      | cons c rest ih =>
        intro s ci hsM hsU hs
        obtain ⟨a1, a2, a3⟩ := hchunk s ci c hsM hsU hs
        have hstep : add_mem_suite s (some (c :: rest)) ci
            = add_mem_suite (add_chunk s ci c).1 (some rest) (add_chunk s ci c).2 := rfl
        rw [hstep]
        exact ih _ _ a2 a3 a1
  obtain ⟨a1, a2, a3⟩ := hsuite inp.shoot_malloc_suite
    { st with chunk_list := fun _ => 0 } 0 hM hU h
  obtain ⟨b1, b2, b3⟩ := hsuite
    (if inp.use_srm_memory ≠ 0 then inp.srm_malloc_suite else none)
    (add_mem_suite { st with chunk_list := fun _ => 0 } inp.shoot_malloc_suite 0).1
    (add_mem_suite { st with chunk_list := fun _ => 0 } inp.shoot_malloc_suite 0).2 a2 a3 a1
  unfold setup_buffers
  simp only []
  generalize (if inp.use_srm_memory ≠ 0 then inp.srm_malloc_suite else none) = srm at b1 b2 b3 ⊢
  split_ifs
  · exact ⟨h, hM, hU⟩
  · exact ⟨h, hM, hU⟩
  · exact ⟨b1, b2, b3⟩
  · exact ⟨b1, b2, b3⟩
  · exact ⟨b1, b2, b3⟩

/-! ## Payload sizes -/

/-- A slot that `choose_next_capture_slot` returns is FREE and below `slot_count`. -/
theorem choose_next_capture_slot_free (P : Int) (st : State)
    (h : 0 ≤ (choose_next_capture_slot P st).1) :
    (choose_next_capture_slot P st).1 < (st.slot_count : Int) ∧
    (st.slots (choose_next_capture_slot P st).1.toNat).status = SLOT_FREE := by
  revert h
  unfold choose_next_capture_slot
  by_cases hk : keep_on_rolling st
  · rw [if_pos hk]
    obtain ⟨h0, h1, _, h3, _⟩ := hk
    have e : (st.capture_slot + 1).toNat = st.capture_slot.toNat + 1 := by omega
    intro _
    refine ⟨h1, ?_⟩
    simp only [e]; exact h3
  · rw [if_neg hk]
    rcases scan_loop_best st.slots P st.slot_count with ⟨_, hb⟩ | ⟨R, L, hR, hrun, _⟩
    · intro h; simp only [hb] at h; omega
    · obtain ⟨hlt, hfree⟩ := free_run_start hrun
      intro _
      simp only [hR]
      exact ⟨by exact_mod_cast hlt, by simpa using hfree⟩

/-- A capture changes at most the frame number and the status of one FREE slot. -/
theorem capture_frame_slots_free (P : Int) (st : State) :
    (capture_frame P st).slots = st.slots ∨
    ∃ (k : Nat) (fn : Int), (st.slots k).status = SLOT_FREE ∧ (capture_frame P st).slots =
      set_slot st.slots k { st.slots k with frame_number := fn, status := SLOT_FULL } := by
  have hs := choose_next_capture_slot_slots P st
  by_cases h0 : st.frame_count = 0
  · left
    simp only [capture_frame, if_pos h0]
  · by_cases h1 : (choose_next_capture_slot P st).1 ≥ 0
    · right
      refine ⟨(choose_next_capture_slot P st).1.toNat,
        (choose_next_capture_slot P st).2.frame_count,
        (choose_next_capture_slot_free P st h1).2, ?_⟩
      simp only [capture_frame, if_neg h0, if_pos h1, hs]
    · left
      simp only [capture_frame, if_neg h0, if_neg h1, hs]

theorem capture_frame_payload (P : Int) (st : State) (M : Int)
    (h : ∀ j, j < COUNT_slots → payload_inv M (st.slots j)) :
    ∀ j, j < COUNT_slots → payload_inv M ((capture_frame P st).slots j) := by
  intro j hj
  rcases capture_frame_slots_free P st with e | ⟨k, fn, hk, e⟩
  · rw [e]; exact h j hj
  · rw [e]
    by_cases hjk : j = k
    · subst hjk
      rw [set_slot_same]
      obtain ⟨k1, k2, k3⟩ := h j hj
      exact ⟨k1, k2, fun _ => k3 (by rw [hk]; decide)⟩
    · rw [set_slot_other _ _ _ _ hjk]; exact h j hj

theorem shrink_slot_rec_payload (d : Nat) : ∀ (st : State) (i : Nat) (n : Int),
    st.max_frame_size = frame_size_padded st.frame_size_uncompressed →
    COUNT_slots ≤ i + d →
    frame_size_padded n ≤ st.max_frame_size →
    frame_size_padded n ≤ (st.slots i).size →
    (∀ j, j < COUNT_slots → j ≠ i → payload_inv st.max_frame_size (st.slots j)) →
    ∀ j, j < COUNT_slots →
      payload_inv st.max_frame_size ((shrink_slot_rec d st i n).slots j) := by
  have hhead : ∀ (st : State) (i : Nat) (n : Int),
      frame_size_padded n ≤ st.max_frame_size →
      (∀ j, j < COUNT_slots → j ≠ i → payload_inv st.max_frame_size (st.slots j)) →
      ∀ j, j < COUNT_slots → payload_inv st.max_frame_size ((shrink_head st i n).slots j) := by
    intro st i n hn h j hj
    by_cases hji : j = i
    · subst hji
      rw [shrink_head_slots_self]
      have := frame_size_padded_ge n
      exact ⟨hn, by simp only []; omega, fun _ => by simp only []; omega⟩
    · rw [shrink_head_slots_other _ _ _ _ hji]; exact h j hj hji
  have hgrow : ∀ (st : State) (i : Nat) (n : Int),
      frame_size_padded n ≤ st.max_frame_size →
      frame_size_padded n ≤ (st.slots i).size →
      (∀ j, j < COUNT_slots → j ≠ i → payload_inv st.max_frame_size (st.slots j)) →
      linked st.slots i (st.slots i).size →
      ∀ j, j < COUNT_slots → j ≠ i + 1 → payload_inv st.max_frame_size
        ((grow_next (shrink_head st i n) i
          ((st.slots i).size - frame_size_padded n)).slots j) := by
    intro st i n hn hle h hl j hj hji
    rw [grow_next_slots_other _ _ _ _ hji]
    exact hhead st i n hn h j hj
  induction d with
  | zero =>
    intro st i n _ hd hn hle h j hj
    rw [shrink_slot_rec_eq]
    by_cases hl : linked st.slots i (st.slots i).size
    · have := hl.1; omega
    · rw [if_neg hl]; exact hhead st i n hn h j hj
  | succ d ih =>
    intro st i n hcfg hd hn hle h j hj
    rw [shrink_slot_rec_eq]
    by_cases hl : linked st.slots i (st.slots i).size
    · rw [if_pos hl]
      have hnext := grow_next_slots_next (shrink_head st i n) i
        ((st.slots i).size - frame_size_padded n)
      rw [shrink_head_slots_other _ _ _ _ (by omega)] at hnext
      obtain ⟨k1, k2, k3⟩ := h (i + 1) hl.1 (by omega)
      by_cases hbig : ((grow_next (shrink_head st i n) i
          ((st.slots i).size - frame_size_padded n)).slots (i + 1)).size ≥ st.max_frame_size
      · rw [if_pos hbig]
        simp only []
        have hM2 : (grow_next (shrink_head st i n) i
            ((st.slots i).size - frame_size_padded n)).max_frame_size = st.max_frame_size := rfl
        have hU2 : (grow_next (shrink_head st i n) i
            ((st.slots i).size - frame_size_padded n)).frame_size_uncompressed
              = st.frame_size_uncompressed := rfl
        have hrec := ih (grow_next (shrink_head st i n) i
            ((st.slots i).size - frame_size_padded n)) (i + 1) st.frame_size_uncompressed
          (by rw [hM2, hU2]; exact hcfg) (by omega) (by rw [hM2, ← hcfg])
          (by rw [← hcfg]; exact hbig)
          (fun j hj hji => by rw [hM2]; exact hgrow st i n hn hle h hl j hj hji)
        rw [hM2] at hrec
        by_cases hji : j = i + 1
        · subst hji
          rw [set_status_slots_self, shrink_slot_rec_self]
          have := frame_size_padded_ge st.frame_size_uncompressed
          refine ⟨by simp only []; omega, by simp only []; omega, fun _ => by simp only []; omega⟩
        · rw [set_status_slots_other _ _ _ _ hji]; exact hrec j hj
      · rw [if_neg hbig]
        by_cases hji : j = i + 1
        · subst hji
          rw [hnext] at hbig ⊢
          dsimp only at hbig ⊢
          refine ⟨?_, k2, fun hs => ?_⟩
          · show (st.slots (i + 1)).size + ((st.slots i).size - frame_size_padded n)
              ≤ st.max_frame_size
            omega
          have := k3 hs
          show (st.slots (i + 1)).payload_size
            ≤ (st.slots (i + 1)).size + ((st.slots i).size - frame_size_padded n)
          omega
        · exact hgrow st i n hn hle h hl j hj hji
    · rw [if_neg hl]; exact hhead st i n hn h j hj

theorem repartition_payload (M E : Int) :
    ∀ (n a : Nat) (p : Int) (slots : Nat → frame_slot),
    (∀ j, j < COUNT_slots → payload_inv M (slots j)) →
    ∀ j, j < COUNT_slots → payload_inv M (repartition M E n a p slots j) := by
  intro n
  induction n with
  | zero => intro a p slots h j hj; exact h j hj
  | succ n ih =>
    intro a p slots h j hj
    rw [repartition_succ]
    refine ih _ _ _ (fun k hk => ?_) j hj
    by_cases hka : k = a
    · subst hka
      rw [set_slot_same]
      obtain ⟨k1, k2, k3⟩ := h k hk
      by_cases hc : p + M ≤ E
      · rw [if_pos hc]
        exact ⟨le_refl _, k2, fun _ => k2⟩
      · rw [if_neg hc]
        exact ⟨by simp only []; omega, k2, fun hs => absurd rfl hs⟩
    · rw [set_slot_other _ _ _ _ hka]; exact h k hk

theorem free_slot_payload (st : State) (i : Nat)
    (h : ∀ j, j < COUNT_slots → payload_inv st.max_frame_size (st.slots j)) :
    ∀ j, j < COUNT_slots → payload_inv st.max_frame_size ((free_slot st i).slots j) := by
  have h1 : ∀ j, j < COUNT_slots →
      payload_inv st.max_frame_size ((set_status st i SLOT_RESERVED).slots j) := by
    intro j hj
    by_cases hji : j = i
    · subst hji
      rw [set_status_slots_self]
      obtain ⟨k1, k2, _⟩ := h j hj
      exact ⟨k1, k2, fun hs => absurd rfl hs⟩
    · rw [set_status_slots_other _ _ _ _ hji]; exact h j hj
  unfold free_slot
  simp only []
  split_ifs with hsz
  · intro j hj
    by_cases hji : j = i
    · subst hji
      rw [set_status_slots_self]
      obtain ⟨k1, k2, _⟩ := h1 j hj
      refine ⟨k1, k2, fun _ => ?_⟩
      simp only []
      rw [hsz]
      exact k2
    · rw [set_status_slots_other _ _ _ _ hji]; exact h1 j hj
  · exact repartition_payload _ _ _ _ _ _ h1

theorem apply_op_payload (P : Int) (st : State) (op : pool_op)
    (hcfg : st.max_frame_size = frame_size_padded st.frame_size_uncompressed)
    (hok : op_ok st op)
    (h : ∀ j, j < COUNT_slots → payload_inv st.max_frame_size (st.slots j)) :
    ∀ j, j < COUNT_slots → payload_inv st.max_frame_size ((apply_op P st op).slots j) := by
  cases op with
  | capture => exact capture_frame_payload P st _ h
  | shrink i n =>
    by_cases hi : i < COUNT_slots
    · exact shrink_slot_rec_payload _ st i n hcfg (by omega)
        (le_trans hok.2 (h i hi).1) hok.2 (fun j hj _ => h j hj)
    · intro j hj
      show payload_inv st.max_frame_size ((shrink_slot_rec _ st i n).slots j)
      rw [shrink_slot_rec_below _ _ _ _ _ (by omega)]
      exact h j hj
  | free i => exact free_slot_payload st i h

/-- With `max_frame_size` the padded size of `frame_size_uncompressed` and
a slot table whose entries satisfy `payload_inv` before the session (all zero at program
start), after `setup_buffers` and any sequence of captures, `shrink_slot` calls (payload
`n >= 0` whose padded size does not exceed the size of the slot) and `free_slot` calls on
indices of the table, every slot that is not RESERVED has `payload_size <= size`. -/
theorem payload_fits_ops (PTR_INVALID : Int) (st : State) (inp : setup_inputs)
    (ops : List pool_op)
    (hcfg : st.max_frame_size = frame_size_padded st.frame_size_uncompressed)
    (hU : 0 ≤ st.frame_size_uncompressed)
    (hinit : ∀ j, j < COUNT_slots → payload_inv st.max_frame_size (st.slots j))
    (hops : ops_ok PTR_INVALID (setup_buffers st inp).2 ops) :
    ∀ j, j < COUNT_slots →
      ((run_ops PTR_INVALID (setup_buffers st inp).2 ops).slots j).status ≠ SLOT_RESERVED →
      ((run_ops PTR_INVALID (setup_buffers st inp).2 ops).slots j).payload_size
        ≤ ((run_ops PTR_INVALID (setup_buffers st inp).2 ops).slots j).size := by
  have hpad := frame_size_padded_ge st.frame_size_uncompressed
  obtain ⟨a1, a2, a3⟩ := setup_buffers_slotwise (payload_inv st.max_frame_size)
    st.max_frame_size st.frame_size_uncompressed
    (fun s p hs => ⟨by simp only []; omega, hs.2.1, fun h => absurd rfl h⟩)
    (fun s p hs => ⟨le_refl _, by simp only []; omega, fun _ => by simp only []; omega⟩)
    st inp rfl rfl hinit
  have hcfg1 : (setup_buffers st inp).2.max_frame_size
      = frame_size_padded (setup_buffers st inp).2.frame_size_uncompressed := by
    rw [a2, a3]; exact hcfg
  rw [← a2] at a1
  generalize (setup_buffers st inp).2 = s at a1 hcfg1 hops
  clear a2 a3 hinit hcfg hU hpad
  have key : ∀ j, j < COUNT_slots →
      payload_inv s.max_frame_size ((run_ops PTR_INVALID s ops).slots j) := by
    induction ops generalizing s with
    | nil => exact a1
    | cons op ops ih =>
      obtain ⟨c1, c2⟩ := apply_op_config PTR_INVALID s op
      have := ih (apply_op PTR_INVALID s op)
        (by rw [c1]; exact apply_op_payload PTR_INVALID s op hcfg1 hops.1 a1)
        (by rw [c1, c2]; exact hcfg1) hops.2
      rw [c1] at this
      exact this
  intro j hj hs
  exact (key j hj).2.2 hs

/-- C14, counterexample: in the pool of `three_frame_arena`, after three frames have been
captured and compressed and the first two released in order, slot 1 is a RESERVED slot of
1024 bytes that still carries the payload size 1400 of the frame it held. -/
theorem free_slot_keeps_stale_payload :
    ops_ok 0 (setup_buffers session_start_2048 three_frame_arena).2 early_release ∧
    ((run_ops 0 (setup_buffers session_start_2048 three_frame_arena).2
      early_release).slots 1).status = SLOT_RESERVED ∧
    ((run_ops 0 (setup_buffers session_start_2048 three_frame_arena).2
      early_release).slots 1).size = 1024 ∧
    ((run_ops 0 (setup_buffers session_start_2048 three_frame_arena).2
      early_release).slots 1).payload_size = 1400 := by
  decide

/-! ## Initialisation inside the slot table -/

/-- The carving loop of `add_mem_suite` and the statement after it write only the entries
from the old `slot_count` up to the new one. -/
theorem carve_finish_above (fuel : Nat) (st : State) (v : carve_vars) :
    st.slot_count ≤ (finish_group (carve_loop fuel st v)).slot_count ∧
    ∀ j, (finish_group (carve_loop fuel st v)).slot_count ≤ j →
      (finish_group (carve_loop fuel st v)).slots j = st.slots j := by
  have key := carve_loop_induct st.max_frame_size
    (fun s _ => st.slot_count ≤ s.slot_count ∧ ∀ j, s.slot_count ≤ j → s.slots j = st.slots j)
    (fun s _ => st.slot_count ≤ s.slot_count ∧ ∀ j, s.slot_count ≤ j → s.slots j = st.slots j)
    (fun s v _ hP _ _ => by
      obtain ⟨h1, h2⟩ := hP
      refine ⟨Nat.le_succ_of_le h1, fun j hj => ?_⟩
      have hj' : s.slot_count + 1 ≤ j := hj
      show set_slot s.slots s.slot_count _ j = st.slots j
      rw [set_slot_other _ _ _ _ (by omega)]
      exact h2 j (by omega))
    (fun s v _ hQ _ => by
      obtain ⟨h1, h2⟩ := hQ
      obtain ⟨a1, _, a3, _, _⟩ := add_reserved_slots_spec v.ptr
        (Int.tdiv v.group_size st.max_frame_size).toNat s
      refine ⟨by rw [a1]; omega, fun j hj => ?_⟩
      rw [a1] at hj
      rw [a3 j (Or.inr hj)]
      exact h2 j (by omega))
    (fun s v _ hQ _ => hQ)
    fuel st v rfl ⟨le_refl _, fun _ _ => rfl⟩
  obtain ⟨⟨h1, h2⟩, _⟩ := key
  unfold finish_group
  obtain ⟨a1, _, a3, _, _⟩ := add_reserved_slots_spec (carve_loop fuel st v).2.ptr
    (Int.tdiv (carve_loop fuel st v).2.group_size
      (carve_loop fuel st v).1.max_frame_size).toNat (carve_loop fuel st v).1
  refine ⟨by rw [a1]; omega, fun j hj => ?_⟩
  rw [a1] at hj
  rw [a3 j (Or.inr hj)]
  exact h2 j (by omega)

/-- The pass of `add_mem_suite` over one chunk writes only the entries from the old
`slot_count` up to the new one. -/
theorem add_chunk_above (st : State) (chunk_index : Nat) (c : memChunk) :
    st.slot_count ≤ (add_chunk st chunk_index c).1.slot_count ∧
    ∀ j, (add_chunk st chunk_index c).1.slot_count ≤ j →
      (add_chunk st chunk_index c).1.slots j = st.slots j := by
  rw [add_chunk_eq]
  obtain ⟨st1, hst1, e1, e2⟩ : ∃ st1 : State,
      st1 = (if chunk_index < COUNT_chunk_list ∧ c.size > 64 then
              ({ st with chunk_list :=
                  fun k => if k = chunk_index then c.size - 64 else st.chunk_list k },
                chunk_index + 1)
             else (st, chunk_index)).1 ∧
      st1.slots = st.slots ∧ st1.slot_count = st.slot_count := by
    refine ⟨_, rfl, ?_, ?_⟩ <;> split_ifs <;> rfl
  rw [← hst1]
  obtain ⟨h1, h2⟩ := carve_finish_above (COUNT_slots - st1.slot_count) st1
    { ptr := align64 c.ptr, size := c.size - (align64 c.ptr - c.ptr), group_size := 0 }
  refine ⟨by rw [← e2]; exact h1, fun j hj => ?_⟩
  rw [← e1]
  exact h2 j hj

/-- The function `add_mem_suite` writes only the entries from the old `slot_count` up to
the new one. -/
theorem add_mem_suite_above (mem_suite : Option (List memChunk)) :
    ∀ (st : State) (chunk_index : Nat),
    st.slot_count ≤ (add_mem_suite st mem_suite chunk_index).1.slot_count ∧
    ∀ j, (add_mem_suite st mem_suite chunk_index).1.slot_count ≤ j →
      (add_mem_suite st mem_suite chunk_index).1.slots j = st.slots j := by
  cases mem_suite with
  | none => intro st ci; exact ⟨le_refl _, fun _ _ => rfl⟩
  | some chunks =>
    induction chunks with
    | nil => intro st ci; exact ⟨le_refl _, fun _ _ => rfl⟩
    | cons c rest ih =>
      intro st ci
      obtain ⟨a1, a2⟩ := add_chunk_above st ci c
      obtain ⟨b1, b2⟩ := ih (add_chunk st ci c).1 (add_chunk st ci c).2
      have hstep : add_mem_suite st (some (c :: rest)) ci
          = add_mem_suite (add_chunk st ci c).1 (some rest) (add_chunk st ci c).2 := rfl
      rw [hstep]
      exact ⟨le_trans a1 b1, fun j hj => by rw [b2 j hj, a2 j (by omega)]⟩

/-- The function `setup_buffers` writes only the entries from the old `slot_count` up to
the new one: when the new `slot_count` is at most `COUNT(slots)`, no store of
`add_mem_suite` or `add_reserved_slots` falls outside the table. -/
theorem setup_buffers_above (st : State) (inp : setup_inputs) :
    st.slot_count ≤ (setup_buffers st inp).2.slot_count ∧
    ∀ j, (setup_buffers st inp).2.slot_count ≤ j →
      (setup_buffers st inp).2.slots j = st.slots j := by
  obtain ⟨a1, a2⟩ := add_mem_suite_above inp.shoot_malloc_suite
    { st with chunk_list := fun _ => 0 } 0
  obtain ⟨b1, b2⟩ := add_mem_suite_above
    (if inp.use_srm_memory ≠ 0 then inp.srm_malloc_suite else none)
    (add_mem_suite { st with chunk_list := fun _ => 0 } inp.shoot_malloc_suite 0).1
    (add_mem_suite { st with chunk_list := fun _ => 0 } inp.shoot_malloc_suite 0).2
  have a1' : st.slot_count ≤
      (add_mem_suite { st with chunk_list := fun _ => 0 } inp.shoot_malloc_suite
        0).1.slot_count := a1
  have a2' : ∀ j,
      (add_mem_suite { st with chunk_list := fun _ => 0 } inp.shoot_malloc_suite
        0).1.slot_count ≤ j →
      (add_mem_suite { st with chunk_list := fun _ => 0 } inp.shoot_malloc_suite 0).1.slots j
        = st.slots j := a2
  unfold setup_buffers
  simp only []
  generalize (if inp.use_srm_memory ≠ 0 then inp.srm_malloc_suite else none) = srm at b1 b2 ⊢
  generalize add_mem_suite { st with chunk_list := fun _ => 0 } inp.shoot_malloc_suite 0 = r1
    at a1' a2' b1 b2 ⊢
  clear a1 a2
  generalize add_mem_suite r1.1 srm r1.2 = r2 at b1 b2 ⊢
  have c1 : st.slot_count ≤ r2.1.slot_count := le_trans a1' b1
  have c2 : ∀ j, r2.1.slot_count ≤ j → r2.1.slots j = st.slots j :=
    fun j hj => by rw [b2 j hj]; exact a2' j (by omega)
  split_ifs
  · exact ⟨le_refl _, fun _ _ => rfl⟩
  · exact ⟨le_refl _, fun _ _ => rfl⟩
  · exact ⟨c1, c2⟩
  · exact ⟨c1, c2⟩
  · exact ⟨c1, c2⟩

/-! ## The slot table after initialisation -/

/-- C12. For a memory chunk at address `p` of size `s` whose usable size
`S = s - (((p + 63) & ~63) - p)` is at most `0xFFFE * 512`, with `max_frame_size` a positive
multiple of 512 and room in the slot table for the `S / max_frame_size` slots and as many
RESERVED entries, the pass of `add_mem_suite` over the chunk creates exactly
`S / max_frame_size` FREE slots: the `k`-th starts at `((p + 63) & ~63) + k * max_frame_size`,
has size `max_frame_size` and payload size `frame_size_uncompressed`, starts at a multiple
of 64 and lies inside `[p, p + s)`.  The other entries it appends are RESERVED, the entries
below the old `slot_count` are unchanged, the new `slot_count` is at most `COUNT(slots)` and
nothing is stored outside the table. -/
theorem add_chunk_single_group (st : State) (chunk_index : Nat) (c : memChunk)
    (hM : 0 < st.max_frame_size) (h512 : (512 : Int) ∣ st.max_frame_size)
    (hS : c.size - (align64 c.ptr - c.ptr) ≤ 0xFFFE * 512)
    (htable : st.slot_count
      + 2 * ((c.size - (align64 c.ptr - c.ptr)) / st.max_frame_size).toNat ≤ COUNT_slots) :
    (add_chunk st chunk_index c).1.slot_count = st.slot_count
      + ((c.size - (align64 c.ptr - c.ptr)) / st.max_frame_size).toNat
      + ((c.size - (align64 c.ptr - c.ptr)) / st.max_frame_size).toNat ∧
    (∀ k, k < ((c.size - (align64 c.ptr - c.ptr)) / st.max_frame_size).toNat →
      ((add_chunk st chunk_index c).1.slots (st.slot_count + k)).status = SLOT_FREE ∧
      ((add_chunk st chunk_index c).1.slots (st.slot_count + k)).ptr
        = align64 c.ptr + k * st.max_frame_size ∧
      ((add_chunk st chunk_index c).1.slots (st.slot_count + k)).size = st.max_frame_size ∧
      ((add_chunk st chunk_index c).1.slots (st.slot_count + k)).payload_size
        = st.frame_size_uncompressed ∧
      (64 : Int) ∣ ((add_chunk st chunk_index c).1.slots (st.slot_count + k)).ptr ∧
      c.ptr ≤ ((add_chunk st chunk_index c).1.slots (st.slot_count + k)).ptr ∧
      ((add_chunk st chunk_index c).1.slots (st.slot_count + k)).ptr
        + ((add_chunk st chunk_index c).1.slots (st.slot_count + k)).size ≤ c.ptr + c.size) ∧
    (∀ k, k < ((c.size - (align64 c.ptr - c.ptr)) / st.max_frame_size).toNat →
      ((add_chunk st chunk_index c).1.slots
        (st.slot_count + ((c.size - (align64 c.ptr - c.ptr)) / st.max_frame_size).toNat
          + k)).status = SLOT_RESERVED) ∧
    (∀ j, j < st.slot_count → (add_chunk st chunk_index c).1.slots j = st.slots j) ∧
    (add_chunk st chunk_index c).1.slot_count ≤ COUNT_slots ∧
    (∀ j, COUNT_slots ≤ j → (add_chunk st chunk_index c).1.slots j = st.slots j) := by
  obtain ⟨h1, h2, h3, h4⟩ := add_chunk_frames st chunk_index c hM h512 hS (by omega)
  obtain ⟨_, a2⟩ := add_chunk_above st chunk_index c
  have hsc : (add_chunk st chunk_index c).1.slot_count ≤ COUNT_slots := by rw [h1]; omega
  exact ⟨h1, h2, h3, h4, hsc, fun j hj => a2 j (by omega)⟩

/-- C12 at `unaligned_chunk` on the state `session_start_2048`: two FREE slots at 4160
and 6208, four entries in all. -/
theorem add_chunk_single_group_witness :
    ((add_chunk session_start_2048 0 unaligned_chunk).1.slots 0).status = SLOT_FREE ∧
    ((add_chunk session_start_2048 0 unaligned_chunk).1.slots 0).ptr = 4160 ∧
    ((add_chunk session_start_2048 0 unaligned_chunk).1.slots 1).status = SLOT_FREE ∧
    ((add_chunk session_start_2048 0 unaligned_chunk).1.slots 1).ptr = 6208 ∧
    (add_chunk session_start_2048 0 unaligned_chunk).1.slot_count = 4 :=
  have h := add_chunk_single_group session_start_2048 0 unaligned_chunk
    (by decide) (by decide) (by decide) (by decide)
  ⟨(h.2.1 0 (by decide)).1, (h.2.1 0 (by decide)).2.1,
   (h.2.1 1 (by decide)).1, (h.2.1 1 (by decide)).2.1, h.1⟩

/-- C11 (amended). After `add_mem_suite` on a list of memory chunks that the slot table has
room for (the new `slot_count` is at most `COUNT(slots)`, so that nothing is stored outside
the table), started with an empty table and `0 < max_frame_size <= 0xFFFE * 512`: every run
of FREE slots that are consecutive in the table and contiguous in memory has at most
`0xFFFE * 512` bytes; and among the entries of one chunk `c`, the first FREE slot after the
RESERVED entries that close a group starts 64 bytes after the end of the last FREE slot of
that group, and two FREE slots separated by an entry that is not FREE are at least 64 bytes
apart, so FREE slots of different groups of one chunk are never contiguous in memory. -/
theorem add_mem_suite_groups (st : State) (before : List memChunk) (c : memChunk)
    (after : List memChunk) (chunk_index : Nat)
    (hM : 0 < st.max_frame_size) (hL : st.max_frame_size ≤ 0xFFFE * 512)
    (h0 : st.slot_count = 0)
    (hroom : (add_mem_suite st (some (before ++ c :: after)) chunk_index).1.slot_count
      ≤ COUNT_slots) :
    (∀ s l,
      free_run (add_mem_suite st (some (before ++ c :: after)) chunk_index).1.slots
        (add_mem_suite st (some (before ++ c :: after)) chunk_index).1.slot_count s l →
      sum_sizes (add_mem_suite st (some (before ++ c :: after)) chunk_index).1.slots s l
        ≤ 0xFFFE * 512) ∧
    (∀ i k, (add_mem_suite st (some before) chunk_index).1.slot_count ≤ i → i + 1 < k →
      k < (add_mem_suite st (some (before ++ [c])) chunk_index).1.slot_count →
      ((add_mem_suite st (some (before ++ c :: after)) chunk_index).1.slots i).status
        = SLOT_FREE →
      ((add_mem_suite st (some (before ++ c :: after)) chunk_index).1.slots k).status
        = SLOT_FREE →
      (∀ r, i < r → r < k →
        ((add_mem_suite st (some (before ++ c :: after)) chunk_index).1.slots r).status
          = SLOT_RESERVED) →
      ((add_mem_suite st (some (before ++ c :: after)) chunk_index).1.slots k).ptr
        = ((add_mem_suite st (some (before ++ c :: after)) chunk_index).1.slots i).ptr
          + ((add_mem_suite st (some (before ++ c :: after)) chunk_index).1.slots i).size
          + 64) ∧
    (∀ i k, (add_mem_suite st (some before) chunk_index).1.slot_count ≤ i → i < k →
      k < (add_mem_suite st (some (before ++ [c])) chunk_index).1.slot_count →
      ((add_mem_suite st (some (before ++ c :: after)) chunk_index).1.slots i).status
        = SLOT_FREE →
      ((add_mem_suite st (some (before ++ c :: after)) chunk_index).1.slots k).status
        = SLOT_FREE →
      (∃ r, i < r ∧ r < k ∧
        ((add_mem_suite st (some (before ++ c :: after)) chunk_index).1.slots r).status
          ≠ SLOT_FREE) →
      ((add_mem_suite st (some (before ++ c :: after)) chunk_index).1.slots i).ptr
        + ((add_mem_suite st (some (before ++ c :: after)) chunk_index).1.slots i).size
        + 64
        ≤ ((add_mem_suite st (some (before ++ c :: after)) chunk_index).1.slots k).ptr) ∧
    (∀ j, COUNT_slots ≤ j →
      (add_mem_suite st (some (before ++ c :: after)) chunk_index).1.slots j = st.slots j) := by
  obtain ⟨h1, h2, h3⟩ := add_mem_suite_layout st before c after chunk_index hM hL h0
  obtain ⟨_, a2⟩ := add_mem_suite_above (some (before ++ c :: after)) st chunk_index
  exact ⟨h1, h2, h3, fun j hj => a2 j (le_trans hroom hj)⟩

/-- C11 at `split_arena` with frames of 16 MiB: the chunk is split after the first frame,
and the second FREE slot (entry 2) starts 64 bytes after the end of the first. -/
theorem add_mem_suite_groups_witness :
    (add_mem_suite session_start_16M (some ([] ++ split_arena :: [])) 0).1.slot_count
      ≤ COUNT_slots ∧
    ((add_mem_suite session_start_16M (some ([] ++ split_arena :: [])) 0).1.slots 2).ptr
      = ((add_mem_suite session_start_16M (some ([] ++ split_arena :: [])) 0).1.slots 0).ptr
        + ((add_mem_suite session_start_16M (some ([] ++ split_arena :: [])) 0).1.slots 0).size
        + 64 :=
  ⟨by decide,
    (add_mem_suite_groups session_start_16M [] split_arena [] 0 (by decide) (by decide) rfl
      (by decide)).2.1
      0 2 (by decide) (by decide) (by decide) (by decide) (by decide)
      (fun r h1 h2 => by
        have : r = 1 := by omega
        subst this
        decide)⟩

/-- C13. With `max_frame_size` a multiple of 512, a slot table whose sizes are multiples
of 512 before the session (all zero at program start) and room in the table for the memory
that `setup_buffers` is given (its `slot_count` is at most `COUNT(slots)`, so that nothing
is stored outside the table), every slot of the table has a size that is a multiple of 512
after `setup_buffers` and after any sequence of captures, `shrink_slot` calls and
`free_slot` calls on indices of the table. -/
theorem slot_sizes_multiple_of_512 (PTR_INVALID : Int) (st : State) (inp : setup_inputs)
    (ops : List pool_op)
    (hM : (512 : Int) ∣ st.max_frame_size)
    (hinit : ∀ j, j < COUNT_slots → (512 : Int) ∣ (st.slots j).size)
    (hroom : (setup_buffers st inp).2.slot_count ≤ COUNT_slots)
    (hops : ∀ op, op ∈ ops → op_in_table op) :
    (∀ j, j < COUNT_slots →
      (512 : Int) ∣ ((run_ops PTR_INVALID (setup_buffers st inp).2 ops).slots j).size) ∧
    (∀ j, COUNT_slots ≤ j → (setup_buffers st inp).2.slots j = st.slots j) :=
  ⟨slot_sizes_dvd PTR_INVALID st inp ops hM hinit hops,
    fun j hj => (setup_buffers_above st inp).2 j (le_trans hroom hj)⟩

/-- C13 on the recording `compressed_recording` in the pool of `three_frame_arena`. -/
theorem slot_sizes_multiple_of_512_witness :
    (setup_buffers session_start_2048 three_frame_arena).2.slot_count ≤ COUNT_slots ∧
    (512 : Int) ∣ ((run_ops 0 (setup_buffers session_start_2048 three_frame_arena).2
      compressed_recording).slots 1).size :=
  ⟨by decide,
    (slot_sizes_multiple_of_512 0 session_start_2048 three_frame_arena compressed_recording
      (by decide) (fun _ _ => dvd_zero _) (by decide) (by decide)).1 1 (by decide)⟩

/-- C14 (amended). With `max_frame_size` the padded size of `frame_size_uncompressed`, a
slot table whose entries satisfy `payload_inv` before the session (size and payload size at
most `max_frame_size`, the payload inside the slot unless it is RESERVED: so it is at
program start, when all entries are zero) and room in the table for the memory that
`setup_buffers` is given: after `setup_buffers` and any sequence of captures, `shrink_slot`
calls (payload `n >= 0` whose padded size does not exceed the size of the slot) and
`free_slot` calls on indices of the table, every slot that is not RESERVED has
`payload_size <= size`. -/
theorem payload_fits_unless_reserved (PTR_INVALID : Int) (st : State) (inp : setup_inputs)
    (ops : List pool_op)
    (hcfg : st.max_frame_size = frame_size_padded st.frame_size_uncompressed)
    (hU : 0 ≤ st.frame_size_uncompressed)
    (hinit : ∀ j, j < COUNT_slots → payload_inv st.max_frame_size (st.slots j))
    (hroom : (setup_buffers st inp).2.slot_count ≤ COUNT_slots)
    (hops : ops_ok PTR_INVALID (setup_buffers st inp).2 ops) :
    (∀ j, j < COUNT_slots →
      ((run_ops PTR_INVALID (setup_buffers st inp).2 ops).slots j).status ≠ SLOT_RESERVED →
      ((run_ops PTR_INVALID (setup_buffers st inp).2 ops).slots j).payload_size
        ≤ ((run_ops PTR_INVALID (setup_buffers st inp).2 ops).slots j).size) ∧
    (∀ j, COUNT_slots ≤ j → (setup_buffers st inp).2.slots j = st.slots j) :=
  ⟨payload_fits_ops PTR_INVALID st inp ops hcfg hU hinit hops,
    fun j hj => (setup_buffers_above st inp).2 j (le_trans hroom hj)⟩

/-- C14 on the recording `compressed_recording` in the pool of `three_frame_arena`: slot 2,
which holds a compressed frame, has its payload inside its 512 bytes. -/
theorem payload_fits_unless_reserved_witness :
    (setup_buffers session_start_2048 three_frame_arena).2.slot_count ≤ COUNT_slots ∧
    ((run_ops 0 (setup_buffers session_start_2048 three_frame_arena).2
        compressed_recording).slots 2).payload_size
      ≤ ((run_ops 0 (setup_buffers session_start_2048 three_frame_arena).2
        compressed_recording).slots 2).size :=
  ⟨by decide,
    (payload_fits_unless_reserved 0 session_start_2048 three_frame_arena compressed_recording
      (by decide) (by decide) (fun _ _ => (by decide : payload_inv 2048 zero_slot))
      (by decide) (by decide)).1 2 (by decide) (by decide)⟩

/-! ## The predicted number of frames -/

theorem set_status_set_writer (h l : Int) (st : State) (i : Nat) (v : slot_status) :
    set_status (set_writer h l st) i v = set_writer h l (set_status st i v) := rfl

theorem shrink_head_set_writer (h l : Int) (st : State) (i : Nat) (n : Int) :
    shrink_head (set_writer h l st) i n = set_writer h l (shrink_head st i n) := rfl

theorem grow_next_set_writer (h l : Int) (st : State) (i : Nat) (d : Int) :
    grow_next (set_writer h l st) i d = set_writer h l (grow_next st i d) := rfl

theorem set_writer_slots (h l : Int) (st : State) : (set_writer h l st).slots = st.slots := rfl

theorem enqueue_set_writer (h l : Int) (st : State) (i : Int) :
    enqueue (set_writer h l st) i = set_writer h l (enqueue st i) := rfl

theorem free_slot_set_writer (h l : Int) (st : State) (i : Nat) :
    free_slot (set_writer h l st) i = set_writer h l (free_slot st i) := by
  unfold free_slot set_status set_writer
  dsimp only
  split_ifs <;> rfl

theorem shrink_slot_rec_set_writer (h l : Int) (d : Nat) : ∀ (st : State) (i : Nat) (n : Int),
    shrink_slot_rec d (set_writer h l st) i n = set_writer h l (shrink_slot_rec d st i n) := by
  induction d with
  | zero =>
    intro st i n
    rw [shrink_slot_rec_eq, shrink_slot_rec_eq]
    simp only [shrink_head_set_writer, grow_next_set_writer,
      show (set_writer h l st).slots = st.slots from rfl,
      show (set_writer h l st).max_frame_size = st.max_frame_size from rfl]
    split_ifs <;> rfl
  | succ d ih =>
    intro st i n
    rw [shrink_slot_rec_eq, shrink_slot_rec_eq]
    simp only [shrink_head_set_writer, grow_next_set_writer, ih, set_status_set_writer, set_writer_slots,
      show (set_writer h l st).frame_size_uncompressed = st.frame_size_uncompressed from rfl,
      show (set_writer h l st).max_frame_size = st.max_frame_size from rfl]
    split_ifs <;> rfl

theorem choose_next_capture_slot_set_writer (P h l : Int) (st : State) :
    choose_next_capture_slot P (set_writer h l st) =
      ((choose_next_capture_slot P st).1, set_writer h l (choose_next_capture_slot P st).2) := by
  unfold choose_next_capture_slot keep_on_rolling set_writer
  dsimp only
  split_ifs <;> rfl

theorem discard_step_set_writer (h l : Int) (st : State) (i : Nat) :
    discard_step (set_writer h l st) i = set_writer h l (discard_step st i) := by
  unfold discard_step
  simp only [free_slot_set_writer, show (set_writer h l st).slots = st.slots from rfl]
  split_ifs <;> rfl

theorem discard_frames_set_writer (h l : Int) : ∀ (n i : Nat) (st : State),
    discard_frames n i (set_writer h l st) = set_writer h l (discard_frames n i st) := by
  intro n
  induction n with
  | zero => intro i st; rfl
  | succ n ih =>
    intro i st
    rw [discard_frames, discard_frames, discard_step_set_writer, ih]

theorem promote_frames_set_writer (h l : Int) : ∀ (n : Nat) (cf i : Int) (st : State),
    promote_frames n cf i (set_writer h l st) = (promote_frames n cf i st).map (set_writer h l) := by
  intro n
  induction n with
  | zero => intro cf i st; rfl
  | succ n ih =>
    intro cf i st
    rw [promote_frames, promote_frames]
    simp only [show (set_writer h l st).slots = st.slots from rfl,
      show (set_writer h l st).slot_count = st.slot_count from rfl]
    cases find_frame st.slots st.slot_count cf (st.slot_count + 1) i with
    | none => rfl
    | some k =>
      simp only [enqueue_set_writer, ih]

theorem pre_record_vsync_step_set_writer (h l : Int) (st : State) :
    pre_record_vsync_step (set_writer h l st) = (pre_record_vsync_step st).map (set_writer h l) := by
  unfold pre_record_vsync_step
  simp only [show (set_writer h l st).raw_recording_state = st.raw_recording_state from rfl,
    show (set_writer h l st).pre_record_triggered = st.pre_record_triggered from rfl,
    show (set_writer h l st).frame_count = st.frame_count from rfl,
    show (set_writer h l st).pre_record_num_frames = st.pre_record_num_frames from rfl,
    show (set_writer h l st).slot_count = st.slot_count from rfl,
    promote_frames_set_writer]
  split_ifs
  · cases promote_frames (st.frame_count - 1).toNat 1 0 st with
    | none => rfl
    | some s => rfl
  · have e : ({ set_writer h l st with frame_count := (set_writer h l st).frame_count - 1 } : State)
        = set_writer h l { st with frame_count := st.frame_count - 1 } := rfl
    simp only [Option.map_some']
    rw [← discard_frames_set_writer]
    rfl
  · rfl
  · rfl

theorem capture_step_set_writer (P h l : Int) (st : State) :
    capture_step P (set_writer h l st) = set_writer h l (capture_step P st) := by
  unfold capture_step
  simp only [choose_next_capture_slot_set_writer]
  generalize choose_next_capture_slot P st = r
  unfold set_writer enqueue
  dsimp only
  split_ifs <;> rfl

theorem process_frame_set_writer (P h l : Int) (st : State) :
    process_frame P (set_writer h l st) = (process_frame P st).map (set_writer h l) := by
  unfold process_frame
  simp only [show (set_writer h l st).frame_count = st.frame_count from rfl,
    show (set_writer h l st).edmac_active = st.edmac_active from rfl,
    show (set_writer h l st).raw_recording_state = st.raw_recording_state from rfl,
    pre_record_vsync_step_set_writer]
  split_ifs
  · rfl
  · rfl
  · cases pre_record_vsync_step st with
    | none => rfl
    | some s => simp only [Option.map_some', capture_step_set_writer]
  · simp only [Option.map_some', capture_step_set_writer]

/-- The function `raw_rec_vsync_cbr` neither reads nor writes `writing_queue_head`. -/
theorem raw_rec_vsync_cbr_set_writer (P : Int) (enabled valid : Bool) (h l : Int) (st : State) :
    raw_rec_vsync_cbr P enabled valid (set_writer h l st) =
      (raw_rec_vsync_cbr P enabled valid st).map (set_writer h l) := by
  unfold raw_rec_vsync_cbr RAW_IS_RECORDING
  simp only [show (set_writer h l st).raw_recording_state = st.raw_recording_state from rfl,
    show (set_writer h l st).buffer_full = st.buffer_full from rfl, process_frame_set_writer]
  split_ifs <;> rfl
/-! ## The writing queue and the grouping loop of raw_video_rec_task -/

theorem mod_queue (x : Int) : MOD x (COUNT_writing_queue : Int) = x % 512 := rfl

theorem queue_len_eq (st : State) :
    (queue_len st : Int) = (st.writing_queue_tail - st.writing_queue_head) % 512 := by
  unfold queue_len
  rw [mod_queue]
  omega

theorem queue_sum_succ (st : State) (n : Nat) :
    queue_sum st (n + 1) = queue_sum st n + (st.slots (queue_slot st n).toNat).size := rfl

/-- The grouping loop, entered at position `k >= 1` of the queue with the first `k` slots
grouped, ends with the longest contiguous prefix of the queue. -/
theorem group_loop_spec (st : State) (fp : Int)
    (ht : 0 ≤ st.writing_queue_tail ∧ st.writing_queue_tail < 512) :
    ∀ (fuel k : Nat), 1 ≤ k → k ≤ queue_len st → queue_len st - k < fuel →
    (∀ j, j < k → (st.slots (queue_slot st j).toNat).ptr = fp + queue_sum st j) →
    ∃ n : Nat, k ≤ n ∧ n ≤ queue_len st ∧
      group_loop st fp st.writing_queue_tail fuel
          (MOD (st.writing_queue_head + k) (COUNT_writing_queue : Int))
          (MOD (st.writing_queue_head + k - 1) (COUNT_writing_queue : Int)) (queue_sum st k)
        = some (MOD (st.writing_queue_head + n - 1) (COUNT_writing_queue : Int),
                queue_sum st n) ∧
      (∀ j, j < n → (st.slots (queue_slot st j).toNat).ptr = fp + queue_sum st j) ∧
      (n = queue_len st ∨ (st.slots (queue_slot st n).toNat).ptr ≠ fp + queue_sum st n) := by
  have hL := queue_len_eq st
  intro fuel
  induction fuel with
  | zero => intro k _ _ h; omega
  | succ fuel ih =>
    intro k hk1 hkL hfuel hpre
    rw [group_loop]
    by_cases hend : MOD (st.writing_queue_head + k) (COUNT_writing_queue : Int)
        = st.writing_queue_tail
    · have hkeq : k = queue_len st := by
        rw [mod_queue] at hend
        omega
      rw [if_neg (by simpa using hend)]
      exact ⟨k, le_refl _, hkL, rfl, hpre, Or.inl hkeq⟩
    · rw [if_pos hend]
      have hklt : k < queue_len st := by
        rcases Nat.lt_or_ge k (queue_len st) with h | h
        · exact h
        · exfalso
          apply hend
          rw [mod_queue]
          omega
      by_cases hc : (st.slots (queue_slot st k).toNat).ptr = fp + queue_sum st k
      · have hc' : (st.slots (st.writing_queue
            (MOD (st.writing_queue_head + k) (COUNT_writing_queue : Int)).toNat).toNat).ptr
            = fp + queue_sum st k := hc
        simp only [hc', if_true]
        obtain ⟨n, h1, h2, h3, h4, h5⟩ := ih (k + 1) (by omega) (by omega) (by omega)
          (fun j hj => by
            rcases Nat.lt_or_ge j k with h | h
            · exact hpre j h
            · have : j = k := by omega
              subst this; exact hc)
        refine ⟨n, by omega, h2, ?_, h4, h5⟩
        have e1 : MOD (MOD (st.writing_queue_head + ↑k) ↑COUNT_writing_queue + 1)
            ↑COUNT_writing_queue
            = MOD (st.writing_queue_head + ↑(k + 1)) ↑COUNT_writing_queue := by
          simp only [mod_queue]; push_cast; omega
        have e2 : MOD (st.writing_queue_head + ↑k) ↑COUNT_writing_queue
            = MOD (st.writing_queue_head + ↑(k + 1) - 1) ↑COUNT_writing_queue := by
          simp only [mod_queue]; push_cast; omega
        rw [e1]
        rw [← e2] at h3
        exact h3
      · have hc' : ¬ (st.slots (st.writing_queue
            (MOD (st.writing_queue_head + k) (COUNT_writing_queue : Int)).toNat).toNat).ptr
            = fp + queue_sum st k := hc
        simp only [hc', if_false]
        exact ⟨k, le_refl _, hkL, rfl, hpre, Or.inr hc⟩

/-- The grouping loop on a non-empty queue ends with the longest contiguous prefix of the
queue. -/
theorem group_frames_prefix (st : State)
    (hh : 0 ≤ st.writing_queue_head ∧ st.writing_queue_head < 512)
    (ht : 0 ≤ st.writing_queue_tail ∧ st.writing_queue_tail < 512)
    (hne : st.writing_queue_head ≠ st.writing_queue_tail) :
    ∃ n : Nat, 1 ≤ n ∧ n ≤ queue_len st ∧
      group_frames st
        = some (MOD (st.writing_queue_head + n - 1) (COUNT_writing_queue : Int),
                queue_sum st n) ∧
      MOD (MOD (st.writing_queue_head + n - 1) (COUNT_writing_queue : Int)
            - st.writing_queue_head + 1) (COUNT_writing_queue : Int) = n ∧
      (∀ k, k < n → (st.slots (queue_slot st k).toNat).ptr
        = (st.slots (queue_slot st 0).toNat).ptr + queue_sum st k) ∧
      (n = queue_len st ∨ (st.slots (queue_slot st n).toNat).ptr
        ≠ (st.slots (queue_slot st 0).toNat).ptr + queue_sum st n) := by
  have hL := queue_len_eq st
  have hLpos : 1 ≤ queue_len st := by omega
  have hq0 : queue_slot st 0 = st.writing_queue st.writing_queue_head.toNat := by
    unfold queue_slot
    rw [mod_queue]
    congr 2
    push_cast
    omega
  have h0 : (st.slots (queue_slot st 0).toNat).ptr
      = (st.slots (queue_slot st 0).toNat).ptr + queue_sum st 0 := by
    simp [queue_sum]
  obtain ⟨n, h1, h2, h3, h4, h5⟩ := group_loop_spec st (st.slots (queue_slot st 0).toNat).ptr
    ht COUNT_writing_queue 1 (le_refl _) hLpos
    (by have : COUNT_writing_queue = 512 := rfl
        omega)
    (fun j hj => by
      have : j = 0 := by omega
      subst this; exact h0)
  refine ⟨n, h1, h2, ?_, ?_, h4, h5⟩
  · unfold group_frames
    rw [group_loop, if_pos hne, ← hq0]
    rw [if_pos (by simp)]
    have e1 : MOD (st.writing_queue_head + 1) (COUNT_writing_queue : Int)
        = MOD (st.writing_queue_head + ((1 : Nat) : Int)) (COUNT_writing_queue : Int) := by
      simp
    have e2 : st.writing_queue_head
        = MOD (st.writing_queue_head + ((1 : Nat) : Int) - 1) (COUNT_writing_queue : Int) := by
      rw [mod_queue]; push_cast; omega
    have e3 : (0 : Int) + (st.slots (queue_slot st 0).toNat).size = queue_sum st 1 := by
      simp [queue_sum]
    rw [← e2, ← e1, ← e3] at h3
    exact h3
  · rw [mod_queue, mod_queue]
    omega

/-- C20. For a non-empty queue with head and tail inside the queue, the grouping loop of the
writer ends, and the group is the longest prefix of the queue, from the head, in which each
slot starts exactly where the previous one ends: for some `n >= 1`, at most the length of
the queue, `last_grouped` is the queue index of position `n - 1`, the grouped count
`MOD(last_grouped - w_head + 1, COUNT(writing_queue))` is `n`, `group_size` is the sum of
the sizes of the first `n` slots of the queue, every slot at position `k < n` starts at
`slots[q_0].ptr` plus the sizes of the slots before it, and position `n` is the tail or
holds a slot that does not start there. -/
theorem group_frames_longest_prefix (st : State)
    (hh : 0 ≤ st.writing_queue_head ∧ st.writing_queue_head < 512)
    (ht : 0 ≤ st.writing_queue_tail ∧ st.writing_queue_tail < 512)
    (hne : st.writing_queue_head ≠ st.writing_queue_tail) :
    ∃ n : Nat, 1 ≤ n ∧ n ≤ queue_len st ∧
      group_frames st
        = some (MOD (st.writing_queue_head + n - 1) (COUNT_writing_queue : Int),
                queue_sum st n) ∧
      MOD (MOD (st.writing_queue_head + n - 1) (COUNT_writing_queue : Int)
            - st.writing_queue_head + 1) (COUNT_writing_queue : Int) = n ∧
      (∀ k, k < n → (st.slots (queue_slot st k).toNat).ptr
        = (st.slots (queue_slot st 0).toNat).ptr + queue_sum st k) ∧
      (n = queue_len st ∨ (st.slots (queue_slot st n).toNat).ptr
        ≠ (st.slots (queue_slot st 0).toNat).ptr + queue_sum st n) :=
  group_frames_prefix st hh ht hne

/-- C20 on `queued_pool`: of the three queued slots the first two are contiguous. -/
theorem group_frames_longest_prefix_witness :
    ∃ n : Nat, 1 ≤ n ∧ n ≤ queue_len queued_pool ∧
      group_frames queued_pool
        = some (MOD (queued_pool.writing_queue_head + n - 1) (COUNT_writing_queue : Int),
                queue_sum queued_pool n) ∧
      MOD (MOD (queued_pool.writing_queue_head + n - 1) (COUNT_writing_queue : Int)
            - queued_pool.writing_queue_head + 1) (COUNT_writing_queue : Int) = n ∧
      (∀ k, k < n → (queued_pool.slots (queue_slot queued_pool k).toNat).ptr
        = (queued_pool.slots (queue_slot queued_pool 0).toNat).ptr + queue_sum queued_pool k) ∧
      (n = queue_len queued_pool ∨ (queued_pool.slots (queue_slot queued_pool n).toNat).ptr
        ≠ (queued_pool.slots (queue_slot queued_pool 0).toNat).ptr + queue_sum queued_pool n) :=
  group_frames_longest_prefix queued_pool (by decide) (by decide) (by decide)
/-! ## process_frame outside pre-recording -/

theorem get_free_slots_nonneg (st : State) : ∀ n, 0 ≤ get_free_slots st n := by
  intro n
  induction n with
  | zero => exact le_refl _
  | succ n ih => rw [get_free_slots]; split_ifs <;> omega

theorem get_free_slots_pos_iff (st : State) : ∀ n,
    0 < get_free_slots st n ↔ ∃ j, j < n ∧ (st.slots j).status = SLOT_FREE := by
  intro n
  induction n with
  | zero => simp [get_free_slots]
  | succ n ih =>
    have h0 := get_free_slots_nonneg st n
    rw [get_free_slots]
    constructor
    · intro h
      by_cases hf : (st.slots n).status = SLOT_FREE
      · exact ⟨n, by omega, hf⟩
      · rw [if_neg hf] at h
        obtain ⟨j, hj, hjf⟩ := ih.1 (by omega)
        exact ⟨j, by omega, hjf⟩
    · rintro ⟨j, hj, hjf⟩
      by_cases hjn : j = n
      · subst hjn; rw [if_pos hjf]; omega
      · have := ih.2 ⟨j, by omega, hjf⟩
        split_ifs <;> omega

theorem get_free_slots_congr (st st' : State) : ∀ n,
    (∀ j, j < n → (st'.slots j).status = (st.slots j).status) →
    get_free_slots st' n = get_free_slots st n := by
  intro n
  induction n with
  | zero => intro _; rfl
  | succ n ih =>
    intro h
    rw [get_free_slots, get_free_slots, ih (fun j hj => h j (by omega)), h n (by omega)]

/-- A FREE slot that gets another status makes the count of FREE slots drop by one. -/
theorem get_free_slots_take (st st' : State) (c : Nat) (s1 : frame_slot)
    (hs : st'.slots = set_slot st.slots c s1) (hf : (st.slots c).status = SLOT_FREE)
    (h1 : s1.status ≠ SLOT_FREE) : ∀ n,
    get_free_slots st' n = get_free_slots st n - (if c < n then 1 else 0) := by
  intro n
  induction n with
  | zero => simp [get_free_slots]
  | succ n ih =>
    rw [get_free_slots, get_free_slots, ih, hs]
    by_cases hcn : n = c
    · subst hcn
      rw [set_slot_same, if_neg h1, if_pos hf]
      simp
    · rw [set_slot_other _ _ _ _ hcn]
      by_cases hlt : c < n
      · rw [if_pos hlt, if_pos (by omega : c < n + 1)]; omega
      · rw [if_neg hlt, if_neg (by omega : ¬ c < n + 1)]; omega

theorem choose_next_capture_slot_none (P : Int) (st : State)
    (h : ∀ j, j < st.slot_count → (st.slots j).status ≠ SLOT_FREE) :
    (choose_next_capture_slot P st).1 = -1 := by
  unfold choose_next_capture_slot
  by_cases hk : keep_on_rolling st
  · obtain ⟨h0, h1, _, h3, _⟩ := hk
    exact absurd h3 (h (st.capture_slot.toNat + 1) (by omega))
  · rw [if_neg hk]
    rcases scan_loop_best st.slots P st.slot_count with ⟨_, hb⟩ | ⟨R, L, _, hrun, _⟩
    · exact hb
    · obtain ⟨hlt, hfree⟩ := free_run_start hrun
      exact absurd hfree (h R hlt)

theorem choose_next_capture_slot_some (P : Int) (st : State) (j : Nat)
    (hj : j < st.slot_count) (hf : (st.slots j).status = SLOT_FREE) :
    0 ≤ (choose_next_capture_slot P st).1 := by
  unfold choose_next_capture_slot
  by_cases hk : keep_on_rolling st
  · rw [if_pos hk]
    have := hk.1
    simp only
    omega
  · rw [if_neg hk]
    rcases scan_loop_best st.slots P st.slot_count with ⟨hno, _⟩ | ⟨R, L, hR, _, _⟩
    · exact absurd (free_run_of_free hj hf) (hno j 1)
    · simp only [hR]; omega

theorem choose_next_capture_slot_state (P : Int) (st : State) :
    (choose_next_capture_slot P st).2
      = { st with force_new_buffer := (choose_next_capture_slot P st).2.force_new_buffer } := by
  unfold choose_next_capture_slot
  split_ifs <;> rfl

/-- The state after `process_frame` has captured a frame into slot `c`, the state not
being pre-recording: the slot is FULL with the frame number `frame_count` and is on the
queue. -/
theorem process_frame_capture (P : Int) (st : State) (hfc : st.frame_count ≠ 0)
    (hed : st.edmac_active = 0) (hpre : st.raw_recording_state ≠ RAW_PRE_RECORDING)
    (hc : 0 ≤ (choose_next_capture_slot P st).1) :
    process_frame P st = some
      { st with
        force_new_buffer := (choose_next_capture_slot P st).2.force_new_buffer
        capture_slot := (choose_next_capture_slot P st).1
        slots := set_slot st.slots (choose_next_capture_slot P st).1.toNat
          { st.slots (choose_next_capture_slot P st).1.toNat with
            frame_number := st.frame_count, status := SLOT_FULL }
        writing_queue := fun k =>
          if k = st.writing_queue_tail.toNat then (choose_next_capture_slot P st).1
          else st.writing_queue k
        writing_queue_tail := MOD (st.writing_queue_tail + 1) (COUNT_writing_queue : Int)
        vidf_frameNumber := fun a =>
          if a = (st.slots (choose_next_capture_slot P st).1.toNat).ptr then st.frame_count - 1
          else st.vidf_frameNumber a
        vidf_blockSize := fun a =>
          if a = (st.slots (choose_next_capture_slot P st).1.toNat).ptr then st.max_frame_size
          else st.vidf_blockSize a
        frame_count := st.frame_count + 1 } := by
  have hs := choose_next_capture_slot_state P st
  rw [process_frame, if_neg hfc, if_neg (by simp [hed]), if_neg hpre]
  simp only [capture_step]
  generalize choose_next_capture_slot P st = r at hs hc ⊢
  obtain ⟨r1, r2⟩ := r
  simp only at hs hc ⊢
  rw [if_pos hc, hs]
  simp only [if_neg hpre]
  rfl

/-- The state after `process_frame` has found no slot: only `buffer_full`, `capture_slot`
and `force_new_buffer` are written. -/
theorem process_frame_drop (P : Int) (st : State) (hfc : st.frame_count ≠ 0)
    (hed : st.edmac_active = 0) (hpre : st.raw_recording_state ≠ RAW_PRE_RECORDING)
    (hc : ¬ 0 ≤ (choose_next_capture_slot P st).1) :
    process_frame P st = some
      { st with
        force_new_buffer := (choose_next_capture_slot P st).2.force_new_buffer
        capture_slot := (choose_next_capture_slot P st).1
        buffer_full := 1 } := by
  have hs := choose_next_capture_slot_state P st
  rw [process_frame, if_neg hfc, if_neg (by simp [hed]), if_neg hpre]
  simp only [capture_step]
  generalize choose_next_capture_slot P st = r at hs hc ⊢
  obtain ⟨r1, r2⟩ := r
  simp only at hs hc ⊢
  rw [if_neg hc, hs]

/-- The fields of the state after `process_frame` has captured a frame outside
pre-recording. -/
theorem process_frame_capture_facts (P : Int) (st : State) (hfc : st.frame_count ≠ 0)
    (hed : st.edmac_active = 0) (hpre : st.raw_recording_state ≠ RAW_PRE_RECORDING)
    (hc : 0 ≤ (choose_next_capture_slot P st).1) :
    ∃ s' : State, process_frame P st = some s' ∧
      s'.slots = set_slot st.slots (choose_next_capture_slot P st).1.toNat
        { st.slots (choose_next_capture_slot P st).1.toNat with
          frame_number := st.frame_count, status := SLOT_FULL } ∧
      s'.writing_queue = (fun k =>
        if k = st.writing_queue_tail.toNat then (choose_next_capture_slot P st).1
        else st.writing_queue k) ∧
      s'.writing_queue_tail = (st.writing_queue_tail + 1) % 512 ∧
      s'.writing_queue_head = st.writing_queue_head ∧
      s'.frame_count = st.frame_count + 1 ∧
      s'.buffer_full = st.buffer_full ∧
      s'.slot_count = st.slot_count ∧
      s'.raw_recording_state = st.raw_recording_state ∧
      s'.edmac_active = st.edmac_active ∧
      s'.last_processed_frame = st.last_processed_frame ∧
      s'.frame_order_errors = st.frame_order_errors ∧
      s'.pre_record_triggered = st.pre_record_triggered ∧
      s'.pre_record_num_frames = st.pre_record_num_frames ∧
      s'.max_frame_size = st.max_frame_size ∧
      s'.frame_size_uncompressed = st.frame_size_uncompressed :=
  ⟨_, process_frame_capture P st hfc hed hpre hc, rfl, rfl, rfl, rfl, rfl, rfl, rfl, rfl, rfl,
    rfl, rfl, rfl, rfl, rfl, rfl⟩

/-- The fields of the state after `process_frame` has found no slot outside
pre-recording. -/
theorem process_frame_drop_facts (P : Int) (st : State) (hfc : st.frame_count ≠ 0)
    (hed : st.edmac_active = 0) (hpre : st.raw_recording_state ≠ RAW_PRE_RECORDING)
    (hc : ¬ 0 ≤ (choose_next_capture_slot P st).1) :
    ∃ s' : State, process_frame P st = some s' ∧
      s'.slots = st.slots ∧
      s'.writing_queue = st.writing_queue ∧
      s'.writing_queue_tail = st.writing_queue_tail ∧
      s'.writing_queue_head = st.writing_queue_head ∧
      s'.frame_count = st.frame_count ∧
      s'.buffer_full = 1 ∧
      s'.slot_count = st.slot_count ∧
      s'.raw_recording_state = st.raw_recording_state ∧
      s'.edmac_active = st.edmac_active ∧
      s'.last_processed_frame = st.last_processed_frame ∧
      s'.frame_order_errors = st.frame_order_errors ∧
      s'.pre_record_triggered = st.pre_record_triggered ∧
      s'.pre_record_num_frames = st.pre_record_num_frames ∧
      s'.max_frame_size = st.max_frame_size ∧
      s'.frame_size_uncompressed = st.frame_size_uncompressed :=
  ⟨_, process_frame_drop P st hfc hed hpre hc, rfl, rfl, rfl, rfl, rfl, rfl, rfl, rfl, rfl,
    rfl, rfl, rfl, rfl, rfl, rfl⟩

/-- The queue seen through `queue_len` and `queue_slot` depends only on the array, the
head and the tail. -/
theorem queue_len_congr (st st' : State)
    (hh : st'.writing_queue_head = st.writing_queue_head)
    (ht : st'.writing_queue_tail = st.writing_queue_tail) : queue_len st' = queue_len st := by
  unfold queue_len; rw [hh, ht]

theorem queue_slot_congr (st st' : State)
    (hq : st'.writing_queue = st.writing_queue)
    (hh : st'.writing_queue_head = st.writing_queue_head) (k : Nat) :
    queue_slot st' k = queue_slot st k := by
  unfold queue_slot; rw [hq, hh]
/-! ## process_frame until the pool is full -/

theorem get_free_slots_le (st : State) : ∀ n, get_free_slots st n ≤ n := by
  intro n
  induction n with
  | zero => exact le_refl _
  | succ n ih => rw [get_free_slots]; push_cast; split_ifs <;> omega

/-- While FREE slots are left, every call of `process_frame` in a recording with the EDMAC
idle takes one of them: the state after `m <= n` calls, `n` being the number of FREE slots
at the start. -/
theorem process_frames_fill (P : Int) (st : State) (n : Nat)
    (hrec : st.raw_recording_state = RAW_RECORDING) (hed : st.edmac_active = 0)
    (hfc : 1 ≤ st.frame_count)
    (hhead : 0 ≤ st.writing_queue_head ∧ st.writing_queue_head < 512)
    (hempty : st.writing_queue_tail = st.writing_queue_head)
    (hfree : get_free_slots st st.slot_count = n) :
    ∀ m, m ≤ n → ∃ s, process_frames P m st = some s ∧
      s.raw_recording_state = RAW_RECORDING ∧ s.edmac_active = 0 ∧
      s.frame_count = st.frame_count + m ∧ s.buffer_full = st.buffer_full ∧
      s.writing_queue_head = st.writing_queue_head ∧
      s.writing_queue_tail = (st.writing_queue_head + m) % 512 ∧
      s.slot_count = st.slot_count ∧ get_free_slots s s.slot_count = (n : Int) - m := by
  intro m
  induction m with
  | zero =>
    intro _
    refine ⟨st, rfl, hrec, hed, by simp, rfl, rfl, ?_, rfl, by simpa using hfree⟩
    rw [hempty]; simp only [Nat.cast_zero, add_zero]; omega
  | succ m ih =>
    intro hm
    obtain ⟨s, e, s1, s2, s3, s4, s5, s6, s7, s8⟩ := ih (by omega)
    have hpos : 0 < get_free_slots s s.slot_count := by rw [s8]; omega
    obtain ⟨j, hj, hjf⟩ := (get_free_slots_pos_iff s s.slot_count).1 hpos
    have hc := choose_next_capture_slot_some P s j hj hjf
    obtain ⟨c1, c2⟩ := choose_next_capture_slot_free P s hc
    obtain ⟨s', hpf, f1, f2, f3, f4, f5, f6, f7, f8, f9, _⟩ :=
      process_frame_capture_facts P s (by omega) s2 (by rw [s1]; decide) hc
    have e' : process_frames P (m + 1) st = some s' := by rw [process_frames, e]; exact hpf
    refine ⟨s', e', f8.trans s1, f9.trans s2, ?_, f6.trans s4, f4.trans s5, ?_, f7.trans s7, ?_⟩
    · rw [f5]; push_cast; omega
    · rw [f3, s6]; push_cast; omega
    · rw [f7]
      refine (get_free_slots_take s s' _ _ f1 c2 (by simp) s.slot_count).trans ?_
      rw [s8, if_pos (by omega)]
      push_cast
      ring

/-- C15. In a recording without pre-roll (`RAW_RECORDING`), with the EDMAC transfer of each
frame over before the next call, starting after the discarded frame 0 with an empty queue
and `n >= 1` FREE slots in a table of at most `COUNT(slots)` entries, and no writer
running: each of the first `n` calls of `process_frame` returns, takes one FREE slot, marks
it FULL with the next frame number, leaves the other slots and the earlier queue entries
alone and appends the slot to the queue, `buffer_full` staying as it was; the call after
them returns with `buffer_full = 1`, captures nothing (no slot changes), leaves
`frame_count` unchanged and the queue length at `n`. -/
theorem process_frame_until_full (PTR_INVALID : Int) (st : State) (n : Nat)
    (hrec : st.raw_recording_state = RAW_RECORDING) (hed : st.edmac_active = 0)
    (hfc : 1 ≤ st.frame_count)
    (hhead : 0 ≤ st.writing_queue_head ∧ st.writing_queue_head < 512)
    (hempty : st.writing_queue_tail = st.writing_queue_head)
    (hsc : st.slot_count ≤ COUNT_slots)
    (hfree : get_free_slots st st.slot_count = n) (hn : 1 ≤ n) :
    (∀ m, m < n → ∃ (s s' : State) (c : Nat),
      process_frames PTR_INVALID m st = some s ∧ process_frame PTR_INVALID s = some s' ∧
      c < st.slot_count ∧ (s.slots c).status = SLOT_FREE ∧
      (s'.slots c).status = SLOT_FULL ∧ (s'.slots c).frame_number = st.frame_count + m ∧
      (∀ j, j ≠ c → s'.slots j = s.slots j) ∧
      queue_len s = m ∧ queue_len s' = m + 1 ∧ queue_slot s' m = c ∧
      (∀ k, k < m → queue_slot s' k = queue_slot s k) ∧
      s'.buffer_full = st.buffer_full ∧ s'.frame_count = st.frame_count + m + 1) ∧
    (∃ s s' : State,
      process_frames PTR_INVALID n st = some s ∧ process_frame PTR_INVALID s = some s' ∧
      s'.buffer_full = 1 ∧ s'.frame_count = s.frame_count ∧ s'.slots = s.slots ∧
      queue_len s = n ∧ queue_len s' = n ∧ s.frame_count = st.frame_count + n) := by
  have hn511 : n ≤ 511 := by
    have := get_free_slots_le st st.slot_count
    have h511 : COUNT_slots = 511 := rfl
    omega
  have hfill := process_frames_fill PTR_INVALID st n hrec hed hfc hhead hempty hfree
  constructor
  · intro m hm
    obtain ⟨s, e, s1, s2, s3, s4, s5, s6, s7, s8⟩ := hfill m (by omega)
    have hpos : 0 < get_free_slots s s.slot_count := by rw [s8]; omega
    obtain ⟨j, hj, hjf⟩ := (get_free_slots_pos_iff s s.slot_count).1 hpos
    have hc := choose_next_capture_slot_some PTR_INVALID s j hj hjf
    obtain ⟨c1, c2⟩ := choose_next_capture_slot_free PTR_INVALID s hc
    obtain ⟨s', hpf, f1, f2, f3, f4, f5, f6, f7, f8, f9, _⟩ :=
      process_frame_capture_facts PTR_INVALID s (by omega) s2 (by rw [s1]; decide) hc
    have hlen : queue_len s = m := by
      have := queue_len_eq s
      rw [s6, s5] at this
      omega
    refine ⟨s, s', (choose_next_capture_slot PTR_INVALID s).1.toNat, e, hpf, by omega, c2,
      ?_, ?_, ?_, hlen, ?_, ?_, ?_, f6.trans s4, ?_⟩
    · rw [f1, set_slot_same]
    · rw [f1, set_slot_same]; exact s3
    · intro j hj
      rw [f1, set_slot_other _ _ _ _ hj]
    · have h1 := queue_len_eq s'
      rw [f3, f4, s6, s5] at h1
      omega
    · unfold queue_slot
      rw [f2, f4]
      simp only []
      rw [if_pos (by rw [mod_queue, s6, s5]), Int.toNat_of_nonneg hc]
    · intro k hk
      unfold queue_slot
      rw [f2, f4]
      simp only []
      rw [if_neg (by rw [mod_queue, s6, s5]; omega)]
    · rw [f5]; omega
  · obtain ⟨s, e, s1, s2, s3, s4, s5, s6, s7, s8⟩ := hfill n (le_refl _)
    have hnone : ∀ j, j < s.slot_count → (s.slots j).status ≠ SLOT_FREE := by
      intro j hj hjf
      have := (get_free_slots_pos_iff s s.slot_count).2 ⟨j, hj, hjf⟩
      rw [s8] at this
      omega
    have hc := choose_next_capture_slot_none PTR_INVALID s hnone
    obtain ⟨s', hpf, f1, f2, f3, f4, f5, f6, _⟩ :=
      process_frame_drop_facts PTR_INVALID s (by omega) s2 (by rw [s1]; decide)
        (by rw [hc]; decide)
    have hlen : queue_len s = n := by
      have := queue_len_eq s
      rw [s6, s5] at this
      omega
    exact ⟨s, s', e, hpf, f6, f5, f1, hlen, (queue_len_congr s s' f4 f3).trans hlen, s3⟩

/-- C15 on `four_slot_session` (four slots of 1 MiB): the fifth frame is dropped and the
queue holds four entries. -/
theorem process_frame_until_full_witness :
    ∃ s s' : State,
      process_frames 0 4 four_slot_session = some s ∧ process_frame 0 s = some s' ∧
      s'.buffer_full = 1 ∧ s'.frame_count = s.frame_count ∧ s'.slots = s.slots ∧
      queue_len s = 4 ∧ queue_len s' = 4 ∧ s.frame_count = four_slot_session.frame_count + 4 :=
  (process_frame_until_full 0 four_slot_session 4 (by decide) (by decide) (by decide)
    (by decide) (by decide) (by decide) (by decide) (by decide)).2
/-! ## Pre-recording with a frame budget below 2 -/

/-- C18, failing input: on the pool of `pre_record_arena` (four slots of 1 MiB)
`setup_buffers` returns 1 and computes `pre_record_num_frames = 8 - 16 = -8`.  The first
call of `process_frame` skips frame 0; the second one runs the discard step with
`frame_count = 1`, which decrements `frame_count` to 0, and then gives the captured frame
the number 0: slot 0 is FULL with `frame_number = 0` and the header `frameNumber = -1`,
while `frame_count` is 1 again.  In the third call the discard loop finds this slot, for
which `ASSERT(slots[i].frame_number > 0)` does not hold, and renumbers it to -1 (header -2);
the new frame gets the number 0 again. -/
theorem pre_record_assigns_frame_zero :
    (setup_buffers
      { boot_state with max_frame_size := 1048576, frame_size_uncompressed := 1048508 }
      pre_record_arena).1 = 1 ∧
    pre_record_session.pre_record_num_frames = -8 ∧
    pre_record_session.frame_count = 0 ∧
    (process_frames 0 2 pre_record_session).map
        (fun s => (s.raw_recording_state, s.pre_record_triggered, s.frame_count,
          (s.slots 0).status, (s.slots 0).frame_number, s.vidf_frameNumber 4096))
      = some (RAW_PRE_RECORDING, 0, 1, SLOT_FULL, 0, -1) ∧
    (process_frames 0 3 pre_record_session).map
        (fun s => (s.frame_count, (s.slots 0).status, (s.slots 0).frame_number,
          s.vidf_frameNumber 4096, (s.slots 1).status, (s.slots 1).frame_number))
      = some (1, SLOT_FULL, -1, -2, SLOT_FULL, 0) :=
  ⟨by decide, by decide, by decide, by decide, by decide⟩
/-! ## The pool operations and the frames held by the slots -/

theorem busy_iff (s : frame_slot) : busy s ↔ ¬ free_or_reserved s := by
  unfold busy free_or_reserved
  cases s.status <;> simp

theorem frames_kept_refl (T : Nat → frame_slot) : frames_kept T T :=
  fun _ => ⟨rfl, fun _ => rfl, fun h => h⟩

theorem frames_kept_trans (T T' T'' : Nat → frame_slot) (h1 : frames_kept T T')
    (h2 : frames_kept T' T'') : frames_kept T T'' := by
  intro j
  obtain ⟨a1, a2, a3⟩ := h1 j
  obtain ⟨b1, b2, b3⟩ := h2 j
  refine ⟨b1.trans a1, fun hb => ?_, fun hb => b3 (a3 hb)⟩
  have hb' : busy (T' j) := by unfold busy at hb ⊢; rw [a2 hb]; exact hb
  rw [b2 hb', a2 hb]

theorem frames_kept_full (T T' : Nat → frame_slot) (h : frames_kept T T') (j : Nat) :
    (T' j).status = SLOT_FULL ↔ (T j).status = SLOT_FULL := by
  obtain ⟨_, a2, a3⟩ := h j
  constructor
  · intro hf
    by_cases hb : busy (T j)
    · rw [← a2 hb]; exact hf
    · exact absurd (Or.inl hf) (a3 hb)
  · intro hf
    rw [a2 (Or.inl hf)]; exact hf

theorem frames_kept_busy (T T' : Nat → frame_slot) (h : frames_kept T T') (j : Nat) :
    busy (T' j) ↔ busy (T j) := by
  obtain ⟨_, a2, a3⟩ := h j
  constructor
  · intro hb; by_contra hn; exact a3 hn hb
  · intro hb; unfold busy at hb ⊢; rw [a2 hb]; exact hb

theorem free_slot_eq (st : State) (i : Nat) :
    free_slot st i = { st with slots := (free_slot st i).slots } := by
  unfold free_slot set_status
  simp only []
  split_ifs <;> rfl

theorem repartition_frame_number (M E : Int) : ∀ (n a : Nat) (p : Int)
    (slots : Nat → frame_slot) (j : Nat),
    (repartition M E n a p slots j).frame_number = (slots j).frame_number := by
  intro n
  induction n with
  | zero => intro a p slots j; rfl
  | succ n ih =>
    intro a p slots j
    rw [repartition_succ, ih]
    by_cases hja : j = a
    · subst hja; rw [set_slot_same]; split_ifs <;> rfl
    · rw [set_slot_other _ _ _ _ hja]

theorem repartition_status (M E : Int) : ∀ (n a : Nat) (p : Int)
    (slots : Nat → frame_slot) (j : Nat), a ≤ j → j < a + n →
    free_or_reserved (repartition M E n a p slots j) := by
  intro n
  induction n with
  | zero => intro a p slots j h1 h2; omega
  | succ n ih =>
    intro a p slots j h1 h2
    rw [repartition_succ]
    by_cases hja : j = a
    · subst hja
      rw [repartition_outside _ _ _ _ _ _ _ (Or.inl (by omega)), set_slot_same]
      unfold free_or_reserved
      split_ifs
      · exact Or.inl rfl
      · exact Or.inr rfl
    · exact ih _ _ _ _ (by omega) (by omega)

theorem free_slot_frame_number (st : State) (i j : Nat) :
    ((free_slot st i).slots j).frame_number = (st.slots j).frame_number := by
  have h1 : ∀ (v : slot_status) (s : State) (k : Nat),
      ((set_status s k v).slots j).frame_number = (s.slots j).frame_number := by
    intro v s k
    by_cases hjk : j = k
    · subst hjk; rw [set_status_slots_self]
    · rw [set_status_slots_other _ _ _ _ hjk]
  unfold free_slot
  simp only []
  split_ifs
  · rw [h1, h1]
  · show (repartition _ _ _ _ _ _ j).frame_number = _
    rw [repartition_frame_number, h1]

/-- The run that `free_slot(i)` re-partitions: every slot of it other than `i` is FREE or
RESERVED, and the slots outside are not written. -/
theorem free_slot_run (st : State) (i j : Nat) (hji : j ≠ i)
    (hb : ¬ free_or_reserved (st.slots j)) : (free_slot st i).slots j = st.slots j := by
  have hT : ∀ k, k ≠ i → (set_status st i SLOT_RESERVED).slots k = st.slots k :=
    fun k hk => set_status_slots_other _ _ _ _ hk
  unfold free_slot
  simp only []
  split_ifs
  · rw [set_status_slots_other _ _ _ _ hji, hT j hji]
  · show repartition _ _ _ _ _ _ j = _
    generalize hTdef : (set_status st i SLOT_RESERVED).slots = T at hT
    obtain ⟨f1, f2, _⟩ := find_first_spec T i
    obtain ⟨l1, _, l3, _⟩ := find_last_spec T (COUNT_slots - i) i (by omega)
    by_cases hin : find_first T i ≤ j ∧ j ≤ find_last T (COUNT_slots - i) i
    · exfalso
      rcases Nat.lt_or_ge j i with hlt | hge
      · have := (f2 j hin.1 hlt).1
        rw [hT j hji] at this
        exact hb this
      · have := (l3 (j - 1) (by omega) (by omega)).1
        rw [show j - 1 + 1 = j from by omega, hT j hji] at this
        exact hb this
    · rw [repartition_outside _ _ _ _ _ _ _ (by omega), hT j hji]

/-- After `free_slot(i)` slot `i` holds no frame. -/
theorem free_slot_released (st : State) (i : Nat) :
    free_or_reserved ((free_slot st i).slots i) := by
  unfold free_slot
  simp only []
  split_ifs
  · rw [set_status_slots_self]; exact Or.inl rfl
  · show free_or_reserved (repartition _ _ _ _ _ _ i)
    generalize (set_status st i SLOT_RESERVED).slots = T
    obtain ⟨f1, _, _⟩ := find_first_spec T i
    obtain ⟨l1, _, _, _⟩ := find_last_spec T (COUNT_slots - i) i (by omega)
    exact repartition_status _ _ _ _ _ _ _ f1 (by omega)

/-- `free_slot(i)` gives no other slot a frame. -/
theorem free_slot_not_busy (st : State) (i j : Nat) (hb : free_or_reserved (st.slots j)) :
    free_or_reserved ((free_slot st i).slots j) := by
  by_cases hji : j = i
  · subst hji; exact free_slot_released st j
  have hT : (set_status st i SLOT_RESERVED).slots j = st.slots j :=
    set_status_slots_other _ _ _ _ hji
  unfold free_slot
  simp only []
  split_ifs
  · rw [set_status_slots_other _ _ _ _ hji, hT]; exact hb
  · show free_or_reserved (repartition _ _ _ _ _ _ j)
    generalize hTdef : (set_status st i SLOT_RESERVED).slots = T at hT
    by_cases hin : find_first T i ≤ j ∧ j < find_first T i
        + (find_last T (COUNT_slots - i) i + 1 - find_first T i)
    · exact repartition_status _ _ _ _ _ _ _ hin.1 hin.2
    · rw [repartition_outside _ _ _ _ _ _ _ (by omega), hT]; exact hb

theorem shrink_slot_rec_fields (d : Nat) : ∀ (st : State) (i : Nat) (n : Int),
    shrink_slot_rec d st i n =
      { st with slots := (shrink_slot_rec d st i n).slots
                vidf_blockSize := (shrink_slot_rec d st i n).vidf_blockSize } := by
  induction d with
  | zero =>
    intro st i n
    rw [shrink_slot_rec_eq]
    split_ifs <;> rfl
  | succ d ih =>
    intro st i n
    rw [shrink_slot_rec_eq]
    split_ifs
    · simp only []
      generalize hg : grow_next (shrink_head st i n) i
        ((st.slots i).size - frame_size_padded n) = g
      have := ih g (i + 1) st.frame_size_uncompressed
      have hg' : g = { st with slots := g.slots, vidf_blockSize := g.vidf_blockSize } := by
        rw [← hg]; rfl
      rw [this]
      unfold set_status
      simp only []
      rw [hg']
    · rfl
    · rfl

/-- `shrink_slot` keeps the frames held by the pool. -/
theorem shrink_slot_rec_frames_kept (d : Nat) : ∀ (st : State) (i : Nat) (n : Int),
    frames_kept st.slots (shrink_slot_rec d st i n).slots := by
  have hhead : ∀ (st : State) (i : Nat) (n : Int),
      frames_kept st.slots (shrink_head st i n).slots := by
    intro st i n j
    by_cases hji : j = i
    · subst hji; rw [shrink_head_slots_self]; exact ⟨rfl, fun _ => rfl, fun h => h⟩
    · rw [shrink_head_slots_other _ _ _ _ hji]; exact ⟨rfl, fun _ => rfl, fun h => h⟩
  have hgrow : ∀ (st : State) (i : Nat) (dd : Int),
      frames_kept st.slots (grow_next st i dd).slots := by
    intro st i dd j
    by_cases hji : j = i + 1
    · subst hji; rw [grow_next_slots_next]; exact ⟨rfl, fun _ => rfl, fun h => h⟩
    · rw [grow_next_slots_other _ _ _ _ hji]; exact ⟨rfl, fun _ => rfl, fun h => h⟩
  induction d with
  | zero =>
    intro st i n
    rw [shrink_slot_rec_eq]
    split_ifs
    · exact frames_kept_trans _ _ _ (hhead st i n) (hgrow _ _ _)
    · exact frames_kept_trans _ _ _ (hhead st i n) (hgrow _ _ _)
    · exact hhead st i n
  | succ d ih =>
    intro st i n
    rw [shrink_slot_rec_eq]
    split_ifs with hl hbig
    · simp only []
      have h2 := frames_kept_trans _ _ _ (hhead st i n)
        (hgrow (shrink_head st i n) i ((st.slots i).size - frame_size_padded n))
      have h3 := frames_kept_trans _ _ _ h2 (ih _ (i + 1) st.frame_size_uncompressed)
      intro j
      by_cases hji : j = i + 1
      · subst hji
        rw [set_status_slots_self]
        have hnb : ¬ busy (st.slots (i + 1)) := by
          rw [busy_iff]; exact fun h => h hl.2.1
        refine ⟨(h3 (i + 1)).1, fun hb => absurd hb hnb, fun _ => ?_⟩
        unfold busy
        simp
      · rw [set_status_slots_other _ _ _ _ hji]; exact h3 j
    · exact frames_kept_trans _ _ _ (hhead st i n) (hgrow _ _ _)
    · exact hhead st i n
/-! ## The writing queue as a sequence -/

/-- A function that is injective on `0 .. n-1` with values below `m` has `n <= m`. -/
theorem injective_bound (f : Nat → Nat) (n m : Nat) (hlt : ∀ k, k < n → f k < m)
    (hinj : ∀ k k', k < n → k' < n → f k = f k' → k = k') : n ≤ m := by
  have := Finset.card_le_card_of_injOn f (s := Finset.range n) (t := Finset.range m)
    (fun a ha => by simpa using hlt a (by simpa using ha))
    (fun a ha b hb h => hinj a b (by simpa using ha) (by simpa using hb) h)
  simpa using this

/-- An entry is appended at the tail of a queue with fewer than 511 entries. -/
theorem enqueue_queue (st st' : State) (c : Int)
    (ht : 0 ≤ st.writing_queue_tail ∧ st.writing_queue_tail < 512)
    (hq : st'.writing_queue
      = fun k => if k = st.writing_queue_tail.toNat then c else st.writing_queue k)
    (htl : st'.writing_queue_tail = (st.writing_queue_tail + 1) % 512)
    (hhd : st'.writing_queue_head = st.writing_queue_head)
    (hL : queue_len st < 511) :
    queue_len st' = queue_len st + 1 ∧ queue_slot st' (queue_len st) = c ∧
    (∀ k, k < queue_len st → queue_slot st' k = queue_slot st k) ∧
    (0 ≤ st'.writing_queue_tail ∧ st'.writing_queue_tail < 512) ∧
    st'.writing_queue_head ≠ st'.writing_queue_tail := by
  have h1 := queue_len_eq st
  have h2 := queue_len_eq st'
  rw [htl, hhd] at h2
  refine ⟨by omega, ?_, fun k hk => ?_, by rw [htl]; omega, by rw [htl, hhd]; omega⟩
  · unfold queue_slot
    rw [hq, hhd, mod_queue]
    simp only []
    rw [if_pos (by congr 1; omega)]
  · unfold queue_slot
    rw [hq, hhd, mod_queue]
    simp only []
    rw [if_neg (by omega)]

/-- The first `n` entries are removed at the head of the queue. -/
theorem dequeue_queue (st st' : State) (n : Nat)
    (hq : st'.writing_queue = st.writing_queue)
    (htl : st'.writing_queue_tail = st.writing_queue_tail)
    (hhd : st'.writing_queue_head = (st.writing_queue_head + n) % 512)
    (hn : n ≤ queue_len st) :
    queue_len st' = queue_len st - n ∧
    (∀ k, queue_slot st' k = queue_slot st (k + n)) ∧
    (0 ≤ st'.writing_queue_head ∧ st'.writing_queue_head < 512) := by
  have h1 := queue_len_eq st
  have h2 := queue_len_eq st'
  rw [htl, hhd] at h2
  refine ⟨by omega, fun k => ?_, by rw [hhd]; omega⟩
  unfold queue_slot
  rw [hq, hhd, mod_queue, mod_queue]
  congr 2
  push_cast
  omega

/-- A queue of pairwise different table indices and a table index that is not on it: there
is room for one more entry. -/
theorem queue_room (st : State) (c : Nat) (hc : c < COUNT_slots)
    (q4 : ∀ k, k < queue_len st → 0 ≤ queue_slot st k ∧ (queue_slot st k).toNat < COUNT_slots)
    (q5 : ∀ k k', k < queue_len st → k' < queue_len st → queue_slot st k = queue_slot st k' →
      k = k')
    (hne : ∀ k, k < queue_len st → (queue_slot st k).toNat ≠ c) : queue_len st < 511 := by
  have := injective_bound
    (fun k => if k < queue_len st then (queue_slot st k).toNat else c)
    (queue_len st + 1) COUNT_slots
    (fun k hk => by
      simp only []
      split_ifs with h
      · exact (q4 k h).2
      · exact hc)
    (fun k k' hk hk' he => by
      simp only [] at he
      split_ifs at he with h h' h'
      · have h0 := (q4 k h).1
        have h0' := (q4 k' h').1
        exact q5 k k' h h' (by omega)
      · exact absurd he (hne k h)
      · exact absurd he.symm (hne k' h')
      · omega)
  have h511 : COUNT_slots = 511 := rfl
  omega

/-- A step that keeps the queue, the recording state, the frame count, the writer's
counters and the frames held by the pool keeps both invariants. -/
theorem inv_pool_step (st st' : State) (hsq : same_queue st st')
    (hfk : frames_kept st.slots st'.slots)
    (hl : st'.last_processed_frame = st.last_processed_frame)
    (he : st'.frame_order_errors = st.frame_order_errors) :
    (queue_inv st → queue_inv st') ∧ (order_inv st → order_inv st') := by
  obtain ⟨e1, e2, e3, e4, e5, e6⟩ := hsq
  have hlen : queue_len st' = queue_len st := queue_len_congr st st' e2 e3
  have hslot : ∀ k, queue_slot st' k = queue_slot st k := queue_slot_congr st st' e1 e2
  constructor
  · rintro ⟨q1, q2, q3, q4, q5, q6⟩
    refine ⟨by rw [e2]; exact q1, by rw [e3]; exact q2, by rw [e4]; exact q3, ?_, ?_, ?_⟩
    · intro k hk
      rw [hlen] at hk
      rw [hslot]
      exact ⟨(q4 k hk).1, (q4 k hk).2.1, (frames_kept_busy _ _ hfk _).2 (q4 k hk).2.2⟩
    · intro k k' hk hk' h
      rw [hlen] at hk hk'
      rw [hslot, hslot] at h
      exact q5 k k' hk hk' h
    · intro h
      rw [e5] at h
      rw [hlen]; exact q6 h
  · rintro ⟨o1, o2, o3, o4, o5⟩
    refine ⟨?_, ?_, ?_, by rw [hl]; exact o4, by rw [he]; exact o5⟩
    · intro k hk
      rw [hlen] at hk
      rw [hslot, (hfk _).1, hl]
      exact o1 k hk
    · intro h
      rw [e5] at h
      rw [hlen, hl, e6]; exact o2 h
    · intro h
      rw [e5] at h
      obtain ⟨p1, p2, p3, p4⟩ := o3 h
      rw [hl, e6, e4]
      refine ⟨p1, p2, fun f h1 h2 => ?_, fun j hj hf => ?_⟩
      · obtain ⟨j, hj, hf, hn⟩ := p3 f h1 h2
        exact ⟨j, hj, (frames_kept_full _ _ hfk j).2 hf, by rw [(hfk j).1]; exact hn⟩
      · rw [(hfk j).1]
        exact p4 j hj ((frames_kept_full _ _ hfk j).1 hf)
/-! ## pre_record_vsync_step -/

theorem enqueue_eq (st : State) (i : Int) :
    enqueue st i =
      { st with
        writing_queue := (enqueue st i).writing_queue
        writing_queue_tail := (enqueue st i).writing_queue_tail } := rfl

/-- The search of `pre_record_vsync_step`, started at an index of the table, stops only at
an index of the table whose slot is FULL with the frame number looked for. -/
theorem find_frame_spec (slots : Nat → frame_slot) (sc : Nat) (cf : Int) (hsc : 0 < sc) :
    ∀ (fuel : Nat) (i k : Int), 0 ≤ i → i < sc → find_frame slots sc cf fuel i = some k →
    (0 ≤ k ∧ k < sc) ∧ (slots k.toNat).status = SLOT_FULL ∧
      (slots k.toNat).frame_number = cf := by
  intro fuel
  induction fuel with
  | zero => intro i k _ _ h; simp [find_frame] at h
  | succ fuel ih =>
    intro i k h0 h1 h
    rw [find_frame] at h
    split_ifs at h with hc
    · refine ih (MOD (i + 1) sc) k ?_ ?_ h
      · exact Int.emod_nonneg _ (by omega)
      · exact Int.emod_lt_of_pos _ (by omega)
    · simp only [Option.some.injEq] at h
      subst h
      simp only [ne_eq, not_or, not_not] at hc
      exact ⟨⟨h0, h1⟩, hc.1, hc.2⟩

/-- The search finds a FULL slot with the frame number looked for when the table has
one. -/
theorem find_frame_some (slots : Nat → frame_slot) (sc : Nat) (cf : Int) (j : Nat)
    (hj : j < sc) (hf : (slots j).status = SLOT_FULL) (hn : (slots j).frame_number = cf) :
    ∀ (d : Nat) (fuel : Nat) (i : Int), 0 ≤ i → i < sc → ((j : Int) - i) % sc = d → d < fuel →
    ∃ k, find_frame slots sc cf fuel i = some k := by
  intro d
  induction d with
  | zero =>
    intro fuel i h0 h1 hd hfuel
    obtain ⟨fuel, rfl⟩ : ∃ f, fuel = f + 1 := ⟨fuel - 1, by omega⟩
    have hij : i = j := by
      have h2 : ((j : Int) - i) % sc = (j : Int) - i ∨ ((j : Int) - i) % sc = (j : Int) - i + sc := by
        rcases le_or_lt i (j : Int) with h | h
        · left; exact Int.emod_eq_of_lt (by omega) (by omega)
        · right
          rw [← Int.add_emod_self]
          exact Int.emod_eq_of_lt (by omega) (by omega)
      rcases h2 with h2 | h2 <;> omega
    rw [find_frame, if_neg]
    · exact ⟨i, rfl⟩
    · subst hij
      simp [hf, hn]
  | succ d ih =>
    intro fuel i h0 h1 hd hfuel
    obtain ⟨fuel, rfl⟩ : ∃ f, fuel = f + 1 := ⟨fuel - 1, by omega⟩
    rw [find_frame]
    split_ifs with hc
    · have hm0 : 0 ≤ MOD (i + 1) sc := Int.emod_nonneg _ (by omega)
      have hm1 : MOD (i + 1) sc < sc := Int.emod_lt_of_pos _ (by omega)
      refine ih fuel (MOD (i + 1) sc) hm0 hm1 ?_ (by omega)
      have e1 : ((j : Int) - MOD (i + 1) sc) % sc = ((j : Int) - i - 1) % sc := by
        unfold MOD
        rw [Int.sub_emod, Int.emod_emod_of_dvd _ (dvd_refl _), ← Int.sub_emod]
        congr 1
        ring
      rw [e1]
      have hlt : (((j : Int) - i) % sc) < sc := Int.emod_lt_of_pos _ (by omega)
      have e2 : ((j : Int) - i - 1) % sc = (((j : Int) - i) % sc - 1) % sc := by
        rw [Int.sub_emod ((j : Int) - i) 1, Int.sub_emod (((j : Int) - i) % sc) 1,
          Int.emod_emod_of_dvd _ (dvd_refl _)]
      rw [e2, hd]
      push_cast
      rw [Int.emod_eq_of_lt (by omega) (by rw [hd] at hlt; push_cast at hlt; omega)]
      omega
    · exact ⟨i, rfl⟩

theorem promote_frames_fields : ∀ (n : Nat) (cf i : Int) (st st' : State),
    promote_frames n cf i st = some st' →
    st' = { st with writing_queue := st'.writing_queue
                    writing_queue_tail := st'.writing_queue_tail } := by
  intro n
  induction n with
  | zero =>
    intro cf i st st' h
    simp only [promote_frames, Option.some.injEq] at h
    subst h; rfl
  | succ n ih =>
    intro cf i st st' h
    rw [promote_frames] at h
    cases hf : find_frame st.slots st.slot_count cf (st.slot_count + 1) i with
    | none => rw [hf] at h; simp at h
    | some k =>
      rw [hf] at h
      simp only [] at h
      exact (ih _ _ _ _ h).trans rfl

/-- The promotion loop of `pre_record_vsync_step`: when it ends, the `n` slots that hold the
frames `cf, cf + 1, ...` have been appended to the queue, in this order. -/
theorem promote_frames_spec : ∀ (n : Nat) (cf i : Int) (st st' : State),
    (0 ≤ st.writing_queue_tail ∧ st.writing_queue_tail < 512) →
    (0 < st.slot_count ∧ st.slot_count ≤ COUNT_slots) →
    (0 ≤ i ∧ i < st.slot_count) →
    (∀ k, k < queue_len st → 0 ≤ queue_slot st k ∧ (queue_slot st k).toNat < COUNT_slots ∧
      (st.slots (queue_slot st k).toNat).frame_number < cf) →
    (∀ k k', k < queue_len st → k' < queue_len st → queue_slot st k = queue_slot st k' →
      k = k') →
    promote_frames n cf i st = some st' →
    queue_len st' = queue_len st + n ∧
    (0 ≤ st'.writing_queue_tail ∧ st'.writing_queue_tail < 512) ∧
    (∀ k, k < queue_len st → queue_slot st' k = queue_slot st k) ∧
    (∀ k, k < n → 0 ≤ queue_slot st' (queue_len st + k) ∧
      (queue_slot st' (queue_len st + k)).toNat < COUNT_slots ∧
      (st.slots (queue_slot st' (queue_len st + k)).toNat).status = SLOT_FULL ∧
      (st.slots (queue_slot st' (queue_len st + k)).toNat).frame_number = cf + k) ∧
    (∀ k k', k < queue_len st' → k' < queue_len st' →
      queue_slot st' k = queue_slot st' k' → k = k') := by
  intro n
  induction n with
  | zero =>
    intro cf i st st' ht _ _ _ hd h
    simp only [promote_frames, Option.some.injEq] at h
    subst h
    exact ⟨rfl, ht, fun _ _ => rfl, fun k hk => by omega, hd⟩
  | succ n ih =>
    intro cf i st st' ht hsc hi hent hd h
    rw [promote_frames] at h
    cases hf : find_frame st.slots st.slot_count cf (st.slot_count + 1) i with
    | none => rw [hf] at h; simp at h
    | some k0 =>
      rw [hf] at h
      simp only [] at h
      obtain ⟨⟨k1, k2⟩, k3, k4⟩ := find_frame_spec st.slots st.slot_count cf hsc.1 _ i k0
        hi.1 hi.2 hf
      have hk0 : k0.toNat < COUNT_slots := by omega
      have hroom := queue_room st k0.toNat hk0
        (fun k hk => ⟨(hent k hk).1, (hent k hk).2.1⟩) hd
        (fun k hk he => by
          have := (hent k hk).2.2
          rw [he, k4] at this
          omega)
      obtain ⟨e1, e2, e3, e4, _⟩ := enqueue_queue st (enqueue st k0) k0 ht rfl
        (mod_queue _) rfl hroom
      have hslots : (enqueue st k0).slots = st.slots := rfl
      have hsc' : (enqueue st k0).slot_count = st.slot_count := rfl
      obtain ⟨r1, r2, r3, r4, r5⟩ := ih (cf + 1) (MOD (k0 + 1) st.slot_count)
        (enqueue st k0) st' e4 hsc
        ⟨Int.emod_nonneg _ (by omega), Int.emod_lt_of_pos _ (by omega)⟩
        (fun k hk => by
          rw [e1] at hk
          rcases Nat.lt_or_ge k (queue_len st) with hlt | hge
          · rw [e3 k hlt, hslots]
            exact ⟨(hent k hlt).1, (hent k hlt).2.1, by have := (hent k hlt).2.2; omega⟩
          · have : k = queue_len st := by omega
            subst this
            rw [e2, hslots, k4]
            exact ⟨k1, hk0, by omega⟩)
        (fun k k' hk hk' he => by
          rw [e1] at hk hk'
          rcases Nat.lt_or_ge k (queue_len st) with hlt | hge
          · rcases Nat.lt_or_ge k' (queue_len st) with hlt' | hge'
            · rw [e3 k hlt, e3 k' hlt'] at he
              exact hd k k' hlt hlt' he
            · exfalso
              have hk'e : k' = queue_len st := by omega
              rw [hk'e, e3 k hlt, e2] at he
              have := (hent k hlt).2.2
              rw [he, k4] at this
              omega
          · rcases Nat.lt_or_ge k' (queue_len st) with hlt' | hge'
            · exfalso
              have hke : k = queue_len st := by omega
              rw [hke, e3 k' hlt', e2] at he
              have := (hent k' hlt').2.2
              rw [← he, k4] at this
              omega
            · omega)
        h
      rw [e1] at r1 r3 r4
      rw [hslots] at r4
      refine ⟨by omega, r2, fun k hk => by rw [r3 k (by omega), e3 k hk], fun k hk => ?_, r5⟩
      cases k with
      | zero =>
        simp only [Nat.add_zero, Nat.cast_zero, add_zero]
        rw [r3 (queue_len st) (by omega), e2]
        exact ⟨k1, hk0, k3, k4⟩
      | succ k =>
        have := r4 k (by omega)
        rw [show queue_len st + 1 + k = queue_len st + (k + 1) from by omega] at this
        refine ⟨this.1, this.2.1, this.2.2.1, ?_⟩
        rw [this.2.2.2]
        push_cast
        ring

theorem discard_step_fields (st : State) (i : Nat) :
    discard_step st i =
      { st with slots := (discard_step st i).slots
                vidf_frameNumber := (discard_step st i).vidf_frameNumber } := by
  have hv : (free_slot st i).vidf_frameNumber = st.vidf_frameNumber := by
    rw [free_slot_eq st i]
  unfold discard_step
  split_ifs
  · rw [hv]; exact free_slot_eq st i
  · rfl
  · rfl

theorem discard_frames_fields : ∀ (n i : Nat) (st : State),
    discard_frames n i st =
      { st with slots := (discard_frames n i st).slots
                vidf_frameNumber := (discard_frames n i st).vidf_frameNumber } := by
  intro n
  induction n with
  | zero => intro i st; rfl
  | succ n ih =>
    intro i st
    rw [discard_frames]
    have h1 := ih (i + 1) (discard_step st i)
    have h2 := discard_step_fields st i
    generalize discard_step st i = s1 at h1 h2
    generalize discard_frames n (i + 1) s1 = s2 at h1
    rw [h1, h2]

/-- One step of the discard loop: the other slots keep their frames; a FULL slot `i` is
released if it holds frame 1 and renumbered otherwise. -/
theorem discard_step_spec (st : State) (i : Nat) :
    (∀ j, j ≠ i →
      (((discard_step st i).slots j).status = SLOT_FULL ↔ (st.slots j).status = SLOT_FULL) ∧
      ((discard_step st i).slots j).frame_number = (st.slots j).frame_number) ∧
    ((st.slots i).status = SLOT_FULL → (st.slots i).frame_number ≠ 1 →
      (discard_step st i).slots i
        = { st.slots i with frame_number := (st.slots i).frame_number - 1 }) ∧
    ((st.slots i).status = SLOT_FULL → (st.slots i).frame_number = 1 →
      ((discard_step st i).slots i).status ≠ SLOT_FULL) ∧
    ((st.slots i).status ≠ SLOT_FULL → discard_step st i = st) := by
  unfold discard_step
  by_cases hf : (st.slots i).status = SLOT_FULL
  · rw [if_pos hf]
    by_cases h1 : (st.slots i).frame_number = 1
    · rw [if_pos h1]
      refine ⟨fun j hj => ⟨?_, free_slot_frame_number st i j⟩, fun _ h => absurd h1 h,
        fun _ _ => ?_, fun h => absurd hf h⟩
      · by_cases hb : free_or_reserved (st.slots j)
        · have hb' := free_slot_not_busy st i j hb
          unfold free_or_reserved at hb hb'
          constructor
          · intro h; rw [h] at hb'; simp at hb'
          · intro h; rw [h] at hb; simp at hb
        · rw [free_slot_run st i j hj hb]
      · have := free_slot_released st i
        unfold free_or_reserved at this
        intro h; rw [h] at this; simp at this
    · rw [if_neg h1]
      refine ⟨fun j hj => ?_, fun _ _ => ?_, fun _ h => absurd h h1, fun h => absurd hf h⟩
      · simp only [set_slot_other _ _ _ _ hj, iff_self, and_self]
      · simp only [set_slot_same]
  · rw [if_neg hf]
    exact ⟨fun j _ => ⟨Iff.rfl, rfl⟩, fun h => absurd h hf, fun h => absurd h hf, fun _ => rfl⟩

/-- The discard loop over the slots `i .. i + n - 1`: a slot of the range is FULL afterwards
exactly when it was FULL with a frame number other than 1, and then its frame number is one
less; outside the range nothing changes for the frames. -/
theorem discard_frames_spec : ∀ (n i : Nat) (st : State) (j : Nat),
    (i ≤ j ∧ j < i + n →
      ((st.slots j).status = SLOT_FULL → (st.slots j).frame_number ≠ 1 →
        ((discard_frames n i st).slots j).status = SLOT_FULL ∧
        ((discard_frames n i st).slots j).frame_number = (st.slots j).frame_number - 1) ∧
      (((discard_frames n i st).slots j).status = SLOT_FULL →
        (st.slots j).status = SLOT_FULL ∧ (st.slots j).frame_number ≠ 1 ∧
        ((discard_frames n i st).slots j).frame_number = (st.slots j).frame_number - 1)) ∧
    (¬ (i ≤ j ∧ j < i + n) →
      (((discard_frames n i st).slots j).status = SLOT_FULL ↔ (st.slots j).status = SLOT_FULL) ∧
      ((discard_frames n i st).slots j).frame_number = (st.slots j).frame_number) := by
  intro n
  induction n with
  | zero =>
    intro i st j
    exact ⟨fun h => by omega, fun _ => ⟨Iff.rfl, rfl⟩⟩
  | succ n ih =>
    intro i st j
    rw [discard_frames]
    obtain ⟨a1, a2, a3, a4⟩ := discard_step_spec st i
    obtain ⟨b1, b2⟩ := ih (i + 1) (discard_step st i) j
    by_cases hji : j = i
    · subst hji
      obtain ⟨c1, c2⟩ := b2 (by omega)
      refine ⟨fun _ => ⟨fun hf h1 => ?_, fun hf => ?_⟩, fun h => by omega⟩
      · rw [c1, c2, a2 hf h1]
        exact ⟨hf, rfl⟩
      · rw [c1] at hf
        by_cases hf0 : (st.slots j).status = SLOT_FULL
        · by_cases h1 : (st.slots j).frame_number = 1
          · exact absurd hf (a3 hf0 h1)
          · refine ⟨hf0, h1, ?_⟩
            rw [c2, a2 hf0 h1]
        · rw [a4 hf0] at hf
          exact absurd hf hf0
    · obtain ⟨d1, d2⟩ := a1 j hji
      refine ⟨fun hr => ?_, fun hr => ?_⟩
      · obtain ⟨e1, e2⟩ := b1 (by omega)
        refine ⟨fun hf h1 => ?_, fun hf => ?_⟩
        · have := e1 (d1.2 hf) (by rw [d2]; exact h1)
          rw [d2] at this
          exact this
        · obtain ⟨g1, g2, g3⟩ := e2 hf
          rw [d2] at g2 g3
          exact ⟨d1.1 g1, g2, g3⟩
      · obtain ⟨c1, c2⟩ := b2 (by omega)
        exact ⟨c1.trans d1, c2.trans d2⟩
/-! ## process_frame keeps the invariants of the session -/

theorem queue_appended_same (st st' : State)
    (hq : st'.writing_queue = st.writing_queue)
    (hh : st'.writing_queue_head = st.writing_queue_head)
    (ht : st'.writing_queue_tail = st.writing_queue_tail) : queue_appended st st' :=
  ⟨hh, le_of_eq (queue_len_congr st st' hh ht).symm,
    fun k _ => queue_slot_congr st st' hq hh k, fun h => absurd ht h⟩

theorem queue_appended_trans (st s1 s2 : State) (h1 : queue_appended st s1)
    (h2 : queue_appended s1 s2) : queue_appended st s2 := by
  obtain ⟨a1, a2, a3, a4⟩ := h1
  obtain ⟨b1, b2, b3, b4⟩ := h2
  refine ⟨b1.trans a1, le_trans a2 b2, fun k hk => ?_, fun h => ?_⟩
  · rw [b3 k (by omega), a3 k hk]
  · by_cases ht : s1.writing_queue_tail = st.writing_queue_tail
    · have := b4 (by rw [ht]; exact h)
      omega
    · have := a4 ht
      omega

/-- The state after the capture part of `process_frame` has taken a slot outside
pre-recording. -/
theorem capture_step_rec (P : Int) (st : State)
    (hpre : st.raw_recording_state ≠ RAW_PRE_RECORDING)
    (hc : 0 ≤ (choose_next_capture_slot P st).1) :
    capture_step P st =
      { st with
        force_new_buffer := (choose_next_capture_slot P st).2.force_new_buffer
        capture_slot := (choose_next_capture_slot P st).1
        slots := set_slot st.slots (choose_next_capture_slot P st).1.toNat
          { st.slots (choose_next_capture_slot P st).1.toNat with
            frame_number := st.frame_count, status := SLOT_FULL }
        writing_queue := fun k =>
          if k = st.writing_queue_tail.toNat then (choose_next_capture_slot P st).1
          else st.writing_queue k
        writing_queue_tail := (st.writing_queue_tail + 1) % 512
        vidf_frameNumber := fun a =>
          if a = (st.slots (choose_next_capture_slot P st).1.toNat).ptr then st.frame_count - 1
          else st.vidf_frameNumber a
        vidf_blockSize := fun a =>
          if a = (st.slots (choose_next_capture_slot P st).1.toNat).ptr then st.max_frame_size
          else st.vidf_blockSize a
        frame_count := st.frame_count + 1 } := by
  have hs := choose_next_capture_slot_state P st
  unfold capture_step
  simp only []
  generalize choose_next_capture_slot P st = r at hs hc ⊢
  obtain ⟨r1, r2⟩ := r
  simp only at hs hc ⊢
  rw [if_pos hc, hs]
  simp only [if_neg hpre]
  rfl

/-- The state after the capture part of `process_frame` has taken a slot during
pre-recording: the slot is not put on the queue. -/
theorem capture_step_pre (P : Int) (st : State)
    (hpre : st.raw_recording_state = RAW_PRE_RECORDING)
    (hc : 0 ≤ (choose_next_capture_slot P st).1) :
    capture_step P st =
      { st with
        force_new_buffer := (choose_next_capture_slot P st).2.force_new_buffer
        capture_slot := (choose_next_capture_slot P st).1
        slots := set_slot st.slots (choose_next_capture_slot P st).1.toNat
          { st.slots (choose_next_capture_slot P st).1.toNat with
            frame_number := st.frame_count, status := SLOT_FULL }
        vidf_frameNumber := fun a =>
          if a = (st.slots (choose_next_capture_slot P st).1.toNat).ptr then st.frame_count - 1
          else st.vidf_frameNumber a
        vidf_blockSize := fun a =>
          if a = (st.slots (choose_next_capture_slot P st).1.toNat).ptr then st.max_frame_size
          else st.vidf_blockSize a
        frame_count := st.frame_count + 1 } := by
  have hs := choose_next_capture_slot_state P st
  unfold capture_step
  simp only []
  generalize choose_next_capture_slot P st = r at hs hc ⊢
  obtain ⟨r1, r2⟩ := r
  simp only at hs hc ⊢
  rw [if_pos hc, hs]
  simp only [if_pos hpre]

/-- The state after the capture part of `process_frame` has found no slot. -/
theorem capture_step_drop (P : Int) (st : State)
    (hc : ¬ 0 ≤ (choose_next_capture_slot P st).1) :
    capture_step P st =
      { st with
        force_new_buffer := (choose_next_capture_slot P st).2.force_new_buffer
        capture_slot := (choose_next_capture_slot P st).1
        buffer_full := 1 } := by
  have hs := choose_next_capture_slot_state P st
  unfold capture_step
  simp only []
  generalize choose_next_capture_slot P st = r at hs hc ⊢
  obtain ⟨r1, r2⟩ := r
  simp only at hs hc ⊢
  rw [if_neg hc, hs]

/-- The capture part of `process_frame` keeps the invariants: it appends at most the
captured slot to the queue. -/
theorem capture_step_inv (P : Int) (st : State) (hq : queue_inv st) :
    queue_inv (capture_step P st) ∧ queue_appended st (capture_step P st) ∧
    (order_inv st → RAW_IS_RECORDING st →
      (st.raw_recording_state = RAW_RECORDING → st.frame_count ≠ 0) →
      order_inv (capture_step P st)) := by
  by_cases hc : 0 ≤ (choose_next_capture_slot P st).1
  · obtain ⟨c1, c2⟩ := choose_next_capture_slot_free P st hc
    obtain ⟨q1, q2, q3, q4, q5, q6⟩ := hq
    have h511 : COUNT_slots = 511 := rfl
    generalize hcdef : (choose_next_capture_slot P st).1.toNat = c at c2
    have hcsc : c < st.slot_count := by omega
    have hnb : ¬ busy (st.slots c) := by unfold busy; rw [c2]; simp
    by_cases hpre : st.raw_recording_state = RAW_PRE_RECORDING
    · -- pre-recording: the slot is not queued
      have heq := capture_step_pre P st hpre hc
      generalize capture_step P st = s' at heq
      have f1 : s'.slots = set_slot st.slots c
          { st.slots c with frame_number := st.frame_count, status := SLOT_FULL } := by
        rw [heq, hcdef]
      have f2 : s'.writing_queue = st.writing_queue := by rw [heq]
      have f3 : s'.writing_queue_tail = st.writing_queue_tail := by rw [heq]
      have f4 : s'.writing_queue_head = st.writing_queue_head := by rw [heq]
      have f5 : s'.frame_count = st.frame_count + 1 := by rw [heq]
      have f6 : s'.slot_count = st.slot_count := by rw [heq]
      have f7 : s'.raw_recording_state = st.raw_recording_state := by rw [heq]
      have f8 : s'.last_processed_frame = st.last_processed_frame := by rw [heq]
      have f9 : s'.frame_order_errors = st.frame_order_errors := by rw [heq]
      have hlen : queue_len s' = queue_len st := queue_len_congr st s' f4 f3
      have hL0 : queue_len st = 0 := q6 hpre
      refine ⟨⟨by rw [f4]; exact q1, by rw [f3]; exact q2, by rw [f6]; exact q3,
        fun k hk => by omega, fun k k' hk hk' => by omega, fun _ => by omega⟩,
        queue_appended_same st s' f2 f4 f3, ?_⟩
      rintro ⟨o1, o2, o3, o4, o5⟩ _ _
      obtain ⟨p1, p2, p3, p4⟩ := o3 hpre
      refine ⟨fun k hk => by omega, fun h => ?_, fun _ => ?_, by rw [f8]; exact o4,
        by rw [f9]; exact o5⟩
      · rw [f7, hpre] at h; exact absurd h (by decide)
      · rw [f8, f5, f6, f1]
        refine ⟨p1, by omega, fun f h1 h2 => ?_, fun j hj hf => ?_⟩
        · by_cases hff : f < st.frame_count
          · obtain ⟨j, hj, hjf, hjn⟩ := p3 f h1 hff
            have hjc : j ≠ c := by intro h; rw [h, c2] at hjf; exact absurd hjf (by decide)
            exact ⟨j, hj, by rw [set_slot_other _ _ _ _ hjc]; exact hjf,
              by rw [set_slot_other _ _ _ _ hjc]; exact hjn⟩
          · refine ⟨c, hcsc, by rw [set_slot_same], ?_⟩
            rw [set_slot_same]
            show st.frame_count = f
            omega
        · by_cases hjc : j = c
          · subst hjc; rw [set_slot_same]
            show st.frame_count < st.frame_count + 1
            omega
          · rw [set_slot_other _ _ _ _ hjc] at hf ⊢
            have := p4 j hj hf
            omega
    · -- the slot is appended to the queue
      have heq := capture_step_rec P st hpre hc
      generalize capture_step P st = s' at heq
      have f1 : s'.slots = set_slot st.slots c
          { st.slots c with frame_number := st.frame_count, status := SLOT_FULL } := by
        rw [heq, hcdef]
      have f2 : s'.writing_queue = fun k =>
          if k = st.writing_queue_tail.toNat then (choose_next_capture_slot P st).1
          else st.writing_queue k := by rw [heq]
      have f3 : s'.writing_queue_tail = (st.writing_queue_tail + 1) % 512 := by rw [heq]
      have f4 : s'.writing_queue_head = st.writing_queue_head := by rw [heq]
      have f5 : s'.frame_count = st.frame_count + 1 := by rw [heq]
      have f6 : s'.slot_count = st.slot_count := by rw [heq]
      have f7 : s'.raw_recording_state = st.raw_recording_state := by rw [heq]
      have f8 : s'.last_processed_frame = st.last_processed_frame := by rw [heq]
      have f9 : s'.frame_order_errors = st.frame_order_errors := by rw [heq]
      have hne : ∀ k, k < queue_len st → (queue_slot st k).toNat ≠ c := by
        intro k hk he
        have := (q4 k hk).2.2
        rw [he] at this
        exact hnb this
      have hroom := queue_room st c (by omega)
        (fun k hk => ⟨(q4 k hk).1, (q4 k hk).2.1⟩) q5 hne
      obtain ⟨e1, e2, e3, e4, e5⟩ := enqueue_queue st s' _ q2 f2 f3 f4 hroom
      have hent : ∀ k, k < queue_len st →
          s'.slots (queue_slot st k).toNat = st.slots (queue_slot st k).toNat := by
        intro k hk
        rw [f1, set_slot_other _ _ _ _ (hne k hk)]
      refine ⟨⟨by rw [f4]; exact q1, e4, by rw [f6]; exact q3, ?_, ?_, ?_⟩,
        ⟨f4, by omega, e3, fun _ => by omega⟩, ?_⟩
      · intro k hk
        rcases Nat.lt_or_ge k (queue_len st) with hlt | hge
        · rw [e3 k hlt, hent k hlt]; exact q4 k hlt
        · have : k = queue_len st := by omega
          subst this
          rw [e2, hcdef, f1, set_slot_same]
          exact ⟨hc, by omega, Or.inl rfl⟩
      · intro k k' hk hk' he
        rcases Nat.lt_or_ge k (queue_len st) with hlt | hge
        · rcases Nat.lt_or_ge k' (queue_len st) with hlt' | hge'
          · rw [e3 k hlt, e3 k' hlt'] at he
            exact q5 k k' hlt hlt' he
          · exfalso
            have hk'e : k' = queue_len st := by omega
            rw [hk'e, e3 k hlt, e2] at he
            exact hne k hlt (by rw [he, hcdef])
        · rcases Nat.lt_or_ge k' (queue_len st) with hlt' | hge'
          · exfalso
            have hke : k = queue_len st := by omega
            rw [hke, e3 k' hlt', e2] at he
            exact hne k' hlt' (by rw [← he, hcdef])
          · omega
      · intro h; rw [f7] at h; exact absurd h hpre
      · rintro ⟨o1, o2, o3, o4, o5⟩ hrec hfc
        have hR : st.raw_recording_state = RAW_RECORDING := by
          rcases hrec with h | h
          · exact h
          · exact absurd h hpre
        have hnum : st.last_processed_frame + queue_len st + 1 = st.frame_count := by
          rcases o2 hR with h | h
          · exact absurd h.1 (hfc hR)
          · exact h
        refine ⟨fun k hk => ?_, fun _ => Or.inr ?_, fun h => ?_, by rw [f8]; exact o4,
          by rw [f9]; exact o5⟩
        · rw [f8]
          rcases Nat.lt_or_ge k (queue_len st) with hlt | hge
          · rw [e3 k hlt, hent k hlt]; exact o1 k hlt
          · have : k = queue_len st := by omega
            subst this
            rw [e2, hcdef, f1, set_slot_same]
            show st.frame_count = _
            omega
        · rw [f8, f5, e1]; push_cast; omega
        · rw [f7] at h; exact absurd h hpre
  · -- no slot
    have heq := capture_step_drop P st hc
    generalize capture_step P st = s' at heq
    have hsq : same_queue st s' := by
      rw [heq]; exact ⟨rfl, rfl, rfl, rfl, rfl, rfl⟩
    have hsl : s'.slots = st.slots := by rw [heq]
    have hl : s'.last_processed_frame = st.last_processed_frame := by rw [heq]
    have he : s'.frame_order_errors = st.frame_order_errors := by rw [heq]
    have hfk : frames_kept st.slots s'.slots := by rw [hsl]; exact frames_kept_refl _
    obtain ⟨i1, i2⟩ := inv_pool_step st s' hsq hfk hl he
    exact ⟨i1 hq, queue_appended_same st s' hsq.1 hsq.2.1 hsq.2.2.1, fun ho _ _ => i2 ho⟩

/-- `pre_record_vsync_step` during pre-recording keeps the invariants: the promotion fills
the empty queue with the buffered frames in order and switches to recording, the discard
step renumbers the buffered frames. -/
theorem pre_record_vsync_step_inv (st st1 : State) (hq : queue_inv st)
    (hpre : st.raw_recording_state = RAW_PRE_RECORDING) (hfc : st.frame_count ≠ 0)
    (h : pre_record_vsync_step st = some st1) :
    queue_inv st1 ∧ queue_appended st st1 ∧ RAW_IS_RECORDING st1 ∧
    (order_inv st →
      order_inv st1 ∧ (st1.raw_recording_state = RAW_RECORDING → st1.frame_count ≠ 0)) := by
  obtain ⟨q1, q2, q3, q4, q5, q6⟩ := hq
  have hL0 : queue_len st = 0 := q6 hpre
  rw [pre_record_vsync_step, if_pos hpre] at h
  by_cases htr : st.pre_record_triggered ≠ 0
  · -- promotion
    rw [if_pos htr] at h
    cases hp : promote_frames (st.frame_count - 1).toNat 1 0 st with
    | none => rw [hp] at h; simp at h
    | some s1 =>
      rw [hp] at h
      simp only [Option.some.injEq] at h
      have hfld := promote_frames_fields _ _ _ _ _ hp
      obtain ⟨r1, r2, r3, r4, r5⟩ := promote_frames_spec _ 1 0 st s1 q2 q3
        ⟨le_refl _, by exact_mod_cast q3.1⟩ (fun k hk => by omega) q5 hp
      have g1 : s1.slots = st.slots := by rw [hfld]
      have g2 : s1.writing_queue_head = st.writing_queue_head := by rw [hfld]
      have g3 : s1.slot_count = st.slot_count := by rw [hfld]
      have g4 : s1.frame_count = st.frame_count := by rw [hfld]
      have g5 : s1.last_processed_frame = st.last_processed_frame := by rw [hfld]
      have g6 : s1.frame_order_errors = st.frame_order_errors := by rw [hfld]
      have f1 : st1.slots = st.slots := by rw [← h]; exact g1
      have f2 : st1.writing_queue = s1.writing_queue := by rw [← h]
      have f3 : st1.writing_queue_tail = s1.writing_queue_tail := by rw [← h]
      have f4 : st1.writing_queue_head = s1.writing_queue_head := by rw [← h]
      have f5 : st1.frame_count = st.frame_count := by rw [← h]; exact g4
      have f6 : st1.slot_count = st.slot_count := by rw [← h]; exact g3
      have f7 : st1.raw_recording_state = RAW_RECORDING := by rw [← h]
      have f8 : st1.last_processed_frame = st.last_processed_frame := by rw [← h]; exact g5
      have f9 : st1.frame_order_errors = st.frame_order_errors := by rw [← h]; exact g6
      have hlen : queue_len st1 = queue_len s1 := queue_len_congr s1 st1 f4 f3
      have hslot : ∀ k, queue_slot st1 k = queue_slot s1 k := queue_slot_congr s1 st1 f2 f4
      rw [hL0] at r1 r4
      simp only [Nat.zero_add] at r1 r4
      refine ⟨⟨by rw [f4, g2]; exact q1, by rw [f3]; exact r2, by rw [f6]; exact q3, ?_, ?_, ?_⟩,
        ⟨f4.trans g2, by omega, fun k hk => by omega, fun _ => ?_⟩, Or.inl f7, ?_⟩
      · intro k hk
        rw [hlen, r1] at hk
        rw [hslot, f1]
        obtain ⟨a1, a2, a3, _⟩ := r4 k hk
        exact ⟨a1, a2, Or.inl a3⟩
      · intro k k' hk hk' he
        rw [hlen] at hk hk'
        rw [hslot, hslot] at he
        exact r5 k k' hk hk' he
      · intro h; rw [f7] at h; exact absurd h (by decide)
      · by_contra hcon
        have h1 := queue_len_eq st1
        have h2 := queue_len_eq st
        rw [f4, g2] at h1
        have : st1.writing_queue_tail = st.writing_queue_tail := by
          have := r2
          rw [← f3] at this
          omega
        rename_i hne
        exact hne this
      · rintro ⟨o1, o2, o3, o4, o5⟩
        obtain ⟨p1, p2, p3, p4⟩ := o3 hpre
        refine ⟨⟨fun k hk => ?_, fun _ => Or.inr ?_, fun h => ?_, by rw [f8]; exact o4,
          by rw [f9]; exact o5⟩, fun _ => by rw [f5]; exact hfc⟩
        · rw [hlen, r1] at hk
          rw [hslot, f1, f8, p1, (r4 k hk).2.2.2]
          ring
        · rw [f8, p1, hlen, r1, f5]
          have : 0 ≤ st.frame_count - 1 := by omega
          rw [Int.toNat_of_nonneg this]
          ring
        · rw [f7] at h; exact absurd h (by decide)
  · rw [if_neg htr] at h
    by_cases hd : st.frame_count ≥ st.pre_record_num_frames
    · -- discard
      rw [if_pos hd] at h
      simp only [Option.some.injEq] at h
      have hfld := discard_frames_fields st.slot_count 0
        { st with frame_count := st.frame_count - 1 }
      rw [h] at hfld
      have hspec := discard_frames_spec st.slot_count 0
        { st with frame_count := st.frame_count - 1 }
      rw [h] at hspec
      have f2 : st1.writing_queue = st.writing_queue := by rw [hfld]
      have f3 : st1.writing_queue_tail = st.writing_queue_tail := by rw [hfld]
      have f4 : st1.writing_queue_head = st.writing_queue_head := by rw [hfld]
      have f5 : st1.frame_count = st.frame_count - 1 := by rw [hfld]
      have f6 : st1.slot_count = st.slot_count := by rw [hfld]
      have f7 : st1.raw_recording_state = st.raw_recording_state := by rw [hfld]
      have f8 : st1.last_processed_frame = st.last_processed_frame := by rw [hfld]
      have f9 : st1.frame_order_errors = st.frame_order_errors := by rw [hfld]
      have hlen : queue_len st1 = queue_len st := queue_len_congr st st1 f4 f3
      refine ⟨⟨by rw [f4]; exact q1, by rw [f3]; exact q2, by rw [f6]; exact q3,
        fun k hk => by omega, fun k k' hk hk' => by omega, fun _ => by omega⟩,
        queue_appended_same st st1 f2 f4 f3, Or.inr (f7.trans hpre), ?_⟩
      rintro ⟨o1, o2, o3, o4, o5⟩
      obtain ⟨p1, p2, p3, p4⟩ := o3 hpre
      refine ⟨⟨fun k hk => by omega, fun h => ?_, fun _ => ?_, by rw [f8]; exact o4,
        by rw [f9]; exact o5⟩, fun h => ?_⟩
      · rw [f7, hpre] at h; exact absurd h (by decide)
      · rw [f8, f5, f6]
        refine ⟨p1, by omega, fun f h1 h2 => ?_, fun j hj hf => ?_⟩
        · obtain ⟨j, hj, hjf, hjn⟩ := p3 (f + 1) (by omega) (by omega)
          obtain ⟨a1, _⟩ := (hspec j).1 ⟨by omega, by omega⟩
          obtain ⟨b1, b2⟩ := a1 hjf (by show (st.slots j).frame_number ≠ 1; omega)
          refine ⟨j, hj, b1, ?_⟩
          rw [b2]
          show (st.slots j).frame_number - 1 = f
          omega
        · obtain ⟨_, a2⟩ := (hspec j).1 ⟨by omega, by omega⟩
          obtain ⟨b1, b2, b3⟩ := a2 hf
          rw [b3]
          have := p4 j hj b1
          show (st.slots j).frame_number - 1 < st.frame_count - 1
          omega
      · rw [f7, hpre] at h; exact absurd h (by decide)
    · rw [if_neg hd] at h
      simp only [Option.some.injEq] at h
      subst h
      exact ⟨⟨q1, q2, q3, q4, q5, q6⟩, queue_appended_same st st rfl rfl rfl, Or.inr hpre,
        fun ho => ⟨ho, fun h => by rw [hpre] at h; exact absurd h (by decide)⟩⟩

/-- `process_frame` keeps the invariants and only appends to the queue. -/
theorem process_frame_inv (P : Int) (st st' : State) (hq : queue_inv st)
    (h : process_frame P st = some st') :
    queue_inv st' ∧ queue_appended st st' ∧
    (order_inv st → RAW_IS_RECORDING st → order_inv st') := by
  rw [process_frame] at h
  by_cases hfc : st.frame_count = 0
  · -- frame 0 is skipped
    rw [if_pos hfc] at h
    simp only [Option.some.injEq] at h
    subst h
    obtain ⟨q1, q2, q3, q4, q5, q6⟩ := hq
    refine ⟨⟨q1, q2, q3, q4, q5, q6⟩, queue_appended_same st _ rfl rfl rfl, ?_⟩
    rintro ⟨o1, o2, o3, o4, o5⟩ _
    refine ⟨o1, fun hR => Or.inr ?_, fun hP => ?_, o4, o5⟩
    · show st.last_processed_frame + queue_len st + 1 = st.frame_count + 1
      rcases o2 hR with hh | hh
      · rw [hh.2.2, hfc]
        have : queue_len _ = queue_len st := rfl
        rw [hh.2.1]; simp
      · have hlen : (0 : Int) ≤ queue_len st := by positivity
        omega
    · obtain ⟨p1, p2, p3, p4⟩ := o3 hP
      refine ⟨p1, ?_, fun f h1 h2 => ?_, fun j hj hf => ?_⟩
      · show 0 ≤ st.frame_count + 1; omega
      · exfalso
        have : f < st.frame_count + 1 := h2
        omega
      · have := p4 j hj hf
        show (st.slots j).frame_number < st.frame_count + 1
        omega
  · rw [if_neg hfc] at h
    by_cases hed : st.edmac_active ≠ 0
    · rw [if_pos hed] at h
      simp only [Option.some.injEq] at h
      subst h
      obtain ⟨i1, i2⟩ := inv_pool_step st { st with buffer_full := 1 }
        ⟨rfl, rfl, rfl, rfl, rfl, rfl⟩ (frames_kept_refl _) rfl rfl
      exact ⟨i1 hq, queue_appended_same st _ rfl rfl rfl, fun ho _ => i2 ho⟩
    · rw [if_neg hed] at h
      by_cases hpre : st.raw_recording_state = RAW_PRE_RECORDING
      · rw [if_pos hpre] at h
        cases hp : pre_record_vsync_step st with
        | none => rw [hp] at h; simp at h
        | some st1 =>
          rw [hp] at h
          simp only [Option.some.injEq] at h
          subst h
          obtain ⟨a1, a2, a3, a4⟩ := pre_record_vsync_step_inv st st1 hq hpre hfc hp
          obtain ⟨b1, b2, b3⟩ := capture_step_inv P st1 a1
          exact ⟨b1, queue_appended_trans _ _ _ a2 b2,
            fun ho _ => b3 (a4 ho).1 a3 (a4 ho).2⟩
      · rw [if_neg hpre] at h
        simp only [Option.some.injEq] at h
        subst h
        obtain ⟨b1, b2, b3⟩ := capture_step_inv P st hq
        exact ⟨b1, b2, fun ho hr => b3 ho hr (fun _ => hfc)⟩

/-- Leaving the recording states (`raw_recording_state = RAW_FINISHING`) keeps the
invariants. -/
theorem finishing_inv (st : State) (hq : queue_inv st) :
    queue_inv { st with raw_recording_state := RAW_FINISHING } ∧
    queue_appended st { st with raw_recording_state := RAW_FINISHING } ∧
    (order_inv st → order_inv { st with raw_recording_state := RAW_FINISHING }) := by
  have d1 : RAW_FINISHING ≠ RAW_PRE_RECORDING := by decide
  have d2 : RAW_FINISHING ≠ RAW_RECORDING := by decide
  obtain ⟨q1, q2, q3, q4, q5, q6⟩ := hq
  refine ⟨⟨q1, q2, q3, q4, q5, fun hh => absurd hh d1⟩,
    queue_appended_same st _ rfl rfl rfl, ?_⟩
  rintro ⟨o1, o2, o3, o4, o5⟩
  exact ⟨o1, fun hh => absurd hh d2, fun hh => absurd hh d1, o4, o5⟩

/-- `raw_rec_vsync_cbr` keeps the invariants and only appends to the queue. -/
theorem raw_rec_vsync_cbr_inv (P : Int) (enabled valid : Bool) (st st' : State)
    (hq : queue_inv st) (h : raw_rec_vsync_cbr P enabled valid st = some st') :
    queue_inv st' ∧ queue_appended st st' ∧ (order_inv st → order_inv st') := by
  have hsame : queue_inv st ∧ queue_appended st st ∧ (order_inv st → order_inv st) :=
    ⟨hq, queue_appended_same st st rfl rfl rfl, fun h => h⟩
  rw [raw_rec_vsync_cbr] at h
  by_cases h1 : enabled = false
  · rw [if_pos h1] at h
    simp only [Option.some.injEq] at h; subst h; exact hsame
  · rw [if_neg h1] at h
    by_cases h2 : RAW_IS_RECORDING st
    · rw [if_neg (not_not.2 h2)] at h
      by_cases h3 : valid = false
      · rw [if_pos h3] at h
        simp only [Option.some.injEq] at h
        subst h
        exact finishing_inv st hq
      · rw [if_neg h3] at h
        by_cases h4 : st.buffer_full ≠ 0
        · rw [if_pos h4] at h
          simp only [Option.some.injEq] at h; subst h; exact hsame
        · rw [if_neg h4] at h
          obtain ⟨a1, a2, a3⟩ := process_frame_inv P st st' hq h
          exact ⟨a1, a2, fun ho => a3 ho h2⟩
    · rw [if_pos h2] at h
      simp only [Option.some.injEq] at h; subst h; exact hsame
/-! ## The writer keeps the invariants of the session -/

theorem throttle_bounds (st : State) (w fps gs nf : Int) (h : 1 ≤ nf) :
    1 ≤ throttle st w fps gs nf ∧ throttle st w fps gs nf ≤ nf := by
  unfold throttle
  simp only []
  split_ifs with h1 h2
  · constructor
    · exact le_max_left _ _
    · exact max_le h (by omega)
  · exact ⟨h, le_refl _⟩
  · exact ⟨h, le_refl _⟩

theorem check_frame_order_eq (st : State) (e : Nat) :
    check_frame_order st e =
      { st with
        frame_order_errors := (check_frame_order st e).frame_order_errors
        last_processed_frame := st.last_processed_frame + 1 } := by
  unfold check_frame_order
  simp only []
  split_ifs <;> rfl

theorem check_frame_order_errors (st : State) (e : Nat)
    (h : (st.slots e).frame_number = st.last_processed_frame + 1) :
    (check_frame_order st e).frame_order_errors = st.frame_order_errors := by
  unfold check_frame_order
  simp only []
  rw [if_neg (by simpa using h)]

/-- A step that keeps the queue, the writer's counters, the frame numbers and the set of
slots that hold a frame keeps both invariants outside pre-recording. -/
theorem inv_busy_step (st st' : State) (hsq : same_queue st st')
    (hbk : busy_kept st.slots st'.slots)
    (hpre : st.raw_recording_state ≠ RAW_PRE_RECORDING) :
    (queue_inv st → queue_inv st') ∧
    (st'.last_processed_frame = st.last_processed_frame →
      st'.frame_order_errors = st.frame_order_errors → order_inv st → order_inv st') := by
  obtain ⟨e1, e2, e3, e4, e5, e6⟩ := hsq
  have hlen : queue_len st' = queue_len st := queue_len_congr st st' e2 e3
  have hslot : ∀ k, queue_slot st' k = queue_slot st k := queue_slot_congr st st' e1 e2
  constructor
  · rintro ⟨q1, q2, q3, q4, q5, q6⟩
    refine ⟨by rw [e2]; exact q1, by rw [e3]; exact q2, by rw [e4]; exact q3, ?_, ?_, ?_⟩
    · intro k hk
      rw [hlen] at hk
      rw [hslot]
      exact ⟨(q4 k hk).1, (q4 k hk).2.1, (hbk _).2.2 (q4 k hk).2.2⟩
    · intro k k' hk hk' h
      rw [hlen] at hk hk'
      rw [hslot, hslot] at h
      exact q5 k k' hk hk' h
    · intro h
      rw [e5] at h
      exact absurd h hpre
  · rintro hl he ⟨o1, o2, o3, o4, o5⟩
    refine ⟨?_, ?_, ?_, by rw [hl]; exact o4, by rw [he]; exact o5⟩
    · intro k hk
      rw [hlen] at hk
      rw [hslot, (hbk _).1, hl]
      exact o1 k hk
    · intro h
      rw [e5] at h
      rw [hlen, hl, e6]; exact o2 h
    · intro h
      rw [e5] at h
      exact absurd h hpre

theorem busy_kept_refl (T : Nat → frame_slot) : busy_kept T T :=
  fun _ => ⟨rfl, Iff.rfl⟩

theorem busy_kept_trans (T T' T'' : Nat → frame_slot) (h1 : busy_kept T T')
    (h2 : busy_kept T' T'') : busy_kept T T'' :=
  fun j => ⟨(h2 j).1.trans (h1 j).1, (h2 j).2.trans (h1 j).2⟩

/-- The loop that marks the first `m` slots of the queue of `st0` as WRITING, entered at
position `t`: only the slots change, and the slots that hold a frame are the same. -/
theorem mark_writing_spec (st0 : State) (m : Nat) (hm : m ≤ 511) :
    ∀ (r t fuel : Nat) (s : State), t + r = m → r < fuel →
    s.writing_queue = st0.writing_queue →
    (∀ k, t ≤ k → k < m → busy (s.slots (queue_slot st0 k).toNat)) →
    mark_writing fuel ((st0.writing_queue_head + t) % 512)
        ((st0.writing_queue_head + m) % 512) s
      = { s with slots := (mark_writing fuel ((st0.writing_queue_head + t) % 512)
            ((st0.writing_queue_head + m) % 512) s).slots } ∧
    busy_kept s.slots (mark_writing fuel ((st0.writing_queue_head + t) % 512)
        ((st0.writing_queue_head + m) % 512) s).slots := by
  intro r
  induction r with
  | zero =>
    intro t fuel s ht hf _ _
    obtain ⟨fuel, rfl⟩ : ∃ f, fuel = f + 1 := ⟨fuel - 1, by omega⟩
    have : t = m := by omega
    subst this
    rw [mark_writing, if_neg (by simp)]
    exact ⟨rfl, busy_kept_refl _⟩
  | succ r ih =>
    intro t fuel s ht hf hq hent
    obtain ⟨fuel, rfl⟩ : ∃ f, fuel = f + 1 := ⟨fuel - 1, by omega⟩
    rw [mark_writing, if_pos (by omega)]
    have he : (s.writing_queue ((st0.writing_queue_head + t) % 512).toNat)
        = queue_slot st0 t := by rw [hq]; rfl
    rw [he]
    have hstep : busy_kept s.slots
        (set_status s (queue_slot st0 t).toNat SLOT_WRITING).slots := by
      intro j
      by_cases hj : j = (queue_slot st0 t).toNat
      · subst hj
        rw [set_status_slots_self]
        refine ⟨rfl, fun _ => hent t (le_refl _) (by omega), fun _ => Or.inr rfl⟩
      · rw [set_status_slots_other _ _ _ _ hj]
        exact ⟨rfl, Iff.rfl⟩
    have hidx : MOD ((st0.writing_queue_head + ↑t) % 512 + 1) (COUNT_writing_queue : Int)
        = (st0.writing_queue_head + ↑(t + 1)) % 512 := by
      rw [mod_queue]; push_cast; omega
    rw [hidx]
    obtain ⟨a1, a2⟩ := ih (t + 1) fuel
      (set_status s (queue_slot st0 t).toNat SLOT_WRITING) (by omega) (by omega) hq
      (fun k hk1 hk2 => (hstep _).2.2 (hent k (by omega) hk2))
    exact ⟨a1.trans rfl, busy_kept_trans _ _ _ hstep a2⟩

/-- The loop that checks and releases the first `m` slots of the queue of `st0`, entered at
position `t`: besides the slots only the counters of the writer change; no frame number
changes, the released slots hold no frame afterwards, no slot gets a frame, the other
slots that hold a frame are not written, and no error is counted when the frame numbers
follow `last_processed_frame`. -/
theorem free_written_spec (st0 : State) (m : Nat) (hm : m ≤ 511) :
    ∀ (r t fuel : Nat) (s : State), t + r = m → r < fuel →
    s.writing_queue = st0.writing_queue →
    free_written fuel ((st0.writing_queue_head + t) % 512)
        ((st0.writing_queue_head + m) % 512) s
      = { s with
          slots := (free_written fuel ((st0.writing_queue_head + t) % 512)
            ((st0.writing_queue_head + m) % 512) s).slots
          last_processed_frame := s.last_processed_frame + r
          frame_order_errors := (free_written fuel ((st0.writing_queue_head + t) % 512)
            ((st0.writing_queue_head + m) % 512) s).frame_order_errors } ∧
    (∀ j, ((free_written fuel ((st0.writing_queue_head + t) % 512)
        ((st0.writing_queue_head + m) % 512) s).slots j).frame_number
          = (s.slots j).frame_number) ∧
    (∀ j, busy (s.slots j) → (∀ k, t ≤ k → k < m → (queue_slot st0 k).toNat ≠ j) →
      (free_written fuel ((st0.writing_queue_head + t) % 512)
        ((st0.writing_queue_head + m) % 512) s).slots j = s.slots j) ∧
    (∀ j, ¬ busy (s.slots j) →
      ¬ busy ((free_written fuel ((st0.writing_queue_head + t) % 512)
        ((st0.writing_queue_head + m) % 512) s).slots j)) ∧
    (∀ k, t ≤ k → k < m →
      ¬ busy ((free_written fuel ((st0.writing_queue_head + t) % 512)
        ((st0.writing_queue_head + m) % 512) s).slots (queue_slot st0 k).toNat)) ∧
    ((∀ k, t ≤ k → k < m → (s.slots (queue_slot st0 k).toNat).frame_number
        = s.last_processed_frame + 1 + (k - t : Nat)) →
      (free_written fuel ((st0.writing_queue_head + t) % 512)
        ((st0.writing_queue_head + m) % 512) s).frame_order_errors
          = s.frame_order_errors) := by
  intro r
  induction r with
  | zero =>
    intro t fuel s ht hf _
    obtain ⟨fuel, rfl⟩ : ∃ f, fuel = f + 1 := ⟨fuel - 1, by omega⟩
    have : t = m := by omega
    subst this
    rw [free_written, if_neg (by simp)]
    refine ⟨?_, fun _ => rfl, fun _ _ _ => rfl, fun _ h => h, fun k h1 h2 => by omega,
      fun _ => rfl⟩
    simp
  | succ r ih =>
    intro t fuel s ht hf hq
    obtain ⟨fuel, rfl⟩ : ∃ f, fuel = f + 1 := ⟨fuel - 1, by omega⟩
    rw [free_written, if_pos (by omega)]
    simp only []
    have he : (s.writing_queue ((st0.writing_queue_head + t) % 512).toNat)
        = queue_slot st0 t := by rw [hq]; rfl
    rw [he]
    have hidx : MOD ((st0.writing_queue_head + ↑t) % 512 + 1) (COUNT_writing_queue : Int)
        = (st0.writing_queue_head + ↑(t + 1)) % 512 := by
      rw [mod_queue]; push_cast; omega
    rw [hidx]
    generalize hedef : (queue_slot st0 t).toNat = e
    have hc := check_frame_order_eq s e
    have hcs : (check_frame_order s e).slots = s.slots := by rw [hc]
    have hcq : (check_frame_order s e).writing_queue = s.writing_queue := by rw [hc]
    have hcl : (check_frame_order s e).last_processed_frame = s.last_processed_frame + 1 := by
      rw [hc]
    have hf1 := free_slot_eq (check_frame_order s e) e
    generalize hs1 : free_slot (check_frame_order s e) e = s1 at hf1
    have g1 : s1.writing_queue = st0.writing_queue := by rw [hf1, hcq, hq]
    have g2 : s1.last_processed_frame = s.last_processed_frame + 1 := by rw [hf1, hcl]
    have g3 : s1.frame_order_errors = (check_frame_order s e).frame_order_errors := by
      rw [hf1]
    have g4 : ∀ j, (s1.slots j).frame_number = (s.slots j).frame_number := by
      intro j
      rw [← hs1, free_slot_frame_number, hcs]
    have g5 : ∀ j, busy (s.slots j) → j ≠ e → s1.slots j = s.slots j := by
      intro j hb hj
      rw [← hs1, free_slot_run _ _ _ hj (by rw [hcs]; exact (busy_iff _).1 hb), hcs]
    have g6 : ∀ j, ¬ busy (s.slots j) → ¬ busy (s1.slots j) := by
      intro j hb
      rw [busy_iff, not_not] at hb ⊢
      rw [← hs1]
      exact free_slot_not_busy _ _ _ (by rw [hcs]; exact hb)
    have g7 : ¬ busy (s1.slots e) := by
      rw [busy_iff, not_not, ← hs1]
      exact free_slot_released _ _
    obtain ⟨a1, a2, a3, a4, a5, a6⟩ := ih (t + 1) fuel s1 (by omega) (by omega) g1
    refine ⟨?_, fun j => (a2 j).trans (g4 j), fun j hb hne => ?_, fun j hb => a4 j (g6 j hb),
      fun k hk1 hk2 => ?_, fun hfn => ?_⟩
    · have hs1s : s1 = { s with
          slots := s1.slots
          last_processed_frame := s.last_processed_frame + 1
          frame_order_errors := s1.frame_order_errors } := by
        rw [g3]
        exact hf1.trans (by rw [hc])
      have hlast : s.last_processed_frame + 1 + (r : Int)
          = s.last_processed_frame + ((r + 1 : Nat) : Int) := by push_cast; ring
      rw [← hlast]
      refine a1.trans ?_
      rw [g2]
      generalize (free_written fuel _ _ s1).slots = X
      generalize (free_written fuel _ _ s1).frame_order_errors = Y
      rw [hs1s]
    · have hje : j ≠ e := by
        intro h
        exact hne t (le_refl _) (by omega) (by rw [hedef, h])
      have e1 := g5 j hb hje
      rw [a3 j (by rw [e1]; exact hb) (fun k hk1 hk2 => hne k (by omega) hk2), e1]
    · rcases Nat.lt_or_ge t k with hlt | hge
      · exact a5 k (by omega) hk2
      · have : k = t := by omega
        subst this
        rw [hedef]
        exact a4 e g7
    · rw [a6 (fun k hk1 hk2 => by
        rw [g4, g2, hfn k (by omega) hk2]
        have : (k - t : Nat) = (k - (t + 1) : Nat) + 1 := by omega
        rw [this]
        push_cast
        ring), g3]
      exact check_frame_order_errors s e (by
        have := hfn t (le_refl _) (by omega)
        rw [hedef] at this
        simpa using this)
/-! ## The iterations of the writer -/

theorem queue_removed_same (st st' : State)
    (hq : st'.writing_queue = st.writing_queue)
    (hh : st'.writing_queue_head = st.writing_queue_head)
    (ht : st'.writing_queue_tail = st.writing_queue_tail) : queue_removed st st' :=
  ⟨ht, 0, Nat.zero_le _, by rw [queue_len_congr st st' hh ht]; rfl,
    fun k _ => queue_slot_congr st st' hq hh k⟩

/-- The queue after `writing_queue_head = writing_queue_tail`. -/
theorem queue_removed_all (st st' : State)
    (ht : st'.writing_queue_tail = st.writing_queue_tail)
    (hh : st'.writing_queue_head = st.writing_queue_tail) :
    queue_len st' = 0 ∧ queue_removed st st' := by
  have h0 : queue_len st' = 0 := by
    have := queue_len_eq st'
    rw [ht, hh] at this
    simp at this
    exact this
  exact ⟨h0, ht, queue_len st, le_refl _, by omega, fun k hk => by omega⟩

/-- The state in which the first `m` frames of the queue are marked: only the slots and
`force_new_buffer` differ from `st`, and the same slots hold a frame. -/
theorem mark_group_spec (st : State) (m : Nat) (hm : m ≤ 511)
    (hb : ∀ k, k < m → busy (st.slots (queue_slot st k).toNat))
    (hh : 0 ≤ st.writing_queue_head ∧ st.writing_queue_head < 512) :
    same_queue st (mark_group st m) ∧
    (mark_group st m).last_processed_frame = st.last_processed_frame ∧
    (mark_group st m).frame_order_errors = st.frame_order_errors ∧
    busy_kept st.slots (mark_group st m).slots := by
  unfold mark_group
  simp only [mod_queue]
  obtain ⟨st1, hst1, s1, s2, s3, s4, s5, s6, s7, s8, s9⟩ : ∃ st1 : State,
      st1 = (if (st.writing_queue_head + m) % 512 = st.writing_queue_tail then
              { st with force_new_buffer := 1 } else st) ∧
      st1.slots = st.slots ∧ st1.writing_queue = st.writing_queue ∧
      st1.writing_queue_head = st.writing_queue_head ∧
      st1.writing_queue_tail = st.writing_queue_tail ∧ st1.slot_count = st.slot_count ∧
      st1.raw_recording_state = st.raw_recording_state ∧ st1.frame_count = st.frame_count ∧
      st1.last_processed_frame = st.last_processed_frame ∧
      st1.frame_order_errors = st.frame_order_errors := by
    refine ⟨_, rfl, ?_, ?_, ?_, ?_, ?_, ?_, ?_, ?_, ?_⟩ <;> split_ifs <;> rfl
  rw [← hst1]
  clear hst1
  have hhead0 : st.writing_queue_head = (st.writing_queue_head + (0 : Nat)) % 512 := by
    push_cast; omega
  obtain ⟨a1, a2⟩ := mark_writing_spec st m hm m 0 (COUNT_writing_queue + 1) st1
    (by omega) (by have : COUNT_writing_queue = 512 := rfl
                   omega) s2
    (fun k _ hk => by rw [s1]; exact hb k hk)
  rw [← hhead0] at a1 a2
  clear hhead0
  generalize mark_writing (COUNT_writing_queue + 1) st.writing_queue_head
    ((st.writing_queue_head + m) % 512) st1 = st2 at a1 a2
  rw [s1] at a2
  refine ⟨⟨?_, ?_, ?_, ?_, ?_, ?_⟩, ?_, ?_, a2⟩
  · rw [a1]; exact s2
  · rw [a1]; exact s3
  · rw [a1]; exact s4
  · rw [a1]; exact s5
  · rw [a1]; exact s6
  · rw [a1]; exact s7
  · rw [a1]; exact s8
  · rw [a1]; exact s9

theorem write_group_failed (st : State) (n : Int) :
    write_group write_outcome.failed st n = mark_group st n := rfl

theorem write_group_card_full (st : State) (n : Int) :
    write_group write_outcome.card_full st n
      = { mark_group st n with
          writing_queue_head := (mark_group st n).writing_queue_tail } := rfl

theorem write_group_ok (st : State) (n : Int) :
    write_group write_outcome.ok st n
      = { free_written (COUNT_writing_queue + 1) st.writing_queue_head
            (MOD (st.writing_queue_head + n) (COUNT_writing_queue : Int)) (mark_group st n) with
          writing_queue_head := MOD (st.writing_queue_head + n) (COUNT_writing_queue : Int) } :=
  rfl

/-- The state after the first `m` frames of the queue of `st` were released, from the
state `s` in which they were marked, and the head of the queue moved behind them. -/
theorem released_group_spec (st s : State) (m : Nat) (hm : m ≤ 511)
    (hh : 0 ≤ st.writing_queue_head ∧ st.writing_queue_head < 512)
    (hq : s.writing_queue = st.writing_queue) (st' : State)
    (h : st' = { free_written (COUNT_writing_queue + 1) st.writing_queue_head
            (MOD (st.writing_queue_head + m) (COUNT_writing_queue : Int)) s with
          writing_queue_head := MOD (st.writing_queue_head + m) (COUNT_writing_queue : Int) }) :
    (st'.writing_queue = s.writing_queue ∧
      st'.writing_queue_head = (st.writing_queue_head + m) % 512 ∧
      st'.writing_queue_tail = s.writing_queue_tail ∧ st'.slot_count = s.slot_count ∧
      st'.raw_recording_state = s.raw_recording_state ∧ st'.frame_count = s.frame_count ∧
      st'.last_processed_frame = s.last_processed_frame + m) ∧
    (∀ j, (st'.slots j).frame_number = (s.slots j).frame_number) ∧
    (∀ j, busy (s.slots j) → (∀ k, k < m → (queue_slot st k).toNat ≠ j) →
      st'.slots j = s.slots j) ∧
    (∀ j, ¬ busy (s.slots j) → ¬ busy (st'.slots j)) ∧
    (∀ k, k < m → ¬ busy (st'.slots (queue_slot st k).toNat)) ∧
    ((∀ k, k < m → (s.slots (queue_slot st k).toNat).frame_number
        = s.last_processed_frame + 1 + k) →
      st'.frame_order_errors = s.frame_order_errors) := by
  rw [mod_queue] at h
  have hhead0 : st.writing_queue_head = (st.writing_queue_head + (0 : Nat)) % 512 := by
    push_cast; omega
  obtain ⟨b1, b2, b3, b4, b5, b6⟩ := free_written_spec st m hm m 0
    (COUNT_writing_queue + 1) s (by omega)
    (by have : COUNT_writing_queue = 512 := rfl
        omega) hq
  rw [← hhead0] at b1 b2 b3 b4 b5 b6
  clear hhead0
  generalize free_written (COUNT_writing_queue + 1) st.writing_queue_head
    ((st.writing_queue_head + m) % 512) s = st3 at h b1 b2 b3 b4 b5 b6
  have f1 : st'.slots = st3.slots := by rw [h]
  have f9 : st'.frame_order_errors = st3.frame_order_errors := by rw [h]
  refine ⟨⟨?_, ?_, ?_, ?_, ?_, ?_, ?_⟩, ?_, ?_, ?_, ?_, ?_⟩
  · rw [h, b1]
  · rw [h]
  · rw [h, b1]
  · rw [h, b1]
  · rw [h, b1]
  · rw [h, b1]
  · rw [h, b1]
  · intro j; rw [f1]; exact b2 j
  · intro j hb hne; rw [f1]; exact b3 j hb (fun k _ hk => hne k hk)
  · intro j hb; rw [f1]; exact b4 j hb
  · intro k hk; rw [f1]; exact b5 k (Nat.zero_le _) hk
  · intro hfn; rw [f9]; exact b6 (fun k _ hk => by rw [hfn k hk]; simp)

/-- A step that removes the first `m` entries of the queue, advances
`last_processed_frame` by `m`, changes no frame number and leaves a frame in the slots that
stay on the queue keeps the invariant of the queue, and that of the frame numbers when it
counts no error. -/
theorem inv_dequeue_step (st st' : State) (m : Nat) (hq : queue_inv st) (hm1 : 1 ≤ m)
    (hm2 : m ≤ queue_len st)
    (f2 : st'.writing_queue = st.writing_queue)
    (f3 : st'.writing_queue_head = (st.writing_queue_head + m) % 512)
    (f4 : st'.writing_queue_tail = st.writing_queue_tail)
    (f5 : st'.slot_count = st.slot_count)
    (f6 : st'.raw_recording_state = st.raw_recording_state)
    (f7 : st'.frame_count = st.frame_count)
    (f8 : st'.last_processed_frame = st.last_processed_frame + m)
    (hfn : ∀ j, (st'.slots j).frame_number = (st.slots j).frame_number)
    (hkeep : ∀ k, m ≤ k → k < queue_len st → busy (st'.slots (queue_slot st k).toNat)) :
    queue_inv st' ∧ queue_removed st st' ∧
    (order_inv st → st'.frame_order_errors = st.frame_order_errors → order_inv st') := by
  obtain ⟨q1, q2, q3, q4, q5, q6⟩ := hq
  have hnotpre : st.raw_recording_state ≠ RAW_PRE_RECORDING := by
    intro hp; have := q6 hp; omega
  obtain ⟨d1, d2, d3⟩ := dequeue_queue st st' m f2 f4 f3 hm2
  refine ⟨⟨d3, by rw [f4]; exact q2, by rw [f5]; exact q3, fun k hk => ?_,
    fun k k' hk hk' he => ?_, fun hp => ?_⟩,
    ⟨f4, m, hm2, d1, fun k _ => d2 k⟩, ?_⟩
  · have := q4 (k + m) (by omega)
    exact ⟨by rw [d2]; exact this.1, by rw [d2]; exact this.2.1,
      by rw [d2]; exact hkeep (k + m) (by omega) (by omega)⟩
  · rw [d2, d2] at he
    have := q5 (k + m) (k' + m) (by omega) (by omega) he
    omega
  · rw [f6] at hp; exact absurd hp hnotpre
  · rintro ⟨o1, o2, o3, o4, o5⟩ he
    refine ⟨fun k hk => ?_, fun hR => Or.inr ?_, fun hp => ?_, by rw [f8]; omega,
      by rw [he]; exact o5⟩
    · rw [d2, hfn, f8, o1 (k + m) (by omega)]
      push_cast; ring
    · rw [f6] at hR
      rw [f8, d1, f7]
      rcases o2 hR with hh | hh
      · omega
      · have : ((queue_len st - m : Nat) : Int) = (queue_len st : Int) - m := by omega
        rw [this]
        omega
    · rw [f6] at hp; exact absurd hp hnotpre

/-- Marking, writing and releasing the first `m` frames of the queue keeps the invariant of
the queue and removes entries only at its head; when `write_frames` succeeds the invariant
of the frame numbers is kept as well. -/
theorem write_group_inv (o : write_outcome) (st : State) (m : Nat)
    (hq : queue_inv st) (hm1 : 1 ≤ m) (hm2 : m ≤ queue_len st) :
    queue_inv (write_group o st m) ∧ queue_removed st (write_group o st m) ∧
    (order_inv st → o = write_outcome.ok → order_inv (write_group o st m)) := by
  have hq0 := hq
  obtain ⟨q1, q2, q3, q4, q5, q6⟩ := hq
  have hL := queue_len_eq st
  have hL511 : queue_len st ≤ 511 := by omega
  have hnotpre : st.raw_recording_state ≠ RAW_PRE_RECORDING := by
    intro hp; have := q6 hp; omega
  obtain ⟨⟨m1, m2, m3, m4, m5, m6⟩, m7, m8, a2⟩ := mark_group_spec st m (by omega)
    (fun k hk => (q4 k (by omega)).2.2) q1
  cases o with
  | failed =>
    rw [write_group_failed]
    obtain ⟨i1, i2⟩ := inv_busy_step st (mark_group st m) ⟨m1, m2, m3, m4, m5, m6⟩ a2 hnotpre
    exact ⟨i1 hq0, queue_removed_same st _ m1 m2 m3, fun _ ho => by cases ho⟩
  | card_full =>
    obtain ⟨s', hs'⟩ : ∃ s', s' = write_group write_outcome.card_full st m := ⟨_, rfl⟩
    rw [← hs']
    have e := hs'.trans (write_group_card_full st m)
    have c1 : s'.writing_queue_head = st.writing_queue_tail := by rw [e]; exact m3
    have c2 : s'.writing_queue_tail = st.writing_queue_tail := by rw [e]; exact m3
    have c3 : s'.slot_count = st.slot_count := by rw [e]; exact m4
    obtain ⟨z1, z2⟩ := queue_removed_all st s' c2 c1
    refine ⟨⟨by rw [c1]; exact q2, by rw [c2]; exact q2, by rw [c3]; exact q3,
      fun k hk => by omega, fun k k' hk hk' => by omega, fun _ => z1⟩, z2,
      fun _ ho => by cases ho⟩
  | ok =>
    obtain ⟨⟨f2, f3, f4, f5, f6, f7, f8⟩, b2, b3, b4, b5, b6⟩ :=
      released_group_spec st (mark_group st m) m (by omega) q1 m1 _ (write_group_ok st m)
    generalize mark_group st m = st2 at m1 m2 m3 m4 m5 m6 m7 m8 a2 f2 f3 f4 f5 f6 f7 f8 b2 b3 b4 b5 b6 ⊢
    generalize write_group write_outcome.ok st m = st' at f2 f3 f4 f5 f6 f7 f8 b2 b3 b4 b5 b6 ⊢
    rw [m1] at f2
    rw [m3] at f4
    rw [m4] at f5
    rw [m5] at f6
    rw [m6] at f7
    rw [m7] at f8
    obtain ⟨i1, i2, i3⟩ := inv_dequeue_step st st' m hq0 hm1 hm2 f2 f3 f4 f5 f6 f7 f8
      (fun j => by rw [b2, (a2 j).1])
      (fun k hk1 hk2 => by
        have hb2 := (a2 _).2.2 (q4 k hk2).2.2
        rw [b3 _ hb2 (fun k' hk' he => by
          have h0 := (q4 k' (by omega)).1
          have h0' := (q4 k hk2).1
          have := q5 k' k (by omega) hk2 (by omega)
          omega)]
        exact hb2)
    refine ⟨i1, i2, fun ho _ => i3 ho ?_⟩
    rw [b6 (fun k hk => by rw [(a2 _).1, m7, ho.1 k (by omega)]), m8]

/-- An iteration of the main loop of the writer keeps the invariant of the queue and
removes entries only at its head; when `write_frames` succeeds it keeps the invariant of
the frame numbers. -/
theorem writer_iteration_inv (c w f : Int) (o : write_outcome) (st st' : State)
    (hq : queue_inv st) (h : writer_iteration c w f o st = some st') :
    queue_inv st' ∧ queue_removed st st' ∧
    (order_inv st → o = write_outcome.ok → order_inv st') := by
  have hsame : queue_inv st ∧ queue_removed st st ∧
      (order_inv st → o = write_outcome.ok → order_inv st) :=
    ⟨hq, queue_removed_same st st rfl rfl rfl, fun h _ => h⟩
  rw [writer_iteration] at h
  by_cases h1 : st.buffer_full ≠ 0
  · rw [if_pos h1] at h
    simp only [Option.some.injEq] at h; subst h; exact hsame
  rw [if_neg h1] at h
  simp only [] at h
  by_cases h2 : st.writing_queue_head = st.writing_queue_tail
  · rw [if_pos h2] at h
    simp only [Option.some.injEq] at h; subst h; exact hsame
  rw [if_neg h2] at h
  by_cases h3 : c = 0
  · rw [if_pos h3] at h
    simp only [Option.some.injEq] at h; subst h; exact hsame
  rw [if_neg h3] at h
  obtain ⟨n0, g1, g2, g3, g4, _, _⟩ := group_frames_prefix st hq.1 hq.2.1 h2
  rw [g3] at h
  simp only [] at h
  rw [g4] at h
  obtain ⟨t1, t2⟩ := throttle_bounds st w f (queue_sum st n0) n0 (by exact_mod_cast g1)
  generalize throttle st w f (queue_sum st n0) n0 = num at h t1 t2
  obtain ⟨m, rfl⟩ : ∃ m : Nat, num = m := ⟨num.toNat, by omega⟩
  simp only [Option.some.injEq] at h
  subst h
  exact write_group_inv o st m hq (by exact_mod_cast t1) (by
    have : m ≤ n0 := by exact_mod_cast t2
    omega)

theorem flush_iteration_empty (o : write_outcome) (st : State)
    (h : st.writing_queue_head = st.writing_queue_tail) : flush_iteration o st = st := by
  unfold flush_iteration
  rw [if_neg (not_not.2 h)]

theorem flush_iteration_failed (st : State)
    (h : st.writing_queue_head ≠ st.writing_queue_tail) :
    flush_iteration write_outcome.failed st
      = set_status (check_frame_order st (st.writing_queue st.writing_queue_head.toNat).toNat)
          (st.writing_queue st.writing_queue_head.toNat).toNat SLOT_WRITING := by
  unfold flush_iteration
  rw [if_pos h]
  rfl

theorem flush_iteration_card_full (st : State)
    (h : st.writing_queue_head ≠ st.writing_queue_tail) :
    flush_iteration write_outcome.card_full st
      = { set_status (check_frame_order st (st.writing_queue st.writing_queue_head.toNat).toNat)
          (st.writing_queue st.writing_queue_head.toNat).toNat SLOT_WRITING with
          writing_queue_head := st.writing_queue_tail } := by
  unfold flush_iteration
  rw [if_pos h]
  unfold check_frame_order
  simp only [write_frames]
  split_ifs <;> rfl

theorem flush_iteration_ok (st : State)
    (h : st.writing_queue_head ≠ st.writing_queue_tail) :
    flush_iteration write_outcome.ok st
      = { free_slot (set_status
            (check_frame_order st (st.writing_queue st.writing_queue_head.toNat).toNat)
            (st.writing_queue st.writing_queue_head.toNat).toNat SLOT_WRITING)
            (st.writing_queue st.writing_queue_head.toNat).toNat with
          writing_queue_head := (st.writing_queue_head + 1) % 512 } := by
  unfold flush_iteration
  rw [if_pos h]
  simp only [write_frames, one_ne_zero, if_false, mod_queue]
  congr 2
  rw [free_slot_eq]
  unfold check_frame_order
  simp only []
  split_ifs <;> rfl

/-- The state of the loop that writes the remaining frames after the first frame of the
queue was checked and marked: besides the slots only the counters of the writer differ
from `st`, and the same slots hold a frame. -/
theorem flush_mark_spec (st : State) (e : Nat) (hb : busy (st.slots e)) :
    same_queue st (set_status (check_frame_order st e) e SLOT_WRITING) ∧
    (set_status (check_frame_order st e) e SLOT_WRITING).last_processed_frame
      = st.last_processed_frame + 1 ∧
    ((st.slots e).frame_number = st.last_processed_frame + 1 →
      (set_status (check_frame_order st e) e SLOT_WRITING).frame_order_errors
        = st.frame_order_errors) ∧
    busy_kept st.slots (set_status (check_frame_order st e) e SLOT_WRITING).slots := by
  have hc := check_frame_order_eq st e
  have he := check_frame_order_errors st e
  generalize check_frame_order st e = s1 at hc he
  have hs : s1.slots = st.slots := by rw [hc]
  refine ⟨⟨?_, ?_, ?_, ?_, ?_, ?_⟩, ?_, ?_, ?_⟩
  · show s1.writing_queue = _; rw [hc]
  · show s1.writing_queue_head = _; rw [hc]
  · show s1.writing_queue_tail = _; rw [hc]
  · show s1.slot_count = _; rw [hc]
  · show s1.raw_recording_state = _; rw [hc]
  · show s1.frame_count = _; rw [hc]
  · show s1.last_processed_frame = _; rw [hc]
  · intro h; exact he h
  · intro j
    by_cases hj : j = e
    · subst hj
      rw [set_status_slots_self, hs]
      exact ⟨rfl, fun _ => hb, fun _ => Or.inr rfl⟩
    · rw [set_status_slots_other _ _ _ _ hj, hs]
      exact ⟨rfl, Iff.rfl⟩

/-- An iteration of the loop that writes the remaining frames keeps the invariant of the
queue and removes entries only at its head; when `write_frames` succeeds it keeps the
invariant of the frame numbers. -/
theorem flush_iteration_inv (o : write_outcome) (st : State) (hq : queue_inv st) :
    queue_inv (flush_iteration o st) ∧ queue_removed st (flush_iteration o st) ∧
    (order_inv st → o = write_outcome.ok → order_inv (flush_iteration o st)) := by
  by_cases h2 : st.writing_queue_head = st.writing_queue_tail
  · rw [flush_iteration_empty o st h2]
    exact ⟨hq, queue_removed_same st st rfl rfl rfl, fun h _ => h⟩
  have hq0 := hq
  obtain ⟨q1, q2, q3, q4, q5, q6⟩ := hq
  have hL := queue_len_eq st
  have hL1 : 1 ≤ queue_len st := by omega
  have hnotpre : st.raw_recording_state ≠ RAW_PRE_RECORDING := by
    intro hp; have := q6 hp; omega
  have he0 : st.writing_queue st.writing_queue_head.toNat = queue_slot st 0 := by
    unfold queue_slot
    rw [mod_queue]
    congr 2
    push_cast
    omega
  obtain ⟨⟨m1, m2, m3, m4, m5, m6⟩, m7, m8, a2⟩ :=
    flush_mark_spec st (queue_slot st 0).toNat (q4 0 hL1).2.2
  cases o with
  | failed =>
    rw [flush_iteration_failed st h2, he0]
    obtain ⟨i1, _⟩ := inv_busy_step st _ ⟨m1, m2, m3, m4, m5, m6⟩ a2 hnotpre
    exact ⟨i1 hq0, queue_removed_same st _ m1 m2 m3, fun _ ho => by cases ho⟩
  | card_full =>
    obtain ⟨s', hs'⟩ : ∃ s', s' = flush_iteration write_outcome.card_full st := ⟨_, rfl⟩
    rw [← hs']
    have e := hs'.trans (flush_iteration_card_full st h2)
    have c1 : s'.writing_queue_head = st.writing_queue_tail := by rw [e]
    have c2 : s'.writing_queue_tail = st.writing_queue_tail := by
      rw [e, he0]; exact m3
    have c3 : s'.slot_count = st.slot_count := by rw [e, he0]; exact m4
    obtain ⟨z1, z2⟩ := queue_removed_all st s' c2 c1
    refine ⟨⟨by rw [c1]; exact q2, by rw [c2]; exact q2, by rw [c3]; exact q3,
      fun k hk => by omega, fun k k' hk hk' => by omega, fun _ => z1⟩, z2,
      fun _ ho => by cases ho⟩
  | ok =>
    obtain ⟨s', hs'⟩ : ∃ s', s' = flush_iteration write_outcome.ok st := ⟨_, rfl⟩
    rw [← hs']
    have e := hs'.trans (flush_iteration_ok st h2)
    rw [he0] at e
    generalize hedef : (queue_slot st 0).toNat = e0 at e m1 m2 m3 m4 m5 m6 m7 m8 a2
    generalize set_status (check_frame_order st e0) e0 SLOT_WRITING = s2
      at e m1 m2 m3 m4 m5 m6 m7 m8 a2
    have hf := free_slot_eq s2 e0
    have g1 : s'.slots = (free_slot s2 e0).slots := by rw [e]
    have g2 : s'.frame_order_errors = s2.frame_order_errors := by rw [e, hf]
    obtain ⟨i1, i2, i3⟩ := inv_dequeue_step st s' 1 hq0 (le_refl _) hL1
      (by rw [e, hf]; exact m1) (by rw [e]; rfl) (by rw [e, hf]; exact m3)
      (by rw [e, hf]; exact m4) (by rw [e, hf]; exact m5) (by rw [e, hf]; exact m6)
      (by rw [e, hf]; show s2.last_processed_frame = _; rw [m7]; rfl)
      (fun j => by rw [g1, free_slot_frame_number, (a2 j).1])
      (fun k hk1 hk2 => by
        have hb2 := (a2 _).2.2 (q4 k hk2).2.2
        have hne : (queue_slot st k).toNat ≠ e0 := by
          intro he
          have h0 := (q4 0 hL1).1
          have h0' := (q4 k hk2).1
          have := q5 0 k hL1 hk2 (by omega)
          omega
        rw [g1, free_slot_run _ _ _ hne ((busy_iff _).1 hb2)]
        exact hb2)
    refine ⟨i1, i2, fun ho _ => i3 ho ?_⟩
    rw [g2]
    refine m8 ?_
    have := ho.1 0 hL1
    rw [hedef] at this
    simpa using this
/-! ## The invariants along a session -/

/-- Every event of a session keeps the invariant of the queue and either appends entries
at the tail of the queue or removes entries at its head; with complete writes it keeps the
invariant of the frame numbers. -/
theorem session_step_inv (P : Int) (st st' : State) (op : session_op)
    (hq : queue_inv st) (h : session_step P st op = some st') :
    queue_inv st' ∧ (queue_appended st st' ∨ queue_removed st st') ∧
    (order_inv st → writes_ok op → order_inv st') := by
  have hpool : ∀ s : State, same_queue st s → frames_kept st.slots s.slots →
      s.last_processed_frame = st.last_processed_frame →
      s.frame_order_errors = st.frame_order_errors → some s = some st' →
      queue_inv st' ∧ (queue_appended st st' ∨ queue_removed st st') ∧
      (order_inv st → writes_ok op → order_inv st') := by
    intro s hs hf hl he hss
    simp only [Option.some.injEq] at hss
    subst hss
    obtain ⟨i1, i2⟩ := inv_pool_step st s hs hf hl he
    exact ⟨i1 hq, Or.inl (queue_appended_same st s hs.1 hs.2.1 hs.2.2.1), fun ho _ => i2 ho⟩
  cases op with
  | vsync enabled valid =>
    obtain ⟨i1, i2, i3⟩ := raw_rec_vsync_cbr_inv P enabled valid st st' hq h
    exact ⟨i1, Or.inl i2, fun ho _ => i3 ho⟩
  | edmac_start =>
    exact hpool { st with edmac_active := 1 } ⟨rfl, rfl, rfl, rfl, rfl, rfl⟩
      (frames_kept_refl _) rfl rfl h
  | edmac_done =>
    exact hpool { st with edmac_active := 0 } ⟨rfl, rfl, rfl, rfl, rfl, rfl⟩
      (frames_kept_refl _) rfl rfl h
  | compressed i n =>
    have hf := shrink_slot_rec_fields (COUNT_slots - i) st i n
    have hk := shrink_slot_rec_frames_kept (COUNT_slots - i) st i n
    have h' : some (shrink_slot_rec (COUNT_slots - i) st i n) = some st' := h
    generalize shrink_slot_rec (COUNT_slots - i) st i n = s at hf hk h'
    exact hpool s ⟨by rw [hf], by rw [hf], by rw [hf], by rw [hf], by rw [hf], by rw [hf]⟩ hk
      (by rw [hf]) (by rw [hf]) h'
  | trigger =>
    have h' : some (if st.raw_recording_state = RAW_PRE_RECORDING then
        { st with pre_record_triggered := 1 } else st) = some st' := h
    by_cases hp : st.raw_recording_state = RAW_PRE_RECORDING
    · rw [if_pos hp] at h'
      exact hpool { st with pre_record_triggered := 1 } ⟨rfl, rfl, rfl, rfl, rfl, rfl⟩
        (frames_kept_refl _) rfl rfl h'
    · rw [if_neg hp] at h'
      exact hpool st ⟨rfl, rfl, rfl, rfl, rfl, rfl⟩ (frames_kept_refl _) rfl rfl h'
  | write c w f o =>
    obtain ⟨i1, i2, i3⟩ := writer_iteration_inv c w f o st st' hq h
    exact ⟨i1, Or.inr i2, fun ho hw => i3 ho hw⟩
  | stop =>
    have h' : some { st with raw_recording_state := RAW_FINISHING } = some st' := h
    simp only [Option.some.injEq] at h'
    subst h'
    obtain ⟨i1, i2, i3⟩ := finishing_inv st hq
    exact ⟨i1, Or.inl i2, fun ho _ => i3 ho⟩
  | flush o =>
    have h' : some (flush_iteration o st) = some st' := h
    simp only [Option.some.injEq] at h'
    subst h'
    obtain ⟨i1, i2, i3⟩ := flush_iteration_inv o st hq
    exact ⟨i1, Or.inr i2, fun ho hw => i3 ho hw⟩

/-- The invariants hold in every state a session reaches. -/
theorem run_session_inv (P : Int) : ∀ (ops : List session_op) (st st' : State),
    queue_inv st → run_session P st ops = some st' →
    queue_inv st' ∧ ((∀ op, op ∈ ops → writes_ok op) → order_inv st → order_inv st') := by
  intro ops
  induction ops with
  | nil =>
    intro st st' hq h
    simp only [run_session, Option.some.injEq] at h
    subst h
    exact ⟨hq, fun _ ho => ho⟩
  | cons op ops ih =>
    intro st st' hq h
    rw [run_session] at h
    cases hs : session_step P st op with
    | none => rw [hs] at h; cases h
    | some s1 =>
      rw [hs] at h
      obtain ⟨i1, _, i3⟩ := session_step_inv P st s1 op hq hs
      obtain ⟨j1, j2⟩ := ih s1 st' i1 h
      exact ⟨j1, fun hw ho => j2 (fun o ho' => hw o (List.mem_cons_of_mem _ ho'))
        (i3 ho (hw op (List.mem_cons_self _ _)))⟩

/-- A state with an empty queue and a slot table in use has the invariant of the queue. -/
theorem queue_inv_start (st : State)
    (hh : 0 ≤ st.writing_queue_head ∧ st.writing_queue_head < 512)
    (he : st.writing_queue_tail = st.writing_queue_head)
    (hsc : 0 < st.slot_count ∧ st.slot_count ≤ COUNT_slots) : queue_inv st := by
  have h0 : queue_len st = 0 := by
    have := queue_len_eq st
    rw [he] at this
    simp at this
    exact this
  exact ⟨hh, by rw [he]; exact hh, hsc, fun k hk => by omega, fun k k' hk => by omega,
    fun _ => h0⟩

theorem queue_list_length (st : State) : (queue_list st).length = queue_len st := by
  simp [queue_list]

theorem queue_list_getElem (st : State) (k : Nat) (hk : k < (queue_list st).length) :
    (queue_list st)[k] = queue_slot st k := by
  simp [queue_list]

theorem queue_appended_list (st st' : State) (h : queue_appended st st') :
    ∃ l, queue_list st' = queue_list st ++ l ∧
      (st'.writing_queue_tail ≠ st.writing_queue_tail → l ≠ []) := by
  obtain ⟨a1, a2, a3, a4⟩ := h
  refine ⟨(queue_list st').drop (queue_len st), ?_, fun ht hl => ?_⟩
  · have : queue_list st = (queue_list st').take (queue_len st) := by
      apply List.ext_getElem
      · simp [queue_list_length]; omega
      · intro k h1 h2
        rw [queue_list_getElem]
        rw [queue_list_length] at h1
        simp [queue_list_getElem, a3 k h1]
    rw [this]
    exact (List.take_append_drop _ _).symm
  · have := a4 ht
    have h2 := congrArg List.length hl
    simp [queue_list_length] at h2
    omega

theorem queue_removed_list (st st' : State) (h : queue_removed st st') :
    ∃ n, queue_list st' = (queue_list st).drop n := by
  obtain ⟨_, n, r1, r2, r3⟩ := h
  refine ⟨n, ?_⟩
  apply List.ext_getElem
  · simp [queue_list_length]; omega
  · intro k h1 h2
    rw [queue_list_getElem]
    rw [queue_list_length] at h1
    simp [queue_list_getElem, r3 k h1]
    congr 1
    omega

/-! ## The hooks and the variables of the writer -/

/-- No hook reads or writes `writing_queue_head` and `last_processed_frame`. -/
theorem hook_step_set_writer (P h l : Int) (st : State) (op : hook_op) :
    hook_step P (set_writer h l st) op = (hook_step P st op).map (set_writer h l) := by
  cases op with
  | vsync enabled valid => exact raw_rec_vsync_cbr_set_writer P enabled valid h l st
  | edmac_start => rfl
  | edmac_done => rfl
  | compressed i n =>
    show some (shrink_slot_rec (COUNT_slots - i) (set_writer h l st) i n) = _
    rw [shrink_slot_rec_set_writer]
    rfl
  | trigger =>
    unfold hook_step
    simp only [show (set_writer h l st).raw_recording_state = st.raw_recording_state from rfl]
    split_ifs <;> rfl
  | stop_request =>
    unfold hook_step
    simp only [show (set_writer h l st).raw_recording_state = st.raw_recording_state from rfl]
    split_ifs <;> rfl

theorem hook_step_fields (P : Int) (st s : State) (op : hook_op)
    (h : hook_step P st op = some s) :
    s.writing_queue_head = st.writing_queue_head ∧
    s.last_processed_frame = st.last_processed_frame := by
  have e := hook_step_set_writer P st.writing_queue_head st.last_processed_frame st op
  have e0 : set_writer st.writing_queue_head st.last_processed_frame st = st := rfl
  rw [e0, h] at e
  simp only [Option.map_some', Option.some.injEq] at e
  constructor
  · rw [e]; rfl
  · rw [e]; rfl

/-- Every hook keeps the invariant of the queue and that of the frame numbers, and only
appends to the queue. -/
theorem hook_step_inv (P : Int) (st st' : State) (op : hook_op)
    (hq : queue_inv st) (h : hook_step P st op = some st') :
    queue_inv st' ∧ queue_appended st st' ∧ (order_inv st → order_inv st') := by
  have hpool : ∀ s : State, same_queue st s → frames_kept st.slots s.slots →
      s.last_processed_frame = st.last_processed_frame →
      s.frame_order_errors = st.frame_order_errors → some s = some st' →
      queue_inv st' ∧ queue_appended st st' ∧ (order_inv st → order_inv st') := by
    intro s hs hf hl he hss
    simp only [Option.some.injEq] at hss
    subst hss
    obtain ⟨i1, i2⟩ := inv_pool_step st s hs hf hl he
    exact ⟨i1 hq, queue_appended_same st s hs.1 hs.2.1 hs.2.2.1, i2⟩
  cases op with
  | vsync enabled valid => exact raw_rec_vsync_cbr_inv P enabled valid st st' hq h
  | edmac_start =>
    exact hpool { st with edmac_active := 1 } ⟨rfl, rfl, rfl, rfl, rfl, rfl⟩
      (frames_kept_refl _) rfl rfl h
  | edmac_done =>
    exact hpool { st with edmac_active := 0 } ⟨rfl, rfl, rfl, rfl, rfl, rfl⟩
      (frames_kept_refl _) rfl rfl h
  | compressed i n =>
    have hf := shrink_slot_rec_fields (COUNT_slots - i) st i n
    have hk := shrink_slot_rec_frames_kept (COUNT_slots - i) st i n
    have h' : some (shrink_slot_rec (COUNT_slots - i) st i n) = some st' := h
    generalize shrink_slot_rec (COUNT_slots - i) st i n = s at hf hk h'
    exact hpool s ⟨by rw [hf], by rw [hf], by rw [hf], by rw [hf], by rw [hf], by rw [hf]⟩ hk
      (by rw [hf]) (by rw [hf]) h'
  | trigger =>
    have h' : some (if st.raw_recording_state = RAW_PRE_RECORDING then
        { st with pre_record_triggered := 1 } else st) = some st' := h
    by_cases hp : st.raw_recording_state = RAW_PRE_RECORDING
    · rw [if_pos hp] at h'
      exact hpool { st with pre_record_triggered := 1 } ⟨rfl, rfl, rfl, rfl, rfl, rfl⟩
        (frames_kept_refl _) rfl rfl h'
    · rw [if_neg hp] at h'
      exact hpool st ⟨rfl, rfl, rfl, rfl, rfl, rfl⟩ (frames_kept_refl _) rfl rfl h'
  | stop_request =>
    have h' : some (if st.raw_recording_state ≠ RAW_IDLE then
        { st with raw_recording_state := RAW_FINISHING } else st) = some st' := h
    by_cases hp : st.raw_recording_state ≠ RAW_IDLE
    · rw [if_pos hp] at h'
      simp only [Option.some.injEq] at h'
      subst h'
      exact finishing_inv st hq
    · rw [if_neg hp] at h'
      exact hpool st ⟨rfl, rfl, rfl, rfl, rfl, rfl⟩ (frames_kept_refl _) rfl rfl h'

/-- A call of a hook, seen on the frames that wait for the writer. -/
theorem hook_pending (P : Int) (ts ts' : task_state) (op : hook_op)
    (h : task_step P ts (task_op.hook op) = some ts') :
    hook_step P ts.st op = some ts'.st ∧
    hook_step P (pending ts) op = some (pending ts') ∧
    ts'.pc = ts.pc ∧ ts'.w_head = ts.w_head ∧ ts'.i = ts.i ∧
    ts'.after_last_grouped = ts.after_last_grouped ∧ ts'.num_frames = ts.num_frames ∧
    ts'.slot_index = ts.slot_index ∧
    ts'.st.writing_queue_head = ts.st.writing_queue_head ∧
    position ts' = position ts ∧ released ts' = released ts := by
  have h' : (match hook_step P ts.st op with
      | none => none
      | some s => some { ts with st := s }) = some ts' := h
  clear h
  cases hs : hook_step P ts.st op with
  | none => rw [hs] at h'; cases h'
  | some s =>
    rw [hs] at h'
    simp only [Option.some.injEq] at h'
    subst h'
    obtain ⟨f1, f2⟩ := hook_step_fields P ts.st s op hs
    have hpos : position { ts with st := s } = position ts := by
      unfold position
      cases hpc : ts.pc <;> simp only [hpc, f1]
    have hrel : released { ts with st := s } = released ts := by
      unfold released
      cases hpc : ts.pc <;> simp only [hpc, f2]
    refine ⟨rfl, ?_, rfl, rfl, rfl, rfl, rfl, rfl, f1, hpos, hrel⟩
    unfold pending
    rw [hook_step_set_writer, hs, hpos, hrel]
    rfl

/-- A call of a hook keeps the local variables of the grouping loop. -/
theorem hook_locals (P : Int) (ts ts' : task_state) (op : hook_op)
    (h : task_step P ts (task_op.hook op) = some ts') :
    ts'.w_tail = ts.w_tail ∧ ts'.first_slot = ts.first_slot ∧
    ts'.last_grouped = ts.last_grouped ∧ ts'.group_size = ts.group_size := by
  have h' : (match hook_step P ts.st op with
      | none => none
      | some s => some { ts with st := s }) = some ts' := h
  clear h
  cases hs : hook_step P ts.st op with
  | none => rw [hs] at h'; cases h'
  | some s =>
    rw [hs] at h'
    simp only [Option.some.injEq] at h'
    subst h'
    exact ⟨rfl, rfl, rfl, rfl⟩


/-! ## The invariant of the task -/

/-- A call of a hook keeps the invariant of the task and only appends to the queue of the
frames that wait for the writer. -/
theorem hook_task_inv (P : Int) (ts ts' : task_state) (op : hook_op) (hi : task_inv ts)
    (h : task_step P ts (task_op.hook op) = some ts') :
    task_inv ts' ∧ queue_appended (pending ts) (pending ts') ∧
    (order_inv (pending ts) → order_inv (pending ts')) := by
  obtain ⟨_, h2, e1, e2, e3, e4, _, e6, e7, e8, e9⟩ := hook_pending P ts ts' op h
  obtain ⟨i1, i2, i3⟩ := hook_step_inv P (pending ts) (pending ts') op hi.1 h2
  refine ⟨⟨i1, ?_⟩, i2, i3⟩
  have hl := hi.2
  obtain ⟨a1, a2, a3, a4⟩ := i2
  unfold task_locals at hl ⊢
  rw [e1]
  obtain ⟨g1, _, g3, _⟩ := hook_locals P ts ts' op h
  cases hpc : ts.pc <;> simp only [hpc] at hl ⊢
  · obtain ⟨l1, t, m, n0, l2, l3, l4, l5, l6, l7, l8⟩ := hl
    exact ⟨by rw [e2, e7]; exact l1, t, m, n0, by rw [e3, e7]; exact l2,
      by rw [g1, e7]; exact l3, l4, by omega, l6, l7, by rw [g3, e7]; exact l8⟩
  · obtain ⟨l1, n0, l2, l3, l4⟩ := hl
    exact ⟨by rw [e2, e7]; exact l1, n0, l2, by omega, by rw [g3, e7]; exact l4⟩
  · obtain ⟨l1, t, r, l2, l3, l4⟩ := hl
    exact ⟨by rw [e2, e7]; exact l1, t, r, by rw [e3, e7]; exact l2,
      by rw [e4, e7]; exact l3, by omega⟩
  · obtain ⟨l1, m, l2, l3⟩ := hl
    exact ⟨by rw [e2, e7]; exact l1, m, by rw [e4, e7]; exact l2, by omega⟩
  · obtain ⟨r, l1, l2⟩ := hl
    exact ⟨r, by rw [e4, e3]; exact l1, by omega⟩
  · obtain ⟨l1, l2⟩ := hl
    exact ⟨by omega, by rw [e6, a3 0 l1]; exact l2⟩
  · obtain ⟨l1, l2⟩ := hl
    exact ⟨by omega, by rw [e6, a3 0 l1]; exact l2⟩

theorem kept_pool (o : write_outcome) (ts ts' : task_state) (hq : queue_inv (pending ts))
    (hsq : same_queue (pending ts) (pending ts'))
    (hfk : frames_kept (pending ts).slots (pending ts').slots)
    (hl : (pending ts').last_processed_frame = (pending ts).last_processed_frame)
    (he : (pending ts').frame_order_errors = (pending ts).frame_order_errors)
    (hloc : task_locals ts') : step_kept o ts ts' := by
  obtain ⟨i1, i2⟩ := inv_pool_step _ _ hsq hfk hl he
  exact ⟨⟨i1 hq, hloc⟩, queue_removed_same _ _ hsq.1 hsq.2.1 hsq.2.2.1, fun ho _ => i2 ho⟩

theorem kept_busy (o : write_outcome) (ts ts' : task_state) (hq : queue_inv (pending ts))
    (hsq : same_queue (pending ts) (pending ts'))
    (hbk : busy_kept (pending ts).slots (pending ts').slots)
    (hpre : (pending ts).raw_recording_state ≠ RAW_PRE_RECORDING)
    (hl : (pending ts').last_processed_frame = (pending ts).last_processed_frame)
    (he : order_inv (pending ts) → o = write_outcome.ok →
      (pending ts').frame_order_errors = (pending ts).frame_order_errors)
    (hloc : task_locals ts') : step_kept o ts ts' := by
  obtain ⟨i1, i2⟩ := inv_busy_step _ _ hsq hbk hpre
  exact ⟨⟨i1 hq, hloc⟩, queue_removed_same _ _ hsq.1 hsq.2.1 hsq.2.2.1,
    fun ho hw => i2 hl (he ho hw) ho⟩

theorem not_pre_of_queue (st : State) (hq : queue_inv st) (h : 0 < queue_len st) :
    st.raw_recording_state ≠ RAW_PRE_RECORDING := by
  intro hp
  have := hq.2.2.2.2.2 hp
  omega

/-- The step of the task at the test of the main loop. -/
theorem writer_inv_loop_head (env : writer_env) (st : State) (w i a g n s wt fs lg : Int)
    (ts' : task_state)
    (hi : task_inv ⟨st, writer_pc.loop_head, w, i, a, g, n, s, wt, fs, lg⟩)
    (h : writer_step env ⟨st, writer_pc.loop_head, w, i, a, g, n, s, wt, fs, lg⟩ = some ts') :
    step_kept env.outcome ⟨st, writer_pc.loop_head, w, i, a, g, n, s, wt, fs, lg⟩ ts' := by
  have hq : queue_inv st := hi.1
  have hsame : ∀ pc : writer_pc, pc = writer_pc.finished ∨ pc = writer_pc.loop_head →
      some (⟨st, pc, w, i, a, g, n, s, wt, fs, lg⟩ : task_state) = some ts' →
      step_kept env.outcome ⟨st, writer_pc.loop_head, w, i, a, g, n, s, wt, fs, lg⟩ ts' := by
    intro pc hpc h
    simp only [Option.some.injEq] at h
    subst h
    refine kept_pool _ _ _ hq ?_ ?_ ?_ ?_ ?_
    · rcases hpc with rfl | rfl <;> exact ⟨rfl, rfl, rfl, rfl, rfl, rfl⟩
    · rcases hpc with rfl | rfl <;> exact frames_kept_refl _
    · rcases hpc with rfl | rfl <;> rfl
    · rcases hpc with rfl | rfl <;> rfl
    · rcases hpc with rfl | rfl <;> trivial
  unfold writer_step at h
  dsimp only at h
  by_cases c1 : ¬ (RAW_IS_RECORDING st ∧ env.lv ≠ 0)
  · rw [if_pos c1] at h
    exact hsame _ (Or.inl rfl) h
  rw [if_neg c1] at h
  by_cases c2 : st.buffer_full ≠ 0
  · rw [if_pos c2] at h
    exact hsame _ (Or.inl rfl) h
  rw [if_neg c2] at h
  by_cases c3 : st.writing_queue_head = st.writing_queue_tail
  · rw [if_pos c3] at h
    exact hsame _ (Or.inr rfl) h
  rw [if_neg c3] at h
  by_cases c4 : env.check = 0
  · rw [if_pos c4] at h
    exact hsame _ (Or.inr rfl) h
  rw [if_neg c4] at h
  simp only [Option.some.injEq] at h
  subst h
  have hh := hq.1
  have ht := hq.2.1
  have hL := queue_len_eq st
  refine kept_pool _ _ _ hq ⟨rfl, rfl, rfl, rfl, rfl, rfl⟩ (frames_kept_refl _) rfl rfl ?_
  refine ⟨rfl, 0, queue_len st, 1, ?_, ?_, Nat.zero_le _, le_refl _, le_refl _, ?_, ?_⟩
  · show st.writing_queue_head = (st.writing_queue_head + ((0 : Nat) : Int)) % 512
    push_cast; omega
  · show st.writing_queue_tail = (st.writing_queue_head + (queue_len st : Int)) % 512
    omega
  · show 1 ≤ queue_len st
    omega
  · show st.writing_queue_head = (st.writing_queue_head + ((1 : Nat) : Int) - 1) % 512
    push_cast; omega

/-- A pass of the loop that groups the frames, or its end. -/
theorem writer_inv_grouping (env : writer_env) (st : State) (w i a g n s wt fs lg : Int)
    (ts' : task_state)
    (hi : task_inv ⟨st, writer_pc.grouping, w, i, a, g, n, s, wt, fs, lg⟩)
    (h : writer_step env ⟨st, writer_pc.grouping, w, i, a, g, n, s, wt, fs, lg⟩ = some ts') :
    step_kept env.outcome ⟨st, writer_pc.grouping, w, i, a, g, n, s, wt, fs, lg⟩ ts' := by
  have hq : queue_inv st := hi.1
  obtain ⟨l1, t, m, n0, l2, l3, l4, l5, l6, l7, l8⟩ := hi.2
  have l1' : w = st.writing_queue_head := l1
  have l2' : i = (st.writing_queue_head + t) % 512 := l2
  have l3' : wt = (st.writing_queue_head + m) % 512 := l3
  have l5' : m ≤ queue_len st := l5
  have l8' : lg = (st.writing_queue_head + n0 - 1) % 512 := l8
  have hh := hq.1
  have hL := queue_len_eq st
  have hthr : step_kept env.outcome ⟨st, writer_pc.grouping, w, i, a, g, n, s, wt, fs, lg⟩
      ⟨st, writer_pc.throttling, w, i, a, g, n, s, wt, fs, lg⟩ := by
    refine kept_pool _ _ _ hq ⟨rfl, rfl, rfl, rfl, rfl, rfl⟩ (frames_kept_refl _) rfl rfl ?_
    exact ⟨l1', n0, l6, by show n0 ≤ queue_len st; omega, l8'⟩
  unfold writer_step at h
  dsimp only at h
  by_cases c1 : i ≠ wt
  · rw [if_pos c1] at h
    by_cases c2 : (st.slots (st.writing_queue i.toNat).toNat).ptr
        = (st.slots fs.toNat).ptr + g
    · rw [if_pos c2] at h
      simp only [Option.some.injEq] at h
      subst h
      rw [mod_queue]
      have htm : t ≠ m := by
        intro e
        apply c1
        rw [l2', l3', e]
      refine kept_pool _ _ _ hq ⟨rfl, rfl, rfl, rfl, rfl, rfl⟩ (frames_kept_refl _) rfl rfl ?_
      refine ⟨l1', t + 1, m, t + 1, ?_, l3', by omega, l5', by omega, by omega, ?_⟩
      · show (i + 1) % 512 = (st.writing_queue_head + ((t + 1 : Nat) : Int)) % 512
        push_cast; omega
      · show i = (st.writing_queue_head + ((t + 1 : Nat) : Int) - 1) % 512
        push_cast; omega
    · rw [if_neg c2] at h
      simp only [Option.some.injEq] at h
      subst h
      exact hthr
  · rw [if_neg c1] at h
    simp only [Option.some.injEq] at h
    subst h
    exact hthr

/-- The step of the task behind the grouping loop: `num_frames` and its throttle. -/
theorem writer_inv_throttling (env : writer_env) (st : State) (w i a g n s wt fs lg : Int)
    (ts' : task_state)
    (hi : task_inv ⟨st, writer_pc.throttling, w, i, a, g, n, s, wt, fs, lg⟩)
    (h : writer_step env ⟨st, writer_pc.throttling, w, i, a, g, n, s, wt, fs, lg⟩
      = some ts') :
    step_kept env.outcome ⟨st, writer_pc.throttling, w, i, a, g, n, s, wt, fs, lg⟩ ts' := by
  have hq : queue_inv st := hi.1
  obtain ⟨l1, n0, l2, l3, l4⟩ := hi.2
  have l1' : w = st.writing_queue_head := l1
  have l3' : n0 ≤ queue_len st := l3
  have l4' : lg = (st.writing_queue_head + n0 - 1) % 512 := l4
  have hh := hq.1
  have hL := queue_len_eq st
  have hn : MOD (lg - w + 1) (COUNT_writing_queue : Int) = n0 := by
    rw [mod_queue]
    omega
  unfold writer_step at h
  dsimp only at h
  rw [hn] at h
  obtain ⟨t1, t2⟩ := throttle_bounds st env.measured_write_speed env.fps g n0
    (by exact_mod_cast l2)
  generalize throttle st env.measured_write_speed env.fps g n0 = num at h t1 t2
  obtain ⟨m, rfl⟩ : ∃ m : Nat, num = m := ⟨num.toNat, by omega⟩
  have hm2 : m ≤ n0 := by exact_mod_cast t2
  simp only [Option.some.injEq] at h
  subst h
  rw [mod_queue]
  subst l1'
  by_cases c5 : (st.writing_queue_head + (m : Int)) % 512 = st.writing_queue_tail
  · rw [if_pos c5]
    refine kept_pool _ _ _ hq ⟨rfl, rfl, rfl, rfl, rfl, rfl⟩ (frames_kept_refl _) rfl rfl ?_
    exact ⟨rfl, 0, m, by show st.writing_queue_head = _; push_cast; omega,
      by show _ = (st.writing_queue_head + ((0 : Nat) : Int) + m) % 512; push_cast; simp,
      by show 0 + m ≤ queue_len st; omega⟩
  · rw [if_neg c5]
    refine kept_pool _ _ _ hq ⟨rfl, rfl, rfl, rfl, rfl, rfl⟩ (frames_kept_refl _) rfl rfl ?_
    exact ⟨rfl, 0, m, by show st.writing_queue_head = _; push_cast; omega,
      by show _ = (st.writing_queue_head + ((0 : Nat) : Int) + m) % 512; push_cast; simp,
      by show 0 + m ≤ queue_len st; omega⟩

theorem queue_slot_zero (st : State)
    (hh : 0 ≤ st.writing_queue_head ∧ st.writing_queue_head < 512) :
    queue_slot st 0 = st.writing_queue st.writing_queue_head.toNat := by
  unfold queue_slot
  rw [mod_queue]
  congr 2
  push_cast
  omega

/-- The slot at the head of the queue `v` is released and the head advanced by one. -/
theorem release_front (v v' x : State) (e : Nat) (hq : queue_inv v) (hL : 0 < queue_len v)
    (he : (queue_slot v 0).toNat = e) (hx : x.slots = v.slots)
    (hv : v'.slots = (free_slot x e).slots)
    (f2 : v'.writing_queue = v.writing_queue)
    (f3 : v'.writing_queue_head = (v.writing_queue_head + 1) % 512)
    (f4 : v'.writing_queue_tail = v.writing_queue_tail)
    (f5 : v'.slot_count = v.slot_count)
    (f6 : v'.raw_recording_state = v.raw_recording_state)
    (f7 : v'.frame_count = v.frame_count)
    (f8 : v'.last_processed_frame = v.last_processed_frame + 1) :
    queue_inv v' ∧ queue_removed v v' ∧ queue_len v' = queue_len v - 1 ∧
    (∀ k, queue_slot v' k = queue_slot v (k + 1)) ∧
    (order_inv v → v'.frame_order_errors = v.frame_order_errors → order_inv v') := by
  obtain ⟨q1, q2, q3, q4, q5, q6⟩ := hq
  obtain ⟨i1, i2, i3⟩ := inv_dequeue_step v v' 1 ⟨q1, q2, q3, q4, q5, q6⟩ (le_refl _) hL f2
    (by rw [f3]; rfl) f4 f5 f6 f7 (by rw [f8]; rfl)
    (fun j => by rw [hv, free_slot_frame_number, hx])
    (fun k hk1 hk2 => by
      have hb2 := (q4 k hk2).2.2
      have hne : (queue_slot v k).toNat ≠ e := by
        intro hek
        have h0 := (q4 0 hL).1
        have h0' := (q4 k hk2).1
        have := q5 0 k hL hk2 (by omega)
        omega
      rw [hv, free_slot_run _ _ _ hne (by rw [hx]; exact (busy_iff _).1 hb2), hx]
      exact hb2)
  obtain ⟨d1, d2, _⟩ := dequeue_queue v v' 1 f2 f4 (by rw [f3]; rfl) hL
  exact ⟨i1, i2, d1, d2, i3⟩

/-- A step of the task in the loop "mark these frames as writing". -/
theorem writer_inv_marking (env : writer_env) (st : State) (w i a g n s wt fs lg : Int)
    (ts' : task_state)
    (hi : task_inv ⟨st, writer_pc.marking, w, i, a, g, n, s, wt, fs, lg⟩)
    (h : writer_step env ⟨st, writer_pc.marking, w, i, a, g, n, s, wt, fs, lg⟩ = some ts') :
    step_kept env.outcome ⟨st, writer_pc.marking, w, i, a, g, n, s, wt, fs, lg⟩ ts' := by
  have hq : queue_inv st := hi.1
  obtain ⟨l1, t, r, l2, l3, l4⟩ : w = st.writing_queue_head ∧
    ∃ t r : Nat, i = (st.writing_queue_head + t) % 512 ∧
      a = (st.writing_queue_head + t + r) % 512 ∧ t + r ≤ queue_len st := hi.2
  have hL := queue_len_eq st
  obtain ⟨q1, q2, q3, q4, q5, q6⟩ := hq
  unfold writer_step at h
  dsimp only at h
  by_cases c : i ≠ a
  · rw [if_pos c] at h
    simp only [Option.some.injEq] at h
    subst h
    have hr : 1 ≤ r := by
      rcases Nat.eq_zero_or_pos r with h0 | h0
      · exfalso; apply c; rw [l2, l3, h0]; simp
      · exact h0
    have he : (st.writing_queue i.toNat) = queue_slot st t := by
      unfold queue_slot
      rw [mod_queue, l2]
    have hb := (q4 t (by omega)).2.2
    rw [← he] at hb
    refine kept_busy _ _ _ ⟨q1, q2, q3, q4, q5, q6⟩ ⟨rfl, rfl, rfl, rfl, rfl, rfl⟩ ?_
      (not_pre_of_queue st ⟨q1, q2, q3, q4, q5, q6⟩ (by omega)) rfl (fun _ _ => rfl) ?_
    · intro j
      show ((set_status st _ SLOT_WRITING).slots j).frame_number = (st.slots j).frame_number ∧
        (busy ((set_status st _ SLOT_WRITING).slots j) ↔ busy (st.slots j))
      by_cases hj : j = (st.writing_queue i.toNat).toNat
      · subst hj
        rw [set_status_slots_self]
        exact ⟨rfl, fun _ => hb, fun _ => Or.inr rfl⟩
      · rw [set_status_slots_other _ _ _ _ hj]
        exact ⟨rfl, Iff.rfl⟩
    · refine ⟨l1, t + 1, r - 1, ?_, ?_, ?_⟩
      · show MOD (i + 1) (COUNT_writing_queue : Int) = (st.writing_queue_head + (t + 1 : Nat)) % 512
        rw [mod_queue, l2]
        push_cast
        omega
      · show a = (st.writing_queue_head + (t + 1 : Nat) + (r - 1 : Nat)) % 512
        rw [l3]
        congr 1
        omega
      · show t + 1 + (r - 1) ≤ queue_len st
        omega
  · rw [if_neg c] at h
    simp only [Option.some.injEq] at h
    subst h
    refine kept_pool _ _ _ ⟨q1, q2, q3, q4, q5, q6⟩ ⟨rfl, rfl, rfl, rfl, rfl, rfl⟩
      (frames_kept_refl _) rfl rfl ?_
    exact ⟨l1, t + r, by show a = _; rw [l3]; push_cast; congr 1; omega,
      by show t + r ≤ queue_len st; exact l4⟩

/-- The queue emptied by `writing_queue_head = writing_queue_tail`. -/
theorem kept_emptied (o : write_outcome) (ts ts' : task_state) (hq : queue_inv (pending ts))
    (ho : o ≠ write_outcome.ok)
    (hh : (pending ts').writing_queue_head = (pending ts).writing_queue_tail)
    (ht : (pending ts').writing_queue_tail = (pending ts).writing_queue_tail)
    (hc : (pending ts').slot_count = (pending ts).slot_count)
    (hloc : task_locals ts') : step_kept o ts ts' := by
  obtain ⟨q1, q2, q3, q4, q5, q6⟩ := hq
  obtain ⟨z1, z2⟩ := queue_removed_all (pending ts) (pending ts') ht hh
  exact ⟨⟨⟨by rw [hh]; exact q2, by rw [ht]; exact q2, by rw [hc]; exact q3,
    fun k hk => by omega, fun k k' hk hk' => by omega, fun _ => z1⟩, hloc⟩, z2,
    fun _ h => absurd h ho⟩

/-- The step `write_frames` of an iteration of the main loop. -/
theorem writer_inv_writing (env : writer_env) (st : State) (w i a g n s wt fs lg : Int)
    (ts' : task_state)
    (hi : task_inv ⟨st, writer_pc.writing, w, i, a, g, n, s, wt, fs, lg⟩)
    (h : writer_step env ⟨st, writer_pc.writing, w, i, a, g, n, s, wt, fs, lg⟩ = some ts') :
    step_kept env.outcome ⟨st, writer_pc.writing, w, i, a, g, n, s, wt, fs, lg⟩ ts' := by
  have hq : queue_inv st := hi.1
  obtain ⟨l1, m, l2, l3⟩ : w = st.writing_queue_head ∧
    ∃ m : Nat, a = (st.writing_queue_head + m) % 512 ∧ m ≤ queue_len st := hi.2
  subst l1
  unfold writer_step at h
  dsimp only at h
  cases ho : env.outcome with
  | ok =>
    rw [ho] at h
    simp only [write_frames, one_ne_zero, if_false, Option.some.injEq] at h
    subst h
    exact kept_pool _ _ _ hq ⟨rfl, rfl, rfl, rfl, rfl, rfl⟩ (frames_kept_refl _) rfl rfl
      ⟨m, l2, l3⟩
  | card_full =>
    rw [ho] at h
    simp only [write_frames, if_true, Option.some.injEq] at h
    subst h
    exact kept_emptied _ _ _ hq (by decide) rfl rfl rfl trivial
  | failed =>
    rw [ho] at h
    simp only [write_frames, if_true, Option.some.injEq] at h
    subst h
    exact kept_pool _ _ _ hq ⟨rfl, rfl, rfl, rfl, rfl, rfl⟩ (frames_kept_refl _) rfl rfl
      trivial

/-- A step of the task in the loop "mark these frames as free". -/
theorem writer_inv_freeing (env : writer_env) (st : State) (w i a g n s wt fs lg : Int)
    (ts' : task_state)
    (hi : task_inv ⟨st, writer_pc.freeing, w, i, a, g, n, s, wt, fs, lg⟩)
    (h : writer_step env ⟨st, writer_pc.freeing, w, i, a, g, n, s, wt, fs, lg⟩ = some ts') :
    step_kept env.outcome ⟨st, writer_pc.freeing, w, i, a, g, n, s, wt, fs, lg⟩ ts' := by
  have hq : queue_inv (set_writer i st.last_processed_frame st) := hi.1
  obtain ⟨r, l1, l2⟩ : ∃ r : Nat, a = (i + r) % 512 ∧
    r ≤ queue_len (set_writer i st.last_processed_frame st) := hi.2
  have hh : 0 ≤ i ∧ i < 512 := hq.1
  unfold writer_step at h
  dsimp only at h
  by_cases c : i ≠ a
  · rw [if_pos c] at h
    simp only [Option.some.injEq] at h
    subst h
    have hr : 1 ≤ r := by
      rcases Nat.eq_zero_or_pos r with h0 | h0
      · exfalso; apply c; rw [l1, h0]; simp; omega
      · exact h0
    have he : (queue_slot (set_writer i st.last_processed_frame st) 0).toNat
        = (st.writing_queue i.toNat).toNat := by
      rw [queue_slot_zero _ hh]
      rfl
    generalize hedef : (st.writing_queue i.toNat).toNat = e at he
    have hc := check_frame_order_eq st e
    have hce := check_frame_order_errors st e
    generalize check_frame_order st e = s1 at hc hce
    have hf := free_slot_eq s1 e
    obtain ⟨i1, i2, i3, _, i5⟩ := release_front (set_writer i st.last_processed_frame st)
      (pending ⟨free_slot s1 e, writer_pc.freeing, w, MOD (i + 1) (COUNT_writing_queue : Int),
        a, g, n, s, wt, fs, lg⟩) s1 e hq (by omega) he (by rw [hc]; rfl) rfl
      (by show (free_slot s1 e).writing_queue = st.writing_queue; rw [hf, hc])
      rfl
      (by show (free_slot s1 e).writing_queue_tail = st.writing_queue_tail; rw [hf, hc])
      (by show (free_slot s1 e).slot_count = st.slot_count; rw [hf, hc])
      (by show (free_slot s1 e).raw_recording_state = st.raw_recording_state; rw [hf, hc])
      (by show (free_slot s1 e).frame_count = st.frame_count; rw [hf, hc])
      (by show (free_slot s1 e).last_processed_frame = st.last_processed_frame + 1
          rw [hf, hc])
    refine ⟨⟨i1, ?_⟩, i2, fun ho _ => i5 ho ?_⟩
    · refine ⟨r - 1, ?_, ?_⟩
      · show a = (MOD (i + 1) (COUNT_writing_queue : Int) + (r - 1 : Nat)) % 512
        rw [l1, mod_queue]
        omega
      · rw [i3]; omega
    · show (free_slot s1 e).frame_order_errors = st.frame_order_errors
      rw [hf]
      refine hce ?_
      have hlen : 0 < queue_len (set_writer i st.last_processed_frame st) := by omega
      have hfn : ((set_writer i st.last_processed_frame st).slots
          (queue_slot (set_writer i st.last_processed_frame st) 0).toNat).frame_number
          = st.last_processed_frame + 1 + ((0 : Nat) : Int) := ho.1 0 hlen
      rw [he] at hfn
      simpa using hfn
  · rw [if_neg c] at h
    simp only [Option.some.injEq] at h
    subst h
    have c' : i = a := not_not.1 c
    subst c'
    exact kept_pool _ _ _ hq ⟨rfl, rfl, rfl, rfl, rfl, rfl⟩ (frames_kept_refl _) rfl rfl
      trivial

/-- The step behind the main loop. -/
theorem writer_inv_finished (env : writer_env) (st : State) (w i a g n s wt fs lg : Int)
    (ts' : task_state)
    (hi : task_inv ⟨st, writer_pc.finished, w, i, a, g, n, s, wt, fs, lg⟩)
    (h : writer_step env ⟨st, writer_pc.finished, w, i, a, g, n, s, wt, fs, lg⟩ = some ts') :
    step_kept env.outcome ⟨st, writer_pc.finished, w, i, a, g, n, s, wt, fs, lg⟩ ts' := by
  have hq : queue_inv st := hi.1
  unfold writer_step at h
  dsimp only at h
  simp only [Option.some.injEq] at h
  subst h
  obtain ⟨f1, _, f3⟩ := finishing_inv st hq
  exact ⟨⟨f1, trivial⟩, queue_removed_same _ _ rfl rfl rfl, fun ho _ => f3 ho⟩

/-- The first step of an iteration of the loop "write remaining frames". -/
theorem writer_inv_flushing (env : writer_env) (st : State) (w i a g n s wt fs lg : Int)
    (ts' : task_state)
    (hi : task_inv ⟨st, writer_pc.flushing, w, i, a, g, n, s, wt, fs, lg⟩)
    (h : writer_step env ⟨st, writer_pc.flushing, w, i, a, g, n, s, wt, fs, lg⟩ = some ts') :
    step_kept env.outcome ⟨st, writer_pc.flushing, w, i, a, g, n, s, wt, fs, lg⟩ ts' := by
  have hq : queue_inv st := hi.1
  have hL := queue_len_eq st
  unfold writer_step at h
  dsimp only at h
  by_cases c : st.writing_queue_head ≠ st.writing_queue_tail
  · rw [if_pos c] at h
    simp only [Option.some.injEq] at h
    subst h
    have hL1 : 0 < queue_len st := by
      have := hq.1; have := hq.2.1; omega
    have he0 := queue_slot_zero st hq.1
    rw [← he0]
    obtain ⟨⟨m1, m2, m3, m4, m5, m6⟩, m7, m8, a2⟩ :=
      flush_mark_spec st (queue_slot st 0).toNat (hq.2.2.2.1 0 hL1).2.2
    generalize set_status (check_frame_order st (queue_slot st 0).toNat)
      (queue_slot st 0).toNat SLOT_WRITING = s2 at m1 m2 m3 m4 m5 m6 m7 m8 a2
    refine kept_busy _ _ _ hq ⟨m1, m2, m3, m4, m5, m6⟩ a2 (not_pre_of_queue st hq hL1) ?_ ?_ ?_
    · show s2.last_processed_frame - 1 = st.last_processed_frame
      rw [m7]; omega
    · intro ho _
      refine m8 ?_
      have := ho.1 0 hL1
      simpa using this
    · refine ⟨?_, ?_⟩
      · show 0 < queue_len (set_writer s2.writing_queue_head (s2.last_processed_frame - 1) s2)
        rw [queue_len_congr st
          (set_writer s2.writing_queue_head (s2.last_processed_frame - 1) s2) m2 m3]
        exact hL1
      · show queue_slot st 0
          = queue_slot (set_writer s2.writing_queue_head (s2.last_processed_frame - 1) s2) 0
        rw [queue_slot_congr st
          (set_writer s2.writing_queue_head (s2.last_processed_frame - 1) s2) m1 m2]
  · rw [if_neg c] at h
    simp only [Option.some.injEq] at h
    subst h
    exact kept_pool _ _ _ hq ⟨rfl, rfl, rfl, rfl, rfl, rfl⟩ (frames_kept_refl _) rfl rfl
      trivial

/-- The step `write_frames` of the loop "write remaining frames". -/
theorem writer_inv_flush_writing (env : writer_env) (st : State) (w i a g n s wt fs lg : Int)
    (ts' : task_state)
    (hi : task_inv ⟨st, writer_pc.flush_writing, w, i, a, g, n, s, wt, fs, lg⟩)
    (h : writer_step env ⟨st, writer_pc.flush_writing, w, i, a, g, n, s, wt, fs, lg⟩ = some ts') :
    step_kept env.outcome ⟨st, writer_pc.flush_writing, w, i, a, g, n, s, wt, fs, lg⟩ ts' := by
  have hq : queue_inv (set_writer st.writing_queue_head (st.last_processed_frame - 1) st) :=
    hi.1
  have hl : 0 < queue_len (set_writer st.writing_queue_head (st.last_processed_frame - 1) st) ∧
    s = queue_slot (set_writer st.writing_queue_head (st.last_processed_frame - 1) st) 0 :=
    hi.2
  unfold writer_step at h
  dsimp only at h
  cases ho : env.outcome with
  | ok =>
    rw [ho] at h
    simp only [write_frames, one_ne_zero, if_false, Option.some.injEq] at h
    subst h
    exact kept_pool _ _ _ hq ⟨rfl, rfl, rfl, rfl, rfl, rfl⟩ (frames_kept_refl _) rfl rfl hl
  | card_full =>
    rw [ho] at h
    simp only [write_frames, if_true, Option.some.injEq] at h
    subst h
    exact kept_emptied _ _ _ hq (by decide) rfl rfl rfl trivial
  | failed =>
    rw [ho] at h
    simp only [write_frames, if_true, Option.some.injEq] at h
    subst h
    obtain ⟨i1, _⟩ := inv_busy_step
      (set_writer st.writing_queue_head (st.last_processed_frame - 1) st) st
      ⟨rfl, rfl, rfl, rfl, rfl, rfl⟩ (busy_kept_refl _) (not_pre_of_queue _ hq hl.1)
    exact ⟨⟨i1 hq, trivial⟩, queue_removed_same _ _ rfl rfl rfl, fun _ hw => by cases hw⟩

/-- The step `free_slot` of the loop "write remaining frames". -/
theorem writer_inv_flush_freeing (env : writer_env) (st : State) (w i a g n s wt fs lg : Int)
    (ts' : task_state)
    (hi : task_inv ⟨st, writer_pc.flush_freeing, w, i, a, g, n, s, wt, fs, lg⟩)
    (h : writer_step env ⟨st, writer_pc.flush_freeing, w, i, a, g, n, s, wt, fs, lg⟩ = some ts') :
    step_kept env.outcome ⟨st, writer_pc.flush_freeing, w, i, a, g, n, s, wt, fs, lg⟩ ts' := by
  have hq : queue_inv (set_writer st.writing_queue_head (st.last_processed_frame - 1) st) :=
    hi.1
  obtain ⟨l1, l2⟩ :
    0 < queue_len (set_writer st.writing_queue_head (st.last_processed_frame - 1) st) ∧
    s = queue_slot (set_writer st.writing_queue_head (st.last_processed_frame - 1) st) 0 :=
    hi.2
  unfold writer_step at h
  dsimp only at h
  simp only [Option.some.injEq] at h
  subst h
  have hf := free_slot_eq st s.toNat
  obtain ⟨i1, i2, _, _, i5⟩ := release_front
    (set_writer st.writing_queue_head (st.last_processed_frame - 1) st)
    (pending ⟨free_slot st s.toNat, writer_pc.flush_next, w, i, a, g, n, s, wt, fs, lg⟩) st s.toNat hq l1
    (by rw [l2]) rfl rfl
    (by show (free_slot st s.toNat).writing_queue = st.writing_queue; rw [hf])
    (by show MOD ((free_slot st s.toNat).writing_queue_head + 1) (COUNT_writing_queue : Int)
          = (st.writing_queue_head + 1) % 512
        rw [hf]; rfl)
    (by show (free_slot st s.toNat).writing_queue_tail = st.writing_queue_tail; rw [hf])
    (by show (free_slot st s.toNat).slot_count = st.slot_count; rw [hf])
    (by show (free_slot st s.toNat).raw_recording_state = st.raw_recording_state; rw [hf])
    (by show (free_slot st s.toNat).frame_count = st.frame_count; rw [hf])
    (by show (free_slot st s.toNat).last_processed_frame = st.last_processed_frame - 1 + 1
        rw [hf]; show st.last_processed_frame = _; omega)
  refine ⟨⟨i1, trivial⟩, i2, fun ho _ => i5 ho ?_⟩
  show (free_slot st s.toNat).frame_order_errors = st.frame_order_errors
  rw [hf]

/-- The increment of `writing_queue_head` in the loop "write remaining frames". -/
theorem writer_inv_flush_next (env : writer_env) (st : State) (w i a g n s wt fs lg : Int)
    (ts' : task_state)
    (hi : task_inv ⟨st, writer_pc.flush_next, w, i, a, g, n, s, wt, fs, lg⟩)
    (h : writer_step env ⟨st, writer_pc.flush_next, w, i, a, g, n, s, wt, fs, lg⟩ = some ts') :
    step_kept env.outcome ⟨st, writer_pc.flush_next, w, i, a, g, n, s, wt, fs, lg⟩ ts' := by
  unfold writer_step at h
  dsimp only at h
  simp only [Option.some.injEq] at h
  subst h
  exact kept_pool _ _ _ hi.1 ⟨rfl, rfl, rfl, rfl, rfl, rfl⟩ (frames_kept_refl _) rfl rfl
    trivial

/-- Every step of the task keeps the invariant of the task and removes entries only at the
head of the queue of the frames that wait for the writer; when `write_frames` writes
everything it keeps the invariant of the frame numbers. -/
theorem writer_task_inv (env : writer_env) (ts ts' : task_state) (hi : task_inv ts)
    (h : writer_step env ts = some ts') : step_kept env.outcome ts ts' := by
  obtain ⟨st, pc, w, i, a, g, n, s, wt, fs, lg⟩ := ts
  cases pc with
  | loop_head => exact writer_inv_loop_head env st w i a g n s wt fs lg ts' hi h
  | grouping => exact writer_inv_grouping env st w i a g n s wt fs lg ts' hi h
  | throttling => exact writer_inv_throttling env st w i a g n s wt fs lg ts' hi h
  | marking => exact writer_inv_marking env st w i a g n s wt fs lg ts' hi h
  | writing => exact writer_inv_writing env st w i a g n s wt fs lg ts' hi h
  | freeing => exact writer_inv_freeing env st w i a g n s wt fs lg ts' hi h
  | finished => exact writer_inv_finished env st w i a g n s wt fs lg ts' hi h
  | flushing => exact writer_inv_flushing env st w i a g n s wt fs lg ts' hi h
  | flush_writing => exact writer_inv_flush_writing env st w i a g n s wt fs lg ts' hi h
  | flush_freeing => exact writer_inv_flush_freeing env st w i a g n s wt fs lg ts' hi h
  | flush_next => exact writer_inv_flush_next env st w i a g n s wt fs lg ts' hi h
  | done =>
    unfold writer_step at h
    dsimp only at h
    simp only [Option.some.injEq] at h
    subst h
    exact kept_pool _ _ _ hi.1 ⟨rfl, rfl, rfl, rfl, rfl, rfl⟩ (frames_kept_refl _) rfl rfl
      trivial

/-- The invariants hold in every state that the task and the hooks reach. -/
theorem run_task_inv (P : Int) : ∀ (ops : List task_op) (ts ts' : task_state),
    task_inv ts → run_task P ts ops = some ts' →
    task_inv ts' ∧
    ((∀ op, op ∈ ops → complete_writes op) → order_inv (pending ts) →
      order_inv (pending ts')) := by
  intro ops
  induction ops with
  | nil =>
    intro ts ts' hi h
    simp only [run_task, Option.some.injEq] at h
    subst h
    exact ⟨hi, fun _ ho => ho⟩
  | cons op ops ih =>
    intro ts ts' hi h
    rw [run_task] at h
    cases hs : task_step P ts op with
    | none => rw [hs] at h; cases h
    | some s1 =>
      rw [hs] at h
      cases op with
      | hook o =>
        obtain ⟨i1, _, i3⟩ := hook_task_inv P ts s1 o hi hs
        obtain ⟨j1, j2⟩ := ih s1 ts' i1 h
        exact ⟨j1, fun hw ho => j2 (fun o ho' => hw o (List.mem_cons_of_mem _ ho')) (i3 ho)⟩
      | writer env =>
        obtain ⟨i1, _, i3⟩ := writer_task_inv env ts s1 hi hs
        obtain ⟨j1, j2⟩ := ih s1 ts' i1 h
        exact ⟨j1, fun hw ho => j2 (fun o ho' => hw o (List.mem_cons_of_mem _ ho'))
          (i3 ho (hw _ (List.mem_cons_self _ _)))⟩

/-! ## The queue while the writer releases a group -/

theorem queue_list_nodup (st : State) (hq : queue_inv st) : (queue_list st).Nodup := by
  unfold queue_list
  refine List.Nodup.map_on ?_ (List.nodup_range _)
  intro x hx y hy hxy
  exact hq.2.2.2.2.1 x y (List.mem_range.1 hx) (List.mem_range.1 hy) hxy

theorem queue_list_mem (st : State) (hq : queue_inv st) (x : Int) (hx : x ∈ queue_list st) :
    0 ≤ x ∧ x.toNat < COUNT_slots ∧ busy (st.slots x.toNat) := by
  unfold queue_list at hx
  obtain ⟨k, hk, rfl⟩ := List.mem_map.1 hx
  exact hq.2.2.2.1 k (List.mem_range.1 hk)

/-- A queue with the invariant has no more entries than there are slots in the table that
hold a frame. -/
theorem queue_list_count (st : State) (hq : queue_inv st) :
    (queue_list st).length
      ≤ ((List.range COUNT_slots).filter (fun j => decide (busy (st.slots j)))).length := by
  have h1 : ((queue_list st).map Int.toNat).Nodup := by
    refine List.Nodup.map_on ?_ (queue_list_nodup st hq)
    intro x hx y hy hxy
    have := (queue_list_mem st hq x hx).1
    have := (queue_list_mem st hq y hy).1
    omega
  have h2 : (queue_list st).map Int.toNat
      ⊆ (List.range COUNT_slots).filter (fun j => decide (busy (st.slots j))) := by
    intro y hy
    obtain ⟨x, hx, rfl⟩ := List.mem_map.1 hy
    obtain ⟨_, a2, a3⟩ := queue_list_mem st hq x hx
    exact List.mem_filter.2 ⟨List.mem_range.2 a2, by simpa using a3⟩
  have := (List.subperm_of_subset h1 h2).length_le
  simpa using this

theorem queue_list_pending (ts : task_state) (h1 : ts.pc ≠ writer_pc.freeing)
    (h2 : ts.pc ≠ writer_pc.flush_next) : queue_list (pending ts) = queue_list ts.st := by
  obtain ⟨st, pc, w, i, a, g, n, s, wt, fs, lg⟩ := ts
  cases pc
  · rfl
  · rfl
  · rfl
  · rfl
  · rfl
  · exact absurd rfl h1
  · rfl
  · rfl
  · rfl
  · rfl
  · exact absurd rfl h2
  · rfl

theorem task_inv_start (st : State)
    (hh : 0 ≤ st.writing_queue_head ∧ st.writing_queue_head < 512)
    (he : st.writing_queue_tail = st.writing_queue_head)
    (hsc : 0 < st.slot_count ∧ st.slot_count ≤ COUNT_slots) : task_inv (task_start st) :=
  ⟨queue_inv_start st hh he hsc, trivial⟩

/-- C19 (counterexample). On `fresh_session` (empty queue) five vertical syncs capture the
frames 1 to 4 in the slots 0 to 3; the task groups, marks and writes the four frames and
releases slot 0 in the first pass of the loop "mark these frames as free".
`writing_queue_head` is still 0, so the queue from head to tail is 0, 1, 2, 3 and its
first entry is a slot whose status is FREE.  The next vertical sync captures frame 5 in
slot 0 and appends it: the queue from head to tail is 0, 1, 2, 3, 0 and holds slot 0
twice. -/
theorem released_slot_stays_queued :
    fresh_session.writing_queue_tail = fresh_session.writing_queue_head ∧
    run_task 0 (task_start fresh_session) first_release = some after_first_release ∧
    after_first_release.pc = writer_pc.freeing ∧
    queue_list after_first_release.st = [0, 1, 2, 3] ∧
    (after_first_release.st.slots 0).status = SLOT_FREE ∧
    ¬ busy (after_first_release.st.slots 0) ∧
    run_task 0 (task_start fresh_session) recapture = some after_recapture ∧
    queue_list after_recapture.st = [0, 1, 2, 3, 0] ∧
    ¬ (queue_list after_recapture.st).Nodup := by
  refine ⟨by decide, rfl, ?_, ?_, ?_, ?_, rfl, ?_, ?_⟩
  · decide
  · decide
  · decide
  · decide
  · decide
  · have h : queue_list after_recapture.st = [0, 1, 2, 3, 0] := by decide
    rw [h]
    decide

/-- C19 (amended). In every state that a session reaches from a state with an empty
writing queue (head and tail equal, an index of the queue) and a slot table in use, by any
sequence of calls of the hooks and steps of the writer task (with any outcome of
`write_frames`), the entries of the queue that the writer has not released (those from
`position` to the tail: from the loop index `i` while the writer releases a written group,
from the index after the head between `free_slot` and the increment of the head in the
loop that writes the remaining frames, from `writing_queue_head` everywhere else) are
pairwise different, each is an index of the slot table whose slot is FULL or WRITING, and
there are no more of them than slots that hold a frame, so at most 511; in the loop that
releases a group the index `i` of a frame to release is never the tail ("Queue overflow"
is not reported); a call of a hook appends its new entries behind these entries, and when
it moves the tail it appends at least one and the tail does not reach `position`; a step of
the writer leaves the tail alone and removes entries at the front only, so entries leave
in the order in which they were appended. -/
theorem pending_queue_distinct_fifo (PTR_INVALID : Int) (st0 : State)
    (ops : List task_op) (ts : task_state)
    (hh : 0 ≤ st0.writing_queue_head ∧ st0.writing_queue_head < 512)
    (he : st0.writing_queue_tail = st0.writing_queue_head)
    (hsc : 0 < st0.slot_count ∧ st0.slot_count ≤ COUNT_slots)
    (hrun : run_task PTR_INVALID (task_start st0) ops = some ts) :
    (queue_list (pending ts)).Nodup ∧
    (∀ x, x ∈ queue_list (pending ts) →
      0 ≤ x ∧ x.toNat < COUNT_slots ∧ busy (ts.st.slots x.toNat)) ∧
    ((queue_list (pending ts)).length
      ≤ ((List.range COUNT_slots).filter (fun j => decide (busy (ts.st.slots j)))).length ∧
     ((List.range COUNT_slots).filter (fun j => decide (busy (ts.st.slots j)))).length
      ≤ 511) ∧
    (ts.pc ≠ writer_pc.freeing → ts.pc ≠ writer_pc.flush_next →
      queue_list (pending ts) = queue_list ts.st) ∧
    (ts.pc = writer_pc.freeing → ts.i ≠ ts.after_last_grouped →
      ts.i ≠ ts.st.writing_queue_tail) ∧
    (∀ h ts', task_step PTR_INVALID ts (task_op.hook h) = some ts' →
      ∃ l, queue_list (pending ts') = queue_list (pending ts) ++ l ∧
        (ts'.st.writing_queue_tail ≠ ts.st.writing_queue_tail →
          l ≠ [] ∧ ts'.st.writing_queue_tail ≠ position ts')) ∧
    (∀ env ts', task_step PTR_INVALID ts (task_op.writer env) = some ts' →
      ts'.st.writing_queue_tail = ts.st.writing_queue_tail ∧
      ∃ n, queue_list (pending ts') = (queue_list (pending ts)).drop n) := by
  have hi := (run_task_inv PTR_INVALID ops (task_start st0) ts
    (task_inv_start st0 hh he hsc) hrun).1
  have hq := hi.1
  refine ⟨queue_list_nodup _ hq, queue_list_mem _ hq, ⟨queue_list_count _ hq, ?_⟩,
    queue_list_pending ts, ?_, ?_, ?_⟩
  · refine (List.length_filter_le _ _).trans ?_
    rw [List.length_range]
    exact le_refl _
  · intro hpc hne
    have hl := hi.2
    unfold task_locals at hl
    simp only [hpc] at hl
    obtain ⟨r, l1, l2⟩ := hl
    have hL := queue_len_eq (pending ts)
    have hp : (pending ts).writing_queue_head = ts.i := by
      show position ts = _
      unfold position
      simp only [hpc]
    have ht : (pending ts).writing_queue_tail = ts.st.writing_queue_tail := rfl
    rw [hp, ht] at hL
    have hr : 1 ≤ r := by
      rcases Nat.eq_zero_or_pos r with h0 | h0
      · exfalso
        apply hne
        rw [l1, h0]
        have := hq.1
        rw [hp] at this
        simp
        omega
      · exact h0
    intro hc
    rw [hc] at hL
    simp at hL
    omega
  · intro h ts' hs
    obtain ⟨i1, i2, _⟩ := hook_task_inv PTR_INVALID ts ts' h hi hs
    obtain ⟨l, e1, e2⟩ := queue_appended_list _ _ i2
    refine ⟨l, e1, fun ht => ⟨e2 ht, ?_⟩⟩
    have h1 := i2.2.2.2 ht
    have h2 := queue_len_eq (pending ts')
    intro hht
    have hp : (pending ts').writing_queue_head = position ts' := rfl
    have ht' : (pending ts').writing_queue_tail = ts'.st.writing_queue_tail := rfl
    rw [hp, ht', hht] at h2
    simp at h2
    omega
  · intro env ts' hs
    obtain ⟨_, i2, _⟩ := writer_task_inv env ts ts' hi hs
    exact ⟨i2.1, queue_removed_list _ _ i2⟩

/-- C19 (amended) on the events of the counterexample: in the state after the vertical sync
that captures frame 5 in the released slot 0 the entries that the writer has not released
are 1, 2, 3, 0, pairwise different. -/
theorem pending_queue_distinct_fifo_witness :
    (0 ≤ fresh_session.writing_queue_head ∧ fresh_session.writing_queue_head < 512) ∧
    fresh_session.writing_queue_tail = fresh_session.writing_queue_head ∧
    (0 < fresh_session.slot_count ∧ fresh_session.slot_count ≤ COUNT_slots) ∧
    run_task 0 (task_start fresh_session) recapture = some after_recapture ∧
    queue_list (pending after_recapture) = [1, 2, 3, 0] ∧
    (queue_list (pending after_recapture)).Nodup :=
  ⟨by decide, by decide, by decide, rfl, by decide,
    (pending_queue_distinct_fifo 0 fresh_session recapture after_recapture
      (by decide) (by decide) (by decide) rfl).1⟩

/-! ## The frame numbers of the frames that wait for the writer -/

/-- C16 (counterexample). On `fresh_session` (`frame_count = 0`, empty queue) the first
vertical sync skips frame 0 and four more capture the frames 1 to 4 in the slots 0 to 3;
the task groups, marks and writes the four frames and releases slot 0 in the first pass of
the loop "mark these frames as free" (`last_processed_frame = 1`); the next vertical sync
captures frame 5 in slot 0.  `writing_queue_head` is still 0: the slots on the queue, read
from head to tail, are 0, 1, 2, 3, 0 and carry the frame numbers 5, 2, 3, 4, 5. -/
theorem recaptured_slot_breaks_order :
    fresh_session.frame_count = 0 ∧
    fresh_session.writing_queue_tail = fresh_session.writing_queue_head ∧
    run_task 0 (task_start fresh_session) recapture = some after_recapture ∧
    (∀ op, op ∈ recapture → complete_writes op) ∧
    after_recapture.pc = writer_pc.freeing ∧
    after_recapture.st.writing_queue_head = 0 ∧ after_recapture.st.writing_queue_tail = 5 ∧
    after_recapture.st.last_processed_frame = 1 ∧
    (queue_list after_recapture.st).map
      (fun x => (after_recapture.st.slots x.toNat).frame_number) = [5, 2, 3, 4, 5] := by
  refine ⟨by decide, by decide, rfl, by decide, ?_, ?_, ?_, ?_, ?_⟩
  · decide
  · decide
  · decide
  · decide
  · decide

theorem order_inv_start (st0 : State) (hfc : st0.frame_count = 0)
    (he : st0.writing_queue_tail = st0.writing_queue_head)
    (hl : st0.last_processed_frame = 0) (herr : st0.frame_order_errors = 0)
    (hfull : ∀ j, j < st0.slot_count → (st0.slots j).status ≠ SLOT_FULL) :
    order_inv st0 := by
  have hlen : queue_len st0 = 0 := by
    have := queue_len_eq st0
    rw [he] at this
    simp at this
    exact this
  exact ⟨fun k hk => by omega, fun _ => Or.inl ⟨hfc, hlen, hl⟩,
    fun _ => ⟨hl, by rw [hfc], fun f h1 h2 => by omega,
      fun j hj hf => absurd hf (hfull j hj)⟩, by rw [hl], herr⟩

theorem queue_pending_plain (ts : task_state) (h1 : ts.pc ≠ writer_pc.freeing)
    (h2 : ts.pc ≠ writer_pc.flush_next) :
    queue_len (pending ts) = queue_len ts.st ∧
    ∀ k, queue_slot (pending ts) k = queue_slot ts.st k := by
  obtain ⟨st, pc, w, i, a, g, n, s, wt, fs, lg⟩ := ts
  cases pc
  · exact ⟨rfl, fun _ => rfl⟩
  · exact ⟨rfl, fun _ => rfl⟩
  · exact ⟨rfl, fun _ => rfl⟩
  · exact ⟨rfl, fun _ => rfl⟩
  · exact ⟨rfl, fun _ => rfl⟩
  · exact absurd rfl h1
  · exact ⟨rfl, fun _ => rfl⟩
  · exact ⟨rfl, fun _ => rfl⟩
  · exact ⟨rfl, fun _ => rfl⟩
  · exact ⟨rfl, fun _ => rfl⟩
  · exact absurd rfl h2
  · exact ⟨rfl, fun _ => rfl⟩

/-- C16 (amended). In every state that a session reaches from its start (`frame_count = 0`,
empty queue, `last_processed_frame = 0`, no error counted, no FULL slot in the table in
use), with or without pre-recording, by any sequence of calls of the hooks (captures,
dropped frames with `buffer_full`, the promotion of the pre-recorded frames, events of the
copy and compression task) and steps of the writer task in which `write_frames` writes
everything: the slots on the queue that the writer has not released, read from `position`
to the tail (from the loop index `i` while the writer releases a written group, from the
index after the head between `free_slot` and the increment of the head in the loop that
writes the remaining frames, from `writing_queue_head` everywhere else), carry the frame
numbers `released + 1`, `released + 2`, ..., where `released` is the number of frames
released so far; the first slot released has frame number 1; and the check
`frame_number == last_processed_frame + 1` of the writer has never failed. -/
theorem pending_frame_numbers_consecutive (PTR_INVALID : Int) (st0 : State)
    (ops : List task_op) (ts : task_state)
    (hfc : st0.frame_count = 0)
    (hh : 0 ≤ st0.writing_queue_head ∧ st0.writing_queue_head < 512)
    (he : st0.writing_queue_tail = st0.writing_queue_head)
    (hl : st0.last_processed_frame = 0) (herr : st0.frame_order_errors = 0)
    (hsc : 0 < st0.slot_count ∧ st0.slot_count ≤ COUNT_slots)
    (hfull : ∀ j, j < st0.slot_count → (st0.slots j).status ≠ SLOT_FULL)
    (hok : ∀ op, op ∈ ops → complete_writes op)
    (hrun : run_task PTR_INVALID (task_start st0) ops = some ts) :
    (∀ k, k < queue_len (pending ts) →
      (ts.st.slots (queue_slot (pending ts) k).toNat).frame_number = released ts + 1 + k) ∧
    (released ts = 0 → 0 < queue_len (pending ts) →
      (ts.st.slots (queue_slot (pending ts) 0).toNat).frame_number = 1) ∧
    0 ≤ released ts ∧
    ts.st.frame_order_errors = 0 ∧
    (ts.pc ≠ writer_pc.freeing → ts.pc ≠ writer_pc.flush_next →
      queue_len (pending ts) = queue_len ts.st ∧
      ∀ k, queue_slot (pending ts) k = queue_slot ts.st k) := by
  have ho0 : order_inv (pending (task_start st0)) :=
    order_inv_start st0 hfc he hl herr hfull
  obtain ⟨o1, _, _, o4, o5⟩ := (run_task_inv PTR_INVALID ops (task_start st0) ts
    (task_inv_start st0 hh he hsc) hrun).2 hok ho0
  refine ⟨o1, fun h0 hk => ?_, o4, o5, queue_pending_plain ts⟩
  have := o1 0 hk
  have hr : (pending ts).last_processed_frame = released ts := rfl
  rw [hr, h0] at this
  simpa using this

/-- C16 (amended) on the events of the counterexample: after the vertical sync that
captures frame 5 in the released slot 0 one frame has been released and the slots that the
writer has not released, 1, 2, 3, 0, carry the frame numbers 2, 3, 4, 5. -/
theorem pending_frame_numbers_consecutive_witness :
    fresh_session.frame_count = 0 ∧
    fresh_session.writing_queue_tail = fresh_session.writing_queue_head ∧
    (∀ j, j < fresh_session.slot_count → (fresh_session.slots j).status ≠ SLOT_FULL) ∧
    (∀ op, op ∈ recapture → complete_writes op) ∧
    run_task 0 (task_start fresh_session) recapture = some after_recapture ∧
    released after_recapture = 1 ∧ queue_len (pending after_recapture) = 4 ∧
    (∀ k, k < queue_len (pending after_recapture) →
      (after_recapture.st.slots (queue_slot (pending after_recapture) k).toNat).frame_number
        = released after_recapture + 1 + k) ∧
    after_recapture.st.frame_order_errors = 0 :=
  ⟨by decide, by decide, by decide, by decide, rfl, by decide, by decide,
    (pending_frame_numbers_consecutive 0 fresh_session recapture after_recapture
      (by decide) (by decide) (by decide) (by decide) (by decide) (by decide) (by decide)
      (by decide) rfl).1,
    (pending_frame_numbers_consecutive 0 fresh_session recapture after_recapture
      (by decide) (by decide) (by decide) (by decide) (by decide) (by decide) (by decide)
      (by decide) rfl).2.2.2.1⟩
/-! ## Pre-recording: the buffered frames -/

/-- `free_slot` on a slot of the standard size only sets its status to FREE. -/
theorem free_slot_standard (st : State) (i : Nat)
    (h : (st.slots i).size = st.max_frame_size) :
    (free_slot st i).slots i = { st.slots i with status := SLOT_FREE } ∧
    (∀ j, j ≠ i → (free_slot st i).slots j = st.slots j) := by
  have hsz : ((set_status st i SLOT_RESERVED).slots i).size
      = (set_status st i SLOT_RESERVED).max_frame_size := by
    rw [set_status_slots_self]; exact h
  unfold free_slot
  simp only [if_pos hsz]
  refine ⟨?_, fun j hj => ?_⟩
  · rw [set_status_slots_self, set_status_slots_self]
  · rw [set_status_slots_other _ _ _ _ hj, set_status_slots_other _ _ _ _ hj]

/-- A slot that becomes FREE makes the count of FREE slots grow by one. -/
theorem get_free_slots_give (st st' : State) (c : Nat)
    (hc : (st.slots c).status ≠ SLOT_FREE) (hc' : (st'.slots c).status = SLOT_FREE) :
    ∀ n, (∀ j, j < n → j ≠ c → (st'.slots j).status = (st.slots j).status) →
    get_free_slots st' n = get_free_slots st n + (if c < n then 1 else 0) := by
  intro n
  induction n with
  | zero => intro _; simp [get_free_slots]
  | succ n ih =>
    intro h
    rw [get_free_slots, get_free_slots, ih (fun j hj => h j (by omega))]
    by_cases hcn : n = c
    · subst hcn
      rw [if_pos hc', if_neg hc]
      simp
    · rw [h n (by omega) hcn]
      split_ifs <;> omega

/-- The loop "discard old frames" on slots of the standard size: a FULL slot with frame
number 1 becomes FREE, the other FULL slots get the frame number before theirs, and no
other slot changes. -/
theorem discard_frames_standard : ∀ (n i : Nat) (st : State),
    (∀ j, i ≤ j → j < i + n → (st.slots j).status = SLOT_FULL →
      (st.slots j).size = st.max_frame_size) →
    (discard_frames n i st).max_frame_size = st.max_frame_size ∧
    ∀ j,
      ((i ≤ j ∧ j < i + n) → (st.slots j).status = SLOT_FULL →
        (st.slots j).frame_number = 1 →
        (discard_frames n i st).slots j = { st.slots j with status := SLOT_FREE }) ∧
      ((i ≤ j ∧ j < i + n) → (st.slots j).status = SLOT_FULL →
        (st.slots j).frame_number ≠ 1 →
        (discard_frames n i st).slots j
          = { st.slots j with frame_number := (st.slots j).frame_number - 1 }) ∧
      ((¬ (i ≤ j ∧ j < i + n) ∨ (st.slots j).status ≠ SLOT_FULL) →
        (discard_frames n i st).slots j = st.slots j) := by
  intro n
  induction n with
  | zero =>
    intro i st _
    exact ⟨rfl, fun j => ⟨fun h => by omega, fun h => by omega, fun _ => rfl⟩⟩
  | succ n ih =>
    intro i st hsz
    rw [discard_frames]
    -- the step at index `i`
    have hstep : (discard_step st i).max_frame_size = st.max_frame_size ∧
        (∀ j, j ≠ i → (discard_step st i).slots j = st.slots j) ∧
        ((st.slots i).status = SLOT_FULL → (st.slots i).frame_number = 1 →
          (discard_step st i).slots i = { st.slots i with status := SLOT_FREE }) ∧
        ((st.slots i).status = SLOT_FULL → (st.slots i).frame_number ≠ 1 →
          (discard_step st i).slots i
            = { st.slots i with frame_number := (st.slots i).frame_number - 1 }) ∧
        ((st.slots i).status ≠ SLOT_FULL → (discard_step st i).slots i = st.slots i) := by
      unfold discard_step
      by_cases hf : (st.slots i).status = SLOT_FULL
      · rw [if_pos hf]
        by_cases h1 : (st.slots i).frame_number = 1
        · rw [if_pos h1]
          obtain ⟨a1, a2⟩ := free_slot_standard st i (hsz i (le_refl _) (by omega) hf)
          exact ⟨(free_slot_config st i).1, a2, fun _ _ => a1, fun _ h => absurd h1 h,
            fun h => absurd hf h⟩
        · rw [if_neg h1]
          refine ⟨rfl, fun j hj => set_slot_other _ _ _ _ hj, fun _ h => absurd h h1,
            fun _ _ => set_slot_same _ _ _, fun h => absurd hf h⟩
      · rw [if_neg hf]
        exact ⟨rfl, fun _ _ => rfl, fun h => absurd h hf, fun h => absurd h hf, fun _ => rfl⟩
    obtain ⟨s1, s2, s3, s4, s5⟩ := hstep
    generalize discard_step st i = st1 at s1 s2 s3 s4 s5
    obtain ⟨b1, b2⟩ := ih (i + 1) st1 (fun j h1 h2 hf => by
      rw [s2 j (by omega)] at hf ⊢
      rw [s1]
      exact hsz j (by omega) (by omega) hf)
    refine ⟨b1.trans s1, fun j => ?_⟩
    obtain ⟨c1, c2, c3⟩ := b2 j
    by_cases hji : j = i
    · subst hji
      have hout := c3 (Or.inl (by omega))
      refine ⟨fun _ hf h1 => ?_, fun _ hf h1 => ?_, fun h => ?_⟩
      · rw [hout]; exact s3 hf h1
      · rw [hout]; exact s4 hf h1
      · rcases h with h | h
        · omega
        · rw [hout]; exact s5 h
    · have e := s2 j hji
      refine ⟨fun h hf h1 => ?_, fun h hf h1 => ?_, fun h => ?_⟩
      · rw [c1 (by omega) (by rw [e]; exact hf) (by rw [e]; exact h1), e]
      · rw [c2 (by omega) (by rw [e]; exact hf) (by rw [e]; exact h1), e]
      · rw [c3 (by
          rcases h with h | h
          · left; omega
          · right; rw [e]; exact h), e]

/-- The promotion loop ends when the table holds the frames it looks for. -/
theorem promote_frames_some : ∀ (n : Nat) (cf i : Int) (st : State),
    0 < st.slot_count → 0 ≤ i → i < st.slot_count →
    (∀ f : Int, cf ≤ f → f < cf + n → ∃ j, j < st.slot_count ∧
      (st.slots j).status = SLOT_FULL ∧ (st.slots j).frame_number = f) →
    ∃ st', promote_frames n cf i st = some st' := by
  intro n
  induction n with
  | zero => intro cf i st _ _ _ _; exact ⟨st, rfl⟩
  | succ n ih =>
    intro cf i st hsc h0 h1 hall
    obtain ⟨j, hj, hf, hn⟩ := hall cf (le_refl _) (by push_cast; omega)
    have hd : 0 ≤ ((j : Int) - i) % (st.slot_count : Int) := Int.emod_nonneg _ (by omega)
    have hd' : ((j : Int) - i) % (st.slot_count : Int) < st.slot_count :=
      Int.emod_lt_of_pos _ (by omega)
    obtain ⟨k, hk⟩ := find_frame_some st.slots st.slot_count cf j hj hf hn
      (((j : Int) - i) % (st.slot_count : Int)).toNat (st.slot_count + 1) i h0 h1
      (by omega) (by omega)
    rw [promote_frames, hk]
    simp only []
    refine ih (cf + 1) _ (enqueue st k) hsc ?_ ?_ ?_
    · exact Int.emod_nonneg _ (by show ((st.slot_count : Nat) : Int) ≠ 0; omega)
    · exact Int.emod_lt_of_pos _ (by show (0 : Int) < ((st.slot_count : Nat) : Int); omega)
    · intro f h2 h3
      exact hall f (by omega) (by push_cast at h3 ⊢; omega)

/-- A capture into the FREE slot `c` keeps the description of the buffered frames. -/
theorem buffered_capture (F : Int) (st st' : State) (c : Nat) (hc : c < st.slot_count)
    (hfree : (st.slots c).status = SLOT_FREE)
    (hs : st'.slots = set_slot st.slots c
      { st.slots c with frame_number := st.frame_count, status := SLOT_FULL })
    (hsc : st'.slot_count = st.slot_count) (hfc : st'.frame_count = st.frame_count + 1)
    (hM : st'.max_frame_size = st.max_frame_size) (h1 : 1 ≤ st.frame_count)
    (hb : buffered_inv F st) : buffered_inv F st' := by
  obtain ⟨b1, b2, b3, b4, b5⟩ := hb
  have hself : st'.slots c
      = { st.slots c with frame_number := st.frame_count, status := SLOT_FULL } := by
    rw [hs, set_slot_same]
  have hoth : ∀ j, j ≠ c → st'.slots j = st.slots j := by
    intro j hj; rw [hs, set_slot_other _ _ _ _ hj]
  have hsf : (st'.slots c).status = SLOT_FULL := by rw [hself]
  have hsn : (st'.slots c).frame_number = st.frame_count := by rw [hself]
  have hss : (st'.slots c).size = (st.slots c).size := by rw [hself]
  have hnf : (st.slots c).status ≠ SLOT_FULL := by rw [hfree]; decide
  refine ⟨?_, ?_, ?_, ?_, ?_⟩
  · intro j hj hf
    rw [hsc] at hj
    rw [hfc]
    by_cases hjc : j = c
    · subst hjc; rw [hsn]; omega
    · rw [hoth j hjc] at hf ⊢
      have := b1 j hj hf
      omega
  · intro f hf1 hf2
    rw [hfc] at hf2
    rw [hsc]
    by_cases hff : f = st.frame_count
    · exact ⟨c, hc, hsf, by rw [hsn, hff]⟩
    · obtain ⟨j, hj, hjf, hjn⟩ := b2 f hf1 (by omega)
      have hjc : j ≠ c := by
        intro h; rw [h] at hjf; exact hnf hjf
      exact ⟨j, hj, by rw [hoth j hjc]; exact hjf, by rw [hoth j hjc]; exact hjn⟩
  · intro j j' hj hj' hf hf' he
    rw [hsc] at hj hj'
    by_cases hjc : j = c
    · by_cases hjc' : j' = c
      · rw [hjc, hjc']
      · exfalso
        rw [hjc, hsn, hoth j' hjc'] at he
        rw [hoth j' hjc'] at hf'
        have := b1 j' hj' hf'
        omega
    · by_cases hjc' : j' = c
      · exfalso
        rw [hjc', hsn, hoth j hjc] at he
        rw [hoth j hjc] at hf
        have := b1 j hj hf
        omega
      · rw [hoth j hjc] at hf he
        rw [hoth j' hjc'] at hf' he
        exact b3 j j' hj hj' hf hf' he
  · have := get_free_slots_take st st' c _ hs hfree
      (show SLOT_FULL ≠ SLOT_FREE by decide) st.slot_count
    rw [hsc, hfc, this, if_pos hc]
    omega
  · intro j hj hst
    rw [hsc] at hj
    rw [hM]
    by_cases hjc : j = c
    · subst hjc; rw [hss]; exact b5 j hj (Or.inl hfree)
    · rw [hoth j hjc] at hst ⊢
      exact b5 j hj hst

/-- The loop "discard old frames" keeps the description of the buffered frames, for the
frame count before the present one. -/
theorem buffered_discard (F : Int) (st st' : State)
    (hsl : ∀ j, j < st.slot_count →
      ((st.slots j).status = SLOT_FULL → (st.slots j).frame_number = 1 →
        st'.slots j = { st.slots j with status := SLOT_FREE }) ∧
      ((st.slots j).status = SLOT_FULL → (st.slots j).frame_number ≠ 1 →
        st'.slots j = { st.slots j with frame_number := (st.slots j).frame_number - 1 }) ∧
      ((st.slots j).status ≠ SLOT_FULL → st'.slots j = st.slots j))
    (hsc : st'.slot_count = st.slot_count) (hfc : st'.frame_count = st.frame_count - 1)
    (hM : st'.max_frame_size = st.max_frame_size) (h2 : 2 ≤ st.frame_count)
    (hb : buffered_inv F st) : buffered_inv F st' := by
  obtain ⟨b1, b2, b3, b4, b5⟩ := hb
  -- the FULL slots afterwards
  have hfull : ∀ j, j < st.slot_count → (st'.slots j).status = SLOT_FULL →
      (st.slots j).status = SLOT_FULL ∧ (st.slots j).frame_number ≠ 1 ∧
      (st'.slots j).frame_number = (st.slots j).frame_number - 1 := by
    intro j hj hf
    obtain ⟨a1, a2, a3⟩ := hsl j hj
    by_cases hjf : (st.slots j).status = SLOT_FULL
    · by_cases hj1 : (st.slots j).frame_number = 1
      · rw [a1 hjf hj1] at hf
        exact absurd hf (show SLOT_FREE ≠ SLOT_FULL by decide)
      · exact ⟨hjf, hj1, by rw [a2 hjf hj1]⟩
    · rw [a3 hjf] at hf
      exact absurd hf hjf
  have hkeep : ∀ j, j < st.slot_count → (st.slots j).status = SLOT_FULL →
      (st.slots j).frame_number ≠ 1 →
      (st'.slots j).status = SLOT_FULL ∧
      (st'.slots j).frame_number = (st.slots j).frame_number - 1 := by
    intro j hj hjf hj1
    rw [(hsl j hj).2.1 hjf hj1]
    exact ⟨hjf, rfl⟩
  refine ⟨?_, ?_, ?_, ?_, ?_⟩
  · intro j hj hf
    rw [hsc] at hj
    obtain ⟨c1, c2, c3⟩ := hfull j hj hf
    have := b1 j hj c1
    rw [c3, hfc]
    omega
  · intro f hf1 hf2
    rw [hfc] at hf2
    rw [hsc]
    obtain ⟨j, hj, hjf, hjn⟩ := b2 (f + 1) (by omega) (by omega)
    obtain ⟨d1, d2⟩ := hkeep j hj hjf (by omega)
    exact ⟨j, hj, d1, by rw [d2, hjn]; omega⟩
  · intro j j' hj hj' hf hf' he
    rw [hsc] at hj hj'
    obtain ⟨c1, c2, c3⟩ := hfull j hj hf
    obtain ⟨c1', c2', c3'⟩ := hfull j' hj' hf'
    rw [c3, c3'] at he
    exact b3 j j' hj hj' c1 c1' (by omega)
  · obtain ⟨c, hc, hcf, hcn⟩ := b2 1 (le_refl _) (by omega)
    have hc' : (st'.slots c).status = SLOT_FREE := by
      rw [(hsl c hc).1 hcf hcn]
    have := get_free_slots_give st st' c (by rw [hcf]; decide) hc' st.slot_count
      (fun j hj hjc => by
        obtain ⟨a1, a2, a3⟩ := hsl j hj
        by_cases hjf : (st.slots j).status = SLOT_FULL
        · have hj1 : (st.slots j).frame_number ≠ 1 := by
            intro h
            exact hjc (b3 j c hj hc hjf hcf (by rw [h, hcn]))
          rw [a2 hjf hj1]
        · rw [a3 hjf])
    rw [hsc, hfc, this, if_pos hc]
    omega
  · intro j hj hst
    rw [hsc] at hj
    rw [hM]
    obtain ⟨a1, a2, a3⟩ := hsl j hj
    by_cases hjf : (st.slots j).status = SLOT_FULL
    · by_cases hj1 : (st.slots j).frame_number = 1
      · rw [a1 hjf hj1]
        exact b5 j hj (Or.inr hjf)
      · rw [a2 hjf hj1]
        exact b5 j hj (Or.inr hjf)
    · rw [a3 hjf] at hst ⊢
      exact b5 j hj hst

/-- The capture part of `process_frame` during pre-recording, with a FREE slot left: a frame
is captured, the queue is not touched. -/
theorem capture_step_buffered (P : Int) (F : Int) (st : State)
    (hpre : st.raw_recording_state = RAW_PRE_RECORDING) (h1 : 1 ≤ st.frame_count)
    (hF : st.frame_count ≤ F) (hb : buffered_inv F st) :
    (capture_step P st).raw_recording_state = st.raw_recording_state ∧
    (capture_step P st).pre_record_triggered = st.pre_record_triggered ∧
    (capture_step P st).edmac_active = st.edmac_active ∧
    (capture_step P st).pre_record_num_frames = st.pre_record_num_frames ∧
    (capture_step P st).writing_queue_head = st.writing_queue_head ∧
    (capture_step P st).writing_queue_tail = st.writing_queue_tail ∧
    (capture_step P st).slot_count = st.slot_count ∧
    (capture_step P st).frame_count = st.frame_count + 1 ∧
    buffered_inv F (capture_step P st) := by
  have hpos : 0 < get_free_slots st st.slot_count := by
    have := hb.2.2.2.1
    omega
  obtain ⟨j, hj, hjf⟩ := (get_free_slots_pos_iff st st.slot_count).1 hpos
  have hc := choose_next_capture_slot_some P st j hj hjf
  obtain ⟨c1, c2⟩ := choose_next_capture_slot_free P st hc
  have e := capture_step_pre P st hpre hc
  generalize capture_step P st = s' at e
  generalize hcdef : (choose_next_capture_slot P st).1.toNat = c at e c2
  refine ⟨by rw [e], by rw [e], by rw [e], by rw [e], by rw [e], by rw [e], by rw [e],
    by rw [e], ?_⟩
  exact buffered_capture F st s' c (by omega) c2 (by rw [e]) (by rw [e]) (by rw [e])
    (by rw [e]) h1 hb

/-- The loop "discard old frames" of `pre_record_vsync_step` on the buffered frames. -/
theorem discard_buffered (F : Int) (st : State) (h2 : 2 ≤ st.frame_count)
    (hb : buffered_inv F st) :
    (discard_frames st.slot_count 0
      { st with frame_count := st.frame_count - 1 }).raw_recording_state
        = st.raw_recording_state ∧
    (discard_frames st.slot_count 0
      { st with frame_count := st.frame_count - 1 }).pre_record_triggered
        = st.pre_record_triggered ∧
    (discard_frames st.slot_count 0
      { st with frame_count := st.frame_count - 1 }).edmac_active = st.edmac_active ∧
    (discard_frames st.slot_count 0
      { st with frame_count := st.frame_count - 1 }).pre_record_num_frames
        = st.pre_record_num_frames ∧
    (discard_frames st.slot_count 0
      { st with frame_count := st.frame_count - 1 }).writing_queue_head
        = st.writing_queue_head ∧
    (discard_frames st.slot_count 0
      { st with frame_count := st.frame_count - 1 }).writing_queue_tail
        = st.writing_queue_tail ∧
    (discard_frames st.slot_count 0
      { st with frame_count := st.frame_count - 1 }).slot_count = st.slot_count ∧
    (discard_frames st.slot_count 0
      { st with frame_count := st.frame_count - 1 }).frame_count = st.frame_count - 1 ∧
    buffered_inv F (discard_frames st.slot_count 0
      { st with frame_count := st.frame_count - 1 }) := by
  obtain ⟨s0, hs0⟩ : ∃ s0 : State, s0 = { st with frame_count := st.frame_count - 1 } :=
    ⟨_, rfl⟩
  rw [← hs0]
  have z1 : s0.slots = st.slots := by rw [hs0]
  have z2 : s0.slot_count = st.slot_count := by rw [hs0]
  have z3 : s0.max_frame_size = st.max_frame_size := by rw [hs0]
  have z4 : s0.frame_count = st.frame_count - 1 := by rw [hs0]
  have z5 : s0.raw_recording_state = st.raw_recording_state := by rw [hs0]
  have z6 : s0.pre_record_triggered = st.pre_record_triggered := by rw [hs0]
  have z7 : s0.edmac_active = st.edmac_active := by rw [hs0]
  have z8 : s0.pre_record_num_frames = st.pre_record_num_frames := by rw [hs0]
  have z9 : s0.writing_queue_head = st.writing_queue_head := by rw [hs0]
  have z10 : s0.writing_queue_tail = st.writing_queue_tail := by rw [hs0]
  clear hs0
  have hf := discard_frames_fields st.slot_count 0 s0
  obtain ⟨d1, d2⟩ := discard_frames_standard st.slot_count 0 s0 (fun j _ hj hjf => by
    rw [z1] at hjf ⊢
    rw [z3]
    exact hb.2.2.2.2 j (by omega) (Or.inr hjf))
  generalize discard_frames st.slot_count 0 s0 = s1 at hf d1 d2
  have y2 : s1.slot_count = st.slot_count := by rw [hf]; exact z2
  have y4 : s1.frame_count = st.frame_count - 1 := by rw [hf]; exact z4
  refine ⟨by rw [hf]; exact z5, by rw [hf]; exact z6, by rw [hf]; exact z7,
    by rw [hf]; exact z8, by rw [hf]; exact z9, by rw [hf]; exact z10, y2, y4, ?_⟩
  refine buffered_discard F st s1 (fun j hj => ?_) y2 y4 (d1.trans z3) h2 hb
  obtain ⟨c1, c2, c3⟩ := d2 j
  rw [z1] at c1 c2 c3
  exact ⟨fun h h' => c1 ⟨Nat.zero_le _, by omega⟩ h h',
    fun h h' => c2 ⟨Nat.zero_le _, by omega⟩ h h', fun h => c3 (Or.inr h)⟩

/-- A call of `process_frame` during pre-recording before the trigger returns and keeps
the description of the buffered frames; `frame_count` grows up to the budget. -/
theorem pre_recording_step (P : Int) (n : Nat) (F : Int) (st : State) (hn : 2 ≤ n)
    (h : pre_recording_inv n F st) :
    ∃ s', process_frame P st = some s' ∧ pre_recording_inv n F s' ∧
      s'.frame_count = min (st.frame_count + 1) n := by
  obtain ⟨p1, p2, p3, p4, p5, p6, p7, p8, p9, p10, hb⟩ := h
  rw [process_frame, if_neg (by omega), if_neg (by simp [p3]), if_pos p1,
    pre_record_vsync_step, if_pos p1, if_neg (by simp [p2])]
  by_cases hlt : st.frame_count < n
  · rw [if_neg (by rw [p4]; omega)]
    obtain ⟨c1, c2, c3, c4, c5, c6, c7, c8, c9⟩ :=
      capture_step_buffered P F st p1 p8 (by omega) hb
    refine ⟨_, rfl, ⟨c1.trans p1, c2.trans p2, c3.trans p3, c4.trans p4, by rw [c5]; exact p5,
      by rw [c6, c5]; exact p6, by rw [c7]; exact p7, by rw [c8]; omega, by rw [c8]; omega,
      p10, c9⟩, ?_⟩
    rw [c8, min_eq_left (by omega)]
  · rw [if_pos (by rw [p4]; omega)]
    obtain ⟨d1, d2, d3, d4, d5, d6, d7, d8, d9⟩ := discard_buffered F st (by omega) hb
    generalize discard_frames st.slot_count 0
      { st with frame_count := st.frame_count - 1 } = s1 at d1 d2 d3 d4 d5 d6 d7 d8 d9
    obtain ⟨c1, c2, c3, c4, c5, c6, c7, c8, c9⟩ :=
      capture_step_buffered P F s1 (d1.trans p1) (by omega) (by omega) d9
    refine ⟨_, rfl, ⟨c1.trans (d1.trans p1), c2.trans (d2.trans p2), c3.trans (d3.trans p3),
      c4.trans (d4.trans p4), by rw [c5, d5]; exact p5, by rw [c6, c5, d6, d5]; exact p6,
      by rw [c7, d7]; exact p7, by rw [c8]; omega, by rw [c8]; omega, p10, c9⟩, ?_⟩
    rw [c8, d8, min_eq_right (by omega)]
    omega

/-- Calls of `process_frame` during pre-recording before the trigger: all of them return,
and from the call number `n - 1` on `frame_count` is the budget `n`. -/
theorem pre_recording_run (P : Int) (n : Nat) (F : Int) (st : State) (hn : 2 ≤ n)
    (h : pre_recording_inv n F st) (h1 : st.frame_count = 1) :
    ∀ m, ∃ s, process_frames P m st = some s ∧ pre_recording_inv n F s ∧
      s.frame_count = min ((m : Int) + 1) n := by
  intro m
  induction m with
  | zero =>
    refine ⟨st, rfl, h, ?_⟩
    rw [h1, min_eq_left (by push_cast; omega)]
    simp
  | succ m ih =>
    obtain ⟨s, e, hs, hfc⟩ := ih
    obtain ⟨s', e', hs', hfc'⟩ := pre_recording_step P n F s hn hs
    refine ⟨s', by rw [process_frames, e]; exact e', hs', ?_⟩
    rw [hfc', hfc]
    push_cast
    omega

/-- The call of `process_frame` that finds `pre_record_triggered` set: it returns, appends
the slots of the buffered frames to the queue in the order of their frame numbers, switches
to `RAW_RECORDING`, captures the next frame into a FREE slot `c` and appends it too. -/
theorem pre_recording_trigger (P : Int) (n : Nat) (F : Int) (st : State)
    (h : pre_recording_inv n F st) :
    ∃ (s' : State) (c : Nat),
      process_frame P { st with pre_record_triggered := 1 } = some s' ∧
      s'.raw_recording_state = RAW_RECORDING ∧
      s'.writing_queue_head = st.writing_queue_head ∧
      queue_len s' = (st.frame_count - 1).toNat + 1 ∧
      (∀ k, k < (st.frame_count - 1).toNat →
        0 ≤ queue_slot s' k ∧ (queue_slot s' k).toNat < COUNT_slots ∧
        (st.slots (queue_slot s' k).toNat).status = SLOT_FULL ∧
        (st.slots (queue_slot s' k).toNat).frame_number = (k : Int) + 1) ∧
      queue_slot s' (st.frame_count - 1).toNat = c ∧ c < st.slot_count ∧
      (st.slots c).status = SLOT_FREE ∧
      s'.slots = set_slot st.slots c
        { st.slots c with frame_number := st.frame_count, status := SLOT_FULL } ∧
      s'.frame_count = st.frame_count + 1 := by
  obtain ⟨p1, p2, p3, p4, p5, p6, p7, p8, p9, p10, hb⟩ := h
  obtain ⟨b1, b2, b3, b4, b5⟩ := hb
  have hpos : 0 < get_free_slots st st.slot_count := by omega
  obtain ⟨j, hj, hjf⟩ := (get_free_slots_pos_iff st st.slot_count).1 hpos
  have hlen0 : queue_len st = 0 := by
    have := queue_len_eq st
    rw [p6] at this
    simp at this
    exact this
  -- the state in which the trigger is seen
  obtain ⟨st0, hst0⟩ : ∃ s : State, s = { st with pre_record_triggered := 1 } := ⟨_, rfl⟩
  rw [← hst0]
  have z1 : st0.slots = st.slots := by rw [hst0]
  have z2 : st0.slot_count = st.slot_count := by rw [hst0]
  have z3 : st0.frame_count = st.frame_count := by rw [hst0]
  have z4 : st0.raw_recording_state = RAW_PRE_RECORDING := by rw [hst0]; exact p1
  have z5 : st0.pre_record_triggered ≠ 0 := by rw [hst0]; exact one_ne_zero
  have z6 : st0.edmac_active = 0 := by rw [hst0]; exact p3
  have z7 : st0.writing_queue_head = st.writing_queue_head := by rw [hst0]
  have z8 : st0.writing_queue_tail = st.writing_queue_tail := by rw [hst0]
  clear hst0
  have hlen0' : queue_len st0 = 0 := (queue_len_congr st st0 z7 z8).trans hlen0
  rw [process_frame, if_neg (by rw [z3]; omega), if_neg (by simp [z6]), if_pos z4,
    pre_record_vsync_step, if_pos z4, if_pos z5]
  -- the promotion
  obtain ⟨st1, hp⟩ := promote_frames_some (st0.frame_count - 1).toNat 1 0 st0
    (by rw [z2]; omega) (le_refl _) (by rw [z2]; omega) (fun f h1 h2 => by
      rw [z1, z2]
      exact b2 f h1 (by rw [z3] at h2; omega))
  rw [hp]
  simp only []
  obtain ⟨r1, r2, r3, r4, r5⟩ := promote_frames_spec (st0.frame_count - 1).toNat 1 0 st0 st1
    (by rw [z8, p6]; exact p5) (by rw [z2]; omega) (by rw [z2]; omega)
    (fun k hk => by omega) (fun k k' hk => by omega) hp
  have hf1 := promote_frames_fields _ _ _ _ _ hp
  rw [hlen0'] at r1 r4
  rw [z3] at r1 r4
  rw [z1] at r4
  -- the state in which the frame is captured
  obtain ⟨st2, hst2⟩ : ∃ s : State, s = { st1 with raw_recording_state := RAW_RECORDING } :=
    ⟨_, rfl⟩
  rw [← hst2]
  have y1 : st2.slots = st.slots := by rw [hst2, hf1]; exact z1
  have y2 : st2.slot_count = st.slot_count := by rw [hst2, hf1]; exact z2
  have y3 : st2.frame_count = st.frame_count := by rw [hst2, hf1]; exact z3
  have y4 : st2.raw_recording_state ≠ RAW_PRE_RECORDING := by
    rw [hst2]; exact (show RAW_RECORDING ≠ RAW_PRE_RECORDING by decide)
  have y5 : st2.writing_queue_head = st.writing_queue_head := by rw [hst2, hf1]; exact z7
  have y6 : st2.writing_queue_tail = st1.writing_queue_tail := by rw [hst2]
  have y7 : st2.writing_queue = st1.writing_queue := by rw [hst2]
  have y8 : st1.writing_queue_head = st.writing_queue_head := by rw [hf1]; exact z7
  have y9 : st2.raw_recording_state = RAW_RECORDING := by rw [hst2]
  clear hst2 hf1
  have hlen2 : queue_len st2 = queue_len st1 :=
    queue_len_congr st1 st2 (y5.trans y8.symm) y6
  have hslot2 : ∀ k, queue_slot st2 k = queue_slot st1 k :=
    queue_slot_congr st1 st2 y7 (y5.trans y8.symm)
  have hc := choose_next_capture_slot_some P st2 j (by rw [y2]; exact hj)
    (by rw [y1]; exact hjf)
  obtain ⟨c1, c2⟩ := choose_next_capture_slot_free P st2 hc
  have e := capture_step_rec P st2 y4 hc
  generalize capture_step P st2 = s' at e
  generalize hcdef : (choose_next_capture_slot P st2).1 = ci at e c1 c2 hc
  obtain ⟨c, rfl⟩ : ∃ c : Nat, ci = c := ⟨ci.toNat, by omega⟩
  rw [Int.toNat_ofNat] at e c2
  rw [y1] at c2
  rw [y2] at c1
  have hroom : queue_len st2 < 511 := by
    refine queue_room st2 c (by omega) (fun k hk => ?_) (fun k k' hk hk' he => ?_)
      (fun k hk hkc => ?_)
    · rw [hlen2, r1] at hk
      rw [hslot2]
      have := r4 k (by omega)
      rw [Nat.zero_add] at this
      exact ⟨this.1, this.2.1⟩
    · rw [hlen2] at hk hk'
      rw [hslot2, hslot2] at he
      exact r5 k k' hk hk' he
    · rw [hlen2, r1] at hk
      have := r4 k (by omega)
      rw [Nat.zero_add, ← hslot2, hkc, c2] at this
      exact absurd this.2.2.1 (show SLOT_FREE ≠ SLOT_FULL by decide)
  obtain ⟨q1, q2, q3, _, _⟩ := enqueue_queue st2 s' c (by rw [y6]; exact r2)
    (by rw [e]) (by rw [e]) (by rw [e]) hroom
  rw [hlen2, r1, Nat.zero_add] at q1 q2 q3
  refine ⟨s', c, rfl, by rw [e]; exact y9, by rw [e]; exact y5, q1, fun k hk => ?_, q2,
    by omega, c2, by rw [e]; show set_slot st2.slots _ _ = _; rw [y1, y3],
    by rw [e]; show st2.frame_count + 1 = _; rw [y3]⟩
  rw [q3 k hk, hslot2]
  have := r4 k hk
  rw [Nat.zero_add] at this
  obtain ⟨t1, t2, t3, t4⟩ := this
  exact ⟨t1, t2, t3, by rw [t4]; ring⟩
/-! ## Pre-recording: how many frames are buffered -/

theorem process_frames_succ_left (P : Int) : ∀ (m : Nat) (st : State),
    process_frames P (m + 1) st = (process_frame P st).bind (process_frames P m) := by
  intro m
  induction m with
  | zero =>
    intro st
    show (match process_frames P 0 st with
      | none => none
      | some st1 => process_frame P st1) = _
    show process_frame P st = _
    cases process_frame P st <;> rfl
  | succ m ih =>
    intro st
    show (match process_frames P (m + 1) st with
      | none => none
      | some st1 => process_frame P st1) = _
    rw [ih]
    cases process_frame P st with
    | none => rfl
    | some s => rfl

/-- C17, counterexample.  On the pool of `three_fps_arena` `setup_buffers` returns 1 with
`pre_record_num_frames = 3` and seven FREE slots.  After six calls of `process_frame` in
pre-recording (frame 0 skipped, five frames captured) the state is still
`RAW_PRE_RECORDING`, the queue is empty, `frame_count` is 3, and only two slots are FULL:
slots 3 and 4, with the frame numbers 1 and 2; slot 5 is FREE.  The call that finds
`pre_record_triggered` set switches to `RAW_RECORDING` and leaves three entries on the
queue, the slots 3, 4 and 5 with the frame numbers 1, 2 and 3: two buffered frames and the
frame captured by this call. -/
theorem pre_record_buffers_one_frame_less :
    (setup_buffers
      { boot_state with max_frame_size := 4194304, frame_size_uncompressed := 4194236 }
      three_fps_arena).1 = 1 ∧
    preroll_session.pre_record_num_frames = 3 ∧
    get_free_slots preroll_session preroll_session.slot_count = 7 ∧
    (process_frames 0 6 preroll_session).map
        (fun s => (s.raw_recording_state, s.frame_count, queue_list s,
          (List.range s.slot_count).filter (fun j => (s.slots j).status = SLOT_FULL)))
      = some (RAW_PRE_RECORDING, 3, [], [3, 4]) ∧
    (process_frames 0 6 preroll_session).map
        (fun s => ((s.slots 3).frame_number, (s.slots 4).frame_number, (s.slots 5).status))
      = some (1, 2, SLOT_FREE) ∧
    ((process_frames 0 6 preroll_session).bind
        (fun s => process_frame 0 { s with pre_record_triggered := 1 })).map
        (fun s => (s.raw_recording_state, queue_list s,
          (queue_list s).map (fun x => (s.slots x.toNat).frame_number)))
      = some (RAW_RECORDING, [3, 4, 5], [1, 2, 3]) :=
  ⟨by decide, by decide, by decide, by decide, by decide, by decide⟩

/-- C17, as the code has it.  Pre-recording with a budget of `n = pre_record_num_frames`
frames, `n >= 2`, started with `frame_count = 0`, an empty queue, no FULL slot and at least
`n` FREE slots, all of the standard size, the EDMAC transfer of each frame being over before
the next call and no frame being compressed.  After `m >= n` calls of `process_frame` (the
first one skips frame 0) all calls have returned, the state is still `RAW_PRE_RECORDING`,
`frame_count` is `n`, the queue is empty and the FULL slots hold the frame numbers
`1 .. n - 1`, each of them once: `n - 1` frames are buffered.  The call that then finds
`pre_record_triggered` set returns, switches to `RAW_RECORDING` and leaves `n` entries on
the queue: the `n - 1` buffered slots in the order of their frame numbers `1 .. n - 1`,
followed by a slot `c` that was FREE and now holds the frame `n` captured by this call. -/
theorem pre_record_buffers_budget_less_one (PTR_INVALID : Int) (st : State) (n m : Nat)
    (hpre : st.raw_recording_state = RAW_PRE_RECORDING)
    (htr : st.pre_record_triggered = 0) (hed : st.edmac_active = 0)
    (hN : st.pre_record_num_frames = n) (hn : 2 ≤ n) (hfc : st.frame_count = 0)
    (hhead : 0 ≤ st.writing_queue_head ∧ st.writing_queue_head < 512)
    (hempty : st.writing_queue_tail = st.writing_queue_head)
    (hsc : st.slot_count ≤ COUNT_slots)
    (hfree : (n : Int) ≤ get_free_slots st st.slot_count)
    (hnofull : ∀ j, j < st.slot_count → (st.slots j).status ≠ SLOT_FULL)
    (hsize : ∀ j, j < st.slot_count → (st.slots j).status = SLOT_FREE →
      (st.slots j).size = st.max_frame_size)
    (hm : n ≤ m) :
    ∃ s, process_frames PTR_INVALID m st = some s ∧
      s.raw_recording_state = RAW_PRE_RECORDING ∧ s.frame_count = n ∧ queue_list s = [] ∧
      (∀ j, j < s.slot_count → (s.slots j).status = SLOT_FULL →
        1 ≤ (s.slots j).frame_number ∧ (s.slots j).frame_number ≤ (n : Int) - 1) ∧
      (∀ f : Int, 1 ≤ f → f ≤ (n : Int) - 1 →
        ∃ j, j < s.slot_count ∧ (s.slots j).status = SLOT_FULL ∧
          (s.slots j).frame_number = f) ∧
      (∀ j j', j < s.slot_count → j' < s.slot_count → (s.slots j).status = SLOT_FULL →
        (s.slots j').status = SLOT_FULL →
        (s.slots j).frame_number = (s.slots j').frame_number → j = j') ∧
      ∃ (s' : State) (c : Nat),
        process_frame PTR_INVALID { s with pre_record_triggered := 1 } = some s' ∧
        s'.raw_recording_state = RAW_RECORDING ∧ queue_len s' = n ∧
        (∀ k, k < n - 1 →
          (s.slots (queue_slot s' k).toNat).status = SLOT_FULL ∧
          (s.slots (queue_slot s' k).toNat).frame_number = (k : Int) + 1) ∧
        queue_slot s' (n - 1) = c ∧ (s.slots c).status = SLOT_FREE ∧
        (∀ k, k < n →
          (s'.slots (queue_slot s' k).toNat).status = SLOT_FULL ∧
          (s'.slots (queue_slot s' k).toNat).frame_number = (k : Int) + 1) := by
  obtain ⟨m', rfl⟩ : ∃ m', m = m' + 1 := ⟨m - 1, by omega⟩
  -- the first call skips frame 0
  obtain ⟨st1, hst1⟩ : ∃ s : State, s = { st with frame_count := st.frame_count + 1 } :=
    ⟨_, rfl⟩
  have hfirst : process_frame PTR_INVALID st = some st1 := by
    rw [process_frame, if_pos hfc, hst1]
  have z1 : st1.slots = st.slots := by rw [hst1]
  have z2 : st1.slot_count = st.slot_count := by rw [hst1]
  have z3 : st1.frame_count = 1 := by rw [hst1]; show st.frame_count + 1 = 1; omega
  have z4 : st1.max_frame_size = st.max_frame_size := by rw [hst1]
  have hinv : pre_recording_inv n (get_free_slots st st.slot_count) st1 := by
    refine ⟨by rw [hst1]; exact hpre, by rw [hst1]; exact htr, by rw [hst1]; exact hed,
      by rw [hst1]; exact hN, by rw [hst1]; exact hhead, by rw [hst1]; exact hempty,
      by rw [z2]; exact hsc, by omega, by omega, hfree, ?_, ?_, ?_, ?_, ?_⟩
    · intro j hj hf
      rw [z1] at hf; rw [z2] at hj
      exact absurd hf (hnofull j hj)
    · intro f h1 h2
      omega
    · intro j j' hj _ hf
      rw [z1] at hf; rw [z2] at hj
      exact absurd hf (hnofull j hj)
    · rw [z2, z3, get_free_slots_congr st st1 st.slot_count (fun j _ => by rw [z1])]
      omega
    · intro j hj hs
      rw [z1] at hs ⊢; rw [z2] at hj; rw [z4]
      rcases hs with hs | hs
      · exact hsize j hj hs
      · exact absurd hs (hnofull j hj)
  clear hst1
  obtain ⟨s, e, hs, hsfc⟩ := pre_recording_run PTR_INVALID n _ st1 hn hinv z3 m'
  have hsfc' : s.frame_count = n := by
    rw [hsfc]
    omega
  obtain ⟨p1, p2, p3, p4, p5, p6, p7, p8, p9, p10, b1, b2, b3, b4, b5⟩ := hs
  obtain ⟨s', c, t1, t2, t3, t4, t5, t6, t7, t8, t9, t10⟩ :=
    pre_recording_trigger PTR_INVALID n _ s
      ⟨p1, p2, p3, p4, p5, p6, p7, p8, p9, p10, b1, b2, b3, b4, b5⟩
  have hn1 : (s.frame_count - 1).toNat = n - 1 := by omega
  rw [hn1] at t4 t5 t6
  have hself : s'.slots c
      = { s.slots c with frame_number := s.frame_count, status := SLOT_FULL } := by
    rw [t9, set_slot_same]
  refine ⟨s, by rw [process_frames_succ_left, hfirst]; exact e, p1, hsfc', ?_,
    fun j hj hf => ?_, fun f h1 h2 => b2 f h1 (by omega), b3, s', c, t1, t2, by omega,
    fun k hk => (t5 k hk).2.2, t6, t8, fun k hk => ?_⟩
  · rw [← List.length_eq_zero, queue_list_length]
    have := queue_len_eq s
    rw [p6] at this
    simp at this
    exact this
  · have := b1 j hj hf
    omega
  · rcases Nat.lt_or_ge k (n - 1) with hlt | hge
    · obtain ⟨u1, u2, u3, u4⟩ := t5 k hlt
      have hne : (queue_slot s' k).toNat ≠ c := by
        intro h
        rw [h, t8] at u3
        exact absurd u3 (show SLOT_FREE ≠ SLOT_FULL by decide)
      rw [t9, set_slot_other _ _ _ _ hne]
      exact ⟨u3, u4⟩
    · have hk : k = n - 1 := by omega
      rw [hk, t6, Int.toNat_ofNat, hself]
      refine ⟨rfl, ?_⟩
      show s.frame_count = _
      rw [hsfc']
      omega

/-- C17 on `preroll_session`: a budget of three frames and seven FREE slots. -/
theorem pre_record_buffers_budget_less_one_witness :
    preroll_session.raw_recording_state = RAW_PRE_RECORDING ∧
    preroll_session.pre_record_num_frames = (3 : Nat) ∧
    preroll_session.frame_count = 0 ∧
    ((3 : Nat) : Int) ≤ get_free_slots preroll_session preroll_session.slot_count ∧
    ∃ s, process_frames 0 6 preroll_session = some s ∧
      s.raw_recording_state = RAW_PRE_RECORDING ∧ s.frame_count = (3 : Nat) ∧
      queue_list s = [] :=
  ⟨by decide, by decide, by decide, by decide,
    (pre_record_buffers_budget_less_one 0 preroll_session 3 6 (by decide) (by decide)
      (by decide) (by decide) (by decide) (by decide) (by decide) (by decide) (by decide)
      (by decide) (by decide) (by decide) (by decide)).imp
      (fun _ h => ⟨h.1, h.2.1, h.2.2.1, h.2.2.2.1⟩)⟩
/-! ## The sentinel after a frame -/

/-- C29. For a slot whose payload size `p` is not negative and whose size is `64 + p + 4`
rounded up to a multiple of 512 (a freshly carved slot with `p = frame_size_uncompressed`,
a slot after `shrink_slot(i, p)`), the sentinel word that `frame_add_checks` and
`frame_mark_complete` write at `after_frame` occupies the byte offsets `[64 + r, 64 + r + 4)`
from the start of the slot, with `r = (p + 3) & ~3`, and lies inside the slot:
`64 + r + 4 <= size`. -/
theorem after_frame_inside_slot (s : frame_slot) (hp : 0 ≤ s.payload_size)
    (hs : s.size = frame_size_padded s.payload_size) :
    after_frame s = s.ptr + 64 + edmac_size s.payload_size ∧
    s.ptr ≤ after_frame s ∧ after_frame s + 4 ≤ s.ptr + s.size ∧
    64 + edmac_size s.payload_size + 4 ≤ s.size := by
  rw [hs]
  unfold after_frame edmac_size frame_size_padded VIDF_HDR_SIZE
  refine ⟨rfl, ?_, ?_, ?_⟩ <;> omega

/-- C29 on `odd_payload_slot`: payload 441, `r = 444`, sentinel at offsets 508 .. 511 of a
slot of 512 bytes. -/
theorem after_frame_inside_slot_witness :
    0 ≤ odd_payload_slot.payload_size ∧
    odd_payload_slot.size = frame_size_padded odd_payload_slot.payload_size ∧
    after_frame odd_payload_slot = odd_payload_slot.ptr + 64 + 444 ∧
    after_frame odd_payload_slot + 4 ≤ odd_payload_slot.ptr + odd_payload_slot.size :=
  ⟨by decide, by decide, by decide,
    (after_frame_inside_slot odd_payload_slot (by decide) (by decide)).2.2.1⟩
/-! ## The throttle of the writer -/

theorem throttle_eq (st : State) (w fps gs n : Int) :
    throttle st w fps gs n =
      if w ≠ 0 ∧ 0 ≤ frame_limit st w fps gs n ∧ frame_limit st w fps gs n < n then
        max 1 (frame_limit st w fps gs n - 1)
      else n := by
  unfold throttle
  simp only []
  by_cases hw : w ≠ 0
  · rw [if_pos hw]
    split_ifs with h1 h2 h2
    · rfl
    · exact absurd ⟨hw, h1.1, h1.2⟩ h2
    · exact absurd ⟨ge_iff_le.2 h2.2.1, h2.2.2⟩ h1
    · rfl
  · rw [if_neg hw, if_neg (fun h => hw h.1)]

theorem queued_pool_inv : queue_inv queued_pool := by
  have hlen : queue_len queued_pool = 3 := by decide
  refine ⟨by decide, by decide, by decide, fun k hk => ?_, fun k k' hk hk' => ?_,
    fun h => absurd h (by decide)⟩
  · rw [hlen] at hk
    interval_cases k <;> decide
  · rw [hlen] at hk hk'
    interval_cases k <;> interval_cases k' <;> decide


/-! ## An iteration of the main loop, preempted by the hooks -/

theorem burst_hook (P : Int) (H : Int) (E : Nat → Int) (L0 num : Nat)
    (ts ts' : task_state) (op : hook_op) (hB : burst_rel H E L0 num ts)
    (h : task_step P ts (task_op.hook op) = some ts') : burst_rel H E L0 num ts' := by
  obtain ⟨b1, b2, b3⟩ := hB
  obtain ⟨_, _, e1, _, _, e4, _, _, _, e8, _⟩ := hook_pending P ts ts' op h
  obtain ⟨i1, ⟨_, a2, a3, _⟩, _⟩ := hook_task_inv P ts ts' op b1 h
  refine ⟨i1, by rw [e4]; exact b2, fun hpc => ?_⟩
  rw [e1] at hpc ⊢
  obtain ⟨d, d1, d2, d3, d4, d5, d6⟩ := b3 hpc
  refine ⟨d, d1, by rw [e8]; exact d2, by omega, fun k hk1 hk2 => ?_, d5, d6⟩
  rw [a3 (k - d) (by omega)]
  exact d4 k hk1 hk2

theorem burst_marking (env : writer_env) (H : Int) (E : Nat → Int) (L0 num : Nat)
    (st : State) (w i a g n s wt fs lg : Int) (ts' : task_state)
    (hB : burst_rel H E L0 num ⟨st, writer_pc.marking, w, i, a, g, n, s, wt, fs, lg⟩)
    (h : writer_step env ⟨st, writer_pc.marking, w, i, a, g, n, s, wt, fs, lg⟩ = some ts') :
    burst_rel H E L0 num ts' := by
  obtain ⟨b1, b2, b3⟩ := hB
  have hk := (writer_task_inv env _ ts' b1 h).1
  obtain ⟨d, d1, d2, d3, d4, d5, _⟩ := b3 (Or.inl rfl)
  have d0 := d5 (Or.inl rfl)
  subst d0
  unfold writer_step at h
  dsimp only at h
  by_cases c : i ≠ a
  · rw [if_pos c] at h
    simp only [Option.some.injEq] at h
    subst h
    exact ⟨hk, b2, fun _ => ⟨0, d1, d2, d3, d4, fun _ => rfl, fun hc => by cases hc⟩⟩
  · rw [if_neg c] at h
    simp only [Option.some.injEq] at h
    subst h
    exact ⟨hk, b2, fun _ => ⟨0, d1, d2, d3, d4, fun _ => rfl, fun hc => by cases hc⟩⟩

theorem burst_writing (env : writer_env) (H : Int) (E : Nat → Int) (L0 num : Nat)
    (st : State) (w i a g n s wt fs lg : Int) (ts' : task_state)
    (hB : burst_rel H E L0 num ⟨st, writer_pc.writing, w, i, a, g, n, s, wt, fs, lg⟩)
    (h : writer_step env ⟨st, writer_pc.writing, w, i, a, g, n, s, wt, fs, lg⟩ = some ts') :
    burst_rel H E L0 num ts' := by
  obtain ⟨b1, b2, b3⟩ := hB
  have hk := (writer_task_inv env _ ts' b1 h).1
  obtain ⟨d, d1, d2, d3, d4, d5, _⟩ := b3 (Or.inr (Or.inl rfl))
  have d0 := d5 (Or.inr rfl)
  subst d0
  have l1 : w = st.writing_queue_head := b1.2.1
  subst l1
  unfold writer_step at h
  dsimp only at h
  cases ho : env.outcome with
  | ok =>
    rw [ho] at h
    simp only [write_frames, one_ne_zero, if_false, Option.some.injEq] at h
    subst h
    exact ⟨hk, b2, fun _ => ⟨0, d1, d2, d3, d4, fun _ => rfl, fun hc => by cases hc⟩⟩
  | card_full =>
    rw [ho] at h
    simp only [write_frames, if_true, Option.some.injEq] at h
    subst h
    refine ⟨hk, b2, fun hpc => ?_⟩
    rcases hpc with hc | hc | hc | hc <;> cases hc
  | failed =>
    rw [ho] at h
    simp only [write_frames, if_true, Option.some.injEq] at h
    subst h
    refine ⟨hk, b2, fun hpc => ?_⟩
    rcases hpc with hc | hc | hc | hc <;> cases hc

theorem burst_freeing (env : writer_env) (H : Int) (E : Nat → Int) (L0 num : Nat)
    (hnum : num ≤ 511)
    (st : State) (w i a g n s wt fs lg : Int) (ts' : task_state)
    (hB : burst_rel H E L0 num ⟨st, writer_pc.freeing, w, i, a, g, n, s, wt, fs, lg⟩)
    (h : writer_step env ⟨st, writer_pc.freeing, w, i, a, g, n, s, wt, fs, lg⟩ = some ts') :
    burst_rel H E L0 num ts' := by
  obtain ⟨b1, b2, b3⟩ := hB
  have hk := (writer_task_inv env _ ts' b1 h).1
  obtain ⟨d, d1, d2, d3, d4, _, _⟩ := b3 (Or.inr (Or.inr (Or.inl rfl)))
  have b2' : a = (H + num) % 512 := b2
  have d2' : i = (H + d) % 512 := d2
  obtain ⟨r, l1, l2⟩ : ∃ r : Nat, a = (i + r) % 512 ∧
    r ≤ queue_len (set_writer i st.last_processed_frame st) := b1.2
  have d3' : L0 - d ≤ queue_len (set_writer i st.last_processed_frame st) := d3
  have d4' : ∀ k, d ≤ k → k < L0 →
    queue_slot (set_writer i st.last_processed_frame st) (k - d) = E k := d4
  unfold writer_step at h
  dsimp only at h
  by_cases c : i ≠ a
  · rw [if_pos c] at h
    simp only [Option.some.injEq] at h
    subst h
    have hr : 1 ≤ r := by
      rcases Nat.eq_zero_or_pos r with h0 | h0
      · exfalso; apply c; rw [l1, h0]; simp; omega
      · exact h0
    have hd : d < num := by
      rcases Nat.lt_or_ge d num with h1 | h1
      · exact h1
      · exfalso; apply c; rw [b2', d2']
        have : d = num := by omega
        rw [this]
    generalize hedef : (st.writing_queue i.toNat).toNat = e at hk
    have hc := check_frame_order_eq st e
    generalize check_frame_order st e = s1 at hc hk
    have hf := free_slot_eq s1 e
    obtain ⟨q1, q2, _⟩ := dequeue_queue (set_writer i st.last_processed_frame st)
      (pending ⟨free_slot s1 e, writer_pc.freeing, w, MOD (i + 1) (COUNT_writing_queue : Int),
        a, g, n, s, wt, fs, lg⟩) 1
      (by show (free_slot s1 e).writing_queue = st.writing_queue; rw [hf, hc])
      (by show (free_slot s1 e).writing_queue_tail = st.writing_queue_tail; rw [hf, hc])
      rfl (by omega)
    refine ⟨hk, b2, fun _ => ⟨d + 1, by omega, ?_, by rw [q1]; omega, fun k hk1 hk2 => ?_,
      fun hc => (by rcases hc with hc | hc <;> cases hc), fun hc => by cases hc⟩⟩
    · show MOD (i + 1) (COUNT_writing_queue : Int) = (H + (d + 1 : Nat)) % 512
      rw [mod_queue, d2']
      push_cast
      omega
    · rw [q2, ← d4' k (by omega) hk2]
      congr 1
      omega
  · rw [if_neg c] at h
    simp only [Option.some.injEq] at h
    subst h
    have c' : i = a := not_not.1 c
    subst c'
    have hdn : d = num := by omega
    exact ⟨hk, b2, fun _ => ⟨d, d1, d2, d3, d4, fun hc => (by rcases hc with hc | hc <;> cases hc),
      fun _ => hdn⟩⟩

/-- The relation of an iteration of the main loop holds as long as the iteration lasts,
and at its end. -/
theorem run_burst_rel (P : Int) (H : Int) (E : Nat → Int) (L0 num : Nat)
    (hnum : num ≤ 511) :
    ∀ (ops : List task_op) (ts ts' : task_state), burst_rel H E L0 num ts →
      run_burst P ts ops = some ts' → burst_rel H E L0 num ts' := by
  intro ops
  induction ops with
  | nil =>
    intro ts ts' hB h
    simp only [run_burst, Option.some.injEq] at h
    subst h
    exact hB
  | cons op ops ih =>
    intro ts ts' hB h
    rw [run_burst] at h
    by_cases hpc : ts.pc = writer_pc.marking ∨ ts.pc = writer_pc.writing ∨
        ts.pc = writer_pc.freeing
    · rw [if_pos hpc] at h
      cases hs : task_step P ts op with
      | none => rw [hs] at h; cases h
      | some s1 =>
        rw [hs] at h
        refine ih s1 ts' ?_ h
        cases op with
        | hook o => exact burst_hook P H E L0 num ts s1 o hB hs
        | writer env =>
          obtain ⟨st, pc, w, i, a, g, n, s, wt, fs, lg⟩ := ts
          have hs' : writer_step env ⟨st, pc, w, i, a, g, n, s, wt, fs, lg⟩ = some s1 := hs
          rcases hpc with hc | hc | hc
          · have hc' : pc = writer_pc.marking := hc
            subst hc'
            exact burst_marking env H E L0 num st w i a g n s wt fs lg s1 hB hs'
          · have hc' : pc = writer_pc.writing := hc
            subst hc'
            exact burst_writing env H E L0 num st w i a g n s wt fs lg s1 hB hs'
          · have hc' : pc = writer_pc.freeing := hc
            subst hc'
            exact burst_freeing env H E L0 num hnum st w i a g n s wt fs lg s1 hB hs'
    · rw [if_neg hpc] at h
      simp only [Option.some.injEq] at h
      subst h
      exact hB

set_option maxRecDepth 100000 in
/-- The 32-bit products of the throttle: with 100 FREE slots at 25 frames per second
`overflow_time` is 40, with `measured_write_speed = 11378` the last product is
`4096 * 1024 * 1024 = 2^32` and wraps to 0, so `frame_limit` is 0 and a group of three
frames is cut to one frame. -/
theorem frame_limit_wraps :
    get_free_slots hundred_free hundred_free.slot_count = 100 ∧
    int32 (4096 * 1024 * 1024) = 0 ∧
    frame_limit hundred_free 11378 25000 3145728 3 = 0 ∧
    throttle hundred_free 11378 25000 3145728 3 = 1 := by
  decide

/-- Without a call of a hook in between, the passes of the grouping loop of the task
compute what `group_loop` computes. -/
theorem grouping_passes (P : Int) (env : writer_env) (st : State) (w a n s wt fs : Int) :
    ∀ (fuel : Nat) (i lg g : Int) (res : Int × Int),
      group_loop st (st.slots fs.toNat).ptr wt fuel i lg g = some res →
      ∃ (k : Nat) (j : Int), k ≤ fuel ∧
        run_task P ⟨st, writer_pc.grouping, w, i, a, g, n, s, wt, fs, lg⟩
            (List.replicate k (task_op.writer env))
          = some ⟨st, writer_pc.throttling, w, j, a, res.2, n, s, wt, fs, res.1⟩ := by
  intro fuel
  induction fuel with
  | zero =>
    intro i lg g res h
    simp only [group_loop] at h
    cases h
  | succ fuel ih =>
    intro i lg g res h
    rw [group_loop] at h
    by_cases c1 : i ≠ wt
    · rw [if_pos c1] at h
      dsimp only at h
      by_cases c2 : (st.slots (st.writing_queue i.toNat).toNat).ptr
          = (st.slots fs.toNat).ptr + g
      · rw [if_pos c2] at h
        obtain ⟨k, j, hk, hr⟩ := ih _ _ _ res h
        refine ⟨k + 1, j, by omega, ?_⟩
        rw [List.replicate_succ, run_task]
        have hs : task_step P ⟨st, writer_pc.grouping, w, i, a, g, n, s, wt, fs, lg⟩
            (task_op.writer env)
            = some ⟨st, writer_pc.grouping, w, MOD (i + 1) (COUNT_writing_queue : Int), a,
                g + (st.slots (st.writing_queue i.toNat).toNat).size, n, s, wt, fs, i⟩ := by
          unfold task_step writer_step
          dsimp only
          rw [if_pos c1, if_pos c2]
        rw [hs]
        exact hr
      · rw [if_neg c2] at h
        simp only [Option.some.injEq] at h
        subst h
        refine ⟨1, i, by omega, ?_⟩
        rw [List.replicate_succ, run_task]
        have hs : task_step P ⟨st, writer_pc.grouping, w, i, a, g, n, s, wt, fs, lg⟩
            (task_op.writer env)
            = some ⟨st, writer_pc.throttling, w, i, a, g, n, s, wt, fs, lg⟩ := by
          unfold task_step writer_step
          dsimp only
          rw [if_pos c1, if_neg c2]
        rw [hs]
        rfl
    · rw [if_neg c1] at h
      simp only [Option.some.injEq] at h
      subst h
      refine ⟨1, i, by omega, ?_⟩
      rw [List.replicate_succ, run_task]
      have hs : task_step P ⟨st, writer_pc.grouping, w, i, a, g, n, s, wt, fs, lg⟩
          (task_op.writer env)
          = some ⟨st, writer_pc.throttling, w, i, a, g, n, s, wt, fs, lg⟩ := by
        unfold task_step writer_step
        dsimp only
        rw [if_neg c1]
      rw [hs]
      rfl

/-- From the test of the main loop, in a recording with live view on, `buffer_full` clear,
a queue that is not empty and a first frame that is complete, the steps of the task reach
the place behind the grouping loop; without a call of a hook in between, `last_grouped`
and `group_size` are there what `group_frames` gives. -/
theorem grouping_steps_group_frames (P : Int) (env : writer_env) (st : State)
    (w i a g n s wt fs lg : Int) (hq : queue_inv st) (hrec : RAW_IS_RECORDING st)
    (hlv : env.lv ≠ 0) (hbf : st.buffer_full = 0)
    (hne : st.writing_queue_head ≠ st.writing_queue_tail) (hcheck : env.check ≠ 0) :
    ∃ (k : Nat) (j last_grouped group_size : Int),
      group_frames st = some (last_grouped, group_size) ∧
      run_task P ⟨st, writer_pc.loop_head, w, i, a, g, n, s, wt, fs, lg⟩
          (List.replicate (k + 1) (task_op.writer env))
        = some ⟨st, writer_pc.throttling, st.writing_queue_head, j, a, group_size, n, s,
            st.writing_queue_tail, st.writing_queue st.writing_queue_head.toNat,
            last_grouped⟩ := by
  obtain ⟨n0, _, _, g3, _, _, _⟩ := group_frames_prefix st hq.1 hq.2.1 hne
  have g3' := g3
  unfold group_frames at g3'
  obtain ⟨k, j, _, hr⟩ := grouping_passes P env st st.writing_queue_head a n s
    st.writing_queue_tail (st.writing_queue st.writing_queue_head.toNat) _ _ _ _ _ g3'
  refine ⟨k, j, _, _, g3, ?_⟩
  rw [List.replicate_succ, run_task]
  have hs : task_step P ⟨st, writer_pc.loop_head, w, i, a, g, n, s, wt, fs, lg⟩
      (task_op.writer env)
      = some ⟨st, writer_pc.grouping, st.writing_queue_head, st.writing_queue_head, a, 0, n,
          s, st.writing_queue_tail, st.writing_queue st.writing_queue_head.toNat,
          st.writing_queue_head⟩ := by
    unfold task_step writer_step
    dsimp only
    rw [if_neg (by simp only [not_not]; exact ⟨hrec, hlv⟩), if_neg (by simp [hbf]),
      if_neg hne, if_neg hcheck]
  rw [hs]
  exact hr

/-- The step of the task behind the grouping loop. -/
theorem writer_step_throttle (env : writer_env) (st : State) (w i a g n s wt fs lg : Int)
    (hi : task_inv ⟨st, writer_pc.throttling, w, i, a, g, n, s, wt, fs, lg⟩) :
    ∃ n0 m : Nat, 1 ≤ n0 ∧ n0 ≤ queue_len st ∧ w = st.writing_queue_head ∧
      MOD (lg - w + 1) (COUNT_writing_queue : Int) = n0 ∧
      (m : Int) = throttle st env.measured_write_speed env.fps g n0 ∧
      1 ≤ m ∧ m ≤ n0 ∧
      writer_step env ⟨st, writer_pc.throttling, w, i, a, g, n, s, wt, fs, lg⟩
        = some ⟨if (st.writing_queue_head + m) % 512 = st.writing_queue_tail then
                  { st with force_new_buffer := 1 } else st,
                writer_pc.marking, st.writing_queue_head, st.writing_queue_head,
                (st.writing_queue_head + m) % 512, g, m, s, wt, fs, lg⟩ := by
  have hq : queue_inv st := hi.1
  obtain ⟨l1, n0, l2, l3, l4⟩ := hi.2
  have l1' : w = st.writing_queue_head := l1
  have l3' : n0 ≤ queue_len st := l3
  have l4' : lg = (st.writing_queue_head + n0 - 1) % 512 := l4
  have hh := hq.1
  have hL := queue_len_eq st
  have hn : MOD (lg - w + 1) (COUNT_writing_queue : Int) = n0 := by
    rw [mod_queue]
    omega
  obtain ⟨t1, t2⟩ := throttle_bounds st env.measured_write_speed env.fps g n0
    (by exact_mod_cast l2)
  obtain ⟨m, hm⟩ : ∃ m : Nat, throttle st env.measured_write_speed env.fps g n0 = m :=
    ⟨(throttle st env.measured_write_speed env.fps g n0).toNat, by omega⟩
  refine ⟨n0, m, l2, l3', l1', hn, hm.symm, by omega, by omega, ?_⟩
  unfold writer_step
  dsimp only
  rw [hn, hm, mod_queue, l1']

/-- C21. The writer task begins at the test of its main loop with a queue that satisfies
`queue_inv`; after any events (calls of the hooks and steps of the task) it stands behind
the grouping loop, with the grouped count `n = MOD(last_grouped - w_head + 1,
COUNT(writing_queue))`.  Then `1 <= n`, the `n` grouped frames are on the queue, and the
next step of the task returns with `num = num_frames = throttle(n)` at the loop that marks
`num` frames, `1 <= num <= n`; when a write speed is known and `0 <= frame_limit < n` the
burst is `max(1, frame_limit - 1)` frames, otherwise it is `n` frames.  Whatever the hooks
do while the task marks, writes and releases the `num` frames, when the iteration ends
`writing_queue_head` has advanced by `num` and the later entries of the queue are where
they were, `num` places nearer to the head; so when the throttle applies to a group of at
least two frames, `num < n` and the grouped frame at position `num` is at the head of the
queue after the burst. -/
theorem throttle_shortens_burst (PTR_INVALID : Int) (env : writer_env)
    (ts0 ts : task_state) (ops0 : List task_op)
    (hpc0 : ts0.pc = writer_pc.loop_head) (hq : queue_inv ts0.st)
    (hrun : run_task PTR_INVALID ts0 ops0 = some ts) (hpc : ts.pc = writer_pc.throttling) :
    ∃ (n num : Nat) (ts1 : task_state),
      writer_step env ts = some ts1 ∧
      (n : Int) = MOD (ts.last_grouped - ts.w_head + 1) (COUNT_writing_queue : Int) ∧
      (num : Int) = throttle ts.st env.measured_write_speed env.fps ts.group_size n ∧
      ts1.pc = writer_pc.marking ∧ ts1.num_frames = num ∧
      ts.w_head = ts.st.writing_queue_head ∧
      ts1.after_last_grouped = MOD (ts.w_head + num) (COUNT_writing_queue : Int) ∧
      1 ≤ num ∧ num ≤ n ∧ n ≤ queue_len ts.st ∧
      (env.measured_write_speed ≠ 0 →
        0 ≤ frame_limit ts.st env.measured_write_speed env.fps ts.group_size n →
        frame_limit ts.st env.measured_write_speed env.fps ts.group_size n < n →
        (num : Int)
          = max 1 (frame_limit ts.st env.measured_write_speed env.fps ts.group_size n - 1) ∧
        (2 ≤ n → num < n ∧
          ∀ ops ts2, run_burst PTR_INVALID ts1 ops = some ts2 →
            ts2.pc = writer_pc.loop_head →
            0 < queue_len ts2.st ∧ queue_slot ts2.st 0 = queue_slot ts.st num)) ∧
      (¬ (env.measured_write_speed ≠ 0 ∧
          0 ≤ frame_limit ts.st env.measured_write_speed env.fps ts.group_size n ∧
          frame_limit ts.st env.measured_write_speed env.fps ts.group_size n < n) →
        num = n) ∧
      (∀ ops ts2, run_burst PTR_INVALID ts1 ops = some ts2 →
        ts2.pc = writer_pc.loop_head →
        ts2.st.writing_queue_head = (ts.st.writing_queue_head + num) % 512 ∧
        queue_len ts.st - num ≤ queue_len ts2.st ∧
        ∀ k, num ≤ k → k < queue_len ts.st →
          queue_slot ts2.st (k - num) = queue_slot ts.st k) := by
  have hinv0 : task_inv ts0 := by
    obtain ⟨st0, pc0, w0, i0, a0, g0, n0, s0, wt0, fs0, lg0⟩ := ts0
    have hpc0' : pc0 = writer_pc.loop_head := hpc0
    subst hpc0'
    have hq0 : queue_inv st0 := hq
    exact ⟨hq0, trivial⟩
  have hinv1 := (run_task_inv PTR_INVALID ops0 ts0 ts hinv0 hrun).1
  clear hrun hinv0 hq hpc0
  obtain ⟨st, pc, w, i, a, g, n', s, wt, fs, lg⟩ := ts
  have hpc' : pc = writer_pc.throttling := hpc
  subst hpc'
  have hq' : queue_inv st := hinv1.1
  obtain ⟨n0, m, g1, g2, gw, g4, hm, hm1, hm2, hs⟩ :=
    writer_step_throttle env st w i a g n' s wt fs lg hinv1
  have hk := (writer_task_inv env _ _ hinv1 hs).1
  have te := throttle_eq st env.measured_write_speed env.fps g n0
  rw [← hm] at te
  have hL := queue_len_eq st
  have hh := hq'.1
  have hburst : ∀ ops ts2,
      run_burst PTR_INVALID
        ⟨if (st.writing_queue_head + m) % 512 = st.writing_queue_tail then
            { st with force_new_buffer := 1 } else st,
          writer_pc.marking, st.writing_queue_head, st.writing_queue_head,
          (st.writing_queue_head + m) % 512, g, m, s, wt, fs, lg⟩ ops = some ts2 →
      ts2.pc = writer_pc.loop_head →
      ts2.st.writing_queue_head = (st.writing_queue_head + m) % 512 ∧
      queue_len st - m ≤ queue_len ts2.st ∧
      ∀ k, m ≤ k → k < queue_len st → queue_slot ts2.st (k - m) = queue_slot st k := by
    intro ops ts2 hr hp2
    have hB : burst_rel st.writing_queue_head (queue_slot st) (queue_len st) m
        ⟨if (st.writing_queue_head + m) % 512 = st.writing_queue_tail then
            { st with force_new_buffer := 1 } else st,
          writer_pc.marking, st.writing_queue_head, st.writing_queue_head,
          (st.writing_queue_head + m) % 512, g, m, s, wt, fs, lg⟩ := by
      refine ⟨hk, rfl, fun _ => ⟨0, Nat.zero_le _, ?_, ?_, fun k _ hk2 => ?_, fun _ => rfl,
        fun hc => by cases hc⟩⟩
      · show (if (st.writing_queue_head + m) % 512 = st.writing_queue_tail then
            { st with force_new_buffer := 1 } else st).writing_queue_head
          = (st.writing_queue_head + ((0 : Nat) : Int)) % 512
        split_ifs <;> (show st.writing_queue_head = _; push_cast; omega)
      · show queue_len st - 0 ≤ queue_len (set_writer _ _ _)
        split_ifs <;> exact le_refl _
      · show queue_slot (set_writer _ _ _) (k - 0) = queue_slot st k
        split_ifs <;> rfl
    obtain ⟨_, _, b3⟩ := run_burst_rel PTR_INVALID st.writing_queue_head (queue_slot st)
      (queue_len st) m (by omega) ops _ ts2 hB hr
    obtain ⟨d, _, d2, d3, d4, _, d6⟩ := b3 (Or.inr (Or.inr (Or.inr hp2)))
    have hd := d6 hp2
    subst hd
    obtain ⟨e1, e2⟩ := queue_pending_plain ts2 (by rw [hp2]; decide) (by rw [hp2]; decide)
    have hpos : position ts2 = ts2.st.writing_queue_head := by
      unfold position
      simp only [hp2]
    rw [hpos] at d2
    rw [e1] at d3
    exact ⟨d2, d3, fun k hk1 hk2 => by rw [← e2]; exact d4 k hk1 hk2⟩
  refine ⟨n0, m, _, hs, g4.symm, hm, rfl, rfl, gw, ?_, hm1, hm2, g2,
    fun hw h0 hlt => ?_, fun hno => ?_, hburst⟩
  · show (st.writing_queue_head + (m : Int)) % 512 = MOD (w + m) (COUNT_writing_queue : Int)
    rw [mod_queue, gw]
  · have h0' : 0 ≤ frame_limit st env.measured_write_speed env.fps g n0 := h0
    have hlt0 : frame_limit st env.measured_write_speed env.fps g n0 < n0 := hlt
    clear h0 hlt
    rw [if_pos ⟨hw, h0', hlt0⟩] at te
    refine ⟨te, fun h2 => ?_⟩
    have hlt' : m < n0 := by
      have : (m : Int) < n0 := by
        rw [te]
        rcases max_cases (1 : Int)
          (frame_limit st env.measured_write_speed env.fps g n0 - 1) with h | h
        · rw [h.1]; exact_mod_cast h2
        · rw [h.1]; omega
      exact_mod_cast this
    refine ⟨hlt', fun ops ts2 hr hp2 => ?_⟩
    obtain ⟨_, c2, c3⟩ := hburst ops ts2 hr hp2
    refine ⟨by omega, ?_⟩
    have := c3 m (le_refl _) (by omega)
    rw [Nat.sub_self] at this
    exact this
  · rw [if_neg hno] at te
    exact_mod_cast te

/-- C21 on `queued_pool`: the task groups slots 0 and 1 in `grouping_steps`, one slot is
FREE, `frame_limit` is 0 and the burst is one frame; while the task releases it a vertical
sync captures a frame in the released slot 0; at the end of the iteration the queue is 1, 3,
0: the second grouped frame (slot 1) is at its head. -/
theorem throttle_shortens_burst_witness :
    (task_start queued_pool).pc = writer_pc.loop_head ∧
    queue_inv (task_start queued_pool).st ∧
    run_task 0 (task_start queued_pool) grouping_steps = some grouped_start ∧
    grouped_start.pc = writer_pc.throttling ∧
    grouped_start.last_grouped = 511 ∧ grouped_start.w_head = 510 ∧
    grouped_start.group_size = 4096 ∧
    writer_step slow_card_env grouped_start = some throttled_start ∧
    frame_limit queued_pool 100 25000 4096 2 = 0 ∧
    throttled_start.num_frames = 1 ∧
    queue_list queued_pool = [0, 1, 3] ∧
    run_burst 0 throttled_start throttled_burst = some throttled_end ∧
    throttled_end.pc = writer_pc.loop_head ∧
    queue_list throttled_end.st = [1, 3, 0] ∧
    ∃ (n num : Nat) (ts1 : task_state),
      writer_step slow_card_env grouped_start = some ts1 ∧
      (n : Int) = MOD (grouped_start.last_grouped - grouped_start.w_head + 1)
        (COUNT_writing_queue : Int) ∧
      (num : Int) = throttle grouped_start.st 100 25000 grouped_start.group_size n ∧
      ts1.pc = writer_pc.marking ∧ ts1.num_frames = num ∧
      1 ≤ num ∧ num ≤ n ∧ n ≤ queue_len grouped_start.st :=
  ⟨rfl, queued_pool_inv, rfl, by decide, by decide, by decide, by decide, rfl, by decide,
    by decide, by decide, rfl, by decide, by decide,
    (throttle_shortens_burst 0 slow_card_env (task_start queued_pool) grouped_start
      grouping_steps rfl queued_pool_inv rfl (by decide)).imp
      (fun _ h1 => h1.imp (fun _ h2 => h2.imp (fun _ h3 =>
        ⟨h3.1, h3.2.1, h3.2.2.1, h3.2.2.2.1, h3.2.2.2.2.1,
          h3.2.2.2.2.2.2.2.1, h3.2.2.2.2.2.2.2.2.1, h3.2.2.2.2.2.2.2.2.2.1⟩)))⟩

/-! ## The task without preemption

When no hook is called while the task runs an iteration of its main loop, the steps of
`writer_step` give what `writer_iteration` gives. -/

theorem run_task_append (P : Int) : ∀ (l1 l2 : List task_op) (ts ts1 ts2 : task_state),
    run_task P ts l1 = some ts1 → run_task P ts1 l2 = some ts2 →
    run_task P ts (l1 ++ l2) = some ts2 := by
  intro l1
  induction l1 with
  | nil =>
    intro l2 ts ts1 ts2 h1 h2
    simp only [run_task, Option.some.injEq] at h1
    subst h1
    exact h2
  | cons op l1 ih =>
    intro l2 ts ts1 ts2 h1 h2
    rw [run_task] at h1
    rw [List.cons_append, run_task]
    cases hs : task_step P ts op with
    | none => rw [hs] at h1; cases h1
    | some s1 =>
      rw [hs] at h1
      exact ih l2 s1 ts1 ts2 h1 h2

theorem run_task_replicate_add (P : Int) (op : task_op) (a b : Nat) (ts ts1 ts2 : task_state)
    (h1 : run_task P ts (List.replicate a op) = some ts1)
    (h2 : run_task P ts1 (List.replicate b op) = some ts2) :
    run_task P ts (List.replicate (a + b) op) = some ts2 := by
  rw [List.replicate_add]
  exact run_task_append P _ _ ts ts1 ts2 h1 h2

/-- Without a call of a hook in between, the passes of the loop "mark these frames as
writing" compute `mark_writing`. -/
theorem marking_passes (P : Int) (env : writer_env) (w stop g n s wt fs lg : Int) :
    ∀ (d fuel : Nat) (i : Int) (st : State), d < fuel → d ≤ 511 → 0 ≤ i → i < 512 →
      stop = (i + d) % 512 →
      run_task P ⟨st, writer_pc.marking, w, i, stop, g, n, s, wt, fs, lg⟩
          (List.replicate (d + 1) (task_op.writer env))
        = some ⟨mark_writing fuel i stop st, writer_pc.writing, w, stop, stop, g, n, s, wt,
            fs, lg⟩ := by
  intro d
  induction d with
  | zero =>
    intro fuel i st hf _ h0 h1 hs
    have hi : i = stop := by rw [hs]; push_cast; omega
    subst hi
    obtain ⟨f, rfl⟩ : ∃ f, fuel = f + 1 := ⟨fuel - 1, by omega⟩
    rw [mark_writing, if_neg (by simp)]
    rw [List.replicate_succ, run_task]
    have hst : task_step P ⟨st, writer_pc.marking, w, i, i, g, n, s, wt, fs, lg⟩
        (task_op.writer env)
        = some ⟨st, writer_pc.writing, w, i, i, g, n, s, wt, fs, lg⟩ := by
      unfold task_step writer_step
      dsimp only
      rw [if_neg (by simp)]
    rw [hst]
    rfl
  | succ d ih =>
    intro fuel i st hf hd h0 h1 hs
    have hi : i ≠ stop := by rw [hs]; push_cast; omega
    obtain ⟨f, rfl⟩ : ∃ f, fuel = f + 1 := ⟨fuel - 1, by omega⟩
    rw [mark_writing, if_pos hi]
    rw [List.replicate_succ, run_task]
    have hst : task_step P ⟨st, writer_pc.marking, w, i, stop, g, n, s, wt, fs, lg⟩
        (task_op.writer env)
        = some ⟨set_status st (st.writing_queue i.toNat).toNat SLOT_WRITING,
            writer_pc.marking, w, MOD (i + 1) (COUNT_writing_queue : Int), stop, g, n, s, wt,
            fs, lg⟩ := by
      unfold task_step writer_step
      dsimp only
      rw [if_pos hi]
    rw [hst]
    refine ih f _ _ (by omega) (by omega) ?_ ?_ ?_
    · rw [mod_queue]; omega
    · rw [mod_queue]; omega
    · rw [mod_queue, hs]; push_cast; omega

/-- Without a call of a hook in between, the passes of the loop "mark these frames as
free" and the statement `writing_queue_head = after_last_grouped` compute
`free_written` and the new head. -/
theorem freeing_passes (P : Int) (env : writer_env) (w stop g n s wt fs lg : Int) :
    ∀ (d fuel : Nat) (i : Int) (st : State), d < fuel → d ≤ 511 → 0 ≤ i → i < 512 →
      stop = (i + d) % 512 →
      run_task P ⟨st, writer_pc.freeing, w, i, stop, g, n, s, wt, fs, lg⟩
          (List.replicate (d + 1) (task_op.writer env))
        = some ⟨{ free_written fuel i stop st with writing_queue_head := stop },
            writer_pc.loop_head, w, stop, stop, g, n, s, wt, fs, lg⟩ := by
  intro d
  induction d with
  | zero =>
    intro fuel i st hf _ h0 h1 hs
    have hi : i = stop := by rw [hs]; push_cast; omega
    subst hi
    obtain ⟨f, rfl⟩ : ∃ f, fuel = f + 1 := ⟨fuel - 1, by omega⟩
    rw [free_written, if_neg (by simp)]
    rw [List.replicate_succ, run_task]
    have hst : task_step P ⟨st, writer_pc.freeing, w, i, i, g, n, s, wt, fs, lg⟩
        (task_op.writer env)
        = some ⟨{ st with writing_queue_head := i }, writer_pc.loop_head, w, i, i, g, n, s,
            wt, fs, lg⟩ := by
      unfold task_step writer_step
      dsimp only
      rw [if_neg (by simp)]
    rw [hst]
    rfl
  | succ d ih =>
    intro fuel i st hf hd h0 h1 hs
    have hi : i ≠ stop := by rw [hs]; push_cast; omega
    obtain ⟨f, rfl⟩ : ∃ f, fuel = f + 1 := ⟨fuel - 1, by omega⟩
    rw [free_written, if_pos hi]
    rw [List.replicate_succ, run_task]
    have hst : task_step P ⟨st, writer_pc.freeing, w, i, stop, g, n, s, wt, fs, lg⟩
        (task_op.writer env)
        = some ⟨free_slot (check_frame_order st (st.writing_queue i.toNat).toNat)
              (st.writing_queue i.toNat).toNat,
            writer_pc.freeing, w, MOD (i + 1) (COUNT_writing_queue : Int), stop, g, n, s, wt,
            fs, lg⟩ := by
      unfold task_step writer_step
      dsimp only
      rw [if_pos hi]
    rw [hst]
    refine ih f _ _ (by omega) (by omega) ?_ ?_ ?_
    · rw [mod_queue]; omega
    · rw [mod_queue]; omega
    · rw [mod_queue, hs]; push_cast; omega

/-- The iteration of the main loop as one step, `writer_iteration`, is the run of the
steps of the task from the test of the main loop, in a recording with live view on,
when no hook is called in between: the steps reach the test of the main loop again, or
the place behind the loop, with the variables of the module that `writer_iteration`
gives. -/
theorem writer_iteration_steps (P : Int) (env : writer_env) (st : State)
    (w i a g n s wt fs lg : Int) (hq : queue_inv st) (hrec : RAW_IS_RECORDING st)
    (hlv : env.lv ≠ 0) :
    ∃ (k : Nat) (ts' : task_state),
      run_task P ⟨st, writer_pc.loop_head, w, i, a, g, n, s, wt, fs, lg⟩
          (List.replicate k (task_op.writer env)) = some ts' ∧
      writer_iteration env.check env.measured_write_speed env.fps env.outcome st
        = some ts'.st ∧
      (ts'.pc = writer_pc.loop_head ∨ ts'.pc = writer_pc.finished) := by
  have hone : ∀ ts1 : task_state,
      writer_step env ⟨st, writer_pc.loop_head, w, i, a, g, n, s, wt, fs, lg⟩ = some ts1 →
      run_task P ⟨st, writer_pc.loop_head, w, i, a, g, n, s, wt, fs, lg⟩
        (List.replicate 1 (task_op.writer env)) = some ts1 := by
    intro ts1 h
    rw [List.replicate_succ, run_task]
    have : task_step P ⟨st, writer_pc.loop_head, w, i, a, g, n, s, wt, fs, lg⟩
        (task_op.writer env) = some ts1 := h
    rw [this]
    rfl
  have hrl : ¬ ¬ (RAW_IS_RECORDING st ∧ env.lv ≠ 0) := by
    simp only [not_not]; exact ⟨hrec, hlv⟩
  by_cases c2 : st.buffer_full ≠ 0
  · refine ⟨1, ⟨st, writer_pc.finished, w, i, a, g, n, s, wt, fs, lg⟩, hone _ ?_, ?_,
      Or.inr rfl⟩
    · unfold writer_step
      dsimp only
      rw [if_neg hrl, if_pos c2]
    · unfold writer_iteration
      rw [if_pos c2]
  by_cases c3 : st.writing_queue_head = st.writing_queue_tail
  · refine ⟨1, ⟨st, writer_pc.loop_head, w, i, a, g, n, s, wt, fs, lg⟩, hone _ ?_, ?_,
      Or.inl rfl⟩
    · unfold writer_step
      dsimp only
      rw [if_neg hrl, if_neg c2, if_pos c3]
    · unfold writer_iteration
      dsimp only
      rw [if_neg c2, if_pos c3]
  by_cases c4 : env.check = 0
  · refine ⟨1, ⟨st, writer_pc.loop_head, w, i, a, g, n, s, wt, fs, lg⟩, hone _ ?_, ?_,
      Or.inl rfl⟩
    · unfold writer_step
      dsimp only
      rw [if_neg hrl, if_neg c2, if_neg c3, if_pos c4]
    · unfold writer_iteration
      dsimp only
      rw [if_neg c2, if_neg c3, if_pos c4]
  have hbf : st.buffer_full = 0 := by simpa using c2
  obtain ⟨n0, g1, g2, g3, g4, _, _⟩ := group_frames_prefix st hq.1 hq.2.1 c3
  obtain ⟨k1, j, lgp, gs, hg, r1⟩ := grouping_steps_group_frames P env st w i a g n s wt fs lg
    hq hrec hlv hbf c3 c4
  rw [g3] at hg
  simp only [Option.some.injEq, Prod.mk.injEq] at hg
  obtain ⟨hg1, hg2⟩ := hg
  subst hg1
  subst hg2
  obtain ⟨t1, t2⟩ := throttle_bounds st env.measured_write_speed env.fps (queue_sum st n0) n0
    (by exact_mod_cast g1)
  obtain ⟨m, hm⟩ : ∃ m : Nat,
      throttle st env.measured_write_speed env.fps (queue_sum st n0) n0 = m :=
    ⟨(throttle st env.measured_write_speed env.fps (queue_sum st n0) n0).toNat, by omega⟩
  have hL := queue_len_eq st
  have hh := hq.1
  have hm511 : m ≤ 511 := by omega
  have hwi : writer_iteration env.check env.measured_write_speed env.fps env.outcome st
      = some (write_group env.outcome st m) := by
    unfold writer_iteration
    dsimp only
    rw [if_neg c2, if_neg c3, if_neg c4, g3]
    dsimp only
    rw [g4, hm]
  have r2 : run_task P
      ⟨st, writer_pc.throttling, st.writing_queue_head, j, a, queue_sum st n0, n, s,
        st.writing_queue_tail, st.writing_queue st.writing_queue_head.toNat,
        MOD (st.writing_queue_head + n0 - 1) (COUNT_writing_queue : Int)⟩
      (List.replicate 1 (task_op.writer env))
      = some ⟨if MOD (st.writing_queue_head + m) (COUNT_writing_queue : Int)
                  = st.writing_queue_tail then { st with force_new_buffer := 1 } else st,
          writer_pc.marking, st.writing_queue_head, st.writing_queue_head,
          MOD (st.writing_queue_head + m) (COUNT_writing_queue : Int), queue_sum st n0, m, s,
          st.writing_queue_tail, st.writing_queue st.writing_queue_head.toNat,
          MOD (st.writing_queue_head + n0 - 1) (COUNT_writing_queue : Int)⟩ := by
    rw [List.replicate_succ, run_task]
    have : task_step P
        ⟨st, writer_pc.throttling, st.writing_queue_head, j, a, queue_sum st n0, n, s,
          st.writing_queue_tail, st.writing_queue st.writing_queue_head.toNat,
          MOD (st.writing_queue_head + n0 - 1) (COUNT_writing_queue : Int)⟩
        (task_op.writer env)
        = some ⟨if MOD (st.writing_queue_head + m) (COUNT_writing_queue : Int)
                  = st.writing_queue_tail then { st with force_new_buffer := 1 } else st,
          writer_pc.marking, st.writing_queue_head, st.writing_queue_head,
          MOD (st.writing_queue_head + m) (COUNT_writing_queue : Int), queue_sum st n0, m, s,
          st.writing_queue_tail, st.writing_queue st.writing_queue_head.toNat,
          MOD (st.writing_queue_head + n0 - 1) (COUNT_writing_queue : Int)⟩ := by
      unfold task_step writer_step
      dsimp only
      rw [g4, hm]
    rw [this]
    rfl
  have r3 := marking_passes P env st.writing_queue_head
    (MOD (st.writing_queue_head + m) (COUNT_writing_queue : Int)) (queue_sum st n0) m s
    st.writing_queue_tail (st.writing_queue st.writing_queue_head.toNat)
    (MOD (st.writing_queue_head + n0 - 1) (COUNT_writing_queue : Int)) m
    (COUNT_writing_queue + 1) st.writing_queue_head
    (if MOD (st.writing_queue_head + m) (COUNT_writing_queue : Int)
        = st.writing_queue_tail then { st with force_new_buffer := 1 } else st)
    (by show m < 512 + 1; omega) hm511 hh.1 hh.2 (mod_queue _)
  have r123 := run_task_replicate_add P _ _ _ _ _ _
    (run_task_replicate_add P _ _ _ _ _ _ r1 r2) r3
  have hmg : mark_writing (COUNT_writing_queue + 1) st.writing_queue_head
      (MOD (st.writing_queue_head + m) (COUNT_writing_queue : Int))
      (if MOD (st.writing_queue_head + m) (COUNT_writing_queue : Int)
        = st.writing_queue_tail then { st with force_new_buffer := 1 } else st)
      = mark_group st m := rfl
  rw [hmg] at r123
  by_cases c5 : (write_frames env.outcome (mark_group st m)).1 = 0
  · refine ⟨k1 + 1 + 1 + (m + 1) + 1,
      ⟨(write_frames env.outcome (mark_group st m)).2, writer_pc.finished,
        st.writing_queue_head, MOD (st.writing_queue_head + m) (COUNT_writing_queue : Int),
        MOD (st.writing_queue_head + m) (COUNT_writing_queue : Int), queue_sum st n0, m, s,
        st.writing_queue_tail, st.writing_queue st.writing_queue_head.toNat,
        MOD (st.writing_queue_head + n0 - 1) (COUNT_writing_queue : Int)⟩,
      run_task_replicate_add P _ _ _ _ _ _ r123 ?_, ?_, Or.inr rfl⟩
    · rw [List.replicate_succ, run_task]
      unfold task_step writer_step
      dsimp only
      rw [if_pos c5]
      rfl
    · rw [hwi]
      unfold write_group
      dsimp only
      rw [if_pos c5]
  · have r4 : run_task P
        ⟨mark_group st m, writer_pc.writing, st.writing_queue_head,
          MOD (st.writing_queue_head + m) (COUNT_writing_queue : Int),
          MOD (st.writing_queue_head + m) (COUNT_writing_queue : Int), queue_sum st n0, m, s,
          st.writing_queue_tail, st.writing_queue st.writing_queue_head.toNat,
          MOD (st.writing_queue_head + n0 - 1) (COUNT_writing_queue : Int)⟩
        (List.replicate 1 (task_op.writer env))
        = some ⟨(write_frames env.outcome (mark_group st m)).2, writer_pc.freeing,
          st.writing_queue_head, st.writing_queue_head,
          MOD (st.writing_queue_head + m) (COUNT_writing_queue : Int), queue_sum st n0, m, s,
          st.writing_queue_tail, st.writing_queue st.writing_queue_head.toNat,
          MOD (st.writing_queue_head + n0 - 1) (COUNT_writing_queue : Int)⟩ := by
      rw [List.replicate_succ, run_task]
      unfold task_step writer_step
      dsimp only
      rw [if_neg c5]
      rfl
    have r5 := freeing_passes P env st.writing_queue_head
      (MOD (st.writing_queue_head + m) (COUNT_writing_queue : Int)) (queue_sum st n0) m s
      st.writing_queue_tail (st.writing_queue st.writing_queue_head.toNat)
      (MOD (st.writing_queue_head + n0 - 1) (COUNT_writing_queue : Int)) m
      (COUNT_writing_queue + 1) st.writing_queue_head
      (write_frames env.outcome (mark_group st m)).2
      (by show m < 512 + 1; omega) hm511 hh.1 hh.2 (mod_queue _)
    refine ⟨k1 + 1 + 1 + (m + 1) + 1 + (m + 1), _,
      run_task_replicate_add P _ _ _ _ _ _ (run_task_replicate_add P _ _ _ _ _ _ r123 r4) r5,
      ?_, Or.inl rfl⟩
    rw [hwi]
    unfold write_group
    dsimp only
    rw [if_neg c5]
/-! ## Termination of shrink_slot and free_slot -/

/-- The recursion of `shrink_slot` from index `i` makes calls for consecutive indices and
needs no more than `COUNT(slots) - i` of them; its result is that of `shrink_slot_rec` with
any depth that reaches the end of the table. -/
theorem shrink_slot_fuel_spec : ∀ (d fuel : Nat) (st : State) (i : Nat) (n : Int),
    COUNT_slots ≤ i + d + 1 → COUNT_slots ≤ i + fuel → 1 ≤ fuel →
    ∃ k, 1 ≤ k ∧ (i < COUNT_slots → k ≤ COUNT_slots - i) ∧
      shrink_slot_fuel fuel st i n = some (shrink_slot_rec d st i n, List.range' i k) := by
  intro d
  induction d with
  | zero =>
    intro fuel st i n hd hf h1
    obtain ⟨f, rfl⟩ : ∃ f, fuel = f + 1 := ⟨fuel - 1, by omega⟩
    have hnl : ¬ linked (shrink_head st i n).slots i (st.slots i).size := by
      intro h
      have := h.1
      omega
    refine ⟨1, le_refl _, fun h => by omega, ?_⟩
    rw [shrink_slot_fuel, shrink_slot_rec]
    simp only []
    rw [if_neg hnl, if_neg hnl]
    rfl
  | succ d ih =>
    intro fuel st i n hd hf h1
    obtain ⟨f, rfl⟩ : ∃ f, fuel = f + 1 := ⟨fuel - 1, by omega⟩
    rw [shrink_slot_fuel, shrink_slot_rec]
    simp only []
    by_cases hl : linked (shrink_head st i n).slots i (st.slots i).size
    · rw [if_pos hl, if_pos hl]
      have hi := hl.1
      split_ifs with hbig
      · obtain ⟨k, k1, k2, e⟩ := ih f
          (grow_next (shrink_head st i n) i ((st.slots i).size - frame_size_padded n))
          (i + 1)
          (grow_next (shrink_head st i n) i
            ((st.slots i).size - frame_size_padded n)).frame_size_uncompressed
          (by omega) (by omega) (by omega)
        rw [e]
        exact ⟨k + 1, by omega, fun _ => by have := k2 hi; omega, rfl⟩
      · exact ⟨1, le_refl _, fun _ => by omega, rfl⟩
    · rw [if_neg hl, if_neg hl]
      exact ⟨1, le_refl _, fun h => by omega, rfl⟩

theorem find_first_fuel_eq (slots : Nat → frame_slot) : ∀ (fuel i : Nat), i ≤ fuel →
    find_first_fuel slots fuel i = some (find_first slots i) := by
  intro fuel
  induction fuel with
  | zero =>
    intro i hi
    have : i = 0 := by omega
    subst this
    rfl
  | succ fuel ih =>
    intro i hi
    cases i with
    | zero => rfl
    | succ i =>
      rw [find_first_fuel, find_first]
      split_ifs
      · exact ih i (by omega)
      · rfl

theorem find_last_fuel_eq (slots : Nat → frame_slot) : ∀ (fuel n i : Nat),
    COUNT_slots ≤ i + fuel + 1 → COUNT_slots ≤ i + n + 1 →
    find_last_fuel slots fuel i = some (find_last slots n i) := by
  intro fuel
  induction fuel with
  | zero =>
    intro n i hf hn
    have hc : ¬ (i + 1 < COUNT_slots ∧ free_or_reserved (slots (i + 1)) ∧
        (slots (i + 1)).ptr = (slots i).ptr + (slots i).size) := fun h => by
      have := h.1
      omega
    rw [find_last_fuel, if_neg hc]
    cases n with
    | zero => rfl
    | succ n => rw [find_last, if_neg hc]
  | succ fuel ih =>
    intro n i hf hn
    rw [find_last_fuel]
    by_cases hc : i + 1 < COUNT_slots ∧ free_or_reserved (slots (i + 1)) ∧
        (slots (i + 1)).ptr = (slots i).ptr + (slots i).size
    · rw [if_pos hc]
      obtain ⟨n, rfl⟩ : ∃ m, n = m + 1 := ⟨n - 1, by have := hc.1; omega⟩
      rw [find_last, if_pos hc]
      exact ih n (i + 1) (by omega) (by omega)
    · rw [if_neg hc]
      cases n with
      | zero => rfl
      | succ n => rw [find_last, if_neg hc]

theorem repartition_fuel_eq (M E : Int) (e : Nat) : ∀ (fuel i : Nat) (p : Int)
    (slots : Nat → frame_slot), e + 1 - i ≤ fuel →
    repartition_fuel M E e fuel i p slots = some (repartition M E (e + 1 - i) i p slots) := by
  intro fuel
  induction fuel with
  | zero =>
    intro i p slots h
    rw [repartition_fuel, if_neg (by omega)]
    have : e + 1 - i = 0 := by omega
    rw [this]
    rfl
  | succ fuel ih =>
    intro i p slots h
    rw [repartition_fuel]
    by_cases hi : i ≤ e
    · rw [if_pos hi]
      have : e + 1 - i = (e + 1 - (i + 1)) + 1 := by omega
      rw [this, repartition_succ]
      exact ih (i + 1) _ _ (by omega)
    · rw [if_neg hi]
      have : e + 1 - i = 0 := by omega
      rw [this]
      rfl

theorem free_slot_fuel_eq (fuel : Nat) (st : State) (i : Nat) (hi : i < COUNT_slots)
    (hf : COUNT_slots ≤ fuel) : free_slot_fuel fuel st i = some (free_slot st i) := by
  unfold free_slot_fuel free_slot
  simp only []
  split_ifs with hsz
  · rfl
  · generalize (set_status st i SLOT_RESERVED).slots = T
    generalize (set_status st i SLOT_RESERVED).max_frame_size = M
    rw [find_first_fuel_eq T fuel i (by omega),
      find_last_fuel_eq T fuel (COUNT_slots - i) i (by omega) (by omega)]
    simp only []
    obtain ⟨_, l2, _, _⟩ := find_last_spec T (COUNT_slots - i) i (by omega)
    have := l2 hi
    rw [repartition_fuel_eq M _ _ fuel _ _ T (by omega)]

/-- C25. For every pool state, every index `slot_index` of the slot table and every bound
`fuel >= COUNT(slots) - slot_index` on the nested calls, `shrink_slot` returns: it makes
`k` calls, for the consecutive indices `slot_index, slot_index + 1, ...`, with
`1 <= k <= COUNT(slots) - slot_index`.  For every bound `fuel >= COUNT(slots)` on the
iterations of each loop, `free_slot` returns: the backwards scan, the forwards scan and
the re-partition loop each end within `COUNT(slots)` iterations.  The results are those of
`shrink_slot` and `free_slot`. -/
theorem shrink_slot_free_slot_terminate (st : State) (slot_index : Nat)
    (new_frame_size : Int) (fuel : Nat) (hi : slot_index < COUNT_slots)
    (hf : COUNT_slots - slot_index ≤ fuel) :
    (∃ k, 1 ≤ k ∧ k ≤ COUNT_slots - slot_index ∧
      shrink_slot_fuel fuel st slot_index new_frame_size
        = some (shrink_slot st slot_index new_frame_size, List.range' slot_index k)) ∧
    (COUNT_slots ≤ fuel → free_slot_fuel fuel st slot_index = some (free_slot st slot_index)) ∧
    (COUNT_slots ≤ fuel →
      find_first_fuel (set_status st slot_index SLOT_RESERVED).slots fuel slot_index ≠ none ∧
      find_last_fuel (set_status st slot_index SLOT_RESERVED).slots fuel slot_index ≠ none) := by
  refine ⟨?_, fun h => free_slot_fuel_eq fuel st slot_index hi h, fun h => ⟨?_, ?_⟩⟩
  · obtain ⟨k, k1, k2, e⟩ := shrink_slot_fuel_spec (COUNT_slots - slot_index) fuel st
      slot_index new_frame_size (by omega) (by omega) (by omega)
    exact ⟨k, k1, k2 hi, e⟩
  · rw [find_first_fuel_eq _ fuel slot_index (by omega)]
    exact Option.some_ne_none _
  · rw [find_last_fuel_eq _ fuel (COUNT_slots - slot_index) slot_index (by omega) (by omega)]
    exact Option.some_ne_none _

/-- C25 on `pool_d`, slot 1, with the bound `COUNT(slots)`. -/
theorem shrink_slot_free_slot_terminate_witness :
    (∃ k, 1 ≤ k ∧ k ≤ COUNT_slots - 1 ∧
      shrink_slot_fuel COUNT_slots pool_d 1 100
        = some (shrink_slot pool_d 1 100, List.range' 1 k)) ∧
    free_slot_fuel COUNT_slots pool_d 1 = some (free_slot pool_d 1) :=
  ⟨(shrink_slot_free_slot_terminate pool_d 1 100 COUNT_slots (by decide) (by decide)).1,
    (shrink_slot_free_slot_terminate pool_d 1 100 COUNT_slots (by decide) (by decide)).2.1
      (le_refl _)⟩
/-! ## The slot table during initialisation -/

/-- C27, failing input: with slots of 128 KiB and one memory chunk of 32 MiB + 64 bytes,
`setup_buffers` returns 1 with `slot_count = 512`, more than `COUNT(slots) = 511`.  The
carving loop fills the first group with 255 FREE slots, `add_reserved_slots` appends 255
RESERVED entries, the loop carves one more FREE slot into entry 510 and stops because
`slot_count < COUNT(slots)` no longer holds; the final `add_reserved_slots`, which has no
such test, then writes a RESERVED entry at index 511, past the end of `slots[511]`. -/
theorem setup_buffers_overruns_table :
    (setup_buffers session_start_128K large_chunk_arena).1 = 1 ∧
    (setup_buffers session_start_128K large_chunk_arena).2.slot_count = 512 ∧
    COUNT_slots = 511 ∧
    ((setup_buffers session_start_128K large_chunk_arena).2.slots 510).status = SLOT_FREE ∧
    ((setup_buffers session_start_128K large_chunk_arena).2.slots 511).status
      = SLOT_RESERVED ∧
    ((setup_buffers session_start_128K large_chunk_arena).2.slots 511).ptr
      = 4096 + 255 * 131072 + 64 + 131072 ∧
    (boot_state.slots 511).status = SLOT_FREE ∧ (boot_state.slots 511).ptr = 0 := by
  set_option maxRecDepth 100000 in
  exact ⟨by decide, by decide, by decide, by decide, by decide, by decide, by decide,
    by decide⟩
/-! ## Which table entries shrink_slot and free_slot touch -/

/-- The recursion of `shrink_slot` from index `i` does not get past an entry `b >= i` whose
successor is not linked to it: the entries after `b` are unchanged. -/
theorem shrink_slot_rec_above (d : Nat) : ∀ (st : State) (i : Nat) (n : Int) (b : Nat),
    i ≤ b →
    ¬ (b + 1 < COUNT_slots ∧ free_or_reserved (st.slots (b + 1)) ∧
        (st.slots (b + 1)).ptr = (st.slots b).ptr + (st.slots b).size) →
    ∀ j, b < j → (shrink_slot_rec d st i n).slots j = st.slots j := by
  induction d with
  | zero =>
    intro st i n b hib hb j hj
    rw [shrink_slot_rec_eq]
    split_ifs with hl
    · have hne : i ≠ b := fun h => hb (by rw [← h]; exact hl)
      rw [grow_next_slots_other _ _ _ _ (by omega), shrink_head_slots_other _ _ _ _ (by omega)]
    · have hne : i ≠ b := fun h => hb (by rw [← h]; exact hl)
      rw [grow_next_slots_other _ _ _ _ (by omega), shrink_head_slots_other _ _ _ _ (by omega)]
    · rw [shrink_head_slots_other _ _ _ _ (by omega)]
  | succ d ih =>
    intro st i n b hib hb j hj
    rw [shrink_slot_rec_eq]
    split_ifs with hl hbig
    · have hne : i ≠ b := fun h => hb (by rw [← h]; exact hl)
      simp only []
      rw [set_status_slots_other _ _ _ _ (by omega)]
      have hg : ∀ k, k ≠ i → k ≠ i + 1 →
          (grow_next (shrink_head st i n) i
            ((st.slots i).size - frame_size_padded n)).slots k = st.slots k := by
        intro k h1 h2
        rw [grow_next_slots_other _ _ _ _ h2, shrink_head_slots_other _ _ _ _ h1]
      rw [ih _ (i + 1) _ b (by omega) ?_ j hj, hg j (by omega) (by omega)]
      rw [hg (b + 1) (by omega) (by omega)]
      by_cases hbi : b = i + 1
      · subst hbi
        rw [grow_next_slots_next, shrink_head_slots_other _ _ _ _ (by omega)]
        intro h
        exact hb ⟨h.1, h.2.1, by have := h.2.2; simp only [] at this; omega⟩
      · rw [hg b (by omega) hbi]
        exact hb
    · have hne : i ≠ b := fun h => hb (by rw [← h]; exact hl)
      rw [grow_next_slots_other _ _ _ _ (by omega), shrink_head_slots_other _ _ _ _ (by omega)]
    · rw [shrink_head_slots_other _ _ _ _ (by omega)]

/-- The forwards scan of `free_slot` does not get past an entry whose successor is not
linked to it. -/
theorem find_last_le_boundary (slots : Nat → frame_slot) (b : Nat)
    (hb : ¬ (b + 1 < COUNT_slots ∧ free_or_reserved (slots (b + 1)) ∧
        (slots (b + 1)).ptr = (slots b).ptr + (slots b).size)) :
    ∀ (n i : Nat), i ≤ b → find_last slots n i ≤ b := by
  intro n
  induction n with
  | zero => intro i hi; exact hi
  | succ n ih =>
    intro i hi
    rw [find_last]
    split_ifs with hc
    · have hne : i ≠ b := fun h => hb (by rw [← h]; exact hc)
      exact ih (i + 1) (by omega)
    · exact hi

/-- `free_slot(i)` leaves the entries after `b >= i` unchanged when the successor of `b` is
not linked to it. -/
theorem free_slot_above (st : State) (i b : Nat) (hib : i ≤ b)
    (hb : ¬ (b + 1 < COUNT_slots ∧ free_or_reserved (st.slots (b + 1)) ∧
        (st.slots (b + 1)).ptr = (st.slots b).ptr + (st.slots b).size)) :
    ∀ j, b < j → (free_slot st i).slots j = st.slots j := by
  intro j hj
  have hT : ∀ k, k ≠ i → (set_status st i SLOT_RESERVED).slots k = st.slots k :=
    fun k hk => set_status_slots_other _ _ _ _ hk
  have hb' : ¬ (b + 1 < COUNT_slots ∧
      free_or_reserved ((set_status st i SLOT_RESERVED).slots (b + 1)) ∧
      ((set_status st i SLOT_RESERVED).slots (b + 1)).ptr
        = ((set_status st i SLOT_RESERVED).slots b).ptr
          + ((set_status st i SLOT_RESERVED).slots b).size) := by
    rw [hT (b + 1) (by omega), set_status_ptr, set_status_size]
    exact hb
  unfold free_slot
  simp only []
  split_ifs
  · rw [set_status_slots_other _ _ _ _ (by omega), hT j (by omega)]
  · show repartition _ _ _ _ _ _ j = _
    generalize (set_status st i SLOT_RESERVED).slots = T at hT hb'
    obtain ⟨f1, _, _⟩ := find_first_spec T i
    have hl := find_last_le_boundary T b hb' (COUNT_slots - i) i hib
    rw [repartition_outside _ _ _ _ _ _ _ (Or.inr (by omega)), hT j (by omega)]

/-- C30 (evaluation of the code at the failing input).  In the second session on `six_frame_arena` the table in use has
six entries (`slot_count = 6`); entry 6 still holds what the first session left there, a
RESERVED entry at 16384, where the pool ends.  After five captures, `shrink_slot(4, 956)`
finds slot 5 linked and large enough, calls itself for slot 5, finds entry 6 linked to it
and moves its start to 13312 and its size to 3072.  After the first four frames are
released, `free_slot(4)` scans forwards over the entries 5 .. 11 and re-partitions them:
entry 6 is at 16384 with size 0 again. -/
theorem shrink_slot_writes_stale_entry :
    (run_ops 0 second_session_pool five_captures).slot_count = 6 ∧
    ((run_ops 0 second_session_pool five_captures).slots 6).status = SLOT_RESERVED ∧
    ((run_ops 0 second_session_pool five_captures).slots 6).ptr = 16384 ∧
    ((run_ops 0 second_session_pool five_captures).slots 6).size = 0 ∧
    ((shrink_slot (run_ops 0 second_session_pool five_captures) 4 956).slots 6).ptr = 13312 ∧
    ((shrink_slot (run_ops 0 second_session_pool five_captures) 4 956).slots 6).size = 3072 ∧
    (run_ops 0 second_session_pool (five_captures ++ compress_and_release)).slot_count = 6 ∧
    ((run_ops 0 second_session_pool (five_captures ++ compress_and_release)).slots 6).ptr
      = 13312 ∧
    ((free_slot (run_ops 0 second_session_pool (five_captures ++ compress_and_release))
      4).slots 6).ptr = 16384 ∧
    ((free_slot (run_ops 0 second_session_pool (five_captures ++ compress_and_release))
      4).slots 6).size = 0 :=
  ⟨by decide, by decide, by decide, by decide, by decide, by decide, by decide, by decide,
    by decide, by decide⟩

/-- For every pool state with `slot_count <= COUNT(slots)` and every
`slot_index < slot_count`, `shrink_slot` and `free_slot` leave every entry at an index
`>= COUNT(slots)` unchanged; and when the entry at index `slot_count` is not linked to the
last entry in use (it is outside the table, or neither FREE nor RESERVED, or does not start
where entry `slot_count - 1` ends), they leave every entry at an index `>= slot_count`
unchanged. -/
theorem shrink_free_within_linked_table (st : State) (slot_index : Nat)
    (new_frame_size : Int) (hi : slot_index < st.slot_count)
    (hsc : st.slot_count ≤ COUNT_slots) :
    (∀ j, COUNT_slots ≤ j →
      (shrink_slot st slot_index new_frame_size).slots j = st.slots j ∧
      (free_slot st slot_index).slots j = st.slots j) ∧
    (¬ (st.slot_count < COUNT_slots ∧ free_or_reserved (st.slots st.slot_count) ∧
          (st.slots st.slot_count).ptr
            = (st.slots (st.slot_count - 1)).ptr + (st.slots (st.slot_count - 1)).size) →
      ∀ j, st.slot_count ≤ j →
        (shrink_slot st slot_index new_frame_size).slots j = st.slots j ∧
        (free_slot st slot_index).slots j = st.slots j) := by
  have h511 : COUNT_slots = 511 := rfl
  constructor
  · intro j hj
    have hb : ¬ (COUNT_slots - 1 + 1 < COUNT_slots ∧
        free_or_reserved (st.slots (COUNT_slots - 1 + 1)) ∧
        (st.slots (COUNT_slots - 1 + 1)).ptr
          = (st.slots (COUNT_slots - 1)).ptr + (st.slots (COUNT_slots - 1)).size) :=
      fun h => by have := h.1; omega
    exact ⟨shrink_slot_rec_above _ st slot_index new_frame_size (COUNT_slots - 1) (by omega)
      hb j (by omega), free_slot_above st slot_index (COUNT_slots - 1) (by omega) hb j
      (by omega)⟩
  · intro hno j hj
    have e : st.slot_count - 1 + 1 = st.slot_count := by omega
    have hb : ¬ (st.slot_count - 1 + 1 < COUNT_slots ∧
        free_or_reserved (st.slots (st.slot_count - 1 + 1)) ∧
        (st.slots (st.slot_count - 1 + 1)).ptr
          = (st.slots (st.slot_count - 1)).ptr + (st.slots (st.slot_count - 1)).size) := by
      rw [e]; exact hno
    exact ⟨shrink_slot_rec_above _ st slot_index new_frame_size (st.slot_count - 1)
      (by omega) hb j (by omega), free_slot_above st slot_index (st.slot_count - 1)
      (by omega) hb j (by omega)⟩

/-! ## The file removed by a failed start -/

/-- C28 (evaluation of the code at the failing input): after a first session that
recorded movie 1 (`raw_movie_filename` still names it, and the first session issued no
removal), a second run of `raw_video_rec_task` in which `raw_update_params()` fails jumps
to `cleanup` before any file is created, with `written_total = 0` and the old
`raw_movie_filename`; `cleanup` then calls `FIO_RemoveFile` on the file of movie 1 and
that is the only call the second run makes. -/
theorem failed_start_removes_previous_movie :
    after_first_movie.raw_movie_filename = 1 ∧
    after_first_movie.calls =
      [fio_call.create (1, 0), fio_call.write_headers 7, fio_call.write_data 7 2048,
        fio_call.write_file_hdr 7 0 1, fio_call.close 7] ∧
    (rec_task_start failed_detection after_first_movie).1 = 0 ∧
    (rec_task_start failed_detection after_first_movie).2.calls = after_first_movie.calls ∧
    (rec_task_start failed_detection after_first_movie).2.written_total = 0 ∧
    (rec_task_start failed_detection after_first_movie).2.raw_movie_filename = 1 ∧
    (rec_task_cleanup (rec_task_start failed_detection after_first_movie).2).calls =
      after_first_movie.calls ++ [fio_call.remove (1, 0)] ∧
    (rec_task_cleanup
      (rec_task_start failed_detection after_first_movie).2).raw_movie_filename = 0 := by
  refine ⟨by decide, by decide, by decide, by decide, by decide, by decide, by decide,
    by decide⟩

/-! ## The bytes of a throttled burst -/

/-- C26 (evaluation of the code at the failing input): on `three_queued` (slots 0, 1, 2 of
1 MiB each on the queue, one FREE slot, 20 MB/s measured at 25 fps) the grouping finds
three frames and 3 MiB, the throttle cuts `num_frames` to 1, and the iteration calls
`write_frames` with 3145728 bytes while it frees and removes only slot 0 (1048576 bytes);
the slots 1 and 2 stay FULL on the queue.  The next iteration passes the 2097152 bytes of
the slots 1 and 2 and frees slot 1 only, so the bytes of slot 1 have been written twice
and those of slot 2 twice with the slot still to be written. -/
theorem throttled_burst_writes_whole_group :
    queue_list three_queued = [0, 1, 2] ∧
    group_frames three_queued = some (2, 3145728) ∧
    throttle three_queued 2000 25000 3145728 3 = 1 ∧
    ((three_queued.slots 0).size = 1048576 ∧ (three_queued.slots 1).ptr = 1052672 ∧
      (three_queued.slots 1).size = 1048576 ∧ (three_queued.slots 2).size = 1048576) ∧
    writer_iteration_fs 1 2000 25000 (all_written 3145728) first_chunk three_queued =
      some after_burst ∧
    after_burst.1 = 1 ∧
    after_burst.2.1.calls = first_chunk.calls ++ [fio_call.write_data 7 3145728] ∧
    after_burst.2.1.chunk_frame_count = 1 ∧
    queue_list after_burst.2.2 = [1, 2] ∧
    ((after_burst.2.2.slots 0).status = SLOT_FREE ∧
      (after_burst.2.2.slots 1).status = SLOT_FULL ∧
      (after_burst.2.2.slots 2).status = SLOT_FULL) ∧
    writer_iteration_fs 1 2000 25000 (all_written 2097152) after_burst.2.1 after_burst.2.2 =
      some after_second_burst ∧
    after_second_burst.2.1.calls =
      first_chunk.calls ++ [fio_call.write_data 7 3145728, fio_call.write_data 7 2097152] ∧
    after_second_burst.2.1.chunk_frame_count = 2 ∧
    after_second_burst.2.1.written_chunk = 512 + 3145728 + 2097152 ∧
    queue_list after_second_burst.2.2 = [2] ∧
    (after_second_burst.2.2.slots 2).status = SLOT_FULL := by
  set_option maxRecDepth 100000 in
  refine ⟨by decide, by decide, by decide, by decide, ?_, by decide, by decide, by decide,
    by decide, by decide, ?_, by decide, by decide, by decide, by decide, by decide⟩
  · have h : (writer_iteration_fs 1 2000 25000 (all_written 3145728) first_chunk
        three_queued).isSome = true := by decide
    obtain ⟨x, hx⟩ := Option.isSome_iff_exists.mp h
    rw [after_burst, hx]; rfl
  · have h : (writer_iteration_fs 1 2000 25000 (all_written 2097152) after_burst.2.1
        after_burst.2.2).isSome = true := by decide
    obtain ⟨x, hx⟩ := Option.isSome_iff_exists.mp h
    rw [after_second_burst, hx]; rfl

/-! ## Chunks at the 4 GiB limit -/

theorem closed_frames_append (a b : List fio_call) :
    closed_frames (a ++ b) = closed_frames a + closed_frames b := by
  induction a with
  | nil => simp [closed_frames]
  | cons c cs ih =>
    cases c <;> simp [closed_frames, ih]
    omega

theorem split_ahead_none (env : fio_results) (fs : file_state) (group_size : Int)
    (h : ¬(fs.file_size_limit ≠ 0 ∧ fs.written_chunk + group_size > 0xFFFFFFFF)) :
    split_ahead env fs group_size = (1, fs) := by
  unfold split_ahead
  rw [if_neg h]

theorem split_ahead_no_file (env : fio_results) (fs : file_state) (group_size : Int)
    (h : fs.file_size_limit ≠ 0 ∧ fs.written_chunk + group_size > 0xFFFFFFFF)
    (hg : env.g1 = 0) :
    split_ahead env fs group_size = (0, create_chunk (finish_chunk fs)) := by
  unfold split_ahead
  rw [if_pos h]
  simp only [hg, if_true]

theorem split_ahead_no_headers (env : fio_results) (fs : file_state) (group_size : Int)
    (h : fs.file_size_limit ≠ 0 ∧ fs.written_chunk + group_size > 0xFFFFFFFF)
    (hg : env.g1 ≠ 0) (hh : env.hdr1 = 0) :
    split_ahead env fs group_size =
      (0, drop_chunk (start_chunk (create_chunk (finish_chunk fs)) env.g1 env.hdr1)
        env.g1) := by
  unfold split_ahead
  rw [if_pos h]
  simp only [hg, if_false]
  have e : (start_chunk (create_chunk (finish_chunk fs)) env.g1 env.hdr1).written_chunk =
      env.hdr1 := rfl
  rw [e, if_neg (by simp [hh])]

theorem split_ahead_ok (env : fio_results) (fs : file_state) (group_size : Int)
    (h : fs.file_size_limit ≠ 0 ∧ fs.written_chunk + group_size > 0xFFFFFFFF)
    (hg : env.g1 ≠ 0) (hh : env.hdr1 ≠ 0) :
    split_ahead env fs group_size =
      (1, { start_chunk (create_chunk (finish_chunk fs)) env.g1 env.hdr1 with
            f := env.g1 }) := by
  unfold split_ahead
  rw [if_pos h]
  simp only [hg, if_false]
  have e : (start_chunk (create_chunk (finish_chunk fs)) env.g1 env.hdr1).written_chunk =
      env.hdr1 := rfl
  rw [e, if_pos hh]

/-- The result of the block "about to reach 4GB limit" is 0 or 1. -/
theorem split_ahead_result (env : fio_results) (fs : file_state) (group_size : Int) :
    (split_ahead env fs group_size).1 = 0 ∨ (split_ahead env fs group_size).1 = 1 := by
  by_cases h : fs.file_size_limit ≠ 0 ∧ fs.written_chunk + group_size > 0xFFFFFFFF
  · by_cases hg : env.g1 = 0
    · rw [split_ahead_no_file env fs group_size h hg]; exact Or.inl rfl
    · by_cases hh : env.hdr1 = 0
      · rw [split_ahead_no_headers env fs group_size h hg hh]; exact Or.inl rfl
      · rw [split_ahead_ok env fs group_size h hg hh]; exact Or.inr rfl
  · rw [split_ahead_none env fs group_size h]; exact Or.inr rfl

/-- The block "about to reach 4GB limit" keeps the sum of the recorded frame counts and
`chunk_frame_count`. -/
theorem split_ahead_frames (env : fio_results) (fs : file_state) (group_size : Int) :
    closed_frames (split_ahead env fs group_size).2.calls +
        (split_ahead env fs group_size).2.chunk_frame_count =
      closed_frames fs.calls + fs.chunk_frame_count := by
  by_cases h : fs.file_size_limit ≠ 0 ∧ fs.written_chunk + group_size > 0xFFFFFFFF
  · by_cases hg : env.g1 = 0
    · rw [split_ahead_no_file env fs group_size h hg]
      simp [finish_chunk, create_chunk, closed_frames_append, closed_frames]
    · by_cases hh : env.hdr1 = 0
      · rw [split_ahead_no_headers env fs group_size h hg hh]
        simp [finish_chunk, create_chunk, start_chunk, drop_chunk, closed_frames_append,
          closed_frames]
      · rw [split_ahead_ok env fs group_size h hg hh]
        simp [finish_chunk, create_chunk, start_chunk, closed_frames_append,
          closed_frames]
  · rw [split_ahead_none env fs group_size h]

theorem limit_reached_fields (env : fio_results) (fs : file_state) :
    (limit_reached env fs).chunk_frame_count = fs.chunk_frame_count ∧
    closed_frames (limit_reached env fs).calls = closed_frames fs.calls ∧
    (limit_reached env fs).f = fs.f ∧ (limit_reached env fs).fileNum = fs.fileNum ∧
    (limit_reached env fs).mlv_chunk = fs.mlv_chunk ∧
    (limit_reached env fs).written_total = fs.written_total ∧
    (limit_reached env fs).raw_movie_filename = fs.raw_movie_filename ∧
    (limit_reached env fs).file_size_limit = 1 ∧
    ((limit_reached env fs).calls = fs.calls ∨
      (limit_reached env fs).calls = fs.calls ++ [fio_call.write_null fs.f]) := by
  unfold limit_reached
  dsimp only
  split_ifs <;> simp [closed_frames_append, closed_frames]

theorem split_retry_no_file (env : fio_results) (fs : file_state)
    (group_size num_frames : Int) (hg : env.g2 = 0) :
    split_retry env fs group_size num_frames =
      (0, create_chunk (finish_chunk (limit_reached env fs))) := by
  unfold split_retry
  simp only [hg, if_true]

theorem split_retry_ok (env : fio_results) (fs : file_state)
    (group_size num_frames : Int) (hg : env.g2 ≠ 0) (hh : env.hdr2 ≠ 0)
    (hr : env.r2 = group_size) :
    split_retry env fs group_size num_frames =
      (1, count_written
        { start_chunk (create_chunk (finish_chunk (limit_reached env fs))) env.g2
            env.hdr2 with
          calls :=
            (start_chunk (create_chunk (finish_chunk (limit_reached env fs))) env.g2
              env.hdr2).calls ++ [fio_call.write_data env.g2 group_size]
          f := env.g2 } group_size num_frames) := by
  unfold split_retry
  simp only [hg, if_false]
  have e : (start_chunk (create_chunk (finish_chunk (limit_reached env fs))) env.g2
      env.hdr2).written_chunk = env.hdr2 := rfl
  simp only [e, if_pos hh, hr, if_true]

/-- The retry in a new chunk keeps the sum of the recorded frame counts and
`chunk_frame_count` when it fails and adds `num_frames` when it succeeds. -/
theorem split_retry_frames (env : fio_results) (fs : file_state)
    (group_size num_frames : Int) :
    closed_frames (split_retry env fs group_size num_frames).2.calls +
        (split_retry env fs group_size num_frames).2.chunk_frame_count =
      closed_frames fs.calls + fs.chunk_frame_count +
        (if (split_retry env fs group_size num_frames).1 = 0 then 0 else num_frames) := by
  obtain ⟨h1, h2, -⟩ := limit_reached_fields env fs
  unfold split_retry
  generalize limit_reached env fs = fs3 at h1 h2 ⊢
  by_cases hg : env.g2 = 0
  · simp [hg, finish_chunk, create_chunk, closed_frames_append, closed_frames, h1, h2]
  · simp only [hg, if_false]
    have e : (start_chunk (create_chunk (finish_chunk fs3)) env.g2 env.hdr2).written_chunk =
        env.hdr2 := rfl
    rw [e]
    by_cases hh : env.hdr2 = 0
    · simp only [hh, ne_eq, not_true_eq_false, if_false]
      by_cases hr : (0 : Int) = group_size
      · simp [hr, finish_chunk, create_chunk, start_chunk, count_written,
          closed_frames_append, closed_frames, h1, h2]
        omega
      · simp [hr, finish_chunk, create_chunk, start_chunk, drop_chunk,
          closed_frames_append, closed_frames, h1, h2]
    · simp only [ne_eq, hh, not_false_eq_true, if_true]
      by_cases hr : env.r2 = group_size
      · simp [hr, finish_chunk, create_chunk, start_chunk, count_written,
          closed_frames_append, closed_frames, h1, h2]
      · simp [hr, finish_chunk, create_chunk, start_chunk, drop_chunk,
          closed_frames_append, closed_frames, h1, h2]

/-- The result of the retry is 0 or 1. -/
theorem split_retry_result (env : fio_results) (fs : file_state)
    (group_size num_frames : Int) :
    (split_retry env fs group_size num_frames).1 = 0 ∨
      (split_retry env fs group_size num_frames).1 = 1 := by
  unfold split_retry
  dsimp only
  split_ifs <;> simp

/-- One call of `write_frames` adds `num_frames` to the sum of the recorded frame counts
and `chunk_frame_count` when it returns 1, and nothing when it returns 0. -/
theorem write_frames_fs_frames (env : fio_results) (fs : file_state) (st : State)
    (group_size num_frames : Int) :
    closed_frames (write_frames_fs env fs st group_size num_frames).2.1.calls +
        (write_frames_fs env fs st group_size num_frames).2.1.chunk_frame_count =
      closed_frames fs.calls + fs.chunk_frame_count +
        (if (write_frames_fs env fs st group_size num_frames).1 = 0 then 0
          else num_frames) := by
  have h := split_ahead_frames env fs group_size
  unfold write_frames_fs
  generalize split_ahead env fs group_size = a at h ⊢
  by_cases ha : a.1 = 0
  · simp only [ha, if_true]
    simpa using h
  · simp only [ha, if_false]
    by_cases hr : env.r = group_size
    · simp only [hr, ne_eq, not_true_eq_false, if_false]
      simp [count_written, closed_frames_append, closed_frames]
      omega
    · simp only [ne_eq, hr, not_false_eq_true, if_true]
      by_cases hlt : a.2.written_chunk + group_size < 0xFFFFFFFF
      · simp only [hlt, if_true]
        simp [closed_frames_append, closed_frames]
        omega
      · simp only [hlt, if_false]
        have h3 := split_retry_frames env
          { a.2 with calls := a.2.calls ++ [fio_call.write_data a.2.f group_size] }
          group_size num_frames
        simp only [closed_frames_append, closed_frames] at h3
        omega

/-- Over a sequence of calls of `write_frames` the recorded frame counts plus
`chunk_frame_count` grow by the frames of the calls that returned 1. -/
theorem run_writes_frames (cs : List (fio_results × Int × Int)) :
    ∀ (fs : file_state) (st : State),
      closed_frames (run_writes fs st cs).1.calls + (run_writes fs st cs).1.chunk_frame_count =
        closed_frames fs.calls + fs.chunk_frame_count + frames_written fs st cs := by
  induction cs with
  | nil => intro fs st; simp [run_writes, frames_written]
  | cons c cs ih =>
    intro fs st
    have h := write_frames_fs_frames c.1 fs st c.2.1 c.2.2
    have h2 := ih (write_frames_fs c.1 fs st c.2.1 c.2.2).2.1
      (write_frames_fs c.1 fs st c.2.1 c.2.2).2.2
    simp only [run_writes, frames_written]
    omega

/-- The call of `write_frames` when the chunk is split ahead of the write and the new chunk
takes the headers and the data. -/
theorem write_frames_fs_split_ahead (env : fio_results) (fs : file_state) (st : State)
    (group_size num_frames : Int)
    (h : fs.file_size_limit ≠ 0 ∧ fs.written_chunk + group_size > 0xFFFFFFFF)
    (hg : env.g1 ≠ 0) (hh : env.hdr1 ≠ 0) (hr : env.r = group_size) :
    write_frames_fs env fs st group_size num_frames =
      (1, count_written
        { start_chunk (create_chunk (finish_chunk fs)) env.g1 env.hdr1 with
          f := env.g1
          calls := (start_chunk (create_chunk (finish_chunk fs)) env.g1 env.hdr1).calls ++
            [fio_call.write_data env.g1 group_size] } group_size num_frames, st) := by
  unfold write_frames_fs
  rw [split_ahead_ok env fs group_size h hg hh]
  simp only [one_ne_zero, if_false, hr, ne_eq, not_true_eq_false]

/-- The call of `write_frames` when no chunk is split ahead and the write comes up short
at the limit. -/
theorem write_frames_fs_split_retry (env : fio_results) (fs : file_state) (st : State)
    (group_size num_frames : Int)
    (h : ¬(fs.file_size_limit ≠ 0 ∧ fs.written_chunk + group_size > 0xFFFFFFFF))
    (hr : env.r ≠ group_size) (hlim : fs.written_chunk + group_size ≥ 0xFFFFFFFF) :
    write_frames_fs env fs st group_size num_frames =
      ((split_retry env
          { fs with calls := fs.calls ++ [fio_call.write_data fs.f group_size] }
          group_size num_frames).1,
        (split_retry env
          { fs with calls := fs.calls ++ [fio_call.write_data fs.f group_size] }
          group_size num_frames).2, st) := by
  unfold write_frames_fs
  rw [split_ahead_none env fs group_size h]
  have hlt : ¬(fs.written_chunk + group_size < 0xFFFFFFFF) := by omega
  simp only [one_ne_zero, if_false, ne_eq, hr, not_false_eq_true, if_true, hlt]

/-- The call of `write_frames` when no chunk is split ahead and the write comes up short
before the limit: the queue is emptied and the files only record the write. -/
theorem write_frames_fs_card_full (env : fio_results) (fs : file_state) (st : State)
    (group_size num_frames : Int)
    (h : ¬(fs.file_size_limit ≠ 0 ∧ fs.written_chunk + group_size > 0xFFFFFFFF))
    (hr : env.r ≠ group_size) (hlim : fs.written_chunk + group_size < 0xFFFFFFFF) :
    write_frames_fs env fs st group_size num_frames =
      (0, { fs with calls := fs.calls ++ [fio_call.write_data fs.f group_size] },
        { st with writing_queue_head := st.writing_queue_tail }) := by
  unfold write_frames_fs
  rw [split_ahead_none env fs group_size h]
  simp only [one_ne_zero, if_false, ne_eq, hr, not_false_eq_true, if_true, hlim]

/-- The call of `write_frames` when no chunk is split ahead and the write is complete. -/
theorem write_frames_fs_written (env : fio_results) (fs : file_state) (st : State)
    (group_size num_frames : Int)
    (h : ¬(fs.file_size_limit ≠ 0 ∧ fs.written_chunk + group_size > 0xFFFFFFFF))
    (hr : env.r = group_size) :
    write_frames_fs env fs st group_size num_frames =
      (1, count_written
        { fs with calls := fs.calls ++ [fio_call.write_data fs.f group_size] }
        group_size num_frames, st) := by
  unfold write_frames_fs
  rw [split_ahead_none env fs group_size h]
  simp only [one_ne_zero, if_false, ne_eq, hr, not_true_eq_false]

/-! ## The frame counts of the chunks -/

/-- C22: when `write_frames` splits the file at the 4 GiB limit, either ahead of the write
(`file_size_limit` known and `written_chunk + group_size > 0xFFFFFFFF`, the new chunk `g1`
takes its headers and the whole group) or after a short write with
`written_chunk + group_size >= 0xFFFFFFFF` (the new chunk `g2` takes its headers and the
whole group), it returns 1 and leaves the state of the pool alone; the calls it adds are
the write that came up short (with the NULL block if one is needed), the header of the old
chunk with `videoFrameCount` equal to the old `chunk_frame_count` and its old `fileNum`,
the close of the old file, the creation of chunk `mlv_chunk + 1` of the movie, its headers
and the data; afterwards `mlv_chunk` and `file_hdr.fileNum` are the old `mlv_chunk + 1`,
`written_chunk` is the header size plus `group_size`, `chunk_frame_count` is `num_frames`,
`f` is the new file.  And over any sequence of calls of `write_frames`, from any state, the
frame counts recorded by `finish_chunk` plus `chunk_frame_count` grow by exactly the
`num_frames` of the calls that returned 1. -/
theorem chunk_split_counts (env : fio_results) (fs : file_state) (st : State)
    (group_size num_frames : Int)
    (hsplit :
      (fs.file_size_limit ≠ 0 ∧ fs.written_chunk + group_size > 0xFFFFFFFF ∧
        env.g1 ≠ 0 ∧ env.hdr1 ≠ 0 ∧ env.r = group_size) ∨
      (¬(fs.file_size_limit ≠ 0 ∧ fs.written_chunk + group_size > 0xFFFFFFFF) ∧
        env.r ≠ group_size ∧ fs.written_chunk + group_size ≥ 0xFFFFFFFF ∧
        env.g2 ≠ 0 ∧ env.hdr2 ≠ 0 ∧ env.r2 = group_size)) :
    (∃ (g hdr : Int) (short : List fio_call),
      ((g = env.g1 ∧ hdr = env.hdr1 ∧ short = [] ∧ fs.file_size_limit ≠ 0) ∨
        (g = env.g2 ∧ hdr = env.hdr2 ∧
          (short = [fio_call.write_data fs.f group_size] ∨
            short = [fio_call.write_data fs.f group_size, fio_call.write_null fs.f]))) ∧
      (write_frames_fs env fs st group_size num_frames).1 = 1 ∧
      (write_frames_fs env fs st group_size num_frames).2.2 = st ∧
      (write_frames_fs env fs st group_size num_frames).2.1.calls =
        fs.calls ++ short ++
          [fio_call.write_file_hdr fs.f fs.fileNum fs.chunk_frame_count, fio_call.close fs.f,
            fio_call.create (fs.raw_movie_filename, fs.mlv_chunk + 1),
            fio_call.write_headers g, fio_call.write_data g group_size] ∧
      (write_frames_fs env fs st group_size num_frames).2.1.videoFrameCount =
        fs.chunk_frame_count ∧
      (write_frames_fs env fs st group_size num_frames).2.1.mlv_chunk = fs.mlv_chunk + 1 ∧
      (write_frames_fs env fs st group_size num_frames).2.1.fileNum = fs.mlv_chunk + 1 ∧
      (write_frames_fs env fs st group_size num_frames).2.1.written_chunk =
        hdr + group_size ∧
      (write_frames_fs env fs st group_size num_frames).2.1.chunk_frame_count =
        num_frames ∧
      (write_frames_fs env fs st group_size num_frames).2.1.f = g ∧
      (write_frames_fs env fs st group_size num_frames).2.1.written_total =
        fs.written_total + hdr + group_size ∧
      (write_frames_fs env fs st group_size num_frames).2.1.file_size_limit ≠ 0 ∧
      closed_frames (write_frames_fs env fs st group_size num_frames).2.1.calls =
        closed_frames fs.calls + fs.chunk_frame_count) ∧
    ∀ (cs : List (fio_results × Int × Int)) (fs0 : file_state) (st0 : State),
      closed_frames (run_writes fs0 st0 cs).1.calls +
          (run_writes fs0 st0 cs).1.chunk_frame_count =
        closed_frames fs0.calls + fs0.chunk_frame_count + frames_written fs0 st0 cs := by
  refine ⟨?_, fun cs fs0 st0 => run_writes_frames cs fs0 st0⟩
  rcases hsplit with ⟨hl, hgt, hg, hh, hr⟩ | ⟨hno, hr, hlim, hg, hh, hr2⟩
  · refine ⟨env.g1, env.hdr1, [], Or.inl ⟨rfl, rfl, rfl, hl⟩, ?_⟩
    rw [write_frames_fs_split_ahead env fs st group_size num_frames ⟨hl, hgt⟩ hg hh hr]
    simp [count_written, start_chunk, create_chunk, finish_chunk, get_next_chunk_file_name,
      closed_frames_append, closed_frames, hl]
  · obtain ⟨h1, h2, h3, h4, h5, h6, h7, h8, h9⟩ := limit_reached_fields env
      { fs with calls := fs.calls ++ [fio_call.write_data fs.f group_size] }
    have hw := write_frames_fs_split_retry env fs st group_size num_frames hno hr hlim
    rw [split_retry_ok env _ group_size num_frames hg hh hr2] at hw
    rw [hw]
    generalize limit_reached env
      { fs with calls := fs.calls ++ [fio_call.write_data fs.f group_size] } = fs3
      at h1 h2 h3 h4 h5 h6 h7 h8 h9
    have hc : ∃ short : List fio_call,
        (short = [fio_call.write_data fs.f group_size] ∨
          short = [fio_call.write_data fs.f group_size, fio_call.write_null fs.f]) ∧
        fs3.calls = fs.calls ++ short := by
      rcases h9 with h9 | h9
      · exact ⟨_, Or.inl rfl, h9⟩
      · exact ⟨_, Or.inr rfl, by rw [h9]; simp⟩
    obtain ⟨short, hshort, hcalls⟩ := hc
    have hs0 : closed_frames short = 0 := by
      rcases hshort with e | e <;> rw [e] <;> simp [closed_frames]
    refine ⟨env.g2, env.hdr2, short, Or.inr ⟨rfl, rfl, hshort⟩, ?_⟩
    simp [count_written, start_chunk, create_chunk, finish_chunk, get_next_chunk_file_name,
      closed_frames_append, closed_frames, h1, h3, h4, h5, h6, h7, h8, hcalls, hs0]

/-- C22 on `full_chunk` (file 7, chunk 0 of movie 1, 100 frames, one byte short of 4 GiB,
limit not known yet): a group of one frame of 2048 bytes comes up short, chunk 1 is created
as file 9 and takes it. -/
theorem chunk_split_counts_witness :
    ((full_chunk.file_size_limit ≠ 0 ∧ full_chunk.written_chunk + 2048 > 0xFFFFFFFF ∧
        retry_accepted.g1 ≠ 0 ∧ retry_accepted.hdr1 ≠ 0 ∧ retry_accepted.r = 2048) ∨
      (¬(full_chunk.file_size_limit ≠ 0 ∧ full_chunk.written_chunk + 2048 > 0xFFFFFFFF) ∧
        retry_accepted.r ≠ 2048 ∧ full_chunk.written_chunk + 2048 ≥ 0xFFFFFFFF ∧
        retry_accepted.g2 ≠ 0 ∧ retry_accepted.hdr2 ≠ 0 ∧ retry_accepted.r2 = 2048)) ∧
    (write_frames_fs retry_accepted full_chunk queued_pool 2048 1).1 = 1 ∧
    (write_frames_fs retry_accepted full_chunk queued_pool 2048 1).2.1.videoFrameCount =
      100 ∧
    (write_frames_fs retry_accepted full_chunk queued_pool 2048 1).2.1.fileNum = 1 ∧
    (write_frames_fs retry_accepted full_chunk queued_pool 2048 1).2.1.written_chunk =
      512 + 2048 ∧
    (write_frames_fs retry_accepted full_chunk queued_pool 2048 1).2.1.chunk_frame_count =
      1 ∧
    (write_frames_fs retry_accepted full_chunk queued_pool 2048 1).2.1.calls =
      [fio_call.create (1, 0), fio_call.write_headers 7, fio_call.write_data 7 2048,
        fio_call.write_file_hdr 7 0 100, fio_call.close 7, fio_call.create (1, 1),
        fio_call.write_headers 9, fio_call.write_data 9 2048] := by
  have hyp :
      (full_chunk.file_size_limit ≠ 0 ∧ full_chunk.written_chunk + 2048 > 0xFFFFFFFF ∧
        retry_accepted.g1 ≠ 0 ∧ retry_accepted.hdr1 ≠ 0 ∧ retry_accepted.r = 2048) ∨
      (¬(full_chunk.file_size_limit ≠ 0 ∧ full_chunk.written_chunk + 2048 > 0xFFFFFFFF) ∧
        retry_accepted.r ≠ 2048 ∧ full_chunk.written_chunk + 2048 ≥ 0xFFFFFFFF ∧
        retry_accepted.g2 ≠ 0 ∧ retry_accepted.hdr2 ≠ 0 ∧ retry_accepted.r2 = 2048) :=
    Or.inr (by decide)
  obtain ⟨⟨g, hdr, short, hcase, h1, -, -, h4, -, h6, h7, h8, -⟩, -⟩ :=
    chunk_split_counts retry_accepted full_chunk queued_pool 2048 1 hyp
  have hl : full_chunk.file_size_limit = 0 := by decide
  have hhdr : hdr = 512 := by
    rcases hcase with ⟨-, -, -, h⟩ | ⟨-, h, -⟩
    · exact absurd hl h
    · rw [h]; decide
  rw [hhdr] at h7
  exact ⟨hyp, h1, by rw [h4]; decide, by rw [h6]; decide, h7, h8, by decide⟩

/-! ## A call of `write_frames` that fails -/

theorem mark_writing_queue_kept : ∀ (fuel : Nat) (i stop : Int) (st : State),
    (mark_writing fuel i stop st).writing_queue = st.writing_queue ∧
    (mark_writing fuel i stop st).writing_queue_head = st.writing_queue_head ∧
    (mark_writing fuel i stop st).writing_queue_tail = st.writing_queue_tail := by
  intro fuel
  induction fuel with
  | zero => intro i stop st; exact ⟨rfl, rfl, rfl⟩
  | succ n ih =>
    intro i stop st
    unfold mark_writing
    split_ifs with h
    · obtain ⟨h1, h2, h3⟩ := ih (MOD (i + 1) (COUNT_writing_queue : Int)) stop
        (set_status st (st.writing_queue i.toNat).toNat SLOT_WRITING)
      exact ⟨h1, h2, h3⟩
    · exact ⟨rfl, rfl, rfl⟩

/-- Marking a group changes neither the queue nor its head and tail. -/
theorem mark_group_queue_kept (st : State) (num_frames : Int) :
    (mark_group st num_frames).writing_queue = st.writing_queue ∧
    (mark_group st num_frames).writing_queue_head = st.writing_queue_head ∧
    (mark_group st num_frames).writing_queue_tail = st.writing_queue_tail := by
  unfold mark_group
  dsimp only
  obtain ⟨h1, h2, h3⟩ := mark_writing_queue_kept (COUNT_writing_queue + 1)
    st.writing_queue_head (MOD (st.writing_queue_head + num_frames) (COUNT_writing_queue : Int))
    (if MOD (st.writing_queue_head + num_frames) (COUNT_writing_queue : Int) =
        st.writing_queue_tail then { st with force_new_buffer := 1 } else st)
  rw [h1, h2, h3]
  split_ifs <;> exact ⟨rfl, rfl, rfl⟩

/-- The block "about to reach 4GB limit" only adds calls, and when it is entered it adds
at least one. -/
theorem split_ahead_calls (env : fio_results) (fs : file_state) (group_size : Int) :
    (split_ahead env fs group_size = (1, fs)) ∨
    ∃ (c : fio_call) (cs : List fio_call),
      (split_ahead env fs group_size).2.calls = fs.calls ++ c :: cs := by
  by_cases h : fs.file_size_limit ≠ 0 ∧ fs.written_chunk + group_size > 0xFFFFFFFF
  · right
    by_cases hg : env.g1 = 0
    · rw [split_ahead_no_file env fs group_size h hg]
      exact ⟨_, _, by simp only [finish_chunk, create_chunk, List.append_assoc]; rfl⟩
    · by_cases hh : env.hdr1 = 0
      · rw [split_ahead_no_headers env fs group_size h hg hh]
        exact ⟨_, _, by
          simp only [finish_chunk, create_chunk, start_chunk, drop_chunk, List.append_assoc]
          rfl⟩
      · rw [split_ahead_ok env fs group_size h hg hh]
        exact ⟨_, _, by
          simp only [finish_chunk, create_chunk, start_chunk, List.append_assoc]; rfl⟩
  · left
    exact split_ahead_none env fs group_size h

/-- When the block "about to reach 4GB limit" makes `write_frames` return 0, the old chunk
has been closed: `chunk_frame_count` is 0. -/
theorem split_ahead_failed_count (env : fio_results) (fs : file_state) (group_size : Int)
    (h0 : (split_ahead env fs group_size).1 = 0) :
    (split_ahead env fs group_size).2.chunk_frame_count = 0 := by
  by_cases h : fs.file_size_limit ≠ 0 ∧ fs.written_chunk + group_size > 0xFFFFFFFF
  · by_cases hg : env.g1 = 0
    · rw [split_ahead_no_file env fs group_size h hg]; rfl
    · by_cases hh : env.hdr1 = 0
      · rw [split_ahead_no_headers env fs group_size h hg hh]; rfl
      · rw [split_ahead_ok env fs group_size h hg hh] at h0
        exact absurd h0 one_ne_zero
  · rw [split_ahead_none env fs group_size h] at h0
    exact absurd h0 one_ne_zero

/-- When the retry in a new chunk fails, the old chunk has been closed:
`chunk_frame_count` is 0. -/
theorem split_retry_failed_count (env : fio_results) (fs : file_state)
    (group_size num_frames : Int)
    (h0 : (split_retry env fs group_size num_frames).1 = 0) :
    (split_retry env fs group_size num_frames).2.chunk_frame_count = 0 := by
  revert h0
  unfold split_retry
  dsimp only
  split_ifs <;> intro h0 <;> first | rfl | exact absurd h0 one_ne_zero

/-- The retry in a new chunk only adds calls. -/
theorem split_retry_calls (env : fio_results) (fs : file_state)
    (group_size num_frames : Int) :
    ∃ cs : List fio_call,
      (split_retry env fs group_size num_frames).2.calls = fs.calls ++ cs := by
  obtain ⟨-, -, -, -, -, -, -, -, h9⟩ := limit_reached_fields env fs
  have h : ∃ l0 : List fio_call, (limit_reached env fs).calls = fs.calls ++ l0 := by
    rcases h9 with h9 | h9
    · exact ⟨[], by rw [h9]; simp⟩
    · exact ⟨_, h9⟩
  obtain ⟨l0, hl0⟩ := h
  unfold split_retry
  dsimp only
  generalize limit_reached env fs = fs3 at hl0
  split_ifs <;>
    exact ⟨_, by
      simp only [finish_chunk, create_chunk, start_chunk, drop_chunk, count_written, hl0,
        List.append_assoc]
      rfl⟩

/-- Every call of `write_frames` makes at least one call to the file system, and keeps the
calls made before. -/
theorem write_frames_fs_calls (env : fio_results) (fs : file_state) (st : State)
    (group_size num_frames : Int) :
    ∃ (c : fio_call) (cs : List fio_call),
      (write_frames_fs env fs st group_size num_frames).2.1.calls = fs.calls ++ c :: cs := by
  have key : ∃ cs : List fio_call,
      (write_frames_fs env fs st group_size num_frames).2.1.calls = fs.calls ++ cs ∧
      cs ≠ [] := by
    have ha := split_ahead_calls env fs group_size
    unfold write_frames_fs
    dsimp only
    by_cases h0 : (split_ahead env fs group_size).1 = 0
    · rw [if_pos h0]
      rcases ha with ha | ⟨c, cs, ha⟩
      · rw [ha] at h0; exact absurd h0 one_ne_zero
      · exact ⟨c :: cs, ha, by simp⟩
    · rw [if_neg h0]
      have hx : ∃ xs : List fio_call,
          (split_ahead env fs group_size).2.calls = fs.calls ++ xs := by
        rcases ha with ha | ⟨c, cs, ha⟩
        · exact ⟨[], by rw [ha]; simp⟩
        · exact ⟨_, ha⟩
      obtain ⟨xs, hxs⟩ := hx
      generalize split_ahead env fs group_size = a at hxs
      by_cases hr : env.r = group_size
      · simp only [hr, ne_eq, not_true_eq_false, if_false]
        exact ⟨xs ++ [fio_call.write_data a.2.f group_size], by
          simp [count_written, hxs], by simp⟩
      · simp only [ne_eq, hr, not_false_eq_true, if_true]
        by_cases hlt : a.2.written_chunk + group_size < 0xFFFFFFFF
        · simp only [hlt, if_true]
          exact ⟨xs ++ [fio_call.write_data a.2.f group_size], by simp [hxs], by simp⟩
        · simp only [hlt, if_false]
          obtain ⟨ys, hys⟩ := split_retry_calls env
            { a.2 with calls := a.2.calls ++ [fio_call.write_data a.2.f group_size] }
            group_size num_frames
          exact ⟨xs ++ [fio_call.write_data a.2.f group_size] ++ ys, by
            rw [hys]; simp [hxs], by simp⟩
  obtain ⟨cs, h, hne⟩ := key
  obtain ⟨c, cs', e⟩ := List.exists_cons_of_ne_nil hne
  exact ⟨c, cs', by rw [h, e]⟩

/-- The two ways in which `write_frames` returns 0: the write came up short before the
limit, then the queue is emptied and the files only record the write; or a chunk was closed
and the new one failed, then the state is left alone and `chunk_frame_count` is 0. -/
theorem write_frames_fs_failed (env : fio_results) (fs : file_state) (st : State)
    (group_size num_frames : Int)
    (h0 : (write_frames_fs env fs st group_size num_frames).1 = 0) :
    (((split_ahead env fs group_size).1 ≠ 0 ∧ env.r ≠ group_size ∧
        (split_ahead env fs group_size).2.written_chunk + group_size < 0xFFFFFFFF) ∧
      (write_frames_fs env fs st group_size num_frames).2.2 =
        { st with writing_queue_head := st.writing_queue_tail } ∧
      (write_frames_fs env fs st group_size num_frames).2.1 =
        { (split_ahead env fs group_size).2 with
          calls := (split_ahead env fs group_size).2.calls ++
            [fio_call.write_data (split_ahead env fs group_size).2.f group_size] }) ∨
    (¬((split_ahead env fs group_size).1 ≠ 0 ∧ env.r ≠ group_size ∧
        (split_ahead env fs group_size).2.written_chunk + group_size < 0xFFFFFFFF) ∧
      (write_frames_fs env fs st group_size num_frames).2.2 = st ∧
      (write_frames_fs env fs st group_size num_frames).2.1.chunk_frame_count = 0) := by
  have hc := split_ahead_failed_count env fs group_size
  by_cases ha : (split_ahead env fs group_size).1 = 0
  · have e : write_frames_fs env fs st group_size num_frames =
        (0, (split_ahead env fs group_size).2, st) := by
      unfold write_frames_fs
      simp only [ha, if_true]
    rw [e]
    exact Or.inr ⟨fun h => h.1 ha, rfl, hc ha⟩
  · by_cases hr : env.r = group_size
    · have e : (write_frames_fs env fs st group_size num_frames).1 = 1 := by
        unfold write_frames_fs
        simp only [ha, if_false, hr, ne_eq, not_true_eq_false]
      rw [e] at h0
      exact absurd h0 one_ne_zero
    · by_cases hlt : (split_ahead env fs group_size).2.written_chunk + group_size <
          0xFFFFFFFF
      · have e : write_frames_fs env fs st group_size num_frames =
            (0, { (split_ahead env fs group_size).2 with
                  calls := (split_ahead env fs group_size).2.calls ++
                    [fio_call.write_data (split_ahead env fs group_size).2.f group_size] },
              { st with writing_queue_head := st.writing_queue_tail }) := by
          unfold write_frames_fs
          simp only [ha, if_false, ne_eq, hr, not_false_eq_true, if_true, hlt]
        rw [e]
        exact Or.inl ⟨⟨ha, hr, hlt⟩, rfl, rfl⟩
      · have e : write_frames_fs env fs st group_size num_frames =
            ((split_retry env
                { (split_ahead env fs group_size).2 with
                  calls := (split_ahead env fs group_size).2.calls ++
                    [fio_call.write_data (split_ahead env fs group_size).2.f group_size] }
                group_size num_frames).1,
              (split_retry env
                { (split_ahead env fs group_size).2 with
                  calls := (split_ahead env fs group_size).2.calls ++
                    [fio_call.write_data (split_ahead env fs group_size).2.f group_size] }
                group_size num_frames).2, st) := by
          unfold write_frames_fs
          simp only [ha, if_false, ne_eq, hr, not_false_eq_true, if_true, hlt]
        rw [e] at h0 ⊢
        exact Or.inr ⟨fun h => hlt h.2.2, rfl,
          split_retry_failed_count env _ group_size num_frames h0⟩

/-- A call of `write_frames` that does not return 0 returns 1 and leaves the state of the
module alone. -/
theorem write_frames_fs_done (env : fio_results) (fs : file_state) (st : State)
    (group_size num_frames : Int)
    (h0 : (write_frames_fs env fs st group_size num_frames).1 ≠ 0) :
    (write_frames_fs env fs st group_size num_frames).1 = 1 ∧
    (write_frames_fs env fs st group_size num_frames).2.2 = st := by
  revert h0
  unfold write_frames_fs
  dsimp only
  by_cases ha : (split_ahead env fs group_size).1 = 0
  · rw [if_pos ha]
    intro h0
    exact absurd rfl h0
  · rw [if_neg ha]
    by_cases hr : env.r = group_size
    · rw [if_neg (by simp [hr])]
      intro _
      exact ⟨rfl, rfl⟩
    · rw [if_pos hr]
      by_cases hlt : (split_ahead env fs group_size).2.written_chunk + group_size <
          0xFFFFFFFF
      · rw [if_pos hlt]
        intro h0
        exact absurd rfl h0
      · rw [if_neg hlt]
        intro h0
        rcases split_retry_result env
          { (split_ahead env fs group_size).2 with
            calls := (split_ahead env fs group_size).2.calls ++
              [fio_call.write_data (split_ahead env fs group_size).2.f group_size] }
          group_size num_frames with h | h
        · exact absurd h h0
        · exact ⟨h, rfl⟩

/-- The model of `write_frames` with the files agrees with the one without them: its
result and its effect on the state are those of one of the three outcomes. -/
theorem write_frames_fs_refines (env : fio_results) (fs : file_state) (st : State)
    (group_size num_frames : Int) :
    ∃ outcome : write_outcome,
      ((write_frames_fs env fs st group_size num_frames).1,
        (write_frames_fs env fs st group_size num_frames).2.2) = write_frames outcome st := by
  by_cases h0 : (write_frames_fs env fs st group_size num_frames).1 = 0
  · rcases write_frames_fs_failed env fs st group_size num_frames h0 with
      ⟨-, hst, -⟩ | ⟨-, hst, -⟩
    · exact ⟨write_outcome.card_full, by rw [h0, hst]; rfl⟩
    · exact ⟨write_outcome.failed, by rw [h0, hst]; rfl⟩
  · obtain ⟨h1, hst⟩ := write_frames_fs_done env fs st group_size num_frames h0
    exact ⟨write_outcome.ok, by rw [h1, hst]; rfl⟩

/-- An iteration of the main loop with the files changes the state of the module as the
iteration without them does for one of the three outcomes of `write_frames`. -/
theorem writer_iteration_fs_refines (check measured_write_speed fps : Int)
    (env : fio_results) (fs : file_state) (st : State) :
    ∃ outcome : write_outcome,
      (writer_iteration_fs check measured_write_speed fps env fs st).map (fun r => r.2.2) =
        writer_iteration check measured_write_speed fps outcome st := by
  unfold writer_iteration_fs writer_iteration
  dsimp only
  by_cases hbf : st.buffer_full ≠ 0
  · simp only [if_pos hbf]; exact ⟨write_outcome.ok, rfl⟩
  · simp only [if_neg hbf]
    by_cases hne : st.writing_queue_head = st.writing_queue_tail
    · simp only [if_pos hne]; exact ⟨write_outcome.ok, rfl⟩
    · simp only [if_neg hne]
      by_cases hc : check = 0
      · simp only [if_pos hc]; exact ⟨write_outcome.ok, rfl⟩
      · simp only [if_neg hc]
        cases hg : group_frames st with
        | none => exact ⟨write_outcome.ok, rfl⟩
        | some g =>
          dsimp only
          generalize throttle st measured_write_speed fps g.2
            (MOD (g.1 - st.writing_queue_head + 1) (COUNT_writing_queue : Int)) = nf
          obtain ⟨o, ho⟩ := write_frames_fs_refines env fs (mark_group st nf) g.2 nf
          refine ⟨o, ?_⟩
          have h1 := congrArg Prod.fst ho
          have h2 := congrArg Prod.snd ho
          dsimp only at h1 h2
          unfold write_group_fs write_group
          dsimp only
          rw [← h1, ← h2]
          split_ifs <;> rfl

/-! ## The writer after a failed write -/

/-- An iteration of the main loop that leaves the loop although `buffer_full` is 0 has
called `write_frames` and got 0: the result is what `write_frames` left. -/
theorem writer_iteration_fs_failed (check measured_write_speed fps : Int)
    (env : fio_results) (fs : file_state) (st : State) (r : Int × file_state × State)
    (hbf : st.buffer_full = 0)
    (h : writer_iteration_fs check measured_write_speed fps env fs st = some r)
    (hfail : r.1 = 0) :
    ∃ group_size num_frames : Int,
      st.writing_queue_head ≠ st.writing_queue_tail ∧
      (write_frames_fs env fs (mark_group st num_frames) group_size num_frames).1 = 0 ∧
      r.2 = (write_frames_fs env fs (mark_group st num_frames) group_size num_frames).2 := by
  unfold writer_iteration_fs at h
  rw [if_neg (by simp [hbf])] at h
  dsimp only at h
  by_cases hne : st.writing_queue_head = st.writing_queue_tail
  · rw [if_pos hne] at h
    cases h
    exact absurd hfail one_ne_zero
  · rw [if_neg hne] at h
    by_cases hc : check = 0
    · rw [if_pos hc] at h
      cases h
      exact absurd hfail one_ne_zero
    · rw [if_neg hc] at h
      cases hg : group_frames st with
      | none => rw [hg] at h; cases h
      | some g =>
        rw [hg] at h
        dsimp only at h
        cases h
        generalize throttle st measured_write_speed fps g.2
          (MOD (g.1 - st.writing_queue_head + 1) (COUNT_writing_queue : Int)) = nf at hfail ⊢
        refine ⟨g.2, nf, hne, ?_⟩
        unfold write_group_fs at hfail ⊢
        dsimp only at hfail ⊢
        by_cases hw : (write_frames_fs env fs (mark_group st nf) g.2 nf).1 = 0
        · rw [if_pos hw]
          exact ⟨hw, rfl⟩
        · rw [if_neg hw] at hfail
          exact absurd hfail one_ne_zero

/-- The loop that writes the remaining frames, on a queue that is not empty: it calls
`write_frames` for the slot at the head of the queue. -/
theorem flush_iteration_fs_calls (env : fio_results) (fs : file_state) (st : State)
    (hne : st.writing_queue_head ≠ st.writing_queue_tail) :
    ∃ (st2 : State) (c : fio_call) (cs : List fio_call),
      (flush_iteration_fs env fs st).2.1 =
        (write_frames_fs env fs st2
          (st2.slots (st.writing_queue st.writing_queue_head.toNat).toNat).size 1).2.1 ∧
      (flush_iteration_fs env fs st).2.1.calls = fs.calls ++ c :: cs := by
  unfold flush_iteration_fs
  rw [if_pos hne]
  dsimp only
  generalize hst2 : set_status
    (check_frame_order st (st.writing_queue st.writing_queue_head.toNat).toNat)
    (st.writing_queue st.writing_queue_head.toNat).toNat SLOT_WRITING = st2
  obtain ⟨c, cs, hcs⟩ := write_frames_fs_calls env fs st2
    (st2.slots (st.writing_queue st.writing_queue_head.toNat).toNat).size 1
  refine ⟨st2, c, cs, ?_⟩
  split_ifs
  · exact ⟨rfl, hcs⟩
  · exact ⟨rfl, hcs⟩

theorem after_failed_burst_eq :
    writer_iteration_fs 1 0 25000 headers_rejected full_chunk three_queued =
      some after_failed_burst := by
  have h : (writer_iteration_fs 1 0 25000 headers_rejected full_chunk
      three_queued).isSome = true := by
    set_option maxRecDepth 100000 in decide
  obtain ⟨x, hx⟩ := Option.isSome_iff_exists.mp h
  rw [after_failed_burst, hx]; rfl

/-- C23 (evaluation of the code at the failing input): on `three_queued` with `full_chunk`
(file 7 holds 100 frames and is one byte short of 4 GiB) the write of the three queued
frames comes up short, `finish_chunk` closes file 7, and the new chunk rejects its headers:
`write_frames` returns 0 and the main loop is left, but the three slots are still on the
queue, `chunk_frame_count` has gone from 100 to 0 and `written_chunk` from 4294967295 to 0;
the loop that writes the remaining frames then calls `FIO_WriteFile` on the closed file 7
for slot 0 (1048576 bytes).  When the new chunk cannot be created (`if (!g) return 0`) the
queue is kept as well and `mlv_chunk` stays at 1 although there is no chunk 1. -/
theorem failed_split_keeps_queue :
    writer_iteration_fs 1 0 25000 headers_rejected full_chunk three_queued =
      some after_failed_burst ∧
    after_failed_burst.1 = 0 ∧
    queue_list three_queued = [0, 1, 2] ∧
    queue_list after_failed_burst.2.2 = [0, 1, 2] ∧
    (full_chunk.chunk_frame_count = 100 ∧ after_failed_burst.2.1.chunk_frame_count = 0) ∧
    (full_chunk.written_chunk = 4294967295 ∧ after_failed_burst.2.1.written_chunk = 0) ∧
    (three_queued.slots 0).size = 1048576 ∧
    after_failed_burst.2.1.calls =
      [fio_call.create (1, 0), fio_call.write_headers 7, fio_call.write_data 7 3145728,
        fio_call.write_file_hdr 7 0 100, fio_call.close 7, fio_call.create (1, 1),
        fio_call.write_headers 9, fio_call.close 9, fio_call.remove (1, 1)] ∧
    after_failed_burst.2.1.f = 7 ∧
    (flush_iteration_fs no_new_chunk after_failed_burst.2.1
        (finish_recording after_failed_burst.2.2)).2.1.calls =
      after_failed_burst.2.1.calls ++ [fio_call.write_data 7 1048576] ∧
    after_failed_create.1 = 0 ∧
    queue_list after_failed_create.2.2 = [0, 1, 2] ∧
    (full_chunk.mlv_chunk = 0 ∧ after_failed_create.2.1.mlv_chunk = 1) ∧
    after_failed_create.2.1.calls =
      [fio_call.create (1, 0), fio_call.write_headers 7, fio_call.write_data 7 3145728,
        fio_call.write_file_hdr 7 0 100, fio_call.close 7, fio_call.create (1, 1)] := by
  set_option maxRecDepth 100000 in
  exact ⟨after_failed_burst_eq, by decide, by decide, by decide, by decide, by decide,
    by decide, by decide, by decide, by decide, by decide, by decide, by decide, by decide⟩
end MlvLite
